import Mathlib

/-!
# Nucleation protocol and residual assembler of the coupled Cahn-Hilliard / Allen-Cahn models

Shallow embedding of `modifySolutionFields` as it appears in
`src/models/coupled/coupledCHACMechanics_generalized.h` (the mechanics model)
and in `applications/_nucleationModel/main.cc` (the two-field application), of the
constructor, `getRHS`, `getLHS` and `getEnergy` of the mechanics model, and of
`MatrixFreePDE::solve` (`src/matrixfree/solve.cc`).

Conventions of the embedding.

* A C++ `double` is an element of a linearly ordered field `α` (the reconciler and the
  broadcast only compare and copy, so a linear order with a zero is enough for them); the
  theorems are statements about the code in exact arithmetic (no rounding, no NaN).
* `dealii::Point<dim>` is a function `Fin dim → α`.  `Point::distance` belongs to the
  deal.II library, so it is a parameter `dist` of every definition that calls it.
* `std::tanh`, `std::exp` are library functions and are parameters as well.
* Container sizes and loop counters are natural numbers.
* The MPI point-to-point transfers are modelled by handing the sender's buffer to the
  receiver unchanged.
* The registry arrays (`num_var`, `var_type[]`, `need_value[]`, …) and the residual kernels
  `residualRHS`, `residualLHS` come from a model header that is not among the sources: the
  arrays are the fields of `Roster`, the kernels are parameters.
* A deal.II `FEEvaluation` object is a record `FEEval`; what the library computes is the
  parameter `FEOps`.  Every call that the assembler makes on such an object is appended to
  a record of calls (`FECall`), so that statements about which calls are made can be
  stated.
* Where the C++ code reads an element that does not exist (`scalar_vars[0]` of an empty
  store) or computes a remainder by zero, the embedding has no result (`none`).
* The time loop of `solve` is run with a bound `fuel` on the number of evaluations of its
  test; the calls that `solve` makes on its collaborators are appended to a record of calls
  (`SolveCall`).
-/

namespace PhaseField

/-- Type of `dealii::Point<dim>`: `dim` coordinates. -/
abbrev Point (dim : Nat) (α : Type) : Type := Fin dim → α

/-- The `struct nucleus` of both source files. -/
structure nucleus (dim : Nat) (α : Type) where
  index : Nat
  center : Point dim α
  radius : α
  seededTime : α
  seedingTime : α

section Pack

variable {α : Type}

/-- The `dim+3` doubles written for one nucleus:
`radius, seededTime, seedingTime, center[0], …, center[dim-1]`. -/
def packOne (dim : Nat) (n : nucleus dim α) : List α :=
  n.radius :: n.seededTime :: n.seedingTime :: List.ofFn n.center

/-- The packing loops `tempData[i*(dim+3)+k] = …` (and the identical loops filling
`*temp` and `temp2`): nucleus `i` of the list occupies slots `i*(dim+3) … i*(dim+3)+dim+2`. -/
def packNuclei (dim : Nat) (l : List (nucleus dim α)) : List α :=
  l.flatMap (packOne dim)

/-- Read of `buf[k]` from a `std::vector<double>`.  The code sizes every buffer as
`count*(dim+3)` and reads below that bound only; a read past the end, which the code never
makes, is given the value 0. -/
def rd [Zero α] (buf : List α) (k : Nat) : α := buf.getD k 0

/-- The loop `for j<dim: center[j] = buf[i*(dim+3)+3+j]`. -/
def readCenter [Zero α] (dim : Nat) (buf : List α) (i : Nat) : Point dim α :=
  fun j => rd buf (i * (dim + 3) + 3 + j.val)

end Pack

section Reconciler

variable {α : Type} [LinearOrder α] [Zero α]

/-- The loop over `i2` inside the filter, started at `addNuclei = true`: it sets
`addNuclei = false` and breaks at the first nucleus of processor `proc2` that is within
`minDistBetwenNuclei` of `center1` and has `time1 >= time2`.  The result is `addNuclei`. -/
def scanI2 (dim : Nat) (dist : Point dim α → Point dim α → α) (minDistBetwenNuclei : α)
    (center1 : Point dim α) (time1 : α) (buf2 : List α) : List Nat → Bool
  | [] => true
  | i2 :: rest =>
    let time2 := rd buf2 (i2 * (dim + 3) + 1)
    let center2 := readCenter dim buf2 i2
    if dist center1 center2 ≤ minDistBetwenNuclei ∧ time1 ≥ time2 then false
    else scanI2 dim dist minDistBetwenNuclei center1 time1 buf2 rest

/-- The loop over `proc2`: processors other than `proc1` are scanned in rank order and
the loop is left as soon as `addNuclei` is false.  The result is `addNuclei`. -/
def scanProc2 (dim : Nat) (dist : Point dim α → Point dim α → α) (minDistBetwenNuclei : α)
    (numNucleiInProcs : List Nat) (tempNuceli : List (List α))
    (proc1 : Nat) (center1 : Point dim α) (time1 : α) : List Nat → Bool
  | [] => true
  | proc2 :: rest =>
    if proc1 ≠ proc2 then
      if scanI2 dim dist minDistBetwenNuclei center1 time1 (tempNuceli.getD proc2 [])
          (List.range (numNucleiInProcs.getD proc2 0)) then
        scanProc2 dim dist minDistBetwenNuclei numNucleiInProcs tempNuceli proc1 center1 time1 rest
      else false
    else
      scanProc2 dim dist minDistBetwenNuclei numNucleiInProcs tempNuceli proc1 center1 time1 rest

/-- Body of the loop over `i1`: read nucleus `i1` of processor `proc1`, compute
`addNuclei`, and push a fresh nucleus with `index = nuclei.size()` when it is set. -/
def filterStep (dim : Nat) (dist : Point dim α → Point dim α → α) (minDistBetwenNuclei : α)
    (numProcs : Nat) (numNucleiInProcs : List Nat) (tempNuceli : List (List α))
    (proc1 : Nat) (nuclei : List (nucleus dim α)) (i1 : Nat) : List (nucleus dim α) :=
  let buf1 := tempNuceli.getD proc1 []
  let rad1 := rd buf1 (i1 * (dim + 3))
  let time1 := rd buf1 (i1 * (dim + 3) + 1)
  let seedingTime1 := rd buf1 (i1 * (dim + 3) + 2)
  let center1 := readCenter dim buf1 i1
  let addNuclei := scanProc2 dim dist minDistBetwenNuclei numNucleiInProcs tempNuceli
    proc1 center1 time1 (List.range numProcs)
  if addNuclei then
    nuclei ++ [{ index := nuclei.length, radius := rad1, seededTime := time1,
                 seedingTime := seedingTime1, center := center1 }]
  else nuclei

/-- The filter on processor zero: the double loop over `proc1` and `i1`. -/
def filterNuclei (dim : Nat) (dist : Point dim α → Point dim α → α) (minDistBetwenNuclei : α)
    (numProcs : Nat) (numNucleiInProcs : List Nat) (tempNuceli : List (List α))
    (nuclei : List (nucleus dim α)) : List (nucleus dim α) :=
  (List.range numProcs).foldl
    (fun nuclei proc1 =>
      (List.range (numNucleiInProcs.getD proc1 0)).foldl
        (filterStep dim dist minDistBetwenNuclei numProcs numNucleiInProcs tempNuceli proc1)
        nuclei)
    nuclei

/-- Reconciliation phase on rank 0.  `locals[p]` is `localNuclei` of processor `p`.
Every processor reports `localNuclei.size()`, processor `p` packs its list into
`(dim+3)*numNuclei` doubles, rank 0 stores the buffers in `tempNuceli` and filters them into
`nuclei`, which was cleared at the start of the call. -/
def reconcile (dim : Nat) (dist : Point dim α → Point dim α → α) (minDistBetwenNuclei : α)
    (locals : List (List (nucleus dim α))) : List (nucleus dim α) :=
  filterNuclei dim dist minDistBetwenNuclei locals.length
    (locals.map List.length) (locals.map (packNuclei dim)) []

end Reconciler

section Broadcast

variable {α : Type} [Zero α]

/-- The receive loop of a processor other than rank 0: `numGlobalNuclei` nuclei are read
from the broadcast buffer `temp2` and pushed with `index = nuclei.size()`. -/
def receiveNuclei (dim : Nat) (numGlobalNuclei : Nat) (temp2 : List α)
    (nuclei : List (nucleus dim α)) : List (nucleus dim α) :=
  (List.range numGlobalNuclei).foldl
    (fun nuclei i =>
      nuclei ++ [{ index := nuclei.length
                   radius := rd temp2 (i * (dim + 3))
                   seededTime := rd temp2 (i * (dim + 3) + 1)
                   seedingTime := rd temp2 (i * (dim + 3) + 2)
                   center := readCenter dim temp2 i }])
    nuclei

/-- The broadcast as seen by a processor other than rank 0: rank 0 sends
`numGlobalNuclei = nuclei.size()` and the buffer `temp2` packed from its `nuclei`; the
receiver, whose `nuclei` was cleared at the start of the call, rebuilds the list. -/
def broadcastNuclei (dim : Nat) (nucleiRank0 : List (nucleus dim α)) : List (nucleus dim α) :=
  receiveNuclei dim nucleiRank0.length (packNuclei dim nucleiRank0) []

end Broadcast

/-- Constants of `parameters.h`, a file that is not among the sources at hand. -/
structure Parameters (α : Type) where
  spanX : α
  spanY : α
  subdivisionsX : Nat
  refineFactor : Nat
  timeStep : α
  timeIncrements : Nat
  skipOutputSteps : Nat
  c_matrix : α

section Detector

variable {α : Type} [LinearOrder α] {dim : Nat}

/-- The loop over `localNuclei` that sets `isClose` when an existing local nucleus is at
distance less than `minDistBetwenNuclei` from `nodePoint`. -/
def isClose (dist : Point dim α → Point dim α → α) (minDistBetwenNuclei : α)
    (localNuclei : List (nucleus dim α)) (nodePoint : Point dim α) : Bool :=
  localNuclei.foldl
    (fun isClose thisNuclei =>
      if dist thisNuclei.center nodePoint < minDistBetwenNuclei then true else isClose)
    false

/-- The block `if (rand_val <= J) { … }` of the detector: local dedup, then the push of a
new nucleus with `index = localNuclei.size()` and the attributes of the model. -/
def proposeAt (dist : Point dim α → Point dim α → α) (minDistBetwenNuclei : α)
    (radius seededTime seedingTime : α) (localNuclei : List (nucleus dim α))
    (nodePoint : Point dim α) (rand_val J : α) : List (nucleus dim α) :=
  if rand_val ≤ J then
    if !(isClose dist minDistBetwenNuclei localNuclei nodePoint) then
      localNuclei ++ [{ index := localNuclei.length, center := nodePoint, radius := radius,
                        seededTime := seededTime, seedingTime := seedingTime }]
    else localNuclei
  else localNuclei

end Detector

section Models

variable {α : Type} [LinearOrderedField α] {dim : Nat}

/-- Mechanics model: `nRadius = 2.5`. -/
def nRadiusMech : α := 5 / 2

/-- Mechanics model: `minDistBetwenNuclei = 4*nRadius`. -/
def minDistMech : α := 4 * nRadiusMech

/-- Mechanics model: `dx = spanX/((double)subdivisionsX)/std::pow(2.0,refineFactor)`. -/
def dxMech (P : Parameters α) : α := P.spanX / (P.subdivisionsX : α) / 2 ^ P.refineFactor

/-- Mechanics model, the nucleation probability at one point:
`if ((t > 1000000000*timeStep) || (n1Value+n2Value+n3Value > 1.0e-6) || (cValue <= 0.0)) J = 0;
 else J = cValue/c_matrix * dx*dx/((double)spanX * (double)spanY) * 0.01;` -/
def JMech (P : Parameters α) (t n1Value n2Value n3Value cValue : α) : α :=
  if t > 1000000000 * P.timeStep ∨ n1Value + n2Value + n3Value > 1 / 1000000 ∨ cValue ≤ 0 then 0
  else cValue / P.c_matrix * dxMech P * dxMech P / (P.spanX * P.spanY) * (1 / 100)

/-- Mechanics model: the value of `J` computed at the point with index `dof`. -/
def pointJMech (P : Parameters α) (t : α) (n1 n2 n3 c : Nat → α) (dof : Nat) : α :=
  let n1Value := n1 dof
  let n2Value := n2 dof
  let n3Value := n3 dof
  let cValue := c dof
  JMech P t n1Value n2Value n3Value cValue

/-- Mechanics model, body of the detection loop for one entry `it` of `support_points`.
The state is `localNuclei` and the number of calls of `rand()` made so far; `rand k` is
the value returned by call number `k`. -/
def detectPointMech (P : Parameters α) (RAND_MAX : Nat)
    (dist : Point dim α → Point dim α → α) (owned : Nat → Bool)
    (n1 n2 n3 c : Nat → α) (t : α) (rand : Nat → Nat)
    (st : List (nucleus dim α) × Nat) (it : Nat × Point dim α) : List (nucleus dim α) × Nat :=
  let dof := it.1
  if owned dof then
    let nodePoint := it.2
    let rand_val : α := (rand st.2 : α) / (RAND_MAX : α)
    let J := pointJMech P t n1 n2 n3 c dof
    (proposeAt dist minDistMech nRadiusMech t (10000 * P.timeStep) st.1 nodePoint rand_val J,
      st.2 + 1)
  else st

/-- Mechanics model: the detection loop over `support_points` (in increasing `dof`). -/
def detectMech (P : Parameters α) (RAND_MAX : Nat)
    (dist : Point dim α → Point dim α → α) (support_points : List (Nat × Point dim α))
    (owned : Nat → Bool) (n1 n2 n3 c : Nat → α) (t : α) (rand : Nat → Nat)
    (st : List (nucleus dim α) × Nat) : List (nucleus dim α) × Nat :=
  support_points.foldl (detectPointMech P RAND_MAX dist owned n1 n2 n3 c t rand) st

/-- Two-field application: `nRadius = spanX/50.0`, also the radius given to a nucleus. -/
def nRadiusApp (P : Parameters α) : α := P.spanX / 50

/-- Two-field application: `minDistBetwenNuclei = 1.0*spanX/10.0`. -/
def minDistApp (P : Parameters α) : α := 1 * P.spanX / 10

/-- Two-field application: `dx = spanX/std::pow(2.0,refineFactor)`. -/
def dxApp (P : Parameters α) : α := P.spanX / 2 ^ P.refineFactor

/-- Two-field application: `J = k1*exp(-k2/(cValue-c0))` with `k1 = 0.0001`, `k2 = 1.0`,
`c0 = 0.300`. -/
def JApp (exp : α → α) (cValue : α) : α :=
  (1 / 10000) * exp (-1 / (cValue - 3 / 10))

/-- Two-field application: the value of `J` computed at the point with index `dof`; the
value `nValue` is read and not used. -/
def pointJApp (exp : α → α) (n c : Nat → α) (dof : Nat) : α :=
  let _nValue := n dof
  let cValue := c dof
  JApp exp cValue

/-- Two-field application, body of the detection loop for one entry of `support_points`:
`rand_val = (rand() % rand_scale)/((double)rand_scale)` with `rand_scale = 10000`,
`seededTime = 0.0`, `seedingTime = t + 30.0*timeStep`. -/
def detectPointApp (P : Parameters α) (exp : α → α)
    (dist : Point dim α → Point dim α → α) (owned : Nat → Bool)
    (n c : Nat → α) (t : α) (rand : Nat → Nat)
    (st : List (nucleus dim α) × Nat) (it : Nat × Point dim α) : List (nucleus dim α) × Nat :=
  let dof := it.1
  if owned dof then
    let nodePoint := it.2
    let rand_val : α := ((rand st.2 % 10000 : Nat) : α) / 10000
    let J := pointJApp exp n c dof
    (proposeAt dist (minDistApp P) (P.spanX / 50) 0 (t + 30 * P.timeStep) st.1 nodePoint
      rand_val J, st.2 + 1)
  else st

/-- Two-field application: the detection loop over `support_points`. -/
def detectApp (P : Parameters α) (exp : α → α)
    (dist : Point dim α → Point dim α → α) (support_points : List (Nat × Point dim α))
    (owned : Nat → Bool) (n c : Nat → α) (t : α) (rand : Nat → Nat)
    (st : List (nucleus dim α) × Nat) : List (nucleus dim α) × Nat :=
  support_points.foldl (detectPointApp P exp dist owned n c t rand) st

/-- Mechanics model, body of the seeding loop for nucleus `thisNuclei` and one entry of
`support_points`: `if (r<=(2*radius)) if ((t>seededTime) && (t<(seededTime+seedingTime)))
(*n1)(dof)=0.5*(1.0-std::tanh((r-radius)/(0.4)));`. -/
def seedPointMech (tanh : α → α) (dist : Point dim α → Point dim α → α)
    (owned : Nat → Bool) (t : α) (thisNuclei : nucleus dim α)
    (n1 : Nat → α) (it : Nat × Point dim α) : Nat → α :=
  let center := thisNuclei.center
  let radius := thisNuclei.radius
  let seededTime := thisNuclei.seededTime
  let seedingTime := thisNuclei.seedingTime
  let dof := it.1
  if owned dof then
    let nodePoint := it.2
    let r := dist nodePoint center
    if r ≤ 2 * radius then
      if t > seededTime ∧ t < seededTime + seedingTime then
        Function.update n1 dof ((1 / 2) * (1 - tanh ((r - radius) / (2 / 5))))
      else n1
    else n1
  else n1

/-- Mechanics model: the seeding loops, over `nuclei` and then over `support_points`. -/
def seedNucleiMech (tanh : α → α) (dist : Point dim α → Point dim α → α)
    (support_points : List (Nat × Point dim α)) (owned : Nat → Bool) (t : α)
    (nuclei : List (nucleus dim α)) (n1 : Nat → α) : Nat → α :=
  nuclei.foldl
    (fun n1 thisNuclei => support_points.foldl (seedPointMech tanh dist owned t thisNuclei) n1)
    n1

/-- Two-field application, body of the seeding loop: `if (r<=(radius+3*dx))
if ((t>seededTime) && (t<(seededTime+seedingTime)))
(*n)(dof)=0.5*(1.0-std::tanh((r-spanX/50.0)/(dx)));`. -/
def seedPointApp (P : Parameters α) (tanh : α → α) (dist : Point dim α → Point dim α → α)
    (owned : Nat → Bool) (t : α) (thisNuclei : nucleus dim α)
    (n : Nat → α) (it : Nat × Point dim α) : Nat → α :=
  let center := thisNuclei.center
  let radius := thisNuclei.radius
  let seededTime := thisNuclei.seededTime
  let seedingTime := thisNuclei.seedingTime
  let dof := it.1
  if owned dof then
    let nodePoint := it.2
    let r := dist nodePoint center
    if r ≤ radius + 3 * dxApp P then
      if t > seededTime ∧ t < seededTime + seedingTime then
        Function.update n dof ((1 / 2) * (1 - tanh ((r - P.spanX / 50) / dxApp P)))
      else n
    else n
  else n

/-- Two-field application: the seeding loops. -/
def seedNucleiApp (P : Parameters α) (tanh : α → α) (dist : Point dim α → Point dim α → α)
    (support_points : List (Nat × Point dim α)) (owned : Nat → Bool) (t : α)
    (nuclei : List (nucleus dim α)) (n : Nat → α) : Nat → α :=
  nuclei.foldl
    (fun n thisNuclei => support_points.foldl (seedPointApp P tanh dist owned t thisNuclei) n)
    n

end Models

/-- State of one partition at a call of `modifySolutionFields` of the mechanics model: its
mesh points, ownership, field values, random stream, the global `localNuclei` left by
earlier calls and the global `nuclei`. -/
structure PartitionMech (dim : Nat) (α : Type) where
  support_points : List (Nat × Point dim α)
  owned : Nat → Bool
  n1 : Nat → α
  n2 : Nat → α
  n3 : Nat → α
  c : Nat → α
  rand : Nat → Nat
  randCalls : Nat
  localNuclei : List (nucleus dim α)
  nuclei : List (nucleus dim α) := []

/-- Inputs of one partition to a nucleation step of the two-field application. -/
structure PartitionApp (dim : Nat) (α : Type) where
  support_points : List (Nat × Point dim α)
  owned : Nat → Bool
  n : Nat → α
  c : Nat → α
  rand : Nat → Nat
  randCalls : Nat
  localNuclei : List (nucleus dim α)
  nuclei : List (nucleus dim α) := []

section Step

variable {α : Type} [LinearOrderedField α] {dim : Nat}

/-- Mechanics model: `localNuclei` of a partition after its detection loop. -/
def PartitionMech.detect (P : Parameters α) (RAND_MAX : Nat)
    (dist : Point dim α → Point dim α → α) (t : α) (q : PartitionMech dim α) :
    List (nucleus dim α) :=
  (detectMech P RAND_MAX dist q.support_points q.owned q.n1 q.n2 q.n3 q.c t q.rand
    (q.localNuclei, q.randCalls)).1

/-- Mechanics model: the canonical list `nuclei` on rank 0 after detection on every
partition followed by reconciliation (`parts` is in rank order). -/
def nucleationStepMech (P : Parameters α) (RAND_MAX : Nat)
    (dist : Point dim α → Point dim α → α) (t : α) (parts : List (PartitionMech dim α)) :
    List (nucleus dim α) :=
  reconcile dim dist minDistMech (parts.map (PartitionMech.detect P RAND_MAX dist t))

/-- Two-field application: `localNuclei` of a partition after its detection loop. -/
def PartitionApp.detect (P : Parameters α) (exp : α → α)
    (dist : Point dim α → Point dim α → α) (t : α) (q : PartitionApp dim α) :
    List (nucleus dim α) :=
  (detectApp P exp dist q.support_points q.owned q.n q.c t q.rand
    (q.localNuclei, q.randCalls)).1

/-- Two-field application: the canonical list `nuclei` on rank 0 after detection on every
partition followed by reconciliation. -/
def nucleationStepApp (P : Parameters α) (exp : α → α)
    (dist : Point dim α → Point dim α → α) (t : α) (parts : List (PartitionApp dim α)) :
    List (nucleus dim α) :=
  reconcile dim dist (minDistApp P) (parts.map (PartitionApp.detect P exp dist t))

end Step

section Calls

variable {α : Type} [LinearOrderedField α] {dim : Nat}

/-- Mechanics model: `rand_val = (double)rand()/(RAND_MAX)` for the value `r` of `rand()`. -/
def rand_val_mech (RAND_MAX r : Nat) : α := (r : α) / (RAND_MAX : α)

/-- Two-field application: `rand_val = (rand() % rand_scale)/((double)rand_scale)` with
`rand_scale = 10000`, for the value `r` of `rand()`. -/
def rand_val_app (r : Nat) : α := ((r % 10000 : Nat) : α) / 10000

/-- Mechanics model: the test `inc <= timeIncrements` of the nucleation-active window. -/
def activeMech (P : Parameters α) (inc : Nat) : Bool := decide (inc ≤ P.timeIncrements)

/-- Two-field application: the test `inc <= timeIncrements-skipOutputSteps`.  Both constants
are integer literals of `parameters.h` (they bound the time loop and divide the increment
in `solve.cc`); the `int` difference is converted to `unsigned int` for the comparison with
the `unsigned int inc`. -/
def activeApp (P : Parameters α) (inc : Nat) : Bool :=
  decide ((inc : Int) ≤ ((P.timeIncrements : Int) - (P.skipOutputSteps : Int)) % 4294967296)

/-- Mechanics model: the state of a partition after its detection loop. -/
def PartitionMech.detectState (P : Parameters α) (RAND_MAX : Nat)
    (dist : Point dim α → Point dim α → α) (t : α) (q : PartitionMech dim α) :
    PartitionMech dim α :=
  let r := detectMech P RAND_MAX dist q.support_points q.owned q.n1 q.n2 q.n3 q.c t q.rand
    (q.localNuclei, q.randCalls)
  { q with localNuclei := r.1, randCalls := r.2 }

/-- Mechanics model: one call of `modifySolutionFields` at time `t` and increment `inc`, on
all partitions together (`parts` in rank order).  `nuclei` is cleared; inside the window
every partition runs its detection loop, rank 0 reconciles the local lists and broadcasts
the canonical list; then every partition seeds the nuclei of its `nuclei` into `n1`. -/
def modifySolutionFieldsMech (P : Parameters α) (RAND_MAX : Nat) (tanh : α → α)
    (dist : Point dim α → Point dim α → α) (t : α) (inc : Nat)
    (parts : List (PartitionMech dim α)) : List (PartitionMech dim α) :=
  if activeMech P inc then
    let detected := parts.map (PartitionMech.detectState P RAND_MAX dist t)
    let nucleiRank0 := reconcile dim dist minDistMech (detected.map (fun q => q.localNuclei))
    detected.enum.map (fun pq =>
      let nuclei := if pq.1 = 0 then nucleiRank0 else broadcastNuclei dim nucleiRank0
      { pq.2 with
        nuclei := nuclei
        n1 := seedNucleiMech tanh dist pq.2.support_points pq.2.owned t nuclei pq.2.n1 })
  else
    parts.map (fun q =>
      { q with
        nuclei := []
        n1 := seedNucleiMech tanh dist q.support_points q.owned t [] q.n1 })

/-- Two-field application: the state of a partition after its detection loop. -/
def PartitionApp.detectState (P : Parameters α) (exp : α → α)
    (dist : Point dim α → Point dim α → α) (t : α) (q : PartitionApp dim α) :
    PartitionApp dim α :=
  let r := detectApp P exp dist q.support_points q.owned q.n q.c t q.rand
    (q.localNuclei, q.randCalls)
  { q with localNuclei := r.1, randCalls := r.2 }

/-- Two-field application: one call of `modifySolutionFields` on all partitions together. -/
def modifySolutionFieldsApp (P : Parameters α) (exp tanh : α → α)
    (dist : Point dim α → Point dim α → α) (t : α) (inc : Nat)
    (parts : List (PartitionApp dim α)) : List (PartitionApp dim α) :=
  if activeApp P inc then
    let detected := parts.map (PartitionApp.detectState P exp dist t)
    let nucleiRank0 := reconcile dim dist (minDistApp P) (detected.map (fun q => q.localNuclei))
    detected.enum.map (fun pq =>
      let nuclei := if pq.1 = 0 then nucleiRank0 else broadcastNuclei dim nucleiRank0
      { pq.2 with
        nuclei := nuclei
        n := seedNucleiApp P tanh dist pq.2.support_points pq.2.owned t nuclei pq.2.n })
  else
    parts.map (fun q =>
      { q with
        nuclei := []
        n := seedNucleiApp P tanh dist q.support_points q.owned t [] q.n })

/-- The states of the partitions that a run of the mechanics model can reach: at the start
every `localNuclei` is empty; between two calls of `modifySolutionFields` the solver may
change anything (fields, mesh, random stream) except the lists `localNuclei`. -/
inductive ReachableMech (P : Parameters α) (RAND_MAX : Nat) (tanh : α → α)
    (dist : Point dim α → Point dim α → α) : List (PartitionMech dim α) → Prop
  | start (parts : List (PartitionMech dim α)) (h : ∀ q ∈ parts, q.localNuclei = []) :
      ReachableMech P RAND_MAX tanh dist parts
  | call (parts parts' : List (PartitionMech dim α)) (t : α) (inc : Nat)
      (hr : ReachableMech P RAND_MAX tanh dist parts)
      (henv : parts'.map (fun q => q.localNuclei) = parts.map (fun q => q.localNuclei)) :
      ReachableMech P RAND_MAX tanh dist
        (modifySolutionFieldsMech P RAND_MAX tanh dist t inc parts')

/-- The states of the partitions that a run of the two-field application can reach. -/
inductive ReachableApp (P : Parameters α) (exp tanh : α → α)
    (dist : Point dim α → Point dim α → α) : List (PartitionApp dim α) → Prop
  | start (parts : List (PartitionApp dim α)) (h : ∀ q ∈ parts, q.localNuclei = []) :
      ReachableApp P exp tanh dist parts
  | call (parts parts' : List (PartitionApp dim α)) (t : α) (inc : Nat)
      (hr : ReachableApp P exp tanh dist parts)
      (henv : parts'.map (fun q => q.localNuclei) = parts.map (fun q => q.localNuclei)) :
      ReachableApp P exp tanh dist (modifySolutionFieldsApp P exp tanh dist t inc parts')

end Calls

section Energy

variable {α : Type} [LinearOrderedField α]

/-- What `getEnergy` has at one quadrature point of one cell before it accumulates: the
lanes of the composition `c`, of the densities `f_chem`, `f_grad`, `f_el` and of `JxW`.
They come from the field evaluation and from the energy expressions of the model header
(`faV`, `fbV`, `h1V`, …), which are not among the sources at hand. -/
structure EnergyPoint (α : Type) where
  c : Nat → α
  f_chem : Nat → α
  f_grad : Nat → α
  f_el : Nat → α
  JxW : Nat → α

/-- The members `energy` and `energy_components` that `getEnergy` accumulates into. -/
structure EnergyState (α : Type) where
  energy : α
  energy_components : Nat → α

/-- Body of the loop over the lanes `i < c.n_array_elements`:
`if (c[i] > 1.0e-10) { energy += total_energy_density[i]*JxW[q][i]; energy_components[0] +=
f_chem[i]*JxW[q][i]; … }` with `total_energy_density = f_chem + f_grad + f_el`. -/
def energyLane (pt : EnergyPoint α) (s : EnergyState α) (i : Nat) : EnergyState α :=
  let total_energy_density := fun k => pt.f_chem k + pt.f_grad k + pt.f_el k
  if pt.c i > 1 / 10000000000 then
    let energy := s.energy + total_energy_density i * pt.JxW i
    let ec0 := Function.update s.energy_components 0
      (s.energy_components 0 + pt.f_chem i * pt.JxW i)
    let ec1 := Function.update ec0 1 (ec0 1 + pt.f_grad i * pt.JxW i)
    let ec2 := Function.update ec1 2 (ec1 2 + pt.f_el i * pt.JxW i)
    { energy := energy, energy_components := ec2 }
  else s

/-- The accumulation of `getEnergy`: the loops over the cells of `cell_range`, over the
quadrature points and over the lanes.  `quad cell q` is what the function has computed at
quadrature point `q` of cell `cell`. -/
def getEnergy (n_array_elements n_q_points : Nat) (quad : Nat → Nat → EnergyPoint α)
    (cell_range : Nat × Nat) (s : EnergyState α) : EnergyState α :=
  (List.range' cell_range.1 (cell_range.2 - cell_range.1)).foldl
    (fun s cell =>
      (List.range n_q_points).foldl
        (fun s q => (List.range n_array_elements).foldl (energyLane (quad cell q)) s)
        s)
    s

end Energy

section Registry

/-- The registry arrays of the model header (`num_var`, `var_type[]`, `need_value[]`, …),
which is not among the sources at hand; an array is a function of the index. -/
structure Roster where
  num_var : Nat
  var_type : Nat → String
  need_value : Nat → Bool
  need_gradient : Nat → Bool
  need_hessian : Nat → Bool
  value_residual : Nat → Bool
  gradient_residual : Nat → Bool
  need_value_LHS : Nat → Bool
  need_gradient_LHS : Nat → Bool
  need_hessian_LHS : Nat → Bool

/-- The `variable_info<dim>` record, with the members that the constructor fills. -/
structure variable_info where
  global_var_index : Nat
  global_field_index : Nat
  is_scalar : Bool
  scalar_or_vector_index : Nat
deriving DecidableEq

/-- The test `need_value_LHS[i] or need_gradient_LHS[i] or need_hessian_LHS[i]`. -/
def Roster.needLHS (R : Roster) (i : Nat) : Bool :=
  R.need_value_LHS i || R.need_gradient_LHS i || R.need_hessian_LHS i

/-- The first loop of the constructor: `num_var_LHS` counts the variables with an LHS need. -/
def num_var_LHS (R : Roster) : Nat :=
  (List.range R.num_var).foldl (fun n i => if R.needLHS i then n + 1 else n) 0

/-- The locals of the second loop of the constructor. -/
structure RegistryState where
  varInfoList : List variable_info
  field_number : Nat
  scalar_var_index : Nat
  vector_var_index : Nat

/-- Body of the second loop of the constructor for variable `i`. -/
def registryStep (R : Roster) (dim : Nat) (s : RegistryState) (i : Nat) : RegistryState :=
  let s1 : RegistryState :=
    if R.needLHS i then
      if R.var_type i = "SCALAR" then
        { s with
          varInfoList := s.varInfoList ++
            [{ global_var_index := i, global_field_index := s.field_number, is_scalar := true,
               scalar_or_vector_index := s.scalar_var_index }]
          scalar_var_index := s.scalar_var_index + 1 }
      else
        { s with
          varInfoList := s.varInfoList ++
            [{ global_var_index := i, global_field_index := s.field_number, is_scalar := false,
               scalar_or_vector_index := s.vector_var_index }]
          vector_var_index := s.vector_var_index + 1 }
    else s
  if R.var_type i = "SCALAR" then { s1 with field_number := s1.field_number + 1 }
  else { s1 with field_number := s1.field_number + dim }

/-- The second loop of the constructor, from `field_number = scalar_var_index =
vector_var_index = 0` and an empty `varInfoList`. -/
def registry (R : Roster) (dim : Nat) : RegistryState :=
  (List.range R.num_var).foldl (registryStep R dim)
    { varInfoList := [], field_number := 0, scalar_var_index := 0, vector_var_index := 0 }

/-- The member `varInfoList` after the constructor. -/
def varInfoList (R : Roster) (dim : Nat) : List variable_info := (registry R dim).varInfoList

end Registry

section AssemblerData

/-- The `modelVariable<dim>` record handed to the residual kernels.  The value, gradient and
hessian types of the source are embedded in one carrier `E` of quantities at a quadrature
point. -/
structure modelVariable (E : Type) where
  scalarValue : E
  scalarGrad : E
  scalarHess : E
  vectorValue : E
  vectorGrad : E
  vectorHess : E

/-- The `modelResidual<dim>` record returned by the residual kernels. -/
structure modelResidual (E : Type) where
  scalarValueResidual : E
  scalarGradResidual : E
  vectorValueResidual : E
  vectorGradResidual : E

/-- A global vector that an evaluation object reads from or scatters into: `*src[f]` and
`*dst[f]` of `getRHS`, `*solutionSet[f]`, and the arguments `src` (`trial`) and `dst`
(`result`) of `getLHS`. -/
inductive VecRef where
  | src (field : Nat)
  | dst (field : Nat)
  | solutionSet (field : Nat)
  | trial
  | result
deriving DecidableEq

/-- One call made by the assembler, as an instrumented evaluation object would record it:
the object called (its storage kind `scalar` and the component it was constructed with), the
cell being processed and the arguments of the call.  `residual` is the call of the
kernel. -/
inductive FECall where
  | reinit (scalar : Bool) (component cell : Nat)
  | read_dof_values_plain (scalar : Bool) (component cell : Nat) (v : VecRef)
  | evaluate (scalar : Bool) (component cell : Nat) (value gradient hessian : Bool)
  | get_value (scalar : Bool) (component cell q : Nat)
  | get_gradient (scalar : Bool) (component cell q : Nat)
  | get_hessian (scalar : Bool) (component cell q : Nat)
  | residual (cell q : Nat)
  | submit_value (scalar : Bool) (component cell q : Nat)
  | submit_gradient (scalar : Bool) (component cell q : Nat)
  | integrate (scalar : Bool) (component cell : Nat) (value gradient : Bool)
  | distribute_local_to_global (scalar : Bool) (component cell : Nat) (v : VecRef)
deriving DecidableEq

/-- State of one `FEEvaluation` object (`typeScalar` or `typeVector`): the component of
`data` it was constructed for, the cell it is positioned on, the degree-of-freedom values
it holds (read from a vector, or produced by `integrate`), and the values and gradients
submitted at the quadrature points. -/
structure FEEval (E V : Type) where
  component : Nat
  cell : Nat
  values_dofs : V
  values_quad : Nat → E
  gradients_quad : Nat → E

/-- What the finite-element library computes, which is not part of the sources: the number
of quadrature points of a cell, the value, gradient and hessian at quadrature point `q` of
the function with the given degree-of-freedom values (arguments: storage kind, component,
cell, `q`, the values), and the values that an object holds after `integrate(value, gradient)`
(arguments: storage kind, component, cell, the two flags, the values held before, the
submitted values and the submitted gradients). -/
structure FEOps (E V : Type) where
  n_q_points : Nat
  get_value : Bool → Nat → Nat → Nat → V → E
  get_gradient : Bool → Nat → Nat → Nat → V → E
  get_hessian : Bool → Nat → Nat → Nat → V → E
  integrate : Bool → Nat → Nat → Bool → Bool → V → (Nat → E) → (Nat → E) → V

/-- The locals `scalar_vars` and `vector_vars` of `getRHS` and `getLHS` (a `std::vector` is
a function of the index together with its size) and the record of the calls made so far. -/
structure Assembly (E V : Type) where
  scalar_vars : Nat → FEEval E V
  n_scalar : Nat
  vector_vars : Nat → FEEval E V
  n_vector : Nat
  log : List FECall

end AssemblerData

section AssemblerOps

variable {E V : Type}

/-- Writes the value, `m.scalarValue = e` or `m.vectorValue = e`. -/
def modelVariable.setValue (sc : Bool) (m : modelVariable E) (e : E) : modelVariable E :=
  if sc then { m with scalarValue := e } else { m with vectorValue := e }

/-- Writes the gradient, `m.scalarGrad = e` or `m.vectorGrad = e`. -/
def modelVariable.setGrad (sc : Bool) (m : modelVariable E) (e : E) : modelVariable E :=
  if sc then { m with scalarGrad := e } else { m with vectorGrad := e }

/-- Writes the hessian, `m.scalarHess = e` or `m.vectorHess = e`. -/
def modelVariable.setHess (sc : Bool) (m : modelVariable E) (e : E) : modelVariable E :=
  if sc then { m with scalarHess := e } else { m with vectorHess := e }

/-- Reads `r.scalarValueResidual` or `r.vectorValueResidual`. -/
def modelResidual.valueResidual (sc : Bool) (r : modelResidual E) : E :=
  if sc then r.scalarValueResidual else r.vectorValueResidual

/-- Reads `r.scalarGradResidual` or `r.vectorGradResidual`. -/
def modelResidual.gradResidual (sc : Bool) (r : modelResidual E) : E :=
  if sc then r.scalarGradResidual else r.vectorGradResidual

/-- The stores before any `push_back`; `blank` stands for the indeterminate content of a
position that was never written. -/
def Assembly.empty (blank : FEEval E V) : Assembly E V :=
  { scalar_vars := fun _ => blank, n_scalar := 0, vector_vars := fun _ => blank,
    n_vector := 0, log := [] }

/-- The object `scalar_vars[k]` (for `sc = true`) or `vector_vars[k]`. -/
def Assembly.ctx (a : Assembly E V) (sc : Bool) (k : Nat) : FEEval E V :=
  if sc then a.scalar_vars k else a.vector_vars k

/-- Replaces the object `scalar_vars[k]` or `vector_vars[k]`. -/
def Assembly.setCtx (a : Assembly E V) (sc : Bool) (k : Nat) (x : FEEval E V) :
    Assembly E V :=
  { a with
    scalar_vars := if sc then Function.update a.scalar_vars k x else a.scalar_vars
    vector_vars := if sc then a.vector_vars else Function.update a.vector_vars k x }

/-- Appends a call to the record. -/
def Assembly.record (a : Assembly E V) (c : FECall) : Assembly E V :=
  { a with log := a.log ++ [c] }

/-- The call `scalar_vars.push_back(x)` or `vector_vars.push_back(x)`. -/
def Assembly.push_back (a : Assembly E V) (sc : Bool) (x : FEEval E V) : Assembly E V :=
  { a with
    scalar_vars := if sc then Function.update a.scalar_vars a.n_scalar x else a.scalar_vars
    n_scalar := if sc then a.n_scalar + 1 else a.n_scalar
    vector_vars := if sc then a.vector_vars else Function.update a.vector_vars a.n_vector x
    n_vector := if sc then a.n_vector else a.n_vector + 1 }

/-- The call `reinit(cell)` on the object at position `k` of its store. -/
def Assembly.reinit (a : Assembly E V) (sc : Bool) (k cell : Nat) : Assembly E V :=
  (a.setCtx sc k { a.ctx sc k with cell := cell }).record
    (FECall.reinit sc (a.ctx sc k).component cell)

/-- The call `read_dof_values_plain(v)`, where `ref` names the vector `v`. -/
def Assembly.read_dof_values_plain (a : Assembly E V) (sc : Bool) (k cell : Nat)
    (ref : VecRef) (v : V) : Assembly E V :=
  (a.setCtx sc k { a.ctx sc k with values_dofs := v }).record
    (FECall.read_dof_values_plain sc (a.ctx sc k).component cell ref)

/-- The call `evaluate(value, gradient, hessian)`. -/
def Assembly.evaluate (a : Assembly E V) (sc : Bool) (k cell : Nat)
    (value gradient hessian : Bool) : Assembly E V :=
  a.record (FECall.evaluate sc (a.ctx sc k).component cell value gradient hessian)

/-- The result of `get_value(q)` on the object at position `k` of its store. -/
def Assembly.get_value (ops : FEOps E V) (a : Assembly E V) (sc : Bool) (k q : Nat) : E :=
  ops.get_value sc (a.ctx sc k).component (a.ctx sc k).cell q (a.ctx sc k).values_dofs

/-- The result of `get_gradient(q)`. -/
def Assembly.get_gradient (ops : FEOps E V) (a : Assembly E V) (sc : Bool) (k q : Nat) : E :=
  ops.get_gradient sc (a.ctx sc k).component (a.ctx sc k).cell q (a.ctx sc k).values_dofs

/-- The result of `get_hessian(q)`. -/
def Assembly.get_hessian (ops : FEOps E V) (a : Assembly E V) (sc : Bool) (k q : Nat) : E :=
  ops.get_hessian sc (a.ctx sc k).component (a.ctx sc k).cell q (a.ctx sc k).values_dofs

/-- The call `submit_value(val, q)`. -/
def Assembly.submit_value (a : Assembly E V) (sc : Bool) (k cell : Nat) (val : E) (q : Nat) :
    Assembly E V :=
  (a.setCtx sc k
      { a.ctx sc k with values_quad := Function.update (a.ctx sc k).values_quad q val }).record
    (FECall.submit_value sc (a.ctx sc k).component cell q)

/-- The call `submit_gradient(val, q)`. -/
def Assembly.submit_gradient (a : Assembly E V) (sc : Bool) (k cell : Nat) (val : E)
    (q : Nat) : Assembly E V :=
  (a.setCtx sc k
      { a.ctx sc k with
        gradients_quad := Function.update (a.ctx sc k).gradients_quad q val }).record
    (FECall.submit_gradient sc (a.ctx sc k).component cell q)

/-- The call `integrate(value, gradient)`: the values held by the object are replaced by
the result of the integration. -/
def Assembly.integrate (ops : FEOps E V) (a : Assembly E V) (sc : Bool) (k cell : Nat)
    (value gradient : Bool) : Assembly E V :=
  (a.setCtx sc k
      { a.ctx sc k with
        values_dofs :=
          ops.integrate sc (a.ctx sc k).component (a.ctx sc k).cell value gradient
            (a.ctx sc k).values_dofs (a.ctx sc k).values_quad
            (a.ctx sc k).gradients_quad }).record
    (FECall.integrate sc (a.ctx sc k).component cell value gradient)

/-- The vector `v` after `distribute_local_to_global(v)`: the values held by the object are
added to it. -/
def Assembly.distribute_local_to_global [Add V] (a : Assembly E V) (sc : Bool) (k : Nat)
    (v : V) : V :=
  v + (a.ctx sc k).values_dofs

/-- The three calls `reinit(cell)`, `read_dof_values_plain(v)` and
`evaluate(value, gradient, hessian)` made on one object at the start of a cell. -/
def readEval (sc : Bool) (k cell : Nat) (ref : VecRef) (v : V) (value gradient hessian : Bool)
    (a : Assembly E V) : Assembly E V :=
  ((a.reinit sc k cell).read_dof_values_plain sc k cell ref v).evaluate sc k cell
    value gradient hessian

/-- The block that fills one `modelVariable` from one object at quadrature point `q`:
`if (value) m.…Value = ….get_value(q); if (gradient) m.…Grad = ….get_gradient(q);
if (hessian) m.…Hess = ….get_hessian(q);`. -/
def gatherVar (ops : FEOps E V) (sc : Bool) (k cell q : Nat) (value gradient hessian : Bool)
    (am : Assembly E V × modelVariable E) : Assembly E V × modelVariable E :=
  let am1 :=
    if value then
      (am.1.record (FECall.get_value sc (am.1.ctx sc k).component cell q),
        am.2.setValue sc (am.1.get_value ops sc k q))
    else am
  let am2 :=
    if gradient then
      (am1.1.record (FECall.get_gradient sc (am1.1.ctx sc k).component cell q),
        am1.2.setGrad sc (am1.1.get_gradient ops sc k q))
    else am1
  if hessian then
    (am2.1.record (FECall.get_hessian sc (am2.1.ctx sc k).component cell q),
      am2.2.setHess sc (am2.1.get_hessian ops sc k q))
  else am2

/-- The block that submits one `modelResidual` to one object at quadrature point `q`:
`if (value) ….submit_value(r.…ValueResidual, q); if (gradient)
….submit_gradient(r.…GradResidual, q);`. -/
def submitRes (sc : Bool) (k cell q : Nat) (value gradient : Bool) (r : modelResidual E)
    (a : Assembly E V) : Assembly E V :=
  let a1 := if value then a.submit_value sc k cell (r.valueResidual sc) q else a
  if gradient then a1.submit_gradient sc k cell (r.gradResidual sc) q else a1

end AssemblerOps

section AssemblerRHS

variable {E V : Type}

/-- The locals that the first loop of `getRHS` builds. -/
structure RHSSetup (E V : Type) where
  fe : Assembly E V
  is_scalar_var : List Bool
  scalar_or_vector_index : List Nat
  field_index : List Nat
  field_number : Nat

/-- Body of the first loop of `getRHS` for variable `i`: an object for component `i` is
pushed on the scalar or on the vector store.  `blank` is the content of a newly constructed
object. -/
def rhsSetupStep (R : Roster) (dim : Nat) (blank : FEEval E V) (s : RHSSetup E V) (i : Nat) :
    RHSSetup E V :=
  if R.var_type i = "SCALAR" then
    let fe := s.fe.push_back true { blank with component := i }
    { fe := fe
      is_scalar_var := s.is_scalar_var ++ [true]
      scalar_or_vector_index := s.scalar_or_vector_index ++ [fe.n_scalar - 1]
      field_index := s.field_index ++ [s.field_number]
      field_number := s.field_number + 1 }
  else
    let fe := s.fe.push_back false { blank with component := i }
    { fe := fe
      is_scalar_var := s.is_scalar_var ++ [false]
      scalar_or_vector_index := s.scalar_or_vector_index ++ [fe.n_vector - 1]
      field_index := s.field_index ++ [s.field_number]
      field_number := s.field_number + dim }

/-- The first loop of `getRHS`. -/
def rhsSetup (R : Roster) (dim : Nat) (blank : FEEval E V) : RHSSetup E V :=
  (List.range R.num_var).foldl (rhsSetupStep R dim blank)
    { fe := Assembly.empty blank, is_scalar_var := [], scalar_or_vector_index := [],
      field_index := [], field_number := 0 }

/-- What `getRHS` changes while it loops over the cells: the evaluation objects, the locals
`modelVarList` and `modelResidualsList`, and the vectors `*dst[f]`. -/
structure RHSState (E V : Type) where
  fe : Assembly E V
  modelVarList : Nat → modelVariable E
  modelResidualsList : Nat → modelResidual E
  dst : Nat → V

/-- Body of the loop "Initialize, read DOFs, and set evaluation flags" of `getRHS`. -/
def rhsReadStep (R : Roster) (S : RHSSetup E V) (src : Nat → V) (cell : Nat)
    (a : Assembly E V) (i : Nat) : Assembly E V :=
  readEval (S.is_scalar_var.getD i false) (S.scalar_or_vector_index.getD i 0) cell
    (VecRef.src (S.field_index.getD i 0)) (src (S.field_index.getD i 0))
    (R.need_value i) (R.need_gradient i) (R.need_hessian i) a

/-- Body of the loop of `getRHS` that fills `modelVarList[i]` at quadrature point `q`. -/
def rhsGatherStep (ops : FEOps E V) (R : Roster) (S : RHSSetup E V) (cell q : Nat)
    (s : RHSState E V) (i : Nat) : RHSState E V :=
  let am := gatherVar ops (S.is_scalar_var.getD i false) (S.scalar_or_vector_index.getD i 0)
    cell q (R.need_value i) (R.need_gradient i) (R.need_hessian i) (s.fe, s.modelVarList i)
  { s with fe := am.1, modelVarList := Function.update s.modelVarList i am.2 }

/-- Body of the loop "Submit values" of `getRHS`. -/
def rhsSubmitStep (R : Roster) (S : RHSSetup E V) (cell q : Nat) (s : RHSState E V)
    (i : Nat) : RHSState E V :=
  { s with
    fe := submitRes (S.is_scalar_var.getD i false) (S.scalar_or_vector_index.getD i 0) cell q
      (R.value_residual i) (R.gradient_residual i) (s.modelResidualsList i) s.fe }

/-- Body of the last loop of `getRHS` over the variables: `integrate` and
`distribute_local_to_global(*dst[field_index[i]])`. -/
def rhsIntegrateStep [Add V] (ops : FEOps E V) (R : Roster) (S : RHSSetup E V)
    (cell : Nat) (s : RHSState E V) (i : Nat) : RHSState E V :=
  let sc := S.is_scalar_var.getD i false
  let k := S.scalar_or_vector_index.getD i 0
  let f := S.field_index.getD i 0
  let a := s.fe.integrate ops sc k cell (R.value_residual i) (R.gradient_residual i)
  { s with
    fe := a.record (FECall.distribute_local_to_global sc (a.ctx sc k).component cell
      (VecRef.dst f))
    dst := Function.update s.dst f (a.distribute_local_to_global sc k (s.dst f)) }

/-- Body of the loop over the quadrature points of `getRHS`: the variables are gathered, the
kernel `residualRHS` is called and the residuals are submitted. -/
def rhsQuad (ops : FEOps E V) (R : Roster) (S : RHSSetup E V)
    (residualRHS : (Nat → modelVariable E) → (Nat → modelResidual E)) (cell : Nat)
    (s : RHSState E V) (q : Nat) : RHSState E V :=
  let s1 := (List.range R.num_var).foldl (rhsGatherStep ops R S cell q) s
  let s2 : RHSState E V :=
    { s1 with
      fe := s1.fe.record (FECall.residual cell q)
      modelResidualsList := residualRHS s1.modelVarList }
  (List.range R.num_var).foldl (rhsSubmitStep R S cell q) s2

/-- The part of the cell loop of `getRHS` after `n_q_points` has been read. -/
def rhsCellRest [Add V] (ops : FEOps E V) (R : Roster) (S : RHSSetup E V)
    (residualRHS : (Nat → modelVariable E) → (Nat → modelResidual E)) (n_q_points cell : Nat)
    (s : RHSState E V) : RHSState E V :=
  (List.range R.num_var).foldl (rhsIntegrateStep ops R S cell)
    ((List.range n_q_points).foldl (rhsQuad ops R S residualRHS cell) s)

/-- Body of the loop over the cells of `getRHS`.  `scalar_vars[0].n_q_points` reads the
first scalar object: with an empty scalar store there is no result. -/
def rhsCell [Add V] (ops : FEOps E V) (R : Roster) (S : RHSSetup E V)
    (residualRHS : (Nat → modelVariable E) → (Nat → modelResidual E)) (src : Nat → V)
    (s : RHSState E V) (cell : Nat) : Option (RHSState E V) :=
  let s1 : RHSState E V :=
    { s with fe := (List.range R.num_var).foldl (rhsReadStep R S src cell) s.fe }
  if s1.fe.n_scalar = 0 then none
  else some (rhsCellRest ops R S residualRHS ops.n_q_points cell s1)

/-- The function `getRHS`.  The kernel `residualRHS` maps the variables at a quadrature point
to the residuals; `mv0` and `res0` are the indeterminate initial contents of `modelVarList`
and `modelResidualsList`. -/
def getRHS [Add V] (ops : FEOps E V) (R : Roster) (dim : Nat) (blank : FEEval E V)
    (residualRHS : (Nat → modelVariable E) → (Nat → modelResidual E))
    (mv0 : Nat → modelVariable E) (res0 : Nat → modelResidual E)
    (dst src : Nat → V) (cell_range : Nat × Nat) : Option (RHSState E V) :=
  (List.range' cell_range.1 (cell_range.2 - cell_range.1)).foldlM
    (rhsCell ops R (rhsSetup R dim blank) residualRHS src)
    { fe := (rhsSetup R dim blank).fe, modelVarList := mv0, modelResidualsList := res0,
      dst := dst }

end AssemblerRHS

section AssemblerLHS

variable {E V : Type}

/-- The first loop of `getLHS`: `resInfo` is the last entry of `varInfoList` whose
`global_field_index` is `currentFieldIndex`; `resInfo0` is the indeterminate initial
content of the local. -/
def selectResInfo (R : Roster) (dim currentFieldIndex : Nat) (resInfo0 : variable_info) :
    variable_info :=
  (List.range (num_var_LHS R)).foldl
    (fun resInfo i =>
      if currentFieldIndex = ((varInfoList R dim).getD i resInfo0).global_field_index then
        (varInfoList R dim).getD i resInfo0
      else resInfo)
    resInfo0

/-- The second loop of `getLHS`, which builds the two stores: the object of entry `i` is
constructed for the component `global_field_index`. -/
def lhsStores (R : Roster) (dim : Nat) (resInfo0 : variable_info) (blank : FEEval E V) :
    Assembly E V :=
  (List.range (num_var_LHS R)).foldl
    (fun a i =>
      a.push_back ((varInfoList R dim).getD i resInfo0).is_scalar
        { blank with component := ((varInfoList R dim).getD i resInfo0).global_field_index })
    (Assembly.empty blank)

/-- What `getLHS` changes while it loops over the cells: the evaluation objects, the locals
`modelVarList` and `modelRes`, and the vector `dst`. -/
structure LHSState (E V : Type) where
  fe : Assembly E V
  modelVarList : Nat → modelVariable E
  modelRes : modelResidual E
  dst : V

/-- Body of the loop "Initialize, read DOFs, and set evaluation flags" of `getLHS`: the
entry whose `global_field_index` is that of `resInfo` reads the trial vector `src`, every
other entry reads `*solutionSet[global_field_index]`. -/
def lhsReadStep (R : Roster) (dim : Nat) (resInfo0 resInfo : variable_info) (src : V)
    (solutionSet : Nat → V) (cell : Nat) (a : Assembly E V) (i : Nat) : Assembly E V :=
  let e := (varInfoList R dim).getD i resInfo0
  if e.global_field_index = resInfo.global_field_index then
    readEval e.is_scalar e.scalar_or_vector_index cell VecRef.trial src
      (R.need_value_LHS e.global_var_index) (R.need_gradient_LHS e.global_var_index)
      (R.need_hessian_LHS e.global_var_index) a
  else
    readEval e.is_scalar e.scalar_or_vector_index cell
      (VecRef.solutionSet e.global_field_index) (solutionSet e.global_field_index)
      (R.need_value_LHS e.global_var_index) (R.need_gradient_LHS e.global_var_index)
      (R.need_hessian_LHS e.global_var_index) a

/-- Body of the loop of `getLHS` that fills `modelVarList[i]` at quadrature point `q`. -/
def lhsGatherStep (ops : FEOps E V) (R : Roster) (dim : Nat) (resInfo0 : variable_info)
    (cell q : Nat) (s : LHSState E V) (i : Nat) : LHSState E V :=
  let e := (varInfoList R dim).getD i resInfo0
  let am := gatherVar ops e.is_scalar e.scalar_or_vector_index cell q
    (R.need_value_LHS e.global_var_index) (R.need_gradient_LHS e.global_var_index)
    (R.need_hessian_LHS e.global_var_index) (s.fe, s.modelVarList i)
  { s with fe := am.1, modelVarList := Function.update s.modelVarList i am.2 }

/-- Body of the loop over the quadrature points of `getLHS`: the variables are gathered, the
kernel `residualLHS` is called and the residual is submitted to the object of `resInfo`
only. -/
def lhsQuad (ops : FEOps E V) (R : Roster) (dim : Nat) (resInfo0 resInfo : variable_info)
    (residualLHS : (Nat → modelVariable E) → modelResidual E) (cell : Nat)
    (s : LHSState E V) (q : Nat) : LHSState E V :=
  let s1 := (List.range (num_var_LHS R)).foldl (lhsGatherStep ops R dim resInfo0 cell q) s
  let modelRes := residualLHS s1.modelVarList
  { s1 with
    fe := submitRes resInfo.is_scalar resInfo.scalar_or_vector_index cell q
      (R.value_residual resInfo.global_var_index)
      (R.gradient_residual resInfo.global_var_index) modelRes
      (s1.fe.record (FECall.residual cell q))
    modelRes := modelRes }

/-- The part of the cell loop of `getLHS` after `num_q_points` has been read: the loop over
the quadrature points, then `integrate` and `distribute_local_to_global(dst)` on the object
of `resInfo`. -/
def lhsCellRest [Add V] (ops : FEOps E V) (R : Roster) (dim : Nat)
    (resInfo0 resInfo : variable_info)
    (residualLHS : (Nat → modelVariable E) → modelResidual E) (num_q_points cell : Nat)
    (s : LHSState E V) : LHSState E V :=
  let s1 := (List.range num_q_points).foldl
    (lhsQuad ops R dim resInfo0 resInfo residualLHS cell) s
  let a := s1.fe.integrate ops resInfo.is_scalar resInfo.scalar_or_vector_index cell
    (R.value_residual resInfo.global_var_index) (R.gradient_residual resInfo.global_var_index)
  { s1 with
    fe := a.record (FECall.distribute_local_to_global resInfo.is_scalar
      (a.ctx resInfo.is_scalar resInfo.scalar_or_vector_index).component cell VecRef.result)
    dst := a.distribute_local_to_global resInfo.is_scalar resInfo.scalar_or_vector_index
      s1.dst }

/-- Body of the loop over the cells of `getLHS`.  `num_q_points` is read from
`scalar_vars[0]` if the scalar store is not empty and from `vector_vars[0]` otherwise: with
both stores empty there is no result. -/
def lhsCell [Add V] (ops : FEOps E V) (R : Roster) (dim : Nat)
    (resInfo0 resInfo : variable_info)
    (residualLHS : (Nat → modelVariable E) → modelResidual E) (src : V)
    (solutionSet : Nat → V) (s : LHSState E V) (cell : Nat) : Option (LHSState E V) :=
  let s1 : LHSState E V :=
    { s with
      fe := (List.range (num_var_LHS R)).foldl
        (lhsReadStep R dim resInfo0 resInfo src solutionSet cell) s.fe }
  if s1.fe.n_scalar > 0 then
    some (lhsCellRest ops R dim resInfo0 resInfo residualLHS ops.n_q_points cell s1)
  else if s1.fe.n_vector > 0 then
    some (lhsCellRest ops R dim resInfo0 resInfo residualLHS ops.n_q_points cell s1)
  else none

/-- The function `getLHS` for the member `currentFieldIndex`.  The kernel `residualLHS` maps
the variables at a quadrature point to the residual; `mv0`, `res0` and `resInfo0` are the
indeterminate initial contents of `modelVarList`, `modelRes` and `resInfo`. -/
def getLHS [Add V] (ops : FEOps E V) (R : Roster) (dim : Nat) (blank : FEEval E V)
    (residualLHS : (Nat → modelVariable E) → modelResidual E)
    (mv0 : Nat → modelVariable E) (res0 : modelResidual E) (resInfo0 : variable_info)
    (solutionSet : Nat → V) (currentFieldIndex : Nat) (dst src : V)
    (cell_range : Nat × Nat) : Option (LHSState E V) :=
  (List.range' cell_range.1 (cell_range.2 - cell_range.1)).foldlM
    (lhsCell ops R dim resInfo0 (selectResInfo R dim currentFieldIndex resInfo0) residualLHS
      src solutionSet)
    { fe := lhsStores R dim resInfo0 blank, modelVarList := mv0, modelRes := res0,
      dst := dst }

end AssemblerLHS

section Solve

/-- One call that `MatrixFreePDE::solve` makes on a collaborator whose code is not part of
`solve.cc`, with the argument of the call where there is one (`distribute` and
`update_ghost_values` are called for the field `fieldIndex`).  The timer and the printing
calls are left out. -/
inductive SolveCall where
  | outputResults
  | computeEnergy
  | outputFreeEnergy
  | adaptiveRefine (currentIncrement : Nat)
  | solveIncrement
  | distribute (fieldIndex : Nat)
  | update_ghost_values (fieldIndex : Nat)
deriving DecidableEq

/-- The members that `solve` reads and does not write: `isTimeDependentBVP`, `writeOutput`,
`skipOutputSteps`, `dtValue`, `finalTime` and `fields.size()`; `calcEnergy` is set when the
symbol `calcEnergy` is defined at compile time and equals `true`. -/
structure SolveConfig (α : Type) where
  isTimeDependentBVP : Bool
  writeOutput : Bool
  calcEnergy : Bool
  skipOutputSteps : Nat
  dtValue : α
  finalTime : α
  n_fields : Nat

/-- The members that `solve` writes, `currentTime`, `currentIncrement` and `totalIncrements`,
and the record of the calls made on the collaborators, which are taken not to write the
three members.  The counters are natural numbers: their declarations are not among the
sources. -/
structure SolveState (α : Type) where
  currentTime : α
  currentIncrement : Nat
  totalIncrements : Nat
  log : List SolveCall

variable {α : Type}

/-- Appends a call to the record. -/
def SolveState.record (s : SolveState α) (c : SolveCall) : SolveState α :=
  { s with log := s.log ++ [c] }

/-- The block `outputResults(); if (calcEnergy == true) { computeEnergy();
outputFreeEnergy(freeEnergyValues); }`. -/
def outputBlock (c : SolveConfig α) (s : SolveState α) : SolveState α :=
  if c.calcEnergy then
    ((s.record SolveCall.outputResults).record SolveCall.computeEnergy).record
      SolveCall.outputFreeEnergy
  else s.record SolveCall.outputResults

/-- The statement `if ((writeOutput) && (currentIncrement%skipOutputSteps==0)) { … }`.  The
remainder is computed only when `writeOutput` holds; with `skipOutputSteps = 0` it has no
value and there is no result. -/
def outputStep (c : SolveConfig α) (s : SolveState α) : Option (SolveState α) :=
  if c.writeOutput then
    if c.skipOutputSteps = 0 then none
    else if s.currentIncrement % c.skipOutputSteps = 0 then some (outputBlock c s)
    else some s
  else some s

/-- The loop over the fields after `solveIncrement()`:
`constraintsSet[fieldIndex]->distribute(…); solutionSet[fieldIndex]->update_ghost_values();`. -/
def ghostFields (c : SolveConfig α) (s : SolveState α) : SolveState α :=
  (List.range c.n_fields).foldl
    (fun s fieldIndex =>
      (s.record (SolveCall.distribute fieldIndex)).record
        (SolveCall.update_ghost_values fieldIndex))
    s

/-- Body of the time-stepping loop up to the test `currentTime>=finalTime`. -/
def timeStepBody [Add α] (c : SolveConfig α) (s : SolveState α) : Option (SolveState α) :=
  let s1 : SolveState α := { s with currentTime := s.currentTime + c.dtValue }
  let s2 := s1.record (SolveCall.adaptiveRefine s1.currentIncrement)
  let s3 := s2.record SolveCall.solveIncrement
  outputStep c (ghostFields c s3)

/-- The loop `for (…; currentIncrement<=totalIncrements; ++currentIncrement) { …
if (currentTime>=finalTime) break; }` from the state `s`, with at most `fuel` evaluations of
the loop test; there is no result when the fuel runs out. -/
def timeLoop [Add α] [LE α] [DecidableRel (fun a b : α => a ≤ b)] (c : SolveConfig α) :
    Nat → SolveState α → Option (SolveState α)
  | 0, _ => none
  | fuel + 1, s =>
    if s.currentIncrement ≤ s.totalIncrements then
      match timeStepBody c s with
      | none => none
      | some s1 =>
        if c.finalTime ≤ s1.currentTime then some s1
        else timeLoop c fuel { s1 with currentIncrement := s1.currentIncrement + 1 }
    else some s

/-- The function `MatrixFreePDE::solve`. -/
def solve [Add α] [LE α] [DecidableRel (fun a b : α => a ≤ b)] (c : SolveConfig α)
    (fuel : Nat) (s : SolveState α) : Option (SolveState α) :=
  if c.isTimeDependentBVP then
    let s0 := if c.writeOutput then outputBlock c s else s
    timeLoop c fuel { s0 with currentIncrement := 1 }
  else
    let s1 : SolveState α := { s with totalIncrements := 1 }
    let s2 := s1.record (SolveCall.adaptiveRefine 0)
    let s3 := s2.record SolveCall.solveIncrement
    outputStep c s3

end Solve

/-! ## Specification-side definitions -/

section SpecSide
variable {α : Type} [LinearOrder α] {dim : Nat}

/-- The candidates of all partitions, each tagged with the rank that proposed it, in rank
order and then local list order. -/
def candidates (locals : List (List (nucleus dim α))) : List (Nat × nucleus dim α) :=
  locals.enum.flatMap (fun pl => pl.2.map (fun n => (pl.1, n)))

/-- Candidate `pa.2` of partition `pa.1` has a rival: a candidate of a different partition
whose centre is at distance at most the minimum separation and whose `seededTime` is not
later. -/
def discarded (dist : Point dim α → Point dim α → α) (minDist : α)
    (locals : List (List (nucleus dim α))) (pa : Nat × nucleus dim α) : Prop :=
  ∃ qb ∈ candidates locals,
    qb.1 ≠ pa.1 ∧ dist pa.2.center qb.2.center ≤ minDist ∧ qb.2.seededTime ≤ pa.2.seededTime

instance (dist : Point dim α → Point dim α → α) (minDist : α)
    (locals : List (List (nucleus dim α))) : DecidablePred (discarded dist minDist locals) :=
  fun _ => List.decidableBEx _ _

/-- Sequential indices `k, k+1, …` in list order; every other attribute is kept. -/
def renumberFrom : Nat → List (nucleus dim α) → List (nucleus dim α)
  | _, [] => []
  | k, n :: l => { n with index := k } :: renumberFrom (k + 1) l

/-- The attributes of a nucleus other than its index. -/
def attrs (n : nucleus dim α) : Point dim α × α × α × α :=
  (n.center, n.radius, n.seededTime, n.seedingTime)

end SpecSide

section FilterHelpers
variable {α : Type} [LinearOrder α] {dim : Nat}

/-- Candidate `b` blocks a nucleus with centre `center1` and seed time `time1`: the test of
the innermost `if` of the filter. -/
def blocks (dist : Point dim α → Point dim α → α) (minDist : α)
    (center1 : Point dim α) (time1 : α) (b : nucleus dim α) : Bool :=
  decide (dist center1 b.center ≤ minDist ∧ time1 ≥ b.seededTime)

/-- Value of `addNuclei` for candidate `a` of partition `p`. -/
def keeps (dist : Point dim α → Point dim α → α) (minDist : α)
    (locals : List (List (nucleus dim α))) (p : Nat) (a : nucleus dim α) : Bool :=
  !(locals.enum.any (fun ql => decide (p ≠ ql.1) &&
      ql.2.any (blocks dist minDist a.center a.seededTime)))

/-- The push at the end of the `i1` loop body. -/
def pushKept (dist : Point dim α → Point dim α → α) (minDist : α)
    (locals : List (List (nucleus dim α))) (acc : List (nucleus dim α))
    (pa : Nat × nucleus dim α) : List (nucleus dim α) :=
  if keeps dist minDist locals pa.1 pa.2 then acc ++ [{ pa.2 with index := acc.length }] else acc

end FilterHelpers

section RegistrySpec

/-- Variable `i` is a scalar: the test `var_type[i] == "SCALAR"`. -/
def Roster.isScalar (R : Roster) (i : Nat) : Bool := decide (R.var_type i = "SCALAR")

/-- Number of slots of the field vector that variable `i` occupies. -/
def Roster.width (R : Roster) (dim : Nat) (i : Nat) : Nat := if R.isScalar i then 1 else dim

/-- Sum of the widths of the variables before `i`: the field-vector offset of variable `i`. -/
def Roster.offset (R : Roster) (dim : Nat) (i : Nat) : Nat :=
  ((List.range i).map (R.width dim)).sum

/-- Number of variables before `i` that take part in the LHS and have the storage kind
`sc` (`true` for scalars). -/
def Roster.countLHS (R : Roster) (sc : Bool) (i : Nat) : Nat :=
  ((List.range i).filter (fun k => R.needLHS k && (R.isScalar k == sc))).length

/-- The registry entry of variable `i` as the claim describes it. -/
def Roster.entry (R : Roster) (dim : Nat) (i : Nat) : variable_info :=
  { global_var_index := i, global_field_index := R.offset dim i, is_scalar := R.isScalar i,
    scalar_or_vector_index := R.countLHS (R.isScalar i) i }

end RegistrySpec

section AssemblerSpec

variable {E V : Type}

/-- Two states of the stores hold objects constructed for the same components and have the
same sizes. -/
def Assembly.sameShape (a b : Assembly E V) : Prop :=
  (∀ sc k, (b.ctx sc k).component = (a.ctx sc k).component) ∧
    b.n_scalar = a.n_scalar ∧ b.n_vector = a.n_vector

/-- Number of variables before `i` of the storage kind `sc` (`true` for scalars). -/
def Roster.countKind (R : Roster) (sc : Bool) (i : Nat) : Nat :=
  ((List.range i).filter (fun j => R.isScalar j == sc)).length

/-- The calls made on one object at the start of a cell. -/
def readTrace (sc : Bool) (component cell : Nat) (ref : VecRef) (value gradient hessian : Bool) :
    List FECall :=
  [FECall.reinit sc component cell, FECall.read_dof_values_plain sc component cell ref,
    FECall.evaluate sc component cell value gradient hessian]

/-- The calls made on one object when its variable is gathered at quadrature point `q`. -/
def gatherTrace (sc : Bool) (component cell q : Nat) (value gradient hessian : Bool) :
    List FECall :=
  (if value then [FECall.get_value sc component cell q] else [])
    ++ (if gradient then [FECall.get_gradient sc component cell q] else [])
    ++ (if hessian then [FECall.get_hessian sc component cell q] else [])

/-- The calls made on one object when a residual is submitted at quadrature point `q`. -/
def submitTrace (sc : Bool) (component cell q : Nat) (value gradient : Bool) : List FECall :=
  (if value then [FECall.submit_value sc component cell q] else [])
    ++ (if gradient then [FECall.submit_gradient sc component cell q] else [])

/-- The calls that `getRHS` is expected to make while it processes one cell. -/
def rhsCellTrace (R : Roster) (dim n_q_points cell : Nat) : List FECall :=
  (List.range R.num_var).flatMap
      (fun i => readTrace (R.isScalar i) i cell (VecRef.src (R.offset dim i))
        (R.need_value i) (R.need_gradient i) (R.need_hessian i))
    ++ (List.range n_q_points).flatMap
      (fun q =>
        (List.range R.num_var).flatMap
            (fun i => gatherTrace (R.isScalar i) i cell q
              (R.need_value i) (R.need_gradient i) (R.need_hessian i))
          ++ [FECall.residual cell q]
          ++ (List.range R.num_var).flatMap
            (fun i => submitTrace (R.isScalar i) i cell q
              (R.value_residual i) (R.gradient_residual i)))
    ++ (List.range R.num_var).flatMap
      (fun i =>
        [FECall.integrate (R.isScalar i) i cell (R.value_residual i) (R.gradient_residual i),
          FECall.distribute_local_to_global (R.isScalar i) i cell
            (VecRef.dst (R.offset dim i))])

/-- The calls that `getLHS` is expected to make while it processes one cell, when `resInfo`
is `r` and the object at the store position of `r` was constructed for component `tc`. -/
def lhsCellTrace (R : Roster) (dim n_q_points : Nat) (r : variable_info) (tc cell : Nat) :
    List FECall :=
  (varInfoList R dim).flatMap
      (fun e => readTrace e.is_scalar e.global_field_index cell
        (if e.global_field_index = r.global_field_index then VecRef.trial
          else VecRef.solutionSet e.global_field_index)
        (R.need_value_LHS e.global_var_index) (R.need_gradient_LHS e.global_var_index)
        (R.need_hessian_LHS e.global_var_index))
    ++ (List.range n_q_points).flatMap
      (fun q =>
        (varInfoList R dim).flatMap
            (fun e => gatherTrace e.is_scalar e.global_field_index cell q
              (R.need_value_LHS e.global_var_index) (R.need_gradient_LHS e.global_var_index)
              (R.need_hessian_LHS e.global_var_index))
          ++ [FECall.residual cell q]
          ++ submitTrace r.is_scalar tc cell q
            (R.value_residual r.global_var_index) (R.gradient_residual r.global_var_index))
    ++ [FECall.integrate r.is_scalar tc cell
          (R.value_residual r.global_var_index) (R.gradient_residual r.global_var_index),
        FECall.distribute_local_to_global r.is_scalar tc cell VecRef.result]

/-- Two residual lists agree on every residual that its field declares: the value residual
of field `i` (of the storage kind of the field) if `value_residual[i]` is set, the gradient
residual if `gradient_residual[i]` is set. -/
def declaredAgree (R : Roster) (r1 r2 : Nat → modelResidual E) : Prop :=
  ∀ i, i < R.num_var →
    (R.value_residual i = true →
      (r1 i).valueResidual (R.isScalar i) = (r2 i).valueResidual (R.isScalar i)) ∧
    (R.gradient_residual i = true →
      (r1 i).gradResidual (R.isScalar i) = (r2 i).gradResidual (R.isScalar i))

end AssemblerSpec

section LinearitySpec

variable {α E V : Type} [Ring α] [AddCommGroup E] [Module α E] [AddCommGroup V] [Module α V]

/-- One component of an input of the kernel in three runs of `getLHS`, for the trial vectors
`a*x1 + b*x2`, `x1` and `x2`: a component filled from the target field (`flag` set) is,
once filled, the same combination of the components of the other two runs; every other
component is the same in the three runs. -/
def compRel (a b : α) (flag filled : Bool) (x x1 x2 : E) : Prop :=
  if flag then (filled = true → x = a • x1 + b • x2) else (x = x1 ∧ x = x2)

/-- The `modelVariable` of the target field in the three runs: the components of its storage
kind `sc` that its flags ask for are related by `compRel`, the others are equal. -/
def varRel (a b : α) (sc value gradient hessian filled : Bool) (m m1 m2 : modelVariable E) :
    Prop :=
  compRel a b (sc && value) filled m.scalarValue m1.scalarValue m2.scalarValue ∧
  compRel a b (sc && gradient) filled m.scalarGrad m1.scalarGrad m2.scalarGrad ∧
  compRel a b (sc && hessian) filled m.scalarHess m1.scalarHess m2.scalarHess ∧
  compRel a b (!sc && value) filled m.vectorValue m1.vectorValue m2.vectorValue ∧
  compRel a b (!sc && gradient) filled m.vectorGrad m1.vectorGrad m2.vectorGrad ∧
  compRel a b (!sc && hessian) filled m.vectorHess m1.vectorHess m2.vectorHess

/-- The kernel `K` is linear in the inputs of the target field, the other inputs being held
fixed: if three input lists agree outside entry `j`, and at entry `j` the components that
the flags ask for are combined with the coefficients `a` and `b`, then the declared
residuals of the storage kind `sc` are combined in the same way. -/
def kernelLinearIn (a b : α) (K : (Nat → modelVariable E) → modelResidual E) (j : Nat)
    (sc value gradient hessian value_residual gradient_residual : Bool) : Prop :=
  ∀ m m1 m2 : Nat → modelVariable E,
    (∀ i, i ≠ j → m i = m1 i ∧ m i = m2 i) →
    varRel a b sc value gradient hessian true (m j) (m1 j) (m2 j) →
    (value_residual = true →
      (K m).valueResidual sc = a • (K m1).valueResidual sc + b • (K m2).valueResidual sc) ∧
    (gradient_residual = true →
      (K m).gradResidual sc = a • (K m1).gradResidual sc + b • (K m2).gradResidual sc)

/-- The finite-element operations on the object of kind `sc` and component `c` are linear:
values, gradients and hessians in the degree-of-freedom values, and the result of
`integrate` in the values held before together with the quantities that were submitted at
the quadrature points and that the flags ask for. -/
def opsLinearAt (a b : α) (ops : FEOps E V) (sc : Bool) (c : Nat) : Prop :=
  (∀ cell q x y, ops.get_value sc c cell q (a • x + b • y)
      = a • ops.get_value sc c cell q x + b • ops.get_value sc c cell q y) ∧
  (∀ cell q x y, ops.get_gradient sc c cell q (a • x + b • y)
      = a • ops.get_gradient sc c cell q x + b • ops.get_gradient sc c cell q y) ∧
  (∀ cell q x y, ops.get_hessian sc c cell q (a • x + b • y)
      = a • ops.get_hessian sc c cell q x + b • ops.get_hessian sc c cell q y) ∧
  (∀ cell value gradient x x1 x2 v v1 v2 g g1 g2, x = a • x1 + b • x2 →
    (value = true → ∀ q, q < ops.n_q_points → v q = a • v1 q + b • v2 q) →
    (gradient = true → ∀ q, q < ops.n_q_points → g q = a • g1 q + b • g2 q) →
    ops.integrate sc c cell value gradient x v g
      = a • ops.integrate sc c cell value gradient x1 v1 g1
        + b • ops.integrate sc c cell value gradient x2 v2 g2)

/-- The object of the target field in the three runs, once it has read its
degree-of-freedom values: same component and cell, the values combined with `a` and `b`,
and so are the values (if `vr`) and gradients (if `gr`) submitted at the first `n`
quadrature points. -/
def ctxRel (a b : α) (vr gr : Bool) (n : Nat) (T T1 T2 : FEEval E V) : Prop :=
  T.component = T1.component ∧ T.component = T2.component ∧
  T.cell = T1.cell ∧ T.cell = T2.cell ∧
  T.values_dofs = a • T1.values_dofs + b • T2.values_dofs ∧
  (vr = true → ∀ q, q < n → T.values_quad q = a • T1.values_quad q + b • T2.values_quad q) ∧
  (gr = true → ∀ q, q < n →
    T.gradients_quad q = a • T1.gradients_quad q + b • T2.gradients_quad q)

/-- The stores in the three runs between two steps: every object other than that of the
target entry `r` is the same, and the object of `r` is, in each run, the one constructed for
the component `global_field_index` of `r`. -/
def storesRel (r : variable_info) (A A1 A2 : Assembly E V) : Prop :=
  (∀ sc k, ¬ (sc = r.is_scalar ∧ k = r.scalar_or_vector_index) →
    A.ctx sc k = A1.ctx sc k ∧ A.ctx sc k = A2.ctx sc k) ∧
  (A.ctx r.is_scalar r.scalar_or_vector_index).component = r.global_field_index ∧
  (A1.ctx r.is_scalar r.scalar_or_vector_index).component = r.global_field_index ∧
  (A2.ctx r.is_scalar r.scalar_or_vector_index).component = r.global_field_index

/-- The list `modelVarList` in the three runs: the entries other than `j` are the same, and
entry `j` is related by `varRel`. -/
def varsRel (a b : α) (j : Nat) (sc value gradient hessian filled : Bool)
    (m m1 m2 : Nat → modelVariable E) : Prop :=
  (∀ i, i ≠ j → m i = m1 i ∧ m i = m2 i) ∧
    varRel a b sc value gradient hessian filled (m j) (m1 j) (m2 j)

/-- The states of three runs of `getLHS` with target entry `r` (entry `j` of `varInfoList`),
for the trial vectors `a*x1 + b*x2`, `x1` and `x2`, inside a cell after the objects have
read their values and the residuals of the first `n` quadrature points have been submitted:
what the first run has added to `dst` is the combination of what the other two have added. -/
def lhsRel (a b : α) (R : Roster) (r : variable_info) (j : Nat) (d0 : V) (n : Nat)
    (filled : Bool) (s s1 s2 : LHSState E V) : Prop :=
  storesRel r s.fe s1.fe s2.fe ∧
  ctxRel a b (R.value_residual r.global_var_index) (R.gradient_residual r.global_var_index) n
    (s.fe.ctx r.is_scalar r.scalar_or_vector_index)
    (s1.fe.ctx r.is_scalar r.scalar_or_vector_index)
    (s2.fe.ctx r.is_scalar r.scalar_or_vector_index) ∧
  varsRel a b j r.is_scalar (R.need_value_LHS r.global_var_index)
    (R.need_gradient_LHS r.global_var_index) (R.need_hessian_LHS r.global_var_index) filled
    s.modelVarList s1.modelVarList s2.modelVarList ∧
  s.dst - d0 = a • (s1.dst - d0) + b • (s2.dst - d0)

/-- The states of the three runs between two cells. -/
def cellRel (a b : α) (R : Roster) (r : variable_info) (j : Nat) (d0 : V)
    (s s1 s2 : LHSState E V) : Prop :=
  storesRel r s.fe s1.fe s2.fe ∧
  varsRel a b j r.is_scalar (R.need_value_LHS r.global_var_index)
    (R.need_gradient_LHS r.global_var_index) (R.need_hessian_LHS r.global_var_index) false
    s.modelVarList s1.modelVarList s2.modelVarList ∧
  s.dst - d0 = a • (s1.dst - d0) + b • (s2.dst - d0)

end LinearitySpec

section SplitSpec
variable {α : Type} [LinearOrder α] {dim : Nat}

/-- Candidate `y` rivals candidate `x` (both given by their attributes): its centre is at
distance at most the minimum separation from that of `x` and its `seededTime` is not
later. -/
def rival (dist : Point dim α → Point dim α → α) (minDist : α)
    (x y : Point dim α × α × α × α) : Bool :=
  decide (dist x.1 y.1 ≤ minDist ∧ y.2.2.1 ≤ x.2.2.1)

/-- Candidate `x` of the list `cs` has no rival among the other candidates of the list: the
rivals of `x` in `cs` are at most `x` itself, which is counted once when it rivals
itself. -/
def unrivalled (dist : Point dim α → Point dim α → α) (minDist : α)
    (cs : List (Point dim α × α × α × α)) (x : Point dim α × α × α × α) : Bool :=
  decide (cs.countP (rival dist minDist x) ≤ (if rival dist minDist x x then 1 else 0))

end SplitSpec

section AssemblerValues
variable {E V : Type}

/-- The `modelVariable` `m` after the block that fills it at a quadrature point: the value
is replaced by `x` if `vf` is set, the gradient by `y` if `gf` is set, the hessian by `z` if
`hf` is set (the members of the storage kind `sc`); every other member is kept. -/
def modelVariable.fill (sc vf gf hf : Bool) (x y z : E) (m : modelVariable E) :
    modelVariable E :=
  (fun m3 : modelVariable E => if hf then m3.setHess sc z else m3)
    ((fun m2 : modelVariable E => if gf then m2.setGrad sc y else m2)
      (if vf then m.setValue sc x else m))

/-- What `getRHS` hands to the kernel at quadrature point `q` of `cell`: for every variable
`i` the members that its need flags request are evaluated, by the object constructed for
component `i`, from the vector `*src[field_index[i]]`; every other member is what
`modelVarList` held at the start (`mv0`). -/
def rhsVars (ops : FEOps E V) (R : Roster) (dim : Nat) (src : Nat → V)
    (mv0 : Nat → modelVariable E) (cell q : Nat) : Nat → modelVariable E :=
  fun i =>
    if i < R.num_var then
      (mv0 i).fill (R.isScalar i) (R.need_value i) (R.need_gradient i) (R.need_hessian i)
        (ops.get_value (R.isScalar i) i cell q (src (R.offset dim i)))
        (ops.get_gradient (R.isScalar i) i cell q (src (R.offset dim i)))
        (ops.get_hessian (R.isScalar i) i cell q (src (R.offset dim i)))
    else mv0 i

/-- The values that the object of variable `i` holds at the quadrature points when `getRHS`
integrates on `cell`: the value residual of field `i` returned by the kernel at the points
of the cell if `value_residual[i]` is set, and the content of a newly constructed object
everywhere else. -/
def rhsValues (ops : FEOps E V) (R : Roster) (dim : Nat) (blank : FEEval E V)
    (K : (Nat → modelVariable E) → (Nat → modelResidual E)) (src : Nat → V)
    (mv0 : Nat → modelVariable E) (cell i : Nat) : Nat → E :=
  fun q =>
    if R.value_residual i = true ∧ q < ops.n_q_points then
      ((K (rhsVars ops R dim src mv0 cell q)) i).valueResidual (R.isScalar i)
    else blank.values_quad q

/-- The gradients that the object of variable `i` holds at the quadrature points when
`getRHS` integrates on `cell`. -/
def rhsGrads (ops : FEOps E V) (R : Roster) (dim : Nat) (blank : FEEval E V)
    (K : (Nat → modelVariable E) → (Nat → modelResidual E)) (src : Nat → V)
    (mv0 : Nat → modelVariable E) (cell i : Nat) : Nat → E :=
  fun q =>
    if R.gradient_residual i = true ∧ q < ops.n_q_points then
      ((K (rhsVars ops R dim src mv0 cell q)) i).gradResidual (R.isScalar i)
    else blank.gradients_quad q

/-- The values that the object of variable `i` holds after `integrate` on `cell`. -/
def rhsDofs (ops : FEOps E V) (R : Roster) (dim : Nat) (blank : FEEval E V)
    (K : (Nat → modelVariable E) → (Nat → modelResidual E)) (src : Nat → V)
    (mv0 : Nat → modelVariable E) (cell i : Nat) : V :=
  ops.integrate (R.isScalar i) i cell (R.value_residual i) (R.gradient_residual i)
    (src (R.offset dim i)) (rhsValues ops R dim blank K src mv0 cell i)
    (rhsGrads ops R dim blank K src mv0 cell i)

/-- The destination vectors after the contributions of `cell` have been added, variable by
variable, to `*dst[field_index[i]]`. -/
def rhsScatter [Add V] (ops : FEOps E V) (R : Roster) (dim : Nat) (blank : FEEval E V)
    (K : (Nat → modelVariable E) → (Nat → modelResidual E)) (src : Nat → V)
    (mv0 : Nat → modelVariable E) (dst : Nat → V) (cell : Nat) : Nat → V :=
  (List.range R.num_var).foldl
    (fun d i => Function.update d (R.offset dim i)
      (d (R.offset dim i) + rhsDofs ops R dim blank K src mv0 cell i))
    dst

end AssemblerValues

section AssemblerInvariants
variable {E V : Type}

/-- The list `mv` agrees with `mv0` on every member that the block filling a variable of
`getRHS` does not write. -/
def rhsKeeps (R : Roster) (mv0 mv : Nat → modelVariable E) : Prop :=
  ∀ i, (i < R.num_var → ∀ x y z : E,
      (mv i).fill (R.isScalar i) (R.need_value i) (R.need_gradient i) (R.need_hessian i) x y z
        = (mv0 i).fill (R.isScalar i) (R.need_value i) (R.need_gradient i) (R.need_hessian i)
            x y z) ∧
    (¬ i < R.num_var → mv i = mv0 i)

/-- Between two cells of `getRHS`: the objects are those of the setup up to their content,
an object holds the content of a new object at every quadrature slot that the submissions
of its variable never write, and `modelVarList` keeps the members that are never filled. -/
def rhsCellInv (ops : FEOps E V) (R : Roster) (dim : Nat) (blank : FEEval E V)
    (mv0 : Nat → modelVariable E) (t : RHSState E V) : Prop :=
  (rhsSetup R dim blank).fe.sameShape t.fe ∧
  (∀ i, i < R.num_var → ∀ q,
    (¬ (R.value_residual i = true ∧ q < ops.n_q_points) →
      (t.fe.ctx (R.isScalar i) (R.countKind (R.isScalar i) i)).values_quad q
        = blank.values_quad q) ∧
    (¬ (R.gradient_residual i = true ∧ q < ops.n_q_points) →
      (t.fe.ctx (R.isScalar i) (R.countKind (R.isScalar i) i)).gradients_quad q
        = blank.gradients_quad q)) ∧
  rhsKeeps R mv0 t.modelVarList

/-- The object of variable `i` of `getRHS` after `cell` has been processed. -/
def rhsObjAfter (ops : FEOps E V) (R : Roster) (dim : Nat) (blank : FEEval E V)
    (K : (Nat → modelVariable E) → (Nat → modelResidual E)) (src : Nat → V)
    (mv0 : Nat → modelVariable E) (cell i : Nat) (o : FEEval E V) : Prop :=
  o.component = i ∧ o.cell = cell ∧
  o.values_dofs = rhsDofs ops R dim blank K src mv0 cell i ∧
  o.values_quad = rhsValues ops R dim blank K src mv0 cell i ∧
  o.gradients_quad = rhsGrads ops R dim blank K src mv0 cell i

end AssemblerInvariants

section AssemblerValuesLHS
variable {E V : Type}

/-- What `getLHS` hands to the kernel at quadrature point `q` of `cell` when `resInfo` is
`r`: for every entry `varInfoList[j]` the members that its LHS need flags request are
evaluated, by the object constructed for component `global_field_index`, from the trial
vector `src` if the entry has the `global_field_index` of `r`, and from
`*solutionSet[global_field_index]` otherwise; every other member is what `modelVarList`
held at the start (`mv0`). -/
def lhsVars (ops : FEOps E V) (R : Roster) (dim : Nat) (d r : variable_info) (src : V)
    (solutionSet : Nat → V) (mv0 : Nat → modelVariable E) (cell q : Nat) :
    Nat → modelVariable E :=
  fun j =>
    if j < num_var_LHS R then
      (mv0 j).fill ((varInfoList R dim).getD j d).is_scalar
        (R.need_value_LHS ((varInfoList R dim).getD j d).global_var_index)
        (R.need_gradient_LHS ((varInfoList R dim).getD j d).global_var_index)
        (R.need_hessian_LHS ((varInfoList R dim).getD j d).global_var_index)
        (ops.get_value ((varInfoList R dim).getD j d).is_scalar
          ((varInfoList R dim).getD j d).global_field_index cell q
          (if ((varInfoList R dim).getD j d).global_field_index = r.global_field_index
            then src else solutionSet ((varInfoList R dim).getD j d).global_field_index))
        (ops.get_gradient ((varInfoList R dim).getD j d).is_scalar
          ((varInfoList R dim).getD j d).global_field_index cell q
          (if ((varInfoList R dim).getD j d).global_field_index = r.global_field_index
            then src else solutionSet ((varInfoList R dim).getD j d).global_field_index))
        (ops.get_hessian ((varInfoList R dim).getD j d).is_scalar
          ((varInfoList R dim).getD j d).global_field_index cell q
          (if ((varInfoList R dim).getD j d).global_field_index = r.global_field_index
            then src else solutionSet ((varInfoList R dim).getD j d).global_field_index))
    else mv0 j

/-- The values that the object of `r` holds at the quadrature points when `getLHS`
integrates on `cell`: the value residual returned by the kernel at the points of the cell
if `value_residual` is set for `r`, and the content of a newly constructed object
everywhere else. -/
def lhsValues (ops : FEOps E V) (R : Roster) (dim : Nat) (blank : FEEval E V)
    (K : (Nat → modelVariable E) → modelResidual E) (d r : variable_info) (src : V)
    (solutionSet : Nat → V) (mv0 : Nat → modelVariable E) (cell : Nat) : Nat → E :=
  fun q =>
    if R.value_residual r.global_var_index = true ∧ q < ops.n_q_points then
      (K (lhsVars ops R dim d r src solutionSet mv0 cell q)).valueResidual r.is_scalar
    else blank.values_quad q

/-- The gradients that the object of `r` holds at the quadrature points when `getLHS`
integrates on `cell`. -/
def lhsGrads (ops : FEOps E V) (R : Roster) (dim : Nat) (blank : FEEval E V)
    (K : (Nat → modelVariable E) → modelResidual E) (d r : variable_info) (src : V)
    (solutionSet : Nat → V) (mv0 : Nat → modelVariable E) (cell : Nat) : Nat → E :=
  fun q =>
    if R.gradient_residual r.global_var_index = true ∧ q < ops.n_q_points then
      (K (lhsVars ops R dim d r src solutionSet mv0 cell q)).gradResidual r.is_scalar
    else blank.gradients_quad q

/-- The values that the object of `r` holds after `integrate` on `cell`, which `getLHS`
adds to `dst`. -/
def lhsDofs (ops : FEOps E V) (R : Roster) (dim : Nat) (blank : FEEval E V)
    (K : (Nat → modelVariable E) → modelResidual E) (d r : variable_info) (src : V)
    (solutionSet : Nat → V) (mv0 : Nat → modelVariable E) (cell : Nat) : V :=
  ops.integrate r.is_scalar r.global_field_index cell
    (R.value_residual r.global_var_index) (R.gradient_residual r.global_var_index) src
    (lhsValues ops R dim blank K d r src solutionSet mv0 cell)
    (lhsGrads ops R dim blank K d r src solutionSet mv0 cell)

/-- The list `mv` agrees with `mv0` on every member that the block filling an entry of
`getLHS` does not write. -/
def lhsKeeps (R : Roster) (dim : Nat) (d : variable_info) (mv0 mv : Nat → modelVariable E) :
    Prop :=
  ∀ j, (j < num_var_LHS R → ∀ x y z : E,
      (mv j).fill ((varInfoList R dim).getD j d).is_scalar
          (R.need_value_LHS ((varInfoList R dim).getD j d).global_var_index)
          (R.need_gradient_LHS ((varInfoList R dim).getD j d).global_var_index)
          (R.need_hessian_LHS ((varInfoList R dim).getD j d).global_var_index) x y z
        = (mv0 j).fill ((varInfoList R dim).getD j d).is_scalar
          (R.need_value_LHS ((varInfoList R dim).getD j d).global_var_index)
          (R.need_gradient_LHS ((varInfoList R dim).getD j d).global_var_index)
          (R.need_hessian_LHS ((varInfoList R dim).getD j d).global_var_index) x y z) ∧
    (¬ j < num_var_LHS R → mv j = mv0 j)

/-- Between two cells of `getLHS` with `resInfo = r`: the objects are those of the setup up
to their content, the object of `r` holds the content of a new object at every quadrature
slot that its submissions never write, the object of every other entry holds it at every
slot, and `modelVarList` keeps the members that are never filled. -/
def lhsCellInv (ops : FEOps E V) (R : Roster) (dim : Nat) (blank : FEEval E V)
    (d r : variable_info) (mv0 : Nat → modelVariable E) (t : LHSState E V) : Prop :=
  (lhsStores R dim d blank).sameShape t.fe ∧
  (∀ q,
    (¬ (R.value_residual r.global_var_index = true ∧ q < ops.n_q_points) →
      (t.fe.ctx r.is_scalar r.scalar_or_vector_index).values_quad q = blank.values_quad q) ∧
    (¬ (R.gradient_residual r.global_var_index = true ∧ q < ops.n_q_points) →
      (t.fe.ctx r.is_scalar r.scalar_or_vector_index).gradients_quad q
        = blank.gradients_quad q)) ∧
  (∀ e ∈ varInfoList R dim, e ≠ r →
    (t.fe.ctx e.is_scalar e.scalar_or_vector_index).values_quad = blank.values_quad ∧
    (t.fe.ctx e.is_scalar e.scalar_or_vector_index).gradients_quad
      = blank.gradients_quad) ∧
  lhsKeeps R dim d mv0 t.modelVarList

/-- The objects of `getLHS` after `cell` has been processed with `resInfo = r`: the object
of `r` holds the submitted residuals and their integral, the object of every other entry
holds the stored solution of its field and has received nothing. -/
def lhsObjAfter (ops : FEOps E V) (R : Roster) (dim : Nat) (blank : FEEval E V)
    (K : (Nat → modelVariable E) → modelResidual E) (d r : variable_info) (src : V)
    (solutionSet : Nat → V) (mv0 : Nat → modelVariable E) (cell : Nat)
    (a : Assembly E V) : Prop :=
  ((a.ctx r.is_scalar r.scalar_or_vector_index).component = r.global_field_index ∧
    (a.ctx r.is_scalar r.scalar_or_vector_index).cell = cell ∧
    (a.ctx r.is_scalar r.scalar_or_vector_index).values_dofs
      = lhsDofs ops R dim blank K d r src solutionSet mv0 cell ∧
    (a.ctx r.is_scalar r.scalar_or_vector_index).values_quad
      = lhsValues ops R dim blank K d r src solutionSet mv0 cell ∧
    (a.ctx r.is_scalar r.scalar_or_vector_index).gradients_quad
      = lhsGrads ops R dim blank K d r src solutionSet mv0 cell) ∧
  ∀ e ∈ varInfoList R dim, e ≠ r →
    (a.ctx e.is_scalar e.scalar_or_vector_index).component = e.global_field_index ∧
    (a.ctx e.is_scalar e.scalar_or_vector_index).cell = cell ∧
    (a.ctx e.is_scalar e.scalar_or_vector_index).values_dofs
      = solutionSet e.global_field_index ∧
    (a.ctx e.is_scalar e.scalar_or_vector_index).values_quad = blank.values_quad ∧
    (a.ctx e.is_scalar e.scalar_or_vector_index).gradients_quad = blank.gradients_quad

end AssemblerValuesLHS

/-! ## Concrete inputs used by the witnesses and counterexamples -/

section Concrete
variable (α : Type) [LinearOrderedField α]

/-- Distance on the line: `Point<1>::distance` in exact arithmetic. -/
def dist1 (p q : Point 1 α) : α := |p 0 - q 0|

/-- A nucleus on the line with centre `x` and seed time `s` (radius 1, seeding time 5). -/
def nuc1 (x s : α) : nucleus 1 α :=
  { index := 0, center := fun _ => x, radius := 1, seededTime := s, seedingTime := 5 }

/-- Sample constants: a 100 × 100 domain, one subdivision, no refinement, unit time step. -/
def exParams : Parameters α :=
  { spanX := 100, spanY := 100, subdivisionsX := 1, refineFactor := 0, timeStep := 1,
    timeIncrements := 10, skipOutputSteps := 0, c_matrix := 1 / 1000000 }

/-- A partition of the mechanics model that owns one mesh point, at `x`, with composition 1,
no order parameter, every `rand()` equal to 0 and no nucleus from earlier steps. -/
def exPartMech (x : α) : PartitionMech 1 α :=
  { support_points := [(0, fun _ => x)], owned := fun _ => true,
    n1 := fun _ => 0, n2 := fun _ => 0, n3 := fun _ => 0, c := fun _ => 1,
    rand := fun _ => 0, randCalls := 0, localNuclei := [] }

/-- A partition of the two-field application that owns one mesh point, at `x`. -/
def exPartApp (x : α) : PartitionApp 1 α :=
  { support_points := [(0, fun _ => x)], owned := fun _ => true,
    n := fun _ => 0, c := fun _ => 1,
    rand := fun _ => 0, randCalls := 0, localNuclei := [] }

/-- The nucleus that the detector of the mechanics model proposes at the point 0 at time 0
with `exParams`: radius `2.5`, `seededTime = 0`, `seedingTime = 10000*timeStep`. -/
def exNucMech : nucleus 1 α :=
  { index := 0, center := fun _ => 0, radius := 5 / 2, seededTime := 0, seedingTime := 10000 }

/-- The canonical nucleus that the two-field application obtains from `exPartApp 0` at
time 1: radius `spanX/50 = 2`, `seededTime = 0`, `seedingTime = 1 + 30*timeStep = 31`. -/
def exNucApp : nucleus 1 α :=
  { index := 0, center := fun _ => 0, radius := 2, seededTime := 0, seedingTime := 31 }

end Concrete

section ConcreteEnergy
variable (α : Type) [LinearOrderedField α]

/-- A quadrature point with composition `1e-12` in every lane and non-zero densities. -/
def exEnergyPoint : EnergyPoint α :=
  { c := fun _ => 1 / 1000000000000, f_chem := fun _ => 1, f_grad := fun _ => 2,
    f_el := fun _ => 3, JxW := fun _ => 1 }

end ConcreteEnergy

/-- A roster of four variables: scalar, vector, scalar, vector; the second takes no part in
the LHS. -/
def exRoster : Roster :=
  { num_var := 4,
    var_type := fun i => if i = 0 ∨ i = 2 then "SCALAR" else "VECTOR",
    need_value := fun _ => true,
    need_gradient := fun i => decide (i = 0),
    need_hessian := fun _ => false,
    value_residual := fun _ => true,
    gradient_residual := fun i => decide (i = 3),
    need_value_LHS := fun i => decide (i ≠ 1),
    need_gradient_LHS := fun i => decide (i = 3),
    need_hessian_LHS := fun _ => false }

section ConcreteAssembler
variable (α : Type) [Ring α]

/-- A one-dof discretisation with one quadrature point per cell, quantities and vectors
being numbers: the value at the quadrature point is the dof value, the gradient twice and
the hessian three times the dof value; `integrate` gives the submitted value, if asked for,
plus the submitted gradient, if asked for. -/
def exOps : FEOps α α :=
  { n_q_points := 1
    get_value := fun _ _ _ _ v => v
    get_gradient := fun _ _ _ _ v => 2 * v
    get_hessian := fun _ _ _ _ v => 3 * v
    integrate := fun _ _ _ value gradient _ vals grads =>
      (if value then vals 0 else 0) + (if gradient then grads 0 else 0) }

/-- A newly constructed evaluation object with zero content. -/
def exBlank : FEEval α α :=
  { component := 0, cell := 0, values_dofs := 0, values_quad := fun _ => 0,
    gradients_quad := fun _ => 0 }

/-- A `modelVariable` with zero content. -/
def exVar : modelVariable α :=
  { scalarValue := 0, scalarGrad := 0, scalarHess := 0, vectorValue := 0, vectorGrad := 0,
    vectorHess := 0 }

/-- A `modelResidual` with zero content. -/
def exRes : modelResidual α :=
  { scalarValueResidual := 0, scalarGradResidual := 0, vectorValueResidual := 0,
    vectorGradResidual := 0 }

/-- An LHS kernel that is linear in its inputs: every residual is the sum of the scalar
values of the first two variables handed to it. -/
def exKernelLHS (m : Nat → modelVariable α) : modelResidual α :=
  { scalarValueResidual := (m 0).scalarValue + (m 1).scalarValue
    scalarGradResidual := (m 0).scalarValue + (m 1).scalarValue
    vectorValueResidual := (m 0).scalarValue + (m 1).scalarValue
    vectorGradResidual := (m 0).scalarValue + (m 1).scalarValue }

/-- An LHS kernel that is linear in the inputs of the first variable handed to it, the
inputs of the second being held fixed: every residual is the product of the scalar values of
the two. -/
def exKernelLHSProd (m : Nat → modelVariable α) : modelResidual α :=
  { scalarValueResidual := (m 0).scalarValue * (m 1).scalarValue
    scalarGradResidual := (m 0).scalarValue * (m 1).scalarValue
    vectorValueResidual := (m 0).scalarValue * (m 1).scalarValue
    vectorGradResidual := (m 0).scalarValue * (m 1).scalarValue }

/-- An RHS kernel that returns what `exKernelRHS` returns for the residuals that the roster
`exRoster` declares, and 7 for every other residual. -/
def exKernelRHSNoise (m : Nat → modelVariable α) (i : Nat) : modelResidual α :=
  { scalarValueResidual := if i = 0 ∨ i = 2 then (m i).scalarValue else 7
    scalarGradResidual := 7
    vectorValueResidual := if i = 0 ∨ i = 2 then 7 else (m i).vectorValue
    vectorGradResidual := if i = 3 then (m i).vectorGrad else 7 }

/-- An RHS kernel: the value residual of every variable is its value, its gradient residual
is its gradient. -/
def exKernelRHS (m : Nat → modelVariable α) (i : Nat) : modelResidual α :=
  { scalarValueResidual := (m i).scalarValue
    scalarGradResidual := (m i).scalarGrad
    vectorValueResidual := (m i).vectorValue
    vectorGradResidual := (m i).vectorGrad }

end ConcreteAssembler

section ConcreteSolve
variable (α : Type) [LinearOrderedField α]

/-- A time-dependent problem with one field, unit time step and final time 5/2, with output
every second increment and no energy output. -/
def exSolveConfig : SolveConfig α :=
  { isTimeDependentBVP := true, writeOutput := true, calcEnergy := false,
    skipOutputSteps := 2, dtValue := 1, finalTime := 5 / 2, n_fields := 1 }

/-- The members before `solve`: time `t0`, five increments allowed and no call made yet. -/
def exSolveState (t0 : α) : SolveState α :=
  { currentTime := t0, currentIncrement := 0, totalIncrements := 5, log := [] }

end ConcreteSolve

/-! ## Lemmas -/

section PackLemmas
variable {α : Type} {dim : Nat}

theorem length_packOne (n : nucleus dim α) : (packOne dim n).length = dim + 3 := by
  simp [packOne]

theorem packNuclei_cons (n : nucleus dim α) (l : List (nucleus dim α)) :
    packNuclei dim (n :: l) = packOne dim n ++ packNuclei dim l := by
  simp [packNuclei]

variable [Zero α]

theorem rd_packNuclei (l : List (nucleus dim α)) (i k : Nat) (hi : i < l.length)
    (hk : k < dim + 3) :
    rd (packNuclei dim l) (i * (dim + 3) + k) = rd (packOne dim l[i]) k := by
  induction l generalizing i with
  | nil => simp at hi
  | cons n l ih =>
    rw [packNuclei_cons]
    cases i with
    | zero =>
      simp only [rd, Nat.zero_mul, Nat.zero_add, List.getElem_cons_zero]
      exact List.getD_append _ _ _ _ (by rw [length_packOne]; exact hk)
    | succ i =>
      have hi2 : i < l.length := by simpa using hi
      simp only [rd, List.getElem_cons_succ]
      rw [List.getD_append_right _ _ _ _ (by rw [length_packOne]; nlinarith)]
      have : (i + 1) * (dim + 3) + k - (packOne dim n).length = i * (dim + 3) + k := by
        rw [length_packOne, Nat.succ_mul]; omega
      rw [this]
      exact ih i hi2

theorem rd_packOne_zero (n : nucleus dim α) : rd (packOne dim n) 0 = n.radius := rfl
theorem rd_packOne_one (n : nucleus dim α) : rd (packOne dim n) 1 = n.seededTime := rfl
theorem rd_packOne_two (n : nucleus dim α) : rd (packOne dim n) 2 = n.seedingTime := rfl

theorem rd_packOne_center (n : nucleus dim α) (j : Fin dim) :
    rd (packOne dim n) (3 + j.val) = n.center j := by
  have h : 3 + j.val = j.val + 3 := by omega
  simp only [rd, packOne, h, List.getD_cons_succ]
  rw [List.getD_eq_getElem _ _ (by simp)]
  simp

theorem rd_radius (l : List (nucleus dim α)) (i : Nat) (hi : i < l.length) :
    rd (packNuclei dim l) (i * (dim + 3)) = l[i].radius := by
  have := rd_packNuclei l i 0 hi (by omega)
  simpa [rd_packOne_zero] using this

theorem rd_seededTime (l : List (nucleus dim α)) (i : Nat) (hi : i < l.length) :
    rd (packNuclei dim l) (i * (dim + 3) + 1) = l[i].seededTime := by
  rw [rd_packNuclei l i 1 hi (by omega), rd_packOne_one]

theorem rd_seedingTime (l : List (nucleus dim α)) (i : Nat) (hi : i < l.length) :
    rd (packNuclei dim l) (i * (dim + 3) + 2) = l[i].seedingTime := by
  rw [rd_packNuclei l i 2 hi (by omega), rd_packOne_two]

theorem readCenter_packNuclei (l : List (nucleus dim α)) (i : Nat) (hi : i < l.length) :
    readCenter dim (packNuclei dim l) i = l[i].center := by
  funext j
  simp only [readCenter]
  rw [Nat.add_assoc, rd_packNuclei l i (3 + j.val) hi (by omega), rd_packOne_center]

end PackLemmas

section LoopLemmas

theorem any_range_eq {β : Type} (l : List β) (n : Nat) (hn : n = l.length)
    (p : Nat → Bool) (q : β → Bool)
    (h : ∀ i (hi : i < l.length), p i = q l[i]) :
    (List.range n).any p = l.any q := by
  subst hn
  rw [Bool.eq_iff_iff]
  simp only [List.any_eq_true, List.mem_range]
  constructor
  · rintro ⟨i, hi, hp⟩
    exact ⟨l[i], List.getElem_mem hi, by rw [← h i hi]; exact hp⟩
  · rintro ⟨b, hb, hq⟩
    obtain ⟨i, hi, rfl⟩ := List.getElem_of_mem hb
    exact ⟨i, hi, by rw [h i hi]; exact hq⟩

theorem foldl_range_eq {β γ : Type} (l : List β) (n : Nat) (hn : n = l.length)
    (f : γ → Nat → γ) (g : γ → β → γ)
    (h : ∀ acc i (hi : i < l.length), f acc i = g acc l[i]) (init : γ) :
    (List.range n).foldl f init = l.foldl g init := by
  subst hn
  induction l using List.reverseRecOn with
  | nil => simp
  | append_singleton l x ih =>
    have hlen : (l ++ [x]).length = l.length + 1 := by simp
    rw [hlen, List.range_succ, List.foldl_append, List.foldl_append]
    have h1 : ∀ acc i (hi : i < l.length), f acc i = g acc l[i] := by
      intro acc i hi
      have := h acc i (by rw [hlen]; omega)
      rw [this, List.getElem_append_left hi]
    rw [ih h1]
    simp only [List.foldl_cons, List.foldl_nil]
    have := h (List.foldl g init l) l.length (by rw [hlen]; omega)
    rw [this]
    simp

end LoopLemmas

section ScanLemmas
variable {α : Type} [LinearOrder α] [Zero α] {dim : Nat}

theorem scanI2_eq_any (dist : Point dim α → Point dim α → α) (minDist : α)
    (center1 : Point dim α) (time1 : α) (buf2 : List α) (is : List Nat) :
    scanI2 dim dist minDist center1 time1 buf2 is
      = !(is.any (fun i2 => decide (dist center1 (readCenter dim buf2 i2) ≤ minDist
            ∧ time1 ≥ rd buf2 (i2 * (dim + 3) + 1)))) := by
  induction is with
  | nil => rfl
  | cons i2 rest ih =>
    simp only [scanI2, List.any_cons]
    split_ifs with h
    · simp [h]
    · rw [ih]; simp [h]

theorem scanI2_pack (dist : Point dim α → Point dim α → α) (minDist : α)
    (center1 : Point dim α) (time1 : α) (l2 : List (nucleus dim α)) :
    scanI2 dim dist minDist center1 time1 (packNuclei dim l2) (List.range l2.length)
      = !(l2.any (blocks dist minDist center1 time1)) := by
  rw [scanI2_eq_any]
  congr 1
  apply any_range_eq _ _ rfl
  intro i hi
  simp only [blocks]
  rw [readCenter_packNuclei l2 i hi, rd_seededTime l2 i hi]

theorem scanProc2_eq_any (dist : Point dim α → Point dim α → α) (minDist : α)
    (nums : List Nat) (bufs : List (List α)) (proc1 : Nat) (center1 : Point dim α) (time1 : α)
    (procs : List Nat) :
    scanProc2 dim dist minDist nums bufs proc1 center1 time1 procs
      = !(procs.any (fun proc2 => decide (proc1 ≠ proc2) &&
            !(scanI2 dim dist minDist center1 time1 (bufs.getD proc2 [])
                (List.range (nums.getD proc2 0))))) := by
  induction procs with
  | nil => rfl
  | cons proc2 rest ih =>
    simp only [scanProc2, List.any_cons]
    split_ifs with h1 h2
    · rw [ih, h2]; simp [h1]
    · rw [Bool.not_eq_true] at h2
      rw [h2]; simp [h1]
    · rw [ih]; simp [h1]

theorem scanProc2_pack (dist : Point dim α → Point dim α → α) (minDist : α)
    (locals : List (List (nucleus dim α))) (proc1 : Nat) (center1 : Point dim α) (time1 : α) :
    scanProc2 dim dist minDist (locals.map List.length) (locals.map (packNuclei dim))
        proc1 center1 time1 (List.range locals.length)
      = !(locals.enum.any (fun ql => decide (proc1 ≠ ql.1) &&
            ql.2.any (blocks dist minDist center1 time1))) := by
  rw [scanProc2_eq_any]
  congr 1
  apply any_range_eq _ _ (by simp)
  intro i hi
  have hi2 : i < locals.length := by simpa using hi
  have e1 : (locals.map (packNuclei dim)).getD i [] = packNuclei dim locals[i] := by
    rw [List.getD_eq_getElem _ _ (by simpa using hi2)]; simp
  have e2 : (locals.map List.length).getD i 0 = locals[i].length := by
    rw [List.getD_eq_getElem _ _ (by simpa using hi2)]; simp
  rw [e1, e2, scanI2_pack]
  simp

end ScanLemmas

section RenumberLemmas
variable {α : Type} {dim : Nat}

theorem length_renumberFrom (k : Nat) (l : List (nucleus dim α)) :
    (renumberFrom k l).length = l.length := by
  induction l generalizing k with
  | nil => rfl
  | cons n l ih => simp [renumberFrom, ih]

theorem map_attrs_renumberFrom (k : Nat) (l : List (nucleus dim α)) :
    (renumberFrom k l).map attrs = l.map attrs := by
  induction l generalizing k with
  | nil => rfl
  | cons n l ih => simp [renumberFrom, ih, attrs]

theorem mem_candidates (locals : List (List (nucleus dim α))) (q : Nat) (b : nucleus dim α) :
    (q, b) ∈ candidates locals ↔ ∃ l, (q, l) ∈ locals.enum ∧ b ∈ l := by
  simp only [candidates, List.mem_flatMap, List.mem_map, Prod.mk.injEq, Prod.exists]
  constructor
  · rintro ⟨q2, l, hml, b2, hb, rfl, rfl⟩
    exact ⟨l, hml, hb⟩
  · rintro ⟨l, hml, hb⟩
    exact ⟨q, l, hml, b, hb, rfl, rfl⟩

end RenumberLemmas

section KeepLemmas
variable {α : Type} [LinearOrder α] {dim : Nat}

theorem foldl_pushKept (dist : Point dim α → Point dim α → α) (minDist : α)
    (locals : List (List (nucleus dim α))) (cs : List (Nat × nucleus dim α))
    (init : List (nucleus dim α)) :
    cs.foldl (pushKept dist minDist locals) init
      = init ++ renumberFrom init.length
          ((cs.filter (fun pa => keeps dist minDist locals pa.1 pa.2)).map Prod.snd) := by
  induction cs generalizing init with
  | nil => simp [renumberFrom]
  | cons pa cs ih =>
    rw [List.foldl_cons, ih]
    by_cases hk : keeps dist minDist locals pa.1 pa.2 = true
    · simp [pushKept, hk, List.filter_cons, renumberFrom]
    · simp [pushKept, hk, List.filter_cons]

theorem keeps_iff (dist : Point dim α → Point dim α → α) (minDist : α)
    (locals : List (List (nucleus dim α))) (pa : Nat × nucleus dim α) :
    keeps dist minDist locals pa.1 pa.2 = true ↔ ¬ discarded dist minDist locals pa := by
  simp only [keeps, discarded, blocks, Bool.not_eq_true', Bool.eq_false_iff, ne_eq,
    List.any_eq_true, Bool.and_eq_true, decide_eq_true_eq, not_iff_not, Prod.exists]
  constructor
  · rintro ⟨q, l, hml, hne, b, hb, hd, ht⟩
    exact ⟨q, b, (mem_candidates locals q b).2 ⟨l, hml, hb⟩, fun h => hne h.symm, hd, ht⟩
  · rintro ⟨q, b, hmem, hne, hd, ht⟩
    obtain ⟨l, hml, hb⟩ := (mem_candidates locals q b).1 hmem
    exact ⟨q, l, hml, fun h => hne h.symm, b, hb, hd, ht⟩

end KeepLemmas

section FilterLemmas
variable {α : Type} [LinearOrder α] [Zero α] {dim : Nat}

theorem filterStep_pack (dist : Point dim α → Point dim α → α) (minDist : α)
    (locals : List (List (nucleus dim α))) (proc1 : Nat) (hp : proc1 < locals.length)
    (acc : List (nucleus dim α)) (i1 : Nat) (hi : i1 < locals[proc1].length) :
    filterStep dim dist minDist locals.length (locals.map List.length)
        (locals.map (packNuclei dim)) proc1 acc i1
      = pushKept dist minDist locals acc (proc1, locals[proc1][i1]) := by
  have e1 : (locals.map (packNuclei dim)).getD proc1 [] = packNuclei dim locals[proc1] := by
    rw [List.getD_eq_getElem _ _ (by simpa using hp)]; simp
  simp only [filterStep, pushKept, keeps, e1]
  rw [readCenter_packNuclei _ i1 hi, rd_seededTime _ i1 hi, rd_radius _ i1 hi,
    rd_seedingTime _ i1 hi, scanProc2_pack]

theorem foldl_flatMap_eq {β γ δ : Type} (L : List β) (h : β → List γ) (f : δ → γ → δ)
    (init : δ) :
    (L.flatMap h).foldl f init = L.foldl (fun acc x => (h x).foldl f acc) init := by
  induction L generalizing init with
  | nil => rfl
  | cons x L ih => simp [List.foldl_append, ih]

theorem filterNuclei_pack (dist : Point dim α → Point dim α → α) (minDist : α)
    (locals : List (List (nucleus dim α))) (init : List (nucleus dim α)) :
    filterNuclei dim dist minDist locals.length (locals.map List.length)
        (locals.map (packNuclei dim)) init
      = (candidates locals).foldl (pushKept dist minDist locals) init := by
  unfold filterNuclei candidates
  rw [foldl_flatMap_eq]
  apply foldl_range_eq _ _ (by simp)
  intro acc i hi
  have hi2 : i < locals.length := by simpa using hi
  have e2 : (locals.map List.length).getD i 0 = locals[i].length := by
    rw [List.getD_eq_getElem _ _ (by simpa using hi2)]; simp
  rw [e2, List.foldl_map]
  simp only [List.getElem_enum, Nat.zero_add]
  apply foldl_range_eq _ _ rfl
  intro acc2 i1 hi1
  exact filterStep_pack dist minDist locals i hi2 acc2 i1 hi1

/-- The reconciliation filter computes the survivors of `discarded`, renumbered. -/
theorem reconcile_eq (dist : Point dim α → Point dim α → α) (minDist : α)
    (locals : List (List (nucleus dim α))) :
    reconcile dim dist minDist locals
      = renumberFrom 0 (((candidates locals).filter
          (fun pa => decide (¬ discarded dist minDist locals pa))).map Prod.snd) := by
  unfold reconcile
  rw [filterNuclei_pack, foldl_pushKept]
  simp only [List.nil_append, List.length_nil]
  congr 2
  apply List.filter_congr
  intro pa _
  rw [Bool.eq_iff_iff]
  simp [keeps_iff]

end FilterLemmas

section CandidateLemmas
variable {α : Type} {dim : Nat}

theorem enumFrom_pairwise_lt {β : Type} (l : List β) (k : Nat) :
    (l.enumFrom k).Pairwise (fun a b => a.1 < b.1) := by
  induction l generalizing k with
  | nil => simp
  | cons x l ih =>
    rw [List.enumFrom_cons, List.pairwise_cons]
    refine ⟨?_, ih (k + 1)⟩
    rintro ⟨j, y⟩ hmem
    have := (List.mem_enumFrom hmem).1
    simp only
    omega

theorem candidates_eq_flatten (locals : List (List (nucleus dim α))) :
    candidates locals
      = (locals.enum.map (fun pl => pl.2.map (fun n => (pl.1, n)))).flatten := by
  simp [candidates, List.flatMap_def]

theorem flatMap_enumFrom_snd {β : Type} (L : List (List β)) (k : Nat) :
    ((L.enumFrom k).flatMap (fun pl => pl.2.map (fun n => (pl.1, n)))).map Prod.snd
      = L.flatten := by
  induction L generalizing k with
  | nil => rfl
  | cons l L ih =>
    simp only [List.enumFrom_cons, List.flatMap_cons, List.map_append, List.flatten_cons, ih]
    simp [Function.comp_def]

theorem candidates_map_snd (locals : List (List (nucleus dim α))) :
    (candidates locals).map Prod.snd = locals.flatten :=
  flatMap_enumFrom_snd locals 0

end CandidateLemmas

section SeparationLemmas
variable {α : Type} [LinearOrder α] {dim : Nat}

theorem isClose_foldl (dist : Point dim α → Point dim α → α) (minDist : α)
    (l : List (nucleus dim α)) (p : Point dim α) (b : Bool) :
    l.foldl (fun isClose thisNuclei =>
        if dist thisNuclei.center p < minDist then true else isClose) b
      = (b || l.any (fun n => decide (dist n.center p < minDist))) := by
  induction l generalizing b with
  | nil => simp
  | cons n l ih =>
    rw [List.foldl_cons, ih, List.any_cons]
    by_cases h : dist n.center p < minDist <;> simp [h]

theorem isClose_eq_any (dist : Point dim α → Point dim α → α) (minDist : α)
    (l : List (nucleus dim α)) (p : Point dim α) :
    isClose dist minDist l p = l.any (fun n => decide (dist n.center p < minDist)) := by
  unfold isClose
  rw [isClose_foldl]
  simp

theorem isClose_eq_true_iff (dist : Point dim α → Point dim α → α) (minDist : α)
    (l : List (nucleus dim α)) (p : Point dim α) :
    isClose dist minDist l p = true ↔ ∃ n ∈ l, dist n.center p < minDist := by
  rw [isClose_eq_any]; simp

theorem proposeAt_pairwise (dist : Point dim α → Point dim α → α) (minDist : α)
    (radius seededTime seedingTime : α) (l : List (nucleus dim α)) (p : Point dim α)
    (rand_val J : α) (h : l.Pairwise (fun a b => minDist ≤ dist a.center b.center)) :
    (proposeAt dist minDist radius seededTime seedingTime l p rand_val J).Pairwise
      (fun a b => minDist ≤ dist a.center b.center) := by
  unfold proposeAt
  split_ifs with h1 h2
  · rw [List.pairwise_append]
    refine ⟨h, List.pairwise_singleton _ _, ?_⟩
    intro a ha b hb
    rw [List.mem_singleton] at hb
    subst hb
    simp only
    by_contra hlt
    have hc : isClose dist minDist l p = true :=
      (isClose_eq_true_iff dist minDist l p).2 ⟨a, ha, not_le.1 hlt⟩
    simp [hc] at h2
  · exact h
  · exact h

theorem foldl_preserves {β γ : Type} (Q : γ → Prop) (f : γ → β → γ)
    (hf : ∀ s x, Q s → Q (f s x)) (l : List β) (s : γ) (hs : Q s) : Q (l.foldl f s) := by
  induction l generalizing s with
  | nil => exact hs
  | cons x l ih => exact ih _ (hf s x hs)

/-- A list of tagged candidates in which candidates of one partition are separated and the
filter of the reconciler was passed is separated as a whole. -/
theorem keeps_cross (dist : Point dim α → Point dim α → α)
    (hsymm : ∀ p q, dist p q = dist q p) (minDist : α)
    (locals : List (List (nucleus dim α))) (pa qb : Nat × nucleus dim α)
    (ha : pa ∈ candidates locals) (hb : qb ∈ candidates locals) (hne : pa.1 ≠ qb.1)
    (ka : ¬ discarded dist minDist locals pa) (kb : ¬ discarded dist minDist locals qb) :
    minDist < dist pa.2.center qb.2.center := by
  by_contra hle
  rw [not_lt] at hle
  rcases le_total qb.2.seededTime pa.2.seededTime with ht | ht
  · exact ka ⟨qb, hb, fun h => hne h.symm, hle, ht⟩
  · exact kb ⟨pa, ha, hne, by rw [hsymm]; exact hle, ht⟩

theorem survivors_pairwise (dist : Point dim α → Point dim α → α)
    (hsymm : ∀ p q, dist p q = dist q p) (minDist : α)
    (locals : List (List (nucleus dim α)))
    (hloc : ∀ l ∈ locals, l.Pairwise (fun a b => minDist ≤ dist a.center b.center)) :
    ((candidates locals).filter (fun pa => decide (¬ discarded dist minDist locals pa))).Pairwise
      (fun pa qb => minDist ≤ dist pa.2.center qb.2.center) := by
  rw [List.pairwise_filter]
  have key : ∀ pa ∈ candidates locals, ∀ qb ∈ candidates locals, pa.1 ≠ qb.1 →
      ¬ discarded dist minDist locals pa → ¬ discarded dist minDist locals qb →
      minDist ≤ dist pa.2.center qb.2.center := by
    intro pa ha qb hb hne ka kb
    exact le_of_lt (keeps_cross dist hsymm minDist locals pa qb ha hb hne ka kb)
  have hsub : ∀ pl ∈ locals.enum, ∀ n ∈ pl.2, (pl.1, n) ∈ candidates locals := by
    rintro ⟨p, l⟩ hpl n hn
    exact (mem_candidates locals p n).2 ⟨l, hpl, hn⟩
  rw [candidates_eq_flatten] at *
  rw [List.pairwise_flatten]
  constructor
  · intro tl htl
    rw [List.mem_map] at htl
    obtain ⟨⟨p, l⟩, hpl, rfl⟩ := htl
    rw [List.pairwise_map]
    have hl : l ∈ locals := by
      obtain ⟨h, hl⟩ := List.mem_enum hpl
      rw [hl]
      exact List.getElem_mem h
    exact (hloc l hl).imp (fun h _ _ => h)
  · rw [List.pairwise_map]
    refine (enumFrom_pairwise_lt locals 0).imp_of_mem ?_
    rintro ⟨p, l⟩ ⟨q, m⟩ hpl hqm hlt x hx y hy
    rw [List.mem_map] at hx hy
    obtain ⟨a, ha, rfl⟩ := hx
    obtain ⟨b, hb, rfl⟩ := hy
    exact key (p, a) (hsub _ hpl a ha) (q, b) (hsub _ hqm b hb) (Nat.ne_of_lt hlt)

end SeparationLemmas

section ReconcileFacts
variable {α : Type} {dim : Nat}

theorem map_center_renumberFrom (k : Nat) (l : List (nucleus dim α)) :
    (renumberFrom k l).map (fun n => n.center) = l.map (fun n => n.center) := by
  induction l generalizing k with
  | nil => rfl
  | cons n l ih => simp [renumberFrom, ih]

theorem pairwise_renumberFrom (Rc : Point dim α → Point dim α → Prop) (k : Nat)
    (l : List (nucleus dim α)) :
    (renumberFrom k l).Pairwise (fun a b => Rc a.center b.center)
      ↔ l.Pairwise (fun a b => Rc a.center b.center) := by
  have h1 := List.pairwise_map (f := fun n : nucleus dim α => n.center) (R := Rc)
    (l := renumberFrom k l)
  have h2 := List.pairwise_map (f := fun n : nucleus dim α => n.center) (R := Rc) (l := l)
  rw [← h1, ← h2, map_center_renumberFrom]

variable [LinearOrder α]

theorem pairwise_distinct (dist : Point dim α → Point dim α → α)
    (hsymm : ∀ p q, dist p q = dist q p) (minDist : α) (l : List (nucleus dim α))
    (h : l.Pairwise (fun a b => minDist ≤ dist a.center b.center))
    (i j : Nat) (hi : i < l.length) (hj : j < l.length) (hne : i ≠ j) :
    minDist ≤ dist l[i].center l[j].center := by
  rw [List.pairwise_iff_getElem] at h
  rcases Nat.lt_or_gt_of_ne hne with hlt | hgt
  · exact h i j hi hj hlt
  · rw [hsymm]; exact h j i hj hi hgt

/-- When all candidates are farther apart than the minimum separation nothing is
discarded. -/
theorem not_discarded_of_separated (dist : Point dim α → Point dim α → α)
    (hsymm : ∀ p q, dist p q = dist q p) (minDist : α)
    (locals : List (List (nucleus dim α)))
    (hsep : locals.flatten.Pairwise (fun a b => minDist < dist a.center b.center))
    (pa : Nat × nucleus dim α) (ha : pa ∈ candidates locals) :
    ¬ discarded dist minDist locals pa := by
  rintro ⟨qb, hb, hne, hd, _⟩
  obtain ⟨p, a⟩ := pa
  obtain ⟨q, b⟩ := qb
  obtain ⟨l, hpl, hal⟩ := (mem_candidates locals p a).1 ha
  obtain ⟨m, hqm, hbm⟩ := (mem_candidates locals q b).1 hb
  obtain ⟨hp, hl⟩ := List.mem_enum hpl
  obtain ⟨hq, hm⟩ := List.mem_enum hqm
  simp only at hp hl hq hm hne hd
  rw [List.pairwise_flatten] at hsep
  have hL := List.pairwise_iff_getElem.1 hsep.2
  rw [hl] at hal
  rw [hm] at hbm
  rcases Nat.lt_or_gt_of_ne hne with hlt | hgt
  · have := hL q p hq hp hlt b hbm a hal
    rw [hsymm] at this
    exact absurd hd (not_le.2 this)
  · have := hL p q hp hq hgt a hal b hbm
    exact absurd hd (not_le.2 this)

variable [Zero α]

theorem reconcile_pairwise (dist : Point dim α → Point dim α → α)
    (hsymm : ∀ p q, dist p q = dist q p) (minDist : α)
    (locals : List (List (nucleus dim α)))
    (hloc : ∀ l ∈ locals, l.Pairwise (fun a b => minDist ≤ dist a.center b.center)) :
    (reconcile dim dist minDist locals).Pairwise
      (fun a b => minDist ≤ dist a.center b.center) := by
  rw [reconcile_eq, pairwise_renumberFrom (fun x y => minDist ≤ dist x y), List.pairwise_map]
  exact survivors_pairwise dist hsymm minDist locals hloc

theorem reconcile_of_separated (dist : Point dim α → Point dim α → α)
    (hsymm : ∀ p q, dist p q = dist q p) (minDist : α)
    (locals : List (List (nucleus dim α)))
    (hsep : locals.flatten.Pairwise (fun a b => minDist < dist a.center b.center)) :
    reconcile dim dist minDist locals = renumberFrom 0 locals.flatten := by
  rw [reconcile_eq, List.filter_eq_self.2, candidates_map_snd]
  intro pa ha
  exact decide_eq_true (not_discarded_of_separated dist hsymm minDist locals hsep pa ha)

end ReconcileFacts

section ConcreteLemmas

theorem dist1_comm (α : Type) [LinearOrderedField α] (p q : Point 1 α) :
    dist1 α p q = dist1 α q p := abs_sub_comm _ _

end ConcreteLemmas

section DetectLemmas
variable {α : Type} [LinearOrderedField α] {dim : Nat}

theorem detectMech_pairwise (P : Parameters α) (RAND_MAX : Nat)
    (dist : Point dim α → Point dim α → α) (support_points : List (Nat × Point dim α))
    (owned : Nat → Bool) (n1 n2 n3 c : Nat → α) (t : α) (rand : Nat → Nat)
    (st : List (nucleus dim α) × Nat)
    (h : st.1.Pairwise (fun a b => minDistMech ≤ dist a.center b.center)) :
    (detectMech P RAND_MAX dist support_points owned n1 n2 n3 c t rand st).1.Pairwise
      (fun a b => minDistMech ≤ dist a.center b.center) := by
  unfold detectMech
  refine foldl_preserves
    (fun s : List (nucleus dim α) × Nat =>
      s.1.Pairwise (fun a b => minDistMech ≤ dist a.center b.center)) _ ?_ _ _ h
  intro s it hs
  unfold detectPointMech
  simp only
  split_ifs
  · exact proposeAt_pairwise dist _ _ _ _ _ _ _ _ hs
  · exact hs

theorem detectApp_pairwise (P : Parameters α) (exp : α → α)
    (dist : Point dim α → Point dim α → α) (support_points : List (Nat × Point dim α))
    (owned : Nat → Bool) (n c : Nat → α) (t : α) (rand : Nat → Nat)
    (st : List (nucleus dim α) × Nat)
    (h : st.1.Pairwise (fun a b => minDistApp P ≤ dist a.center b.center)) :
    (detectApp P exp dist support_points owned n c t rand st).1.Pairwise
      (fun a b => minDistApp P ≤ dist a.center b.center) := by
  unfold detectApp
  refine foldl_preserves
    (fun s : List (nucleus dim α) × Nat =>
      s.1.Pairwise (fun a b => minDistApp P ≤ dist a.center b.center)) _ ?_ _ _ h
  intro s it hs
  unfold detectPointApp
  simp only
  split_ifs
  · exact proposeAt_pairwise dist _ _ _ _ _ _ _ _ hs
  · exact hs

end DetectLemmas

section SeedLemmas
variable {α : Type} {dim : Nat}

theorem foldl_frame {β : Type} (f : (Nat → α) → β → (Nat → α)) (key : β → Nat) (d : Nat)
    (hframe : ∀ n it, key it ≠ d → f n it d = n d) (pts : List β)
    (hk : ∀ it ∈ pts, key it ≠ d) (n : Nat → α) : (pts.foldl f n) d = n d := by
  induction pts generalizing n with
  | nil => rfl
  | cons it pts ih =>
    rw [List.foldl_cons, ih (fun x hx => hk x (List.mem_cons_of_mem _ hx)),
      hframe n it (hk it (List.mem_cons_self _ _))]

theorem foldl_written {β : Type} (f : (Nat → α) → β → (Nat → α)) (key : β → Nat)
    (hframe : ∀ n it d, key it ≠ d → f n it d = n d) (pts : List β)
    (hnd : (pts.map key).Nodup) (it0 : β) (hmem : it0 ∈ pts) (v : α)
    (hv : ∀ n, f n it0 (key it0) = v) (n : Nat → α) : (pts.foldl f n) (key it0) = v := by
  induction pts generalizing n with
  | nil => simp at hmem
  | cons it pts ih =>
    rw [List.map_cons, List.nodup_cons] at hnd
    rw [List.foldl_cons]
    rcases List.mem_cons.1 hmem with h | h
    · subst h
      rw [foldl_frame f key (key it0) (fun n it => hframe n it (key it0)) pts ?_ _, hv]
      intro it hit heq
      exact hnd.1 (by rw [← heq]; exact List.mem_map_of_mem key hit)
    · exact ih hnd.2 h _

theorem foldl_fixed {β γ : Type} (f : γ → β → γ) (hf : ∀ s x, f s x = s) (l : List β) (s : γ) :
    l.foldl f s = s := by
  induction l with
  | nil => rfl
  | cons x l ih => rw [List.foldl_cons, hf, ih]

end SeedLemmas

section SeedFacts
variable {α : Type} [LinearOrderedField α] {dim : Nat}

theorem seedPointMech_frame (tanh : α → α) (dist : Point dim α → Point dim α → α)
    (owned : Nat → Bool) (t : α) (nuc : nucleus dim α) (n1 : Nat → α)
    (it : Nat × Point dim α) (d : Nat) (h : it.1 ≠ d) :
    seedPointMech tanh dist owned t nuc n1 it d = n1 d := by
  unfold seedPointMech
  simp only
  split_ifs <;> first | rfl | exact Function.update_noteq (Ne.symm h) _ _

theorem seedPointApp_frame (P : Parameters α) (tanh : α → α)
    (dist : Point dim α → Point dim α → α)
    (owned : Nat → Bool) (t : α) (nuc : nucleus dim α) (n : Nat → α)
    (it : Nat × Point dim α) (d : Nat) (h : it.1 ≠ d) :
    seedPointApp P tanh dist owned t nuc n it d = n d := by
  unfold seedPointApp
  simp only
  split_ifs <;> first | rfl | exact Function.update_noteq (Ne.symm h) _ _

theorem seedPointMech_in (tanh : α → α) (dist : Point dim α → Point dim α → α)
    (owned : Nat → Bool) (t : α) (nuc : nucleus dim α) (n1 : Nat → α)
    (it : Nat × Point dim α) (hown : owned it.1 = true)
    (hrange : dist it.2 nuc.center ≤ 2 * nuc.radius)
    (hwin : nuc.seededTime < t ∧ t < nuc.seededTime + nuc.seedingTime) :
    seedPointMech tanh dist owned t nuc n1 it
      = Function.update n1 it.1
          ((1 / 2) * (1 - tanh ((dist it.2 nuc.center - nuc.radius) / (2 / 5)))) := by
  unfold seedPointMech
  simp only [hown, if_true, hrange, gt_iff_lt, hwin, and_self]

theorem seedPointMech_out (tanh : α → α) (dist : Point dim α → Point dim α → α)
    (owned : Nat → Bool) (t : α) (nuc : nucleus dim α) (n1 : Nat → α)
    (it : Nat × Point dim α)
    (hwin : t ≤ nuc.seededTime ∨ nuc.seededTime + nuc.seedingTime ≤ t) :
    seedPointMech tanh dist owned t nuc n1 it = n1 := by
  have h : ¬ (t > nuc.seededTime ∧ t < nuc.seededTime + nuc.seedingTime) := by
    rintro ⟨h1, h2⟩
    rcases hwin with h | h
    · exact absurd h1 (not_lt.2 h)
    · exact absurd h2 (not_lt.2 h)
  unfold seedPointMech
  simp only [h, if_false, ite_self]

theorem seedPointApp_in (P : Parameters α) (tanh : α → α)
    (dist : Point dim α → Point dim α → α)
    (owned : Nat → Bool) (t : α) (nuc : nucleus dim α) (n : Nat → α)
    (it : Nat × Point dim α) (hown : owned it.1 = true)
    (hrange : dist it.2 nuc.center ≤ nuc.radius + 3 * dxApp P)
    (hwin : nuc.seededTime < t ∧ t < nuc.seededTime + nuc.seedingTime) :
    seedPointApp P tanh dist owned t nuc n it
      = Function.update n it.1
          ((1 / 2) * (1 - tanh ((dist it.2 nuc.center - P.spanX / 50) / dxApp P))) := by
  unfold seedPointApp
  simp only [hown, if_true, hrange, gt_iff_lt, hwin, and_self]

theorem seedPointApp_out (P : Parameters α) (tanh : α → α)
    (dist : Point dim α → Point dim α → α)
    (owned : Nat → Bool) (t : α) (nuc : nucleus dim α) (n : Nat → α)
    (it : Nat × Point dim α)
    (hwin : t ≤ nuc.seededTime ∨ nuc.seededTime + nuc.seedingTime ≤ t) :
    seedPointApp P tanh dist owned t nuc n it = n := by
  have h : ¬ (t > nuc.seededTime ∧ t < nuc.seededTime + nuc.seedingTime) := by
    rintro ⟨h1, h2⟩
    rcases hwin with h | h
    · exact absurd h1 (not_lt.2 h)
    · exact absurd h2 (not_lt.2 h)
  unfold seedPointApp
  simp only [h, if_false, ite_self]

end SeedFacts

section BroadcastLemmas
variable {α : Type} {dim : Nat}

theorem foldl_push_renumber (l init : List (nucleus dim α)) :
    l.foldl (fun acc n => acc ++ [{ n with index := acc.length }]) init
      = init ++ renumberFrom init.length l := by
  induction l generalizing init with
  | nil => simp [renumberFrom]
  | cons n l ih =>
    rw [List.foldl_cons, ih]
    simp [renumberFrom]

theorem renumberFrom_idem (k : Nat) (l : List (nucleus dim α)) :
    renumberFrom k (renumberFrom k l) = renumberFrom k l := by
  induction l generalizing k with
  | nil => rfl
  | cons n l ih => simp [renumberFrom, ih]

theorem receiveNuclei_pack [Zero α] (l init : List (nucleus dim α)) :
    receiveNuclei dim l.length (packNuclei dim l) init = init ++ renumberFrom init.length l := by
  unfold receiveNuclei
  rw [← foldl_push_renumber]
  apply foldl_range_eq _ _ rfl
  intro acc i hi
  rw [rd_radius l i hi, rd_seededTime l i hi, rd_seedingTime l i hi,
    readCenter_packNuclei l i hi]

theorem broadcastNuclei_eq [Zero α] (l : List (nucleus dim α)) :
    broadcastNuclei dim l = renumberFrom 0 l := by
  unfold broadcastNuclei
  rw [receiveNuclei_pack]
  rfl

end BroadcastLemmas

section DedupLemmas
variable {α : Type} [LinearOrder α] {dim : Nat}

theorem proposeAt_iff (dist : Point dim α → Point dim α → α) (minDist : α)
    (radius seededTime seedingTime : α) (l : List (nucleus dim α)) (p : Point dim α)
    (rand_val J : α) (hJ : rand_val ≤ J) :
    (proposeAt dist minDist radius seededTime seedingTime l p rand_val J
        = l ++ [{ index := l.length, center := p, radius := radius,
                  seededTime := seededTime, seedingTime := seedingTime }]
      ↔ ∀ m ∈ l, minDist ≤ dist m.center p) ∧
    ((∃ m ∈ l, dist m.center p < minDist) →
      proposeAt dist minDist radius seededTime seedingTime l p rand_val J = l) := by
  unfold proposeAt
  by_cases hc : isClose dist minDist l p = true
  · have hex := (isClose_eq_true_iff dist minDist l p).1 hc
    rw [if_pos hJ, if_neg (by simp [hc])]
    refine ⟨⟨fun h => ?_, fun h => ?_⟩, fun _ => rfl⟩
    · simp at h
    · obtain ⟨m, hm, hlt⟩ := hex
      exact absurd (h m hm) (not_le.2 hlt)
  · have hno : ∀ m ∈ l, minDist ≤ dist m.center p := by
      intro m hm
      by_contra hlt
      exact hc ((isClose_eq_true_iff dist minDist l p).2 ⟨m, hm, not_le.1 hlt⟩)
    rw [Bool.not_eq_true] at hc
    rw [if_pos hJ, if_pos (by simp [hc])]
    refine ⟨⟨fun _ => hno, fun _ => rfl⟩, ?_⟩
    rintro ⟨m, hm, hlt⟩
    exact absurd (hno m hm) (not_le.2 hlt)

end DedupLemmas

section RadiusLemmas
variable {α : Type} [LinearOrder α] {dim : Nat}

theorem proposeAt_mem (dist : Point dim α → Point dim α → α) (minDist : α)
    (radius seededTime seedingTime : α) (l : List (nucleus dim α)) (p : Point dim α)
    (rand_val J : α) (m : nucleus dim α)
    (hm : m ∈ proposeAt dist minDist radius seededTime seedingTime l p rand_val J) :
    m ∈ l ∨ m = { index := l.length, center := p, radius := radius,
                  seededTime := seededTime, seedingTime := seedingTime } := by
  unfold proposeAt at hm
  split_ifs at hm
  · rw [List.mem_append, List.mem_singleton] at hm
    exact hm
  · exact Or.inl hm
  · exact Or.inl hm

theorem discarded_single_false (dist : Point dim α → Point dim α → α) (minDist : α)
    (l : List (nucleus dim α)) (pa : Nat × nucleus dim α) (ha : pa ∈ candidates [l]) :
    ¬ discarded dist minDist [l] pa := by
  rintro ⟨qb, hb, hne, _⟩
  have h0 : ∀ x ∈ candidates [l], x.1 = 0 := by
    intro x hx
    simp only [candidates, List.enum, List.enumFrom_cons, List.enumFrom_nil,
      List.flatMap_cons, List.flatMap_nil, List.append_nil, List.mem_map] at hx
    obtain ⟨n, _, rfl⟩ := hx
    rfl
  exact hne ((h0 qb hb).trans (h0 pa ha).symm)

theorem reconcile_single [Zero α] (dist : Point dim α → Point dim α → α) (minDist : α)
    (l : List (nucleus dim α)) :
    reconcile dim dist minDist [l] = renumberFrom 0 l := by
  rw [reconcile_eq, List.filter_eq_self.2, candidates_map_snd]
  · simp
  · intro pa ha
    exact decide_eq_true (discarded_single_false dist minDist l pa ha)

theorem reconcile_attrs_mem [Zero α] (dist : Point dim α → Point dim α → α) (minDist : α)
    (locals : List (List (nucleus dim α))) (m : nucleus dim α)
    (hm : m ∈ reconcile dim dist minDist locals) :
    ∃ l ∈ locals, ∃ m' ∈ l, attrs m' = attrs m := by
  have h1 : attrs m ∈ (reconcile dim dist minDist locals).map attrs := List.mem_map_of_mem _ hm
  rw [reconcile_eq, map_attrs_renumberFrom] at h1
  rw [List.mem_map] at h1
  obtain ⟨m', hm', he⟩ := h1
  have h2 : m' ∈ (candidates locals).map Prod.snd :=
    (List.Sublist.map Prod.snd (List.filter_sublist _)).subset hm'
  rw [candidates_map_snd, List.mem_flatten] at h2
  obtain ⟨l, hl, hml⟩ := h2
  exact ⟨l, hl, m', hml, he⟩

end RadiusLemmas

section RadiusApp
variable {α : Type} [LinearOrderedField α] {dim : Nat}

theorem detectApp_radius (P : Parameters α) (exp : α → α)
    (dist : Point dim α → Point dim α → α) (support_points : List (Nat × Point dim α))
    (owned : Nat → Bool) (n c : Nat → α) (t : α) (rand : Nat → Nat)
    (st : List (nucleus dim α) × Nat) (h : ∀ m ∈ st.1, m.radius = P.spanX / 50) :
    ∀ m ∈ (detectApp P exp dist support_points owned n c t rand st).1,
      m.radius = P.spanX / 50 := by
  unfold detectApp
  refine foldl_preserves
    (fun s : List (nucleus dim α) × Nat => ∀ m ∈ s.1, m.radius = P.spanX / 50) _ ?_ _ _ h
  intro s it hs
  unfold detectPointApp
  simp only
  split_ifs
  · intro m hm
    rcases proposeAt_mem dist _ _ _ _ _ _ _ _ m hm with h1 | h1
    · exact hs m h1
    · rw [h1]
  · exact hs

theorem nucleationStepApp_radius (P : Parameters α) (exp : α → α)
    (dist : Point dim α → Point dim α → α) (t : α) (parts : List (PartitionApp dim α))
    (hinv : ∀ q ∈ parts, ∀ m ∈ q.localNuclei, m.radius = P.spanX / 50)
    (m : nucleus dim α) (hm : m ∈ nucleationStepApp P exp dist t parts) :
    m.radius = P.spanX / 50 := by
  obtain ⟨l, hl, m', hm', he⟩ := reconcile_attrs_mem dist _ _ m hm
  rw [List.mem_map] at hl
  obtain ⟨q, hq, rfl⟩ := hl
  have hr : m'.radius = P.spanX / 50 :=
    detectApp_radius P exp dist _ _ _ _ t _ _ (hinv q hq) m' hm'
  have : m'.radius = m.radius := congrArg (fun x => x.2.1) he
  rw [← this, hr]

end RadiusApp

section PackLength
variable {α : Type} {dim : Nat}

theorem length_packNuclei (l : List (nucleus dim α)) :
    (packNuclei dim l).length = l.length * (dim + 3) := by
  induction l with
  | nil => simp [packNuclei]
  | cons n l ih =>
    rw [packNuclei_cons, List.length_append, ih, length_packOne, List.length_cons,
      Nat.succ_mul, Nat.add_comm]

end PackLength

section SampleLemmas
variable {α : Type} [LinearOrderedField α]

theorem rand_val_mech_nonneg (RAND_MAX r : Nat) : (0 : α) ≤ rand_val_mech RAND_MAX r := by
  unfold rand_val_mech
  exact div_nonneg (Nat.cast_nonneg r) (Nat.cast_nonneg RAND_MAX)

theorem rand_val_mech_le_one (RAND_MAX r : Nat) (hr : r ≤ RAND_MAX) :
    (rand_val_mech RAND_MAX r : α) ≤ 1 := by
  unfold rand_val_mech
  apply div_le_one_of_le₀
  · exact_mod_cast hr
  · exact Nat.cast_nonneg RAND_MAX

theorem rand_val_mech_lt_one_iff (RAND_MAX r : Nat) (h0 : 0 < RAND_MAX) :
    (rand_val_mech RAND_MAX r : α) < 1 ↔ r < RAND_MAX := by
  unfold rand_val_mech
  have hpos : (0 : α) < (RAND_MAX : α) := by exact_mod_cast h0
  rw [div_lt_one hpos]
  exact Nat.cast_lt

theorem rand_val_mech_pos (RAND_MAX r : Nat) (h0 : 0 < RAND_MAX) (hr : r ≠ 0) :
    (0 : α) < rand_val_mech RAND_MAX r := by
  unfold rand_val_mech
  apply div_pos
  · exact_mod_cast Nat.pos_of_ne_zero hr
  · exact_mod_cast h0

theorem rand_val_app_nonneg (r : Nat) : (0 : α) ≤ rand_val_app r := by
  unfold rand_val_app
  exact div_nonneg (Nat.cast_nonneg _) (by norm_num)

theorem rand_val_app_le (r : Nat) : (rand_val_app r : α) ≤ 9999 / 10000 := by
  unfold rand_val_app
  have h : r % 10000 ≤ 9999 := by omega
  have h2 : ((r % 10000 : Nat) : α) ≤ 9999 := by exact_mod_cast h
  exact div_le_div_of_nonneg_right h2 (by norm_num)

theorem rand_val_app_lt_one (r : Nat) : (rand_val_app r : α) < 1 :=
  lt_of_le_of_lt (rand_val_app_le r) (by norm_num)

end SampleLemmas

section ProposeLemmas
variable {α : Type} [LinearOrder α] {dim : Nat}

theorem proposeAt_of_lt (dist : Point dim α → Point dim α → α) (minDist : α)
    (radius seededTime seedingTime : α) (l : List (nucleus dim α)) (p : Point dim α)
    (rand_val J : α) (h : J < rand_val) :
    proposeAt dist minDist radius seededTime seedingTime l p rand_val J = l := by
  unfold proposeAt
  rw [if_neg (not_le.2 h)]

theorem proposeAt_nil (dist : Point dim α → Point dim α → α) (minDist : α)
    (radius seededTime seedingTime : α) (p : Point dim α)
    (rand_val J : α) (h : rand_val ≤ J) :
    proposeAt dist minDist radius seededTime seedingTime [] p rand_val J
      = [{ index := 0, center := p, radius := radius, seededTime := seededTime,
           seedingTime := seedingTime }] := by
  unfold proposeAt
  rw [if_pos h]
  simp [isClose]

theorem foldl_filter_skip {β γ : Type} (f : γ → β → γ) (p : β → Bool)
    (hskip : ∀ s x, p x = false → f s x = s) (l : List β) (s : γ) :
    l.foldl f s = (l.filter p).foldl f s := by
  induction l generalizing s with
  | nil => rfl
  | cons x l ih =>
    by_cases hp : p x = true
    · rw [List.filter_cons_of_pos hp, List.foldl_cons, List.foldl_cons, ih]
    · rw [List.filter_cons_of_neg hp, List.foldl_cons,
        hskip s x (by simpa using hp), ih]

end ProposeLemmas

section CallLemmas
variable {α : Type} [LinearOrderedField α] {dim : Nat}

theorem detectPointMech_not_owned (P : Parameters α) (RAND_MAX : Nat)
    (dist : Point dim α → Point dim α → α) (owned : Nat → Bool)
    (n1 n2 n3 c : Nat → α) (t : α) (rand : Nat → Nat)
    (st : List (nucleus dim α) × Nat) (it : Nat × Point dim α) (h : owned it.1 = false) :
    detectPointMech P RAND_MAX dist owned n1 n2 n3 c t rand st it = st := by
  unfold detectPointMech
  simp [h]

theorem detectPointApp_not_owned (P : Parameters α) (exp : α → α)
    (dist : Point dim α → Point dim α → α) (owned : Nat → Bool)
    (n c : Nat → α) (t : α) (rand : Nat → Nat)
    (st : List (nucleus dim α) × Nat) (it : Nat × Point dim α) (h : owned it.1 = false) :
    detectPointApp P exp dist owned n c t rand st it = st := by
  unfold detectPointApp
  simp [h]

theorem detectMech_single (P : Parameters α) (RAND_MAX : Nat)
    (dist : Point dim α → Point dim α → α) (support_points : List (Nat × Point dim α))
    (owned : Nat → Bool) (n1 n2 n3 c : Nat → α) (t : α) (rand : Nat → Nat) (k : Nat)
    (it : Nat × Point dim α)
    (hone : support_points.filter (fun x => owned x.1) = [it])
    (hJ : pointJMech P t n1 n2 n3 c it.1 = 1) (hr : rand k ≤ RAND_MAX) :
    (detectMech P RAND_MAX dist support_points owned n1 n2 n3 c t rand ([], k)).1
      = [{ index := 0, center := it.2, radius := nRadiusMech, seededTime := t,
           seedingTime := 10000 * P.timeStep }] := by
  have hown : owned it.1 = true := by
    have hm : it ∈ support_points.filter (fun x => owned x.1) := by rw [hone]; simp
    exact (List.mem_filter.1 hm).2
  unfold detectMech
  rw [foldl_filter_skip _ (fun x => owned x.1)
    (fun s x hx => detectPointMech_not_owned P RAND_MAX dist owned n1 n2 n3 c t rand s x hx),
    hone]
  simp only [List.foldl_cons, List.foldl_nil, detectPointMech, hown, if_true]
  rw [hJ]
  exact proposeAt_nil dist _ _ _ _ _ _ _ (rand_val_mech_le_one RAND_MAX (rand k) hr)

theorem detectApp_single (P : Parameters α) (exp : α → α)
    (dist : Point dim α → Point dim α → α) (support_points : List (Nat × Point dim α))
    (owned : Nat → Bool) (n c : Nat → α) (t : α) (rand : Nat → Nat) (k : Nat)
    (it : Nat × Point dim α)
    (hone : support_points.filter (fun x => owned x.1) = [it])
    (hJ : pointJApp exp n c it.1 = 1) :
    (detectApp P exp dist support_points owned n c t rand ([], k)).1
      = [{ index := 0, center := it.2, radius := P.spanX / 50, seededTime := 0,
           seedingTime := t + 30 * P.timeStep }] := by
  have hown : owned it.1 = true := by
    have hm : it ∈ support_points.filter (fun x => owned x.1) := by rw [hone]; simp
    exact (List.mem_filter.1 hm).2
  unfold detectApp
  rw [foldl_filter_skip _ (fun x => owned x.1)
    (fun s x hx => detectPointApp_not_owned P exp dist owned n c t rand s x hx), hone]
  simp only [List.foldl_cons, List.foldl_nil, detectPointApp, hown, if_true]
  rw [hJ]
  exact proposeAt_nil dist _ _ _ _ _ _ _ (le_of_lt (rand_val_app_lt_one (rand k)))

theorem modifySolutionFieldsMech_single (P : Parameters α) (RAND_MAX : Nat) (tanh : α → α)
    (dist : Point dim α → Point dim α → α) (t : α) (inc : Nat) (q : PartitionMech dim α)
    (hact : activeMech P inc = true) :
    (modifySolutionFieldsMech P RAND_MAX tanh dist t inc [q]).map (fun r => r.nuclei)
      = [renumberFrom 0 (q.detect P RAND_MAX dist t)] := by
  unfold modifySolutionFieldsMech
  rw [if_pos hact]
  simp only [List.map_cons, List.map_nil, List.enum_cons, List.enumFrom_nil, if_true,
    reconcile_single]
  rfl

theorem modifySolutionFieldsApp_single (P : Parameters α) (exp tanh : α → α)
    (dist : Point dim α → Point dim α → α) (t : α) (inc : Nat) (q : PartitionApp dim α)
    (hact : activeApp P inc = true) :
    (modifySolutionFieldsApp P exp tanh dist t inc [q]).map (fun r => r.nuclei)
      = [renumberFrom 0 (q.detect P exp dist t)] := by
  unfold modifySolutionFieldsApp
  rw [if_pos hact]
  simp only [List.map_cons, List.map_nil, List.enum_cons, List.enumFrom_nil, if_true,
    reconcile_single]
  rfl

theorem enumFrom_map_proj {β γ : Type} (G : Nat × β → γ) (H : β → γ)
    (h : ∀ i x, G (i, x) = H x) (l : List β) (k : Nat) :
    (l.enumFrom k).map G = l.map H := by
  induction l generalizing k with
  | nil => rfl
  | cons x l ih => simp [List.enumFrom_cons, h, ih]

theorem modifySolutionFieldsMech_local (P : Parameters α) (RAND_MAX : Nat) (tanh : α → α)
    (dist : Point dim α → Point dim α → α) (t : α) (inc : Nat)
    (parts : List (PartitionMech dim α)) :
    (modifySolutionFieldsMech P RAND_MAX tanh dist t inc parts).map (fun q => q.localNuclei)
      = if activeMech P inc = true then parts.map (PartitionMech.detect P RAND_MAX dist t)
        else parts.map (fun q => q.localNuclei) := by
  unfold modifySolutionFieldsMech
  split_ifs with h
  · simp only [List.map_map, List.enum]
    rw [enumFrom_map_proj _ (fun q : PartitionMech dim α => q.localNuclei) (fun _ _ => rfl)]
    simp only [List.map_map]
    rfl
  · simp [List.map_map, Function.comp_def]

theorem modifySolutionFieldsApp_local (P : Parameters α) (exp tanh : α → α)
    (dist : Point dim α → Point dim α → α) (t : α) (inc : Nat)
    (parts : List (PartitionApp dim α)) :
    (modifySolutionFieldsApp P exp tanh dist t inc parts).map (fun q => q.localNuclei)
      = if activeApp P inc = true then parts.map (PartitionApp.detect P exp dist t)
        else parts.map (fun q => q.localNuclei) := by
  unfold modifySolutionFieldsApp
  split_ifs with h
  · simp only [List.map_map, List.enum]
    rw [enumFrom_map_proj _ (fun q : PartitionApp dim α => q.localNuclei) (fun _ _ => rfl)]
    simp only [List.map_map]
    rfl
  · simp [List.map_map, Function.comp_def]

theorem reachableMech_separated (P : Parameters α) (RAND_MAX : Nat) (tanh : α → α)
    (dist : Point dim α → Point dim α → α) (parts : List (PartitionMech dim α))
    (h : ReachableMech P RAND_MAX tanh dist parts) :
    ∀ l ∈ parts.map (fun q => q.localNuclei),
      l.Pairwise (fun a b => minDistMech ≤ dist a.center b.center) := by
  induction h with
  | start parts h0 =>
    intro l hl
    rw [List.mem_map] at hl
    obtain ⟨q, hq, rfl⟩ := hl
    rw [h0 q hq]
    exact List.Pairwise.nil
  | call parts parts' t inc _ henv ih =>
    intro l hl
    rw [modifySolutionFieldsMech_local] at hl
    split_ifs at hl
    · rw [List.mem_map] at hl
      obtain ⟨q, hq, rfl⟩ := hl
      apply detectMech_pairwise
      apply ih
      rw [← henv]
      exact List.mem_map_of_mem _ hq
    · rw [henv] at hl
      exact ih l hl

theorem reachableApp_separated (P : Parameters α) (exp tanh : α → α)
    (dist : Point dim α → Point dim α → α) (parts : List (PartitionApp dim α))
    (h : ReachableApp P exp tanh dist parts) :
    ∀ l ∈ parts.map (fun q => q.localNuclei),
      l.Pairwise (fun a b => minDistApp P ≤ dist a.center b.center) := by
  induction h with
  | start parts h0 =>
    intro l hl
    rw [List.mem_map] at hl
    obtain ⟨q, hq, rfl⟩ := hl
    rw [h0 q hq]
    exact List.Pairwise.nil
  | call parts parts' t inc _ henv ih =>
    intro l hl
    rw [modifySolutionFieldsApp_local] at hl
    split_ifs at hl
    · rw [List.mem_map] at hl
      obtain ⟨q, hq, rfl⟩ := hl
      apply detectApp_pairwise
      apply ih
      rw [← henv]
      exact List.mem_map_of_mem _ hq
    · rw [henv] at hl
      exact ih l hl

end CallLemmas

section EnergyLemmas
variable {α : Type} [LinearOrderedField α]

theorem foldl_fixed_mem {β γ : Type} (f : γ → β → γ) (l : List β) (s : γ)
    (hf : ∀ x ∈ l, f s x = s) : l.foldl f s = s := by
  induction l with
  | nil => rfl
  | cons x l ih =>
    rw [List.foldl_cons, hf x (List.mem_cons_self _ _)]
    exact ih (fun y hy => hf y (List.mem_cons_of_mem _ hy))

theorem energyLane_skip (pt : EnergyPoint α) (s : EnergyState α) (i : Nat)
    (h : pt.c i ≤ 1 / 10000000000) : energyLane pt s i = s := by
  unfold energyLane
  simp only
  rw [if_neg (not_lt.2 h)]

theorem getEnergy_fixed (n_array_elements n_q_points : Nat) (quad : Nat → Nat → EnergyPoint α)
    (cell_range : Nat × Nat) (s : EnergyState α)
    (h : ∀ cell q i, cell_range.1 ≤ cell → cell < cell_range.2 → q < n_q_points →
      i < n_array_elements → (quad cell q).c i ≤ 1 / 10000000000) :
    getEnergy n_array_elements n_q_points quad cell_range s = s := by
  unfold getEnergy
  apply foldl_fixed_mem
  intro cell hcell
  rw [List.mem_range'_1] at hcell
  apply foldl_fixed_mem
  intro q hq
  rw [List.mem_range] at hq
  apply foldl_fixed_mem
  intro i hi
  rw [List.mem_range] at hi
  exact energyLane_skip _ _ _ (h cell q i hcell.1 (by omega) hq hi)

end EnergyLemmas

section RegistryLemmas

theorem num_var_LHS_eq (R : Roster) :
    num_var_LHS R = ((List.range R.num_var).filter R.needLHS).length := by
  unfold num_var_LHS
  generalize R.num_var = n
  induction n with
  | zero => rfl
  | succ n ih =>
    rw [List.range_succ, List.foldl_append, ih, List.filter_append, List.length_append]
    by_cases h : R.needLHS n = true <;> simp [h]

theorem offset_succ (R : Roster) (dim k : Nat) :
    R.offset dim (k + 1) = R.offset dim k + R.width dim k := by
  simp [Roster.offset, List.range_succ]

theorem countLHS_succ (R : Roster) (sc : Bool) (k : Nat) :
    R.countLHS sc (k + 1)
      = R.countLHS sc k + (if R.needLHS k && (R.isScalar k == sc) then 1 else 0) := by
  unfold Roster.countLHS
  rw [List.range_succ, List.filter_append, List.length_append]
  by_cases h : (R.needLHS k && (R.isScalar k == sc)) = true <;> simp [h]

theorem registry_fold (R : Roster) (dim k : Nat) :
    (List.range k).foldl (registryStep R dim)
      { varInfoList := [], field_number := 0, scalar_var_index := 0, vector_var_index := 0 }
      = { varInfoList := ((List.range k).filter R.needLHS).map (R.entry dim),
          field_number := R.offset dim k,
          scalar_var_index := R.countLHS true k,
          vector_var_index := R.countLHS false k } := by
  induction k with
  | zero => rfl
  | succ k ih =>
    rw [List.range_succ, List.foldl_append, ih, List.foldl_cons, List.foldl_nil]
    rw [offset_succ, countLHS_succ, countLHS_succ, List.filter_append, List.map_append]
    unfold registryStep
    have hsc : (R.var_type k = "SCALAR") ↔ R.isScalar k = true := by simp [Roster.isScalar]
    by_cases hn : R.needLHS k = true <;> by_cases hs : R.isScalar k = true
    · simp [hn, hs, hsc, Roster.entry, Roster.width]
    · simp [hn, hs, hsc, Roster.entry, Roster.width]
    · simp [hn, hs, hsc, Roster.width]
    · simp [hn, hs, hsc, Roster.width]

theorem varInfoList_eq (R : Roster) (dim : Nat) :
    varInfoList R dim = ((List.range R.num_var).filter R.needLHS).map (R.entry dim) := by
  unfold varInfoList registry
  rw [registry_fold]

theorem filter_range_length_lt (p : Nat → Bool) (i n : Nat) (hi : i < n) (hp : p i = true) :
    ((List.range i).filter p).length < ((List.range n).filter p).length := by
  have hn : n = (i + 1) + (n - (i + 1)) := by omega
  rw [hn, List.range_add, List.filter_append, List.length_append, List.range_succ,
    List.filter_append, List.length_append]
  simp [hp]
  omega

end RegistryLemmas

section RegistryFacts

theorem filter_range_take (p : Nat → Bool) (n k : Nat)
    (hk : k < ((List.range n).filter p).length) :
    ((List.range n).filter p)[k] < n ∧ p ((List.range n).filter p)[k] = true ∧
      ((List.range n).filter p).take k
        = (List.range ((List.range n).filter p)[k]).filter p := by
  have hmem : ((List.range n).filter p)[k] ∈ (List.range n).filter p := List.getElem_mem _
  rw [List.mem_filter, List.mem_range] at hmem
  refine ⟨hmem.1, hmem.2, ?_⟩
  generalize hi : ((List.range n).filter p)[k] = i at hmem
  have hn : n = (i + 1) + (n - (i + 1)) := by omega
  have hsplit : (List.range n).filter p
      = (List.range i).filter p ++ (i :: ((List.range (n - (i + 1))).map (i + 1 + ·)).filter p) := by
    conv_lhs => rw [hn, List.range_add, List.filter_append, List.range_succ, List.filter_append]
    simp [hmem.2]
  have hnd : ((List.range n).filter p).Nodup := (List.nodup_range n).filter _
  have hlen : ((List.range i).filter p).length < ((List.range n).filter p).length := by
    rw [hsplit, List.length_append, List.length_cons]
    omega
  have hat : ((List.range n).filter p)[((List.range i).filter p).length] = i :=
    List.getElem_of_append hsplit rfl
  have hkeq : k = ((List.range i).filter p).length := by
    apply (List.Nodup.getElem_inj_iff hnd).1
    rw [hi, hat]
  rw [hkeq]
  conv_lhs => rw [hsplit]
  simp

theorem countLHS_eq (R : Roster) (sc : Bool) (i : Nat) :
    R.countLHS sc i
      = (((List.range i).filter R.needLHS).filter (fun k => R.isScalar k == sc)).length := by
  unfold Roster.countLHS
  rw [List.filter_filter]
  congr 1
  apply List.filter_congr
  intro x _
  rw [Bool.and_comm]

theorem varInfoList_getElem (R : Roster) (dim k : Nat) (hk : k < (varInfoList R dim).length) :
    ∃ i, i < R.num_var ∧ R.needLHS i = true ∧ (varInfoList R dim)[k] = R.entry dim i ∧
      (varInfoList R dim).take k = ((List.range i).filter R.needLHS).map (R.entry dim) := by
  have hk2 : k < ((List.range R.num_var).filter R.needLHS).length := by
    rw [varInfoList_eq, List.length_map] at hk
    exact hk
  obtain ⟨h1, h2, h3⟩ := filter_range_take R.needLHS R.num_var k hk2
  refine ⟨((List.range R.num_var).filter R.needLHS)[k], h1, h2, ?_, ?_⟩
  · simp [varInfoList_eq]
  · rw [varInfoList_eq, ← List.map_take, h3]

end RegistryFacts

section AssemblyLemmas

variable {E V : Type}

theorem sameShape_refl (a : Assembly E V) : a.sameShape a := ⟨fun _ _ => rfl, rfl, rfl⟩

theorem sameShape_trans {a b c : Assembly E V} (h1 : a.sameShape b) (h2 : b.sameShape c) :
    a.sameShape c :=
  ⟨fun sc k => (h2.1 sc k).trans (h1.1 sc k), h2.2.1.trans h1.2.1, h2.2.2.trans h1.2.2⟩

theorem ctx_setCtx (a : Assembly E V) (sc : Bool) (k : Nat) (x : FEEval E V) (sc2 : Bool)
    (k2 : Nat) :
    (a.setCtx sc k x).ctx sc2 k2 = if sc2 = sc ∧ k2 = k then x else a.ctx sc2 k2 := by
  cases sc <;> cases sc2 <;> by_cases hk : k2 = k <;>
    simp [Assembly.setCtx, Assembly.ctx, Function.update_apply, hk]

theorem ctx_setCtx_self (a : Assembly E V) (sc : Bool) (k : Nat) (x : FEEval E V) :
    (a.setCtx sc k x).ctx sc k = x := by
  rw [ctx_setCtx, if_pos ⟨rfl, rfl⟩]

theorem ctx_record (a : Assembly E V) (c : FECall) (sc : Bool) (k : Nat) :
    (a.record c).ctx sc k = a.ctx sc k := rfl

theorem sameShape_setCtx (a : Assembly E V) (sc : Bool) (k : Nat) (x : FEEval E V)
    (hx : x.component = (a.ctx sc k).component) : a.sameShape (a.setCtx sc k x) := by
  refine ⟨fun sc2 k2 => ?_, rfl, rfl⟩
  rw [ctx_setCtx]
  split
  · next h => rw [hx, h.1, h.2]
  · rfl

theorem sameShape_record (a : Assembly E V) (c : FECall) : a.sameShape (a.record c) :=
  ⟨fun _ _ => rfl, rfl, rfl⟩

theorem log_setCtx (a : Assembly E V) (sc : Bool) (k : Nat) (x : FEEval E V) :
    (a.setCtx sc k x).log = a.log := rfl

theorem log_record (a : Assembly E V) (c : FECall) : (a.record c).log = a.log ++ [c] := rfl

theorem sameShape_reinit (a : Assembly E V) (sc : Bool) (k cell : Nat) :
    a.sameShape (a.reinit sc k cell) := by
  unfold Assembly.reinit
  exact sameShape_trans (sameShape_setCtx a sc k _ (by rfl)) (sameShape_record _ _)

theorem sameShape_read (a : Assembly E V) (sc : Bool) (k cell : Nat) (ref : VecRef) (v : V) :
    a.sameShape (a.read_dof_values_plain sc k cell ref v) := by
  unfold Assembly.read_dof_values_plain
  exact sameShape_trans (sameShape_setCtx a sc k _ (by rfl)) (sameShape_record _ _)

theorem sameShape_submit_value (a : Assembly E V) (sc : Bool) (k cell : Nat) (val : E)
    (q : Nat) : a.sameShape (a.submit_value sc k cell val q) := by
  unfold Assembly.submit_value
  exact sameShape_trans (sameShape_setCtx a sc k _ (by rfl)) (sameShape_record _ _)

theorem sameShape_submit_gradient (a : Assembly E V) (sc : Bool) (k cell : Nat) (val : E)
    (q : Nat) : a.sameShape (a.submit_gradient sc k cell val q) := by
  unfold Assembly.submit_gradient
  exact sameShape_trans (sameShape_setCtx a sc k _ (by rfl)) (sameShape_record _ _)

theorem sameShape_integrate (ops : FEOps E V) (a : Assembly E V) (sc : Bool)
    (k cell : Nat) (vf gf : Bool) : a.sameShape (a.integrate ops sc k cell vf gf) := by
  unfold Assembly.integrate
  exact sameShape_trans (sameShape_setCtx a sc k _ (by rfl)) (sameShape_record _ _)

theorem sameShape_readEval (sc : Bool) (k cell : Nat) (ref : VecRef) (v : V) (vf gf hf : Bool)
    (a : Assembly E V) : a.sameShape (readEval sc k cell ref v vf gf hf a) := by
  unfold readEval Assembly.evaluate
  exact sameShape_trans
    (sameShape_trans (sameShape_reinit a sc k cell) (sameShape_read _ sc k cell ref v))
    (sameShape_record _ _)

theorem log_readEval (sc : Bool) (k cell : Nat) (ref : VecRef) (v : V) (vf gf hf : Bool)
    (a : Assembly E V) :
    (readEval sc k cell ref v vf gf hf a).log
      = a.log ++ readTrace sc (a.ctx sc k).component cell ref vf gf hf := by
  have h1 := (sameShape_reinit a sc k cell).1 sc k
  have h2 := (sameShape_read (a.reinit sc k cell) sc k cell ref v).1 sc k
  unfold readEval Assembly.evaluate
  rw [log_record, h2, h1]
  unfold Assembly.read_dof_values_plain
  rw [log_record, log_setCtx, h1]
  unfold Assembly.reinit
  rw [log_record, log_setCtx]
  simp [readTrace]

theorem gatherVar_fst (ops : FEOps E V) (sc : Bool) (k cell q : Nat) (vf gf hf : Bool)
    (a : Assembly E V) (m : modelVariable E) :
    (gatherVar ops sc k cell q vf gf hf (a, m)).1
      = { a with log := a.log ++ gatherTrace sc (a.ctx sc k).component cell q vf gf hf } := by
  cases vf <;> cases gf <;> cases hf <;>
    simp [gatherVar, gatherTrace, Assembly.record, Assembly.ctx]

theorem sameShape_submitRes (sc : Bool) (k cell q : Nat) (vf gf : Bool) (r : modelResidual E)
    (a : Assembly E V) : a.sameShape (submitRes sc k cell q vf gf r a) := by
  cases vf <;> cases gf <;> simp only [submitRes, if_true, if_false, Bool.false_eq_true]
  · exact sameShape_refl a
  · exact sameShape_submit_gradient a sc k cell _ q
  · exact sameShape_submit_value a sc k cell _ q
  · exact sameShape_trans (sameShape_submit_value a sc k cell _ q)
      (sameShape_submit_gradient _ sc k cell _ q)

theorem log_submitRes (sc : Bool) (k cell q : Nat) (vf gf : Bool) (r : modelResidual E)
    (a : Assembly E V) :
    (submitRes sc k cell q vf gf r a).log
      = a.log ++ submitTrace sc (a.ctx sc k).component cell q vf gf := by
  have h1 := (sameShape_submit_value a sc k cell (r.valueResidual sc) q).1 sc k
  cases vf <;> cases gf <;> simp only [submitRes, if_true, if_false, Bool.false_eq_true]
  · simp [submitTrace]
  · unfold Assembly.submit_gradient
    rw [log_record, log_setCtx]
    simp [submitTrace]
  · unfold Assembly.submit_value
    rw [log_record, log_setCtx]
    simp [submitTrace]
  · rw [Assembly.submit_gradient, log_record, log_setCtx, h1, Assembly.submit_value, log_record,
      log_setCtx]
    simp [submitTrace]

theorem log_integrate (ops : FEOps E V) (a : Assembly E V) (sc : Bool)
    (k cell : Nat) (vf gf : Bool) :
    (a.integrate ops sc k cell vf gf).log
      = a.log ++ [FECall.integrate sc (a.ctx sc k).component cell vf gf] := by
  unfold Assembly.integrate
  rw [log_record, log_setCtx]

end AssemblyLemmas

section SetupLemmas

variable {E V : Type}

theorem countKind_succ (R : Roster) (sc : Bool) (k : Nat) :
    R.countKind sc (k + 1) = R.countKind sc k + (if R.isScalar k = sc then 1 else 0) := by
  unfold Roster.countKind
  rw [List.range_succ, List.filter_append, List.length_append]
  by_cases h : R.isScalar k = sc <;> simp [h]

theorem countKind_lt (R : Roster) (i k : Nat) (hik : i < k) :
    R.countKind (R.isScalar i) i < R.countKind (R.isScalar i) k :=
  filter_range_length_lt (fun j => R.isScalar j == R.isScalar i) i k hik (by simp)

theorem ctx_push_back (a : Assembly E V) (sc : Bool) (x : FEEval E V) (sc2 : Bool) (k2 : Nat) :
    (a.push_back sc x).ctx sc2 k2
      = if sc2 = sc ∧ k2 = (if sc then a.n_scalar else a.n_vector) then x else a.ctx sc2 k2 := by
  cases sc <;> cases sc2 <;>
    simp [Assembly.push_back, Assembly.ctx, Function.update_apply]

theorem rhsSetup_fold (R : Roster) (dim : Nat) (blank : FEEval E V) (k : Nat) :
    ((List.range k).foldl (rhsSetupStep R dim blank)
        { fe := Assembly.empty blank, is_scalar_var := [], scalar_or_vector_index := [],
          field_index := [], field_number := 0 }).is_scalar_var
        = (List.range k).map R.isScalar ∧
    ((List.range k).foldl (rhsSetupStep R dim blank)
        { fe := Assembly.empty blank, is_scalar_var := [], scalar_or_vector_index := [],
          field_index := [], field_number := 0 }).scalar_or_vector_index
        = (List.range k).map (fun i => R.countKind (R.isScalar i) i) ∧
    ((List.range k).foldl (rhsSetupStep R dim blank)
        { fe := Assembly.empty blank, is_scalar_var := [], scalar_or_vector_index := [],
          field_index := [], field_number := 0 }).field_index
        = (List.range k).map (R.offset dim) ∧
    ((List.range k).foldl (rhsSetupStep R dim blank)
        { fe := Assembly.empty blank, is_scalar_var := [], scalar_or_vector_index := [],
          field_index := [], field_number := 0 }).field_number = R.offset dim k ∧
    ((List.range k).foldl (rhsSetupStep R dim blank)
        { fe := Assembly.empty blank, is_scalar_var := [], scalar_or_vector_index := [],
          field_index := [], field_number := 0 }).fe.n_scalar = R.countKind true k ∧
    ((List.range k).foldl (rhsSetupStep R dim blank)
        { fe := Assembly.empty blank, is_scalar_var := [], scalar_or_vector_index := [],
          field_index := [], field_number := 0 }).fe.n_vector = R.countKind false k ∧
    ((List.range k).foldl (rhsSetupStep R dim blank)
        { fe := Assembly.empty blank, is_scalar_var := [], scalar_or_vector_index := [],
          field_index := [], field_number := 0 }).fe.log = [] ∧
    ∀ i, i < k →
      (((List.range k).foldl (rhsSetupStep R dim blank)
        { fe := Assembly.empty blank, is_scalar_var := [], scalar_or_vector_index := [],
          field_index := [], field_number := 0 }).fe.ctx (R.isScalar i)
          (R.countKind (R.isScalar i) i)).component = i := by
  induction k with
  | zero =>
    refine ⟨rfl, rfl, rfl, rfl, rfl, rfl, rfl, ?_⟩
    intro i hi
    omega
  | succ k ih =>
    rw [List.range_succ, List.foldl_append, List.foldl_cons, List.foldl_nil]
    generalize (List.range k).foldl (rhsSetupStep R dim blank) _ = s at ih
    obtain ⟨h1, h2, h3, h4, h5, h6, h7, h8⟩ := ih
    have hsc : (R.var_type k = "SCALAR") ↔ R.isScalar k = true := by simp [Roster.isScalar]
    rw [List.map_append, List.map_append, List.map_append, offset_succ, countKind_succ,
      countKind_succ]
    by_cases hs : R.isScalar k = true
    · have hv : R.var_type k = "SCALAR" := hsc.2 hs
      simp only [rhsSetupStep, if_pos hv]
      refine ⟨by rw [h1]; simp [hs], ?_, by rw [h3, h4]; rfl, ?_, ?_, ?_, h7, ?_⟩
      · rw [h2]
        simp [Assembly.push_back, h5, hs]
      · rw [h4]
        simp [Roster.width, hs]
      · simp [Assembly.push_back, h5, hs]
      · simp [Assembly.push_back, h6, hs]
      · intro i hi
        rw [ctx_push_back]
        by_cases hik : i = k
        · subst hik
          rw [if_pos]
          rw [hs, h5]
          exact ⟨rfl, rfl⟩
        · have hlt : i < k := by omega
          rw [if_neg, h8 i hlt]
          rintro ⟨hsi, hki⟩
          have := countKind_lt R i k hlt
          rw [hsi] at this hki
          simp only [if_true] at hki
          omega
    · have hv : ¬ R.var_type k = "SCALAR" := fun h => hs (hsc.1 h)
      have hs2 : R.isScalar k = false := by simpa using hs
      simp only [rhsSetupStep, if_neg hv]
      refine ⟨by rw [h1]; simp [hs2], ?_, by rw [h3, h4]; rfl, ?_, ?_, ?_, h7, ?_⟩
      · rw [h2]
        simp [Assembly.push_back, h6, hs2]
      · rw [h4]
        simp [Roster.width, hs2]
      · simp [Assembly.push_back, h5, hs2]
      · simp [Assembly.push_back, h6, hs2]
      · intro i hi
        rw [ctx_push_back]
        by_cases hik : i = k
        · subst hik
          rw [if_pos]
          rw [hs2, h6]
          exact ⟨rfl, rfl⟩
        · have hlt : i < k := by omega
          rw [if_neg, h8 i hlt]
          rintro ⟨hsi, hki⟩
          have := countKind_lt R i k hlt
          rw [hsi] at this hki
          simp only [Bool.false_eq_true, if_false] at hki
          omega

end SetupLemmas

section TraceLemmas

theorem getD_map_range {β : Type} (f : Nat → β) (n i : Nat) (d : β) (hi : i < n) :
    ((List.range n).map f).getD i d = f i := by
  simp [List.getD_eq_getElem?_getD, hi]

theorem foldl_trace {S β C : Type} (log : S → List C) (I : S → Prop) (f : S → β → S)
    (g : β → List C) (l : List β)
    (hf : ∀ s, I s → ∀ x ∈ l, I (f s x) ∧ log (f s x) = log s ++ g x) (s : S) (hs : I s) :
    I (l.foldl f s) ∧ log (l.foldl f s) = log s ++ l.flatMap g := by
  induction l generalizing s with
  | nil => exact ⟨hs, by simp⟩
  | cons x l ih =>
    obtain ⟨h1, h2⟩ := hf s hs x (List.mem_cons_self _ _)
    obtain ⟨h3, h4⟩ := ih (fun s hs y hy => hf s hs y (List.mem_cons_of_mem _ hy)) (f s x) h1
    refine ⟨h3, ?_⟩
    rw [List.foldl_cons, h4, h2, List.flatMap_cons, List.append_assoc]

theorem foldlM_trace {S β C : Type} (log : S → List C) (I : S → Prop) (f : S → β → Option S)
    (g : β → List C) (l : List β)
    (hf : ∀ s, I s → ∀ x ∈ l, ∃ s2, f s x = some s2 ∧ I s2 ∧ log s2 = log s ++ g x) (s : S)
    (hs : I s) :
    ∃ s2, l.foldlM f s = some s2 ∧ I s2 ∧ log s2 = log s ++ l.flatMap g := by
  induction l generalizing s with
  | nil => exact ⟨s, rfl, hs, by simp⟩
  | cons x l ih =>
    obtain ⟨s1, h0, h1, h2⟩ := hf s hs x (List.mem_cons_self _ _)
    obtain ⟨s2, h3, h4, h5⟩ :=
      ih (fun s hs y hy => hf s hs y (List.mem_cons_of_mem _ hy)) s1 h1
    refine ⟨s2, ?_, h4, ?_⟩
    · rw [List.foldlM_cons, h0]
      exact h3
    · rw [h5, h2, List.flatMap_cons, List.append_assoc]

end TraceLemmas

section RHSTrace

variable {E V : Type}

theorem rhsSetup_arrays (R : Roster) (dim : Nat) (blank : FEEval E V) (i : Nat)
    (hi : i < R.num_var) :
    (rhsSetup R dim blank).is_scalar_var.getD i false = R.isScalar i ∧
    (rhsSetup R dim blank).scalar_or_vector_index.getD i 0 = R.countKind (R.isScalar i) i ∧
    (rhsSetup R dim blank).field_index.getD i 0 = R.offset dim i ∧
    ((rhsSetup R dim blank).fe.ctx (R.isScalar i) (R.countKind (R.isScalar i) i)).component
      = i := by
  obtain ⟨h1, h2, h3, _, _, _, _, h8⟩ := rhsSetup_fold R dim blank R.num_var
  unfold rhsSetup
  rw [h1, h2, h3, getD_map_range _ _ _ _ hi, getD_map_range _ _ _ _ hi,
    getD_map_range _ _ _ _ hi]
  exact ⟨rfl, rfl, rfl, h8 i hi⟩

theorem rhsSetup_log (R : Roster) (dim : Nat) (blank : FEEval E V) :
    (rhsSetup R dim blank).fe.log = [] :=
  (rhsSetup_fold R dim blank R.num_var).2.2.2.2.2.2.1

theorem rhsSetup_n_scalar (R : Roster) (dim : Nat) (blank : FEEval E V) :
    (rhsSetup R dim blank).fe.n_scalar = R.countKind true R.num_var :=
  (rhsSetup_fold R dim blank R.num_var).2.2.2.2.1

theorem rhsRead_trace (R : Roster) (dim : Nat) (blank : FEEval E V) (src : Nat → V)
    (cell : Nat) (a : Assembly E V) (ha : (rhsSetup R dim blank).fe.sameShape a) :
    (rhsSetup R dim blank).fe.sameShape
        ((List.range R.num_var).foldl (rhsReadStep R (rhsSetup R dim blank) src cell) a) ∧
      ((List.range R.num_var).foldl (rhsReadStep R (rhsSetup R dim blank) src cell) a).log
        = a.log ++ (List.range R.num_var).flatMap
            (fun i => readTrace (R.isScalar i) i cell (VecRef.src (R.offset dim i))
              (R.need_value i) (R.need_gradient i) (R.need_hessian i)) := by
  apply foldl_trace (fun a : Assembly E V => a.log)
    (fun a => (rhsSetup R dim blank).fe.sameShape a)
  · intro s hs i hi
    rw [List.mem_range] at hi
    obtain ⟨h1, h2, h3, h4⟩ := rhsSetup_arrays R dim blank i hi
    unfold rhsReadStep
    rw [h1, h2, h3]
    refine ⟨sameShape_trans hs (sameShape_readEval _ _ _ _ _ _ _ _ _), ?_⟩
    rw [log_readEval, hs.1, h4]
  · exact ha

theorem rhsGather_trace (ops : FEOps E V) (R : Roster) (dim : Nat) (blank : FEEval E V)
    (cell q : Nat) (s : RHSState E V) (hs : (rhsSetup R dim blank).fe.sameShape s.fe) :
    (rhsSetup R dim blank).fe.sameShape
        ((List.range R.num_var).foldl
          (rhsGatherStep ops R (rhsSetup R dim blank) cell q) s).fe ∧
      ((List.range R.num_var).foldl
          (rhsGatherStep ops R (rhsSetup R dim blank) cell q) s).fe.log
        = s.fe.log ++ (List.range R.num_var).flatMap
            (fun i => gatherTrace (R.isScalar i) i cell q
              (R.need_value i) (R.need_gradient i) (R.need_hessian i)) := by
  apply foldl_trace (fun s : RHSState E V => s.fe.log)
    (fun s => (rhsSetup R dim blank).fe.sameShape s.fe)
  · intro s hs i hi
    rw [List.mem_range] at hi
    obtain ⟨h1, h2, h3, h4⟩ := rhsSetup_arrays R dim blank i hi
    unfold rhsGatherStep
    simp only
    rw [h1, h2, gatherVar_fst, hs.1, h4]
    exact ⟨⟨fun sc k => hs.1 sc k, hs.2.1, hs.2.2⟩, rfl⟩
  · exact hs

theorem rhsSubmit_trace (R : Roster) (dim : Nat) (blank : FEEval E V)
    (cell q : Nat) (s : RHSState E V) (hs : (rhsSetup R dim blank).fe.sameShape s.fe) :
    (rhsSetup R dim blank).fe.sameShape
        ((List.range R.num_var).foldl (rhsSubmitStep R (rhsSetup R dim blank) cell q) s).fe ∧
      ((List.range R.num_var).foldl (rhsSubmitStep R (rhsSetup R dim blank) cell q) s).fe.log
        = s.fe.log ++ (List.range R.num_var).flatMap
            (fun i => submitTrace (R.isScalar i) i cell q
              (R.value_residual i) (R.gradient_residual i)) := by
  apply foldl_trace (fun s : RHSState E V => s.fe.log)
    (fun s => (rhsSetup R dim blank).fe.sameShape s.fe)
  · intro s hs i hi
    rw [List.mem_range] at hi
    obtain ⟨h1, h2, h3, h4⟩ := rhsSetup_arrays R dim blank i hi
    unfold rhsSubmitStep
    simp only
    rw [h1, h2]
    refine ⟨sameShape_trans hs (sameShape_submitRes _ _ _ _ _ _ _ _), ?_⟩
    rw [log_submitRes, hs.1, h4]
  · exact hs

theorem rhsIntegrate_trace [Add V] (ops : FEOps E V) (R : Roster) (dim : Nat)
    (blank : FEEval E V) (cell : Nat) (s : RHSState E V)
    (hs : (rhsSetup R dim blank).fe.sameShape s.fe) :
    (rhsSetup R dim blank).fe.sameShape
        ((List.range R.num_var).foldl
          (rhsIntegrateStep ops R (rhsSetup R dim blank) cell) s).fe ∧
      ((List.range R.num_var).foldl
          (rhsIntegrateStep ops R (rhsSetup R dim blank) cell) s).fe.log
        = s.fe.log ++ (List.range R.num_var).flatMap
            (fun i =>
              [FECall.integrate (R.isScalar i) i cell (R.value_residual i)
                  (R.gradient_residual i),
                FECall.distribute_local_to_global (R.isScalar i) i cell
                  (VecRef.dst (R.offset dim i))]) := by
  apply foldl_trace (fun s : RHSState E V => s.fe.log)
    (fun s => (rhsSetup R dim blank).fe.sameShape s.fe)
  · intro s hs i hi
    rw [List.mem_range] at hi
    obtain ⟨h1, h2, h3, h4⟩ := rhsSetup_arrays R dim blank i hi
    have hsh := sameShape_trans hs (sameShape_integrate ops s.fe (R.isScalar i)
      (R.countKind (R.isScalar i) i) cell (R.value_residual i) (R.gradient_residual i))
    unfold rhsIntegrateStep
    simp only
    rw [h1, h2, h3]
    refine ⟨sameShape_trans hsh (sameShape_record _ _), ?_⟩
    rw [log_record, log_integrate, hsh.1, hs.1, h4]
    simp
  · exact hs

end RHSTrace

section RHSRun

variable {E V : Type}

theorem rhsQuad_trace (ops : FEOps E V) (R : Roster) (dim : Nat) (blank : FEEval E V)
    (K : (Nat → modelVariable E) → (Nat → modelResidual E)) (cell : Nat)
    (s : RHSState E V) (q : Nat) (hs : (rhsSetup R dim blank).fe.sameShape s.fe) :
    (rhsSetup R dim blank).fe.sameShape
        (rhsQuad ops R (rhsSetup R dim blank) K cell s q).fe ∧
      (rhsQuad ops R (rhsSetup R dim blank) K cell s q).fe.log
        = s.fe.log ++
          ((List.range R.num_var).flatMap
              (fun i => gatherTrace (R.isScalar i) i cell q
                (R.need_value i) (R.need_gradient i) (R.need_hessian i))
            ++ [FECall.residual cell q]
            ++ (List.range R.num_var).flatMap
              (fun i => submitTrace (R.isScalar i) i cell q
                (R.value_residual i) (R.gradient_residual i))) := by
  obtain ⟨g1, g2⟩ := rhsGather_trace ops R dim blank cell q s hs
  unfold rhsQuad
  simp only
  obtain ⟨h1, h2⟩ := rhsSubmit_trace R dim blank cell q
    { (List.range R.num_var).foldl (rhsGatherStep ops R (rhsSetup R dim blank) cell q) s with
      fe := ((List.range R.num_var).foldl
        (rhsGatherStep ops R (rhsSetup R dim blank) cell q) s).fe.record
          (FECall.residual cell q)
      modelResidualsList := K ((List.range R.num_var).foldl
        (rhsGatherStep ops R (rhsSetup R dim blank) cell q) s).modelVarList }
    (sameShape_trans g1 (sameShape_record _ _))
  refine ⟨h1, ?_⟩
  rw [h2, log_record, g2]
  simp only [List.append_assoc]

theorem rhsCellRest_trace [Add V] (ops : FEOps E V) (R : Roster) (dim : Nat)
    (blank : FEEval E V) (K : (Nat → modelVariable E) → (Nat → modelResidual E))
    (n_q_points cell : Nat) (s : RHSState E V)
    (hs : (rhsSetup R dim blank).fe.sameShape s.fe) :
    (rhsSetup R dim blank).fe.sameShape
        (rhsCellRest ops R (rhsSetup R dim blank) K n_q_points cell s).fe ∧
      (rhsCellRest ops R (rhsSetup R dim blank) K n_q_points cell s).fe.log
        = s.fe.log ++
          ((List.range n_q_points).flatMap
              (fun q =>
                (List.range R.num_var).flatMap
                    (fun i => gatherTrace (R.isScalar i) i cell q
                      (R.need_value i) (R.need_gradient i) (R.need_hessian i))
                  ++ [FECall.residual cell q]
                  ++ (List.range R.num_var).flatMap
                    (fun i => submitTrace (R.isScalar i) i cell q
                      (R.value_residual i) (R.gradient_residual i)))
            ++ (List.range R.num_var).flatMap
              (fun i =>
                [FECall.integrate (R.isScalar i) i cell (R.value_residual i)
                    (R.gradient_residual i),
                  FECall.distribute_local_to_global (R.isScalar i) i cell
                    (VecRef.dst (R.offset dim i))])) := by
  obtain ⟨q1, q2⟩ := foldl_trace (fun s : RHSState E V => s.fe.log)
    (fun s => (rhsSetup R dim blank).fe.sameShape s.fe)
    (rhsQuad ops R (rhsSetup R dim blank) K cell) _ (List.range n_q_points)
    (fun s hs q _ => rhsQuad_trace ops R dim blank K cell s q hs) s hs
  obtain ⟨i1, i2⟩ := rhsIntegrate_trace ops R dim blank cell _ q1
  unfold rhsCellRest
  refine ⟨i1, ?_⟩
  rw [i2, q2, List.append_assoc]

theorem rhsCell_trace [Add V] (ops : FEOps E V) (R : Roster) (dim : Nat)
    (blank : FEEval E V) (K : (Nat → modelVariable E) → (Nat → modelResidual E))
    (src : Nat → V) (s : RHSState E V) (cell : Nat)
    (hsc : 0 < R.countKind true R.num_var)
    (hs : (rhsSetup R dim blank).fe.sameShape s.fe) :
    ∃ s2, rhsCell ops R (rhsSetup R dim blank) K src s cell = some s2 ∧
      (rhsSetup R dim blank).fe.sameShape s2.fe ∧
      s2.fe.log = s.fe.log ++ rhsCellTrace R dim ops.n_q_points cell := by
  obtain ⟨r1, r2⟩ := rhsRead_trace R dim blank src cell s.fe hs
  obtain ⟨c1, c2⟩ := rhsCellRest_trace ops R dim blank K ops.n_q_points cell
    { s with
      fe := ((List.range R.num_var).foldl
        (rhsReadStep R (rhsSetup R dim blank) src cell) s.fe) } r1
  have hn : ((List.range R.num_var).foldl
      (rhsReadStep R (rhsSetup R dim blank) src cell) s.fe).n_scalar ≠ 0 := by
    rw [r1.2.1, rhsSetup_n_scalar]
    omega
  refine ⟨_, ?_, c1, ?_⟩
  · unfold rhsCell
    simp only
    rw [if_neg hn]
  · rw [c2, r2]
    simp only [rhsCellTrace, List.append_assoc]

theorem getRHS_trace [Add V] (ops : FEOps E V) (R : Roster) (dim : Nat)
    (blank : FEEval E V) (K : (Nat → modelVariable E) → (Nat → modelResidual E))
    (mv0 : Nat → modelVariable E) (res0 : Nat → modelResidual E) (dst src : Nat → V)
    (cell_range : Nat × Nat) (hsc : 0 < R.countKind true R.num_var) :
    ∃ s, getRHS ops R dim blank K mv0 res0 dst src cell_range = some s ∧
      s.fe.log = (List.range' cell_range.1 (cell_range.2 - cell_range.1)).flatMap
        (rhsCellTrace R dim ops.n_q_points) := by
  obtain ⟨s, h1, _, h3⟩ := foldlM_trace (fun s : RHSState E V => s.fe.log)
    (fun s => (rhsSetup R dim blank).fe.sameShape s.fe)
    (rhsCell ops R (rhsSetup R dim blank) K src) (rhsCellTrace R dim ops.n_q_points)
    (List.range' cell_range.1 (cell_range.2 - cell_range.1))
    (fun s hs cell _ => rhsCell_trace ops R dim blank K src s cell hsc hs)
    { fe := (rhsSetup R dim blank).fe, modelVarList := mv0, modelResidualsList := res0,
      dst := dst }
    (sameShape_refl _)
  refine ⟨s, h1, ?_⟩
  rw [h3, rhsSetup_log, List.nil_append]

theorem rhsCell_none [Add V] (ops : FEOps E V) (R : Roster) (dim : Nat)
    (blank : FEEval E V) (K : (Nat → modelVariable E) → (Nat → modelResidual E))
    (src : Nat → V) (s : RHSState E V) (cell : Nat)
    (hsc : R.countKind true R.num_var = 0)
    (hs : (rhsSetup R dim blank).fe.sameShape s.fe) :
    rhsCell ops R (rhsSetup R dim blank) K src s cell = none := by
  obtain ⟨r1, _⟩ := rhsRead_trace R dim blank src cell s.fe hs
  unfold rhsCell
  simp only
  rw [if_pos]
  rw [r1.2.1, rhsSetup_n_scalar, hsc]

theorem getRHS_log [Add V] (ops : FEOps E V) (R : Roster) (dim : Nat)
    (blank : FEEval E V) (K : (Nat → modelVariable E) → (Nat → modelResidual E))
    (mv0 : Nat → modelVariable E) (res0 : Nat → modelResidual E) (dst src : Nat → V)
    (cell_range : Nat × Nat) (s : RHSState E V)
    (h : getRHS ops R dim blank K mv0 res0 dst src cell_range = some s) :
    s.fe.log = (List.range' cell_range.1 (cell_range.2 - cell_range.1)).flatMap
      (rhsCellTrace R dim ops.n_q_points) := by
  by_cases hsc : 0 < R.countKind true R.num_var
  · obtain ⟨s2, h1, h2⟩ := getRHS_trace ops R dim blank K mv0 res0 dst src cell_range hsc
    rw [h1] at h
    cases h
    exact h2
  · have hz : R.countKind true R.num_var = 0 := by omega
    unfold getRHS at h
    cases hl : List.range' cell_range.1 (cell_range.2 - cell_range.1) with
    | nil =>
      rw [hl] at h
      simp only [List.foldlM_nil] at h
      cases h
      simp [rhsSetup_log]
    | cons c l =>
      rw [hl, List.foldlM_cons,
        rhsCell_none ops R dim blank K src _ c hz (sameShape_refl _)] at h
      cases h

end RHSRun

section LHSSetup

variable {E V : Type}

theorem mem_varInfoList (R : Roster) (dim : Nat) (e : variable_info) :
    e ∈ varInfoList R dim ↔ ∃ i, i < R.num_var ∧ R.needLHS i = true ∧ e = R.entry dim i := by
  rw [varInfoList_eq, List.mem_map]
  constructor
  · rintro ⟨i, hi, rfl⟩
    rw [List.mem_filter, List.mem_range] at hi
    exact ⟨i, hi.1, hi.2, rfl⟩
  · rintro ⟨i, hi, hn, rfl⟩
    exact ⟨i, by rw [List.mem_filter, List.mem_range]; exact ⟨hi, hn⟩, rfl⟩

theorem length_varInfoList (R : Roster) (dim : Nat) :
    (varInfoList R dim).length = num_var_LHS R := by
  rw [num_var_LHS_eq, varInfoList_eq, List.length_map]

theorem foldl_varInfoList {γ : Type} (R : Roster) (dim : Nat) (d : variable_info)
    (f : γ → variable_info → γ) (init : γ) :
    (List.range (num_var_LHS R)).foldl (fun acc i => f acc ((varInfoList R dim).getD i d)) init
      = (varInfoList R dim).foldl f init := by
  apply foldl_range_eq (varInfoList R dim) (num_var_LHS R) (length_varInfoList R dim).symm
  intro acc i hi
  rw [List.getD_eq_getElem _ _ hi]

theorem countLHS_lt (R : Roster) (i k : Nat) (hik : i < k) (hn : R.needLHS i = true) :
    R.countLHS (R.isScalar i) i < R.countLHS (R.isScalar i) k :=
  filter_range_length_lt (fun j => R.needLHS j && (R.isScalar j == R.isScalar i)) i k hik
    (by simp [hn])

theorem lhsStores_fold (R : Roster) (dim : Nat) (blank : FEEval E V) (k : Nat) :
    ((((List.range k).filter R.needLHS).map (R.entry dim)).foldl
        (fun a e => a.push_back e.is_scalar { blank with component := e.global_field_index })
        (Assembly.empty blank)).n_scalar = R.countLHS true k ∧
    ((((List.range k).filter R.needLHS).map (R.entry dim)).foldl
        (fun a e => a.push_back e.is_scalar { blank with component := e.global_field_index })
        (Assembly.empty blank)).n_vector = R.countLHS false k ∧
    ((((List.range k).filter R.needLHS).map (R.entry dim)).foldl
        (fun a e => a.push_back e.is_scalar { blank with component := e.global_field_index })
        (Assembly.empty blank)).log = [] ∧
    ∀ i, i < k → R.needLHS i = true →
      (((((List.range k).filter R.needLHS).map (R.entry dim)).foldl
        (fun a e => a.push_back e.is_scalar { blank with component := e.global_field_index })
        (Assembly.empty blank)).ctx (R.isScalar i) (R.countLHS (R.isScalar i) i)).component
        = R.offset dim i := by
  induction k with
  | zero =>
    refine ⟨rfl, rfl, rfl, ?_⟩
    intro i hi
    omega
  | succ k ih =>
    rw [List.range_succ, List.filter_append, List.map_append, List.foldl_append]
    generalize (((List.range k).filter R.needLHS).map (R.entry dim)).foldl _ _ = a at ih
    obtain ⟨h1, h2, h3, h4⟩ := ih
    rw [countLHS_succ, countLHS_succ]
    by_cases hn : R.needLHS k = true
    · have hf : [k].filter R.needLHS = [k] := by simp [hn]
      rw [hf, List.map_cons, List.map_nil, List.foldl_cons, List.foldl_nil]
      refine ⟨?_, ?_, h3, ?_⟩
      · cases hs : R.isScalar k <;> simp [Assembly.push_back, Roster.entry, h1, hn, hs]
      · cases hs : R.isScalar k <;> simp [Assembly.push_back, Roster.entry, h2, hn, hs]
      · intro i hi hni
        rw [ctx_push_back]
        by_cases hik : i = k
        · subst hik
          rw [if_pos]
          · rfl
          · refine ⟨rfl, ?_⟩
            cases hs : R.isScalar i <;> simp [Roster.entry, hs, h1, h2]
        · have hlt : i < k := by omega
          rw [if_neg, h4 i hlt hni]
          rintro ⟨hsi, hki⟩
          have hc := countLHS_lt R i k hlt hni
          have hsi2 : R.isScalar i = R.isScalar k := hsi
          rw [hsi2] at hc hki
          cases hs : R.isScalar k <;> simp [Roster.entry, hs, h1, h2] at hki hc <;> omega
    · have hf : [k].filter R.needLHS = [] := by simp [hn]
      rw [hf, List.map_nil, List.foldl_nil]
      refine ⟨by simp [h1, hn], by simp [h2, hn], h3, ?_⟩
      intro i hi hni
      have hlt : i < k := by
        rcases Nat.lt_succ_iff_lt_or_eq.1 hi with h | h
        · exact h
        · subst h
          exact absurd hni hn
      exact h4 i hlt hni

theorem lhsStores_eq (R : Roster) (dim : Nat) (d : variable_info) (blank : FEEval E V) :
    lhsStores R dim d blank
      = (((List.range R.num_var).filter R.needLHS).map (R.entry dim)).foldl
        (fun a e => a.push_back e.is_scalar { blank with component := e.global_field_index })
        (Assembly.empty blank) := by
  unfold lhsStores
  exact (foldl_varInfoList R dim d
    (fun a e => a.push_back e.is_scalar { blank with component := e.global_field_index })
    (Assembly.empty blank)).trans (by rw [varInfoList_eq])

theorem lhsStores_ctx (R : Roster) (dim : Nat) (d : variable_info) (blank : FEEval E V)
    (e : variable_info) (he : e ∈ varInfoList R dim) :
    ((lhsStores R dim d blank).ctx e.is_scalar e.scalar_or_vector_index).component
      = e.global_field_index := by
  obtain ⟨i, hi, hn, rfl⟩ := (mem_varInfoList R dim e).1 he
  rw [lhsStores_eq]
  exact (lhsStores_fold R dim blank R.num_var).2.2.2 i hi hn

theorem lhsStores_log (R : Roster) (dim : Nat) (d : variable_info) (blank : FEEval E V) :
    (lhsStores R dim d blank).log = [] := by
  rw [lhsStores_eq]
  exact (lhsStores_fold R dim blank R.num_var).2.2.1

theorem lhsStores_sizes (R : Roster) (dim : Nat) (d : variable_info) (blank : FEEval E V) :
    (lhsStores R dim d blank).n_scalar = R.countLHS true R.num_var ∧
      (lhsStores R dim d blank).n_vector = R.countLHS false R.num_var := by
  rw [lhsStores_eq]
  exact ⟨(lhsStores_fold R dim blank R.num_var).1, (lhsStores_fold R dim blank R.num_var).2.1⟩

theorem countLHS_pos (R : Roster) (dim : Nat) (e : variable_info)
    (he : e ∈ varInfoList R dim) :
    0 < R.countLHS true R.num_var ∨ 0 < R.countLHS false R.num_var := by
  obtain ⟨i, hi, hn, rfl⟩ := (mem_varInfoList R dim e).1 he
  have h := countLHS_lt R i R.num_var hi hn
  cases hs : R.isScalar i
  · right
    rw [hs] at h
    omega
  · left
    rw [hs] at h
    omega

end LHSSetup

section LHSTrace

variable {E V : Type}

theorem map_getD_range {β : Type} (l : List β) (d : β) :
    (List.range l.length).map (fun i => l.getD i d) = l := by
  apply List.ext_getElem
  · simp
  · intro i h1 h2
    simp [List.getD_eq_getElem?_getD, h2]

theorem flatMap_varInfoList {C : Type} (R : Roster) (dim : Nat) (d : variable_info)
    (g : variable_info → List C) :
    (List.range (num_var_LHS R)).flatMap (fun i => g ((varInfoList R dim).getD i d))
      = (varInfoList R dim).flatMap g := by
  conv_rhs => rw [← map_getD_range (varInfoList R dim) d, length_varInfoList]
  rw [List.flatMap_map]

theorem getD_mem_varInfoList (R : Roster) (dim : Nat) (d : variable_info) (i : Nat)
    (hi : i < num_var_LHS R) : (varInfoList R dim).getD i d ∈ varInfoList R dim := by
  have h : i < (varInfoList R dim).length := by rw [length_varInfoList]; exact hi
  rw [List.getD_eq_getElem _ _ h]
  exact List.getElem_mem _

theorem lhsRead_trace (R : Roster) (dim : Nat) (d r : variable_info) (blank : FEEval E V)
    (src : V) (solutionSet : Nat → V) (cell : Nat) (a : Assembly E V)
    (ha : (lhsStores R dim d blank).sameShape a) :
    (lhsStores R dim d blank).sameShape
        ((List.range (num_var_LHS R)).foldl (lhsReadStep R dim d r src solutionSet cell) a) ∧
      ((List.range (num_var_LHS R)).foldl (lhsReadStep R dim d r src solutionSet cell) a).log
        = a.log ++ (varInfoList R dim).flatMap
            (fun e => readTrace e.is_scalar e.global_field_index cell
              (if e.global_field_index = r.global_field_index then VecRef.trial
                else VecRef.solutionSet e.global_field_index)
              (R.need_value_LHS e.global_var_index) (R.need_gradient_LHS e.global_var_index)
              (R.need_hessian_LHS e.global_var_index)) := by
  rw [← flatMap_varInfoList R dim d]
  apply foldl_trace (fun a : Assembly E V => a.log)
    (fun a => (lhsStores R dim d blank).sameShape a)
  · intro s hs i hi
    rw [List.mem_range] at hi
    have hc := lhsStores_ctx R dim d blank _ (getD_mem_varInfoList R dim d i hi)
    unfold lhsReadStep
    simp only
    split
    · refine ⟨sameShape_trans hs (sameShape_readEval _ _ _ _ _ _ _ _ _), ?_⟩
      rw [log_readEval, hs.1, hc]
    · refine ⟨sameShape_trans hs (sameShape_readEval _ _ _ _ _ _ _ _ _), ?_⟩
      rw [log_readEval, hs.1, hc]
  · exact ha

theorem lhsGather_trace (ops : FEOps E V) (R : Roster) (dim : Nat) (d : variable_info)
    (blank : FEEval E V) (cell q : Nat) (s : LHSState E V)
    (hs : (lhsStores R dim d blank).sameShape s.fe) :
    (lhsStores R dim d blank).sameShape
        ((List.range (num_var_LHS R)).foldl (lhsGatherStep ops R dim d cell q) s).fe ∧
      ((List.range (num_var_LHS R)).foldl (lhsGatherStep ops R dim d cell q) s).fe.log
        = s.fe.log ++ (varInfoList R dim).flatMap
            (fun e => gatherTrace e.is_scalar e.global_field_index cell q
              (R.need_value_LHS e.global_var_index) (R.need_gradient_LHS e.global_var_index)
              (R.need_hessian_LHS e.global_var_index)) := by
  rw [← flatMap_varInfoList R dim d]
  apply foldl_trace (fun s : LHSState E V => s.fe.log)
    (fun s => (lhsStores R dim d blank).sameShape s.fe)
  · intro s hs i hi
    rw [List.mem_range] at hi
    have hc := lhsStores_ctx R dim d blank _ (getD_mem_varInfoList R dim d i hi)
    unfold lhsGatherStep
    simp only
    rw [gatherVar_fst, hs.1, hc]
    exact ⟨⟨fun sc k => hs.1 sc k, hs.2.1, hs.2.2⟩, rfl⟩
  · exact hs

theorem lhsQuad_trace (ops : FEOps E V) (R : Roster) (dim : Nat) (d r : variable_info)
    (blank : FEEval E V) (K : (Nat → modelVariable E) → modelResidual E) (cell : Nat)
    (s : LHSState E V) (q : Nat) (hs : (lhsStores R dim d blank).sameShape s.fe) :
    (lhsStores R dim d blank).sameShape (lhsQuad ops R dim d r K cell s q).fe ∧
      (lhsQuad ops R dim d r K cell s q).fe.log
        = s.fe.log ++
          ((varInfoList R dim).flatMap
              (fun e => gatherTrace e.is_scalar e.global_field_index cell q
                (R.need_value_LHS e.global_var_index) (R.need_gradient_LHS e.global_var_index)
                (R.need_hessian_LHS e.global_var_index))
            ++ [FECall.residual cell q]
            ++ submitTrace r.is_scalar
              ((lhsStores R dim d blank).ctx r.is_scalar r.scalar_or_vector_index).component
              cell q (R.value_residual r.global_var_index)
              (R.gradient_residual r.global_var_index)) := by
  obtain ⟨g1, g2⟩ := lhsGather_trace ops R dim d blank cell q s hs
  have g3 := sameShape_trans g1 (sameShape_record _ (FECall.residual cell q))
  unfold lhsQuad
  simp only
  refine ⟨sameShape_trans g3 (sameShape_submitRes _ _ _ _ _ _ _ _), ?_⟩
  rw [log_submitRes, g3.1, log_record, g2]
  simp only [List.append_assoc]

theorem lhsCellRest_trace [Add V] (ops : FEOps E V) (R : Roster) (dim : Nat)
    (d r : variable_info) (blank : FEEval E V) (K : (Nat → modelVariable E) → modelResidual E)
    (n_q_points cell : Nat) (s : LHSState E V)
    (hs : (lhsStores R dim d blank).sameShape s.fe) :
    (lhsStores R dim d blank).sameShape
        (lhsCellRest ops R dim d r K n_q_points cell s).fe ∧
      (lhsCellRest ops R dim d r K n_q_points cell s).fe.log
        = s.fe.log ++
          ((List.range n_q_points).flatMap
              (fun q =>
                (varInfoList R dim).flatMap
                    (fun e => gatherTrace e.is_scalar e.global_field_index cell q
                      (R.need_value_LHS e.global_var_index)
                      (R.need_gradient_LHS e.global_var_index)
                      (R.need_hessian_LHS e.global_var_index))
                  ++ [FECall.residual cell q]
                  ++ submitTrace r.is_scalar
                    ((lhsStores R dim d blank).ctx r.is_scalar
                      r.scalar_or_vector_index).component
                    cell q (R.value_residual r.global_var_index)
                    (R.gradient_residual r.global_var_index))
            ++ [FECall.integrate r.is_scalar
                  ((lhsStores R dim d blank).ctx r.is_scalar
                    r.scalar_or_vector_index).component cell
                  (R.value_residual r.global_var_index)
                  (R.gradient_residual r.global_var_index),
                FECall.distribute_local_to_global r.is_scalar
                  ((lhsStores R dim d blank).ctx r.is_scalar
                    r.scalar_or_vector_index).component cell VecRef.result]) := by
  obtain ⟨q1, q2⟩ := foldl_trace (fun s : LHSState E V => s.fe.log)
    (fun s => (lhsStores R dim d blank).sameShape s.fe)
    (lhsQuad ops R dim d r K cell) _ (List.range n_q_points)
    (fun s hs q _ => lhsQuad_trace ops R dim d r blank K cell s q hs) s hs
  have q3 := sameShape_trans q1 (sameShape_integrate ops _ r.is_scalar
    r.scalar_or_vector_index cell (R.value_residual r.global_var_index)
    (R.gradient_residual r.global_var_index))
  unfold lhsCellRest
  simp only
  refine ⟨sameShape_trans q3 (sameShape_record _ _), ?_⟩
  rw [log_record, log_integrate, q3.1, q1.1, q2]
  simp only [List.append_assoc, List.singleton_append]

theorem lhsCell_trace [Add V] (ops : FEOps E V) (R : Roster) (dim : Nat)
    (d r : variable_info) (blank : FEEval E V) (K : (Nat → modelVariable E) → modelResidual E)
    (src : V) (solutionSet : Nat → V) (s : LHSState E V) (cell : Nat)
    (hne : 0 < R.countLHS true R.num_var ∨ 0 < R.countLHS false R.num_var)
    (hs : (lhsStores R dim d blank).sameShape s.fe) :
    ∃ s2, lhsCell ops R dim d r K src solutionSet s cell = some s2 ∧
      (lhsStores R dim d blank).sameShape s2.fe ∧
      s2.fe.log = s.fe.log ++ lhsCellTrace R dim ops.n_q_points r
        ((lhsStores R dim d blank).ctx r.is_scalar r.scalar_or_vector_index).component cell := by
  obtain ⟨r1, r2⟩ := lhsRead_trace R dim d r blank src solutionSet cell s.fe hs
  obtain ⟨c1, c2⟩ := lhsCellRest_trace ops R dim d r blank K ops.n_q_points cell
    { s with
      fe := ((List.range (num_var_LHS R)).foldl
        (lhsReadStep R dim d r src solutionSet cell) s.fe) } r1
  have hsz := lhsStores_sizes R dim d blank
  refine ⟨_, ?_, c1, ?_⟩
  · unfold lhsCell
    simp only
    rw [r1.2.1, r1.2.2, hsz.1, hsz.2]
    rcases hne with h | h
    · rw [if_pos h]
    · rw [if_pos h]
      split <;> rfl
  · rw [c2, r2]
    simp only [lhsCellTrace, List.append_assoc]

theorem lhsCell_none [Add V] (ops : FEOps E V) (R : Roster) (dim : Nat)
    (d r : variable_info) (blank : FEEval E V) (K : (Nat → modelVariable E) → modelResidual E)
    (src : V) (solutionSet : Nat → V) (s : LHSState E V) (cell : Nat)
    (hne : ¬ (0 < R.countLHS true R.num_var ∨ 0 < R.countLHS false R.num_var))
    (hs : (lhsStores R dim d blank).sameShape s.fe) :
    lhsCell ops R dim d r K src solutionSet s cell = none := by
  obtain ⟨r1, _⟩ := lhsRead_trace R dim d r blank src solutionSet cell s.fe hs
  have hsz := lhsStores_sizes R dim d blank
  unfold lhsCell
  simp only
  rw [r1.2.1, r1.2.2, hsz.1, hsz.2, if_neg (fun h => hne (Or.inl h)),
    if_neg (fun h => hne (Or.inr h))]

end LHSTrace

section LHSRun

variable {E V : Type}

theorem getLHS_trace [Add V] (ops : FEOps E V) (R : Roster) (dim : Nat)
    (blank : FEEval E V) (K : (Nat → modelVariable E) → modelResidual E)
    (mv0 : Nat → modelVariable E) (res0 : modelResidual E) (d : variable_info)
    (solutionSet : Nat → V) (currentFieldIndex : Nat) (dst src : V) (cell_range : Nat × Nat)
    (hne : 0 < R.countLHS true R.num_var ∨ 0 < R.countLHS false R.num_var) :
    ∃ s, getLHS ops R dim blank K mv0 res0 d solutionSet currentFieldIndex dst src cell_range
        = some s ∧
      s.fe.log = (List.range' cell_range.1 (cell_range.2 - cell_range.1)).flatMap
        (lhsCellTrace R dim ops.n_q_points (selectResInfo R dim currentFieldIndex d)
          ((lhsStores R dim d blank).ctx (selectResInfo R dim currentFieldIndex d).is_scalar
            (selectResInfo R dim currentFieldIndex d).scalar_or_vector_index).component) := by
  obtain ⟨s, h1, _, h3⟩ := foldlM_trace (fun s : LHSState E V => s.fe.log)
    (fun s => (lhsStores R dim d blank).sameShape s.fe)
    (lhsCell ops R dim d (selectResInfo R dim currentFieldIndex d) K src solutionSet)
    (lhsCellTrace R dim ops.n_q_points (selectResInfo R dim currentFieldIndex d)
      ((lhsStores R dim d blank).ctx (selectResInfo R dim currentFieldIndex d).is_scalar
        (selectResInfo R dim currentFieldIndex d).scalar_or_vector_index).component)
    (List.range' cell_range.1 (cell_range.2 - cell_range.1))
    (fun s hs cell _ => lhsCell_trace ops R dim d _ blank K src solutionSet s cell hne hs)
    { fe := lhsStores R dim d blank, modelVarList := mv0, modelRes := res0, dst := dst }
    (sameShape_refl _)
  refine ⟨s, h1, ?_⟩
  rw [h3, lhsStores_log, List.nil_append]

theorem getLHS_log [Add V] (ops : FEOps E V) (R : Roster) (dim : Nat)
    (blank : FEEval E V) (K : (Nat → modelVariable E) → modelResidual E)
    (mv0 : Nat → modelVariable E) (res0 : modelResidual E) (d : variable_info)
    (solutionSet : Nat → V) (currentFieldIndex : Nat) (dst src : V) (cell_range : Nat × Nat)
    (s : LHSState E V)
    (h : getLHS ops R dim blank K mv0 res0 d solutionSet currentFieldIndex dst src cell_range
      = some s) :
    s.fe.log = (List.range' cell_range.1 (cell_range.2 - cell_range.1)).flatMap
      (lhsCellTrace R dim ops.n_q_points (selectResInfo R dim currentFieldIndex d)
        ((lhsStores R dim d blank).ctx (selectResInfo R dim currentFieldIndex d).is_scalar
          (selectResInfo R dim currentFieldIndex d).scalar_or_vector_index).component) := by
  by_cases hne : 0 < R.countLHS true R.num_var ∨ 0 < R.countLHS false R.num_var
  · obtain ⟨s2, h1, h2⟩ := getLHS_trace ops R dim blank K mv0 res0 d solutionSet
      currentFieldIndex dst src cell_range hne
    rw [h1] at h
    cases h
    exact h2
  · unfold getLHS at h
    cases hl : List.range' cell_range.1 (cell_range.2 - cell_range.1) with
    | nil =>
      rw [hl] at h
      simp only [List.foldlM_nil] at h
      cases h
      simp [lhsStores_log]
    | cons c l =>
      rw [hl, List.foldlM_cons,
        lhsCell_none ops R dim d _ blank K src solutionSet _ c hne (sameShape_refl _)] at h
      cases h

theorem offset_lt (R : Roster) (dim : Nat) (hdim : 0 < dim) (i j : Nat) (hij : i < j) :
    R.offset dim i < R.offset dim j := by
  induction j with
  | zero => omega
  | succ j ih =>
    rw [offset_succ]
    have hw : 0 < R.width dim j := by
      unfold Roster.width
      split <;> omega
    rcases Nat.lt_succ_iff_lt_or_eq.1 hij with h | h
    · have := ih h
      omega
    · subst h
      omega

theorem varInfoList_gfi_inj (R : Roster) (dim : Nat) (hdim : 0 < dim) (e1 e2 : variable_info)
    (h1 : e1 ∈ varInfoList R dim) (h2 : e2 ∈ varInfoList R dim)
    (h : e1.global_field_index = e2.global_field_index) : e1 = e2 := by
  obtain ⟨i, _, _, rfl⟩ := (mem_varInfoList R dim e1).1 h1
  obtain ⟨j, _, _, rfl⟩ := (mem_varInfoList R dim e2).1 h2
  have hij : i = j := by
    rcases Nat.lt_trichotomy i j with hlt | heq | hgt
    · have := offset_lt R dim hdim i j hlt
      simp only [Roster.entry] at h
      omega
    · exact heq
    · have := offset_lt R dim hdim j i hgt
      simp only [Roster.entry] at h
      omega
  rw [hij]

theorem select_foldl (l : List variable_info) (cfi : Nat) (r0 : variable_info) :
    (l.foldl (fun r e => if cfi = e.global_field_index then e else r) r0 = r0 ∧
        ∀ e ∈ l, e.global_field_index ≠ cfi) ∨
      (l.foldl (fun r e => if cfi = e.global_field_index then e else r) r0 ∈ l ∧
        (l.foldl (fun r e => if cfi = e.global_field_index then e else r) r0).global_field_index
          = cfi) := by
  induction l using List.reverseRecOn with
  | nil => exact Or.inl ⟨rfl, fun e he => by simp at he⟩
  | append_singleton l x ih =>
    rw [List.foldl_append, List.foldl_cons, List.foldl_nil]
    by_cases hx : cfi = x.global_field_index
    · rw [if_pos hx]
      exact Or.inr ⟨by simp, hx.symm⟩
    · rw [if_neg hx]
      rcases ih with ⟨h1, h2⟩ | ⟨h1, h2⟩
      · refine Or.inl ⟨h1, ?_⟩
        intro e he
        rcases List.mem_append.1 he with h | h
        · exact h2 e h
        · rw [List.mem_singleton] at h
          rw [h]
          exact fun hh => hx hh.symm
      · exact Or.inr ⟨List.mem_append_left _ h1, h2⟩

theorem selectResInfo_eq (R : Roster) (dim cfi : Nat) (d : variable_info) :
    selectResInfo R dim cfi d
      = (varInfoList R dim).foldl
          (fun r e => if cfi = e.global_field_index then e else r) d := by
  unfold selectResInfo
  exact foldl_varInfoList R dim d
    (fun r e => if cfi = e.global_field_index then e else r) d

theorem selectResInfo_target (R : Roster) (dim : Nat) (hdim : 0 < dim) (d r : variable_info)
    (hr : r ∈ varInfoList R dim) : selectResInfo R dim r.global_field_index d = r := by
  rw [selectResInfo_eq]
  rcases select_foldl (varInfoList R dim) r.global_field_index d with ⟨_, h2⟩ | ⟨h1, h2⟩
  · exact absurd rfl (h2 r hr)
  · exact varInfoList_gfi_inj R dim hdim _ _ h1 hr h2

theorem selectResInfo_gfi (R : Roster) (dim : Nat) (d r : variable_info)
    (hr : r ∈ varInfoList R dim) :
    selectResInfo R dim r.global_field_index d ∈ varInfoList R dim ∧
      (selectResInfo R dim r.global_field_index d).global_field_index
        = r.global_field_index := by
  rw [selectResInfo_eq]
  rcases select_foldl (varInfoList R dim) r.global_field_index d with ⟨_, h2⟩ | ⟨h1, h2⟩
  · exact absurd rfl (h2 r hr)
  · exact ⟨h1, h2⟩

end LHSRun

section TraceMembership

theorem rhs_evaluate_mem (R : Roster) (dim nq cell2 : Nat) (sc : Bool) (c cell : Nat)
    (v g h : Bool) :
    FECall.evaluate sc c cell v g h ∈ rhsCellTrace R dim nq cell2 ↔
      cell = cell2 ∧ c < R.num_var ∧ sc = R.isScalar c ∧ v = R.need_value c ∧
        g = R.need_gradient c ∧ h = R.need_hessian c := by
  simp only [rhsCellTrace, readTrace, gatherTrace, submitTrace, List.mem_append,
    List.mem_flatMap, List.mem_range, List.mem_cons, List.mem_singleton]
  constructor
  · rintro ((⟨i, hi, h1⟩ | ⟨q, hq, h1⟩) | ⟨i, hi, h1⟩)
    · simp at h1
      obtain ⟨rfl, rfl, rfl, rfl, rfl, rfl⟩ := h1
      exact ⟨rfl, hi, rfl, rfl, rfl, rfl⟩
    · rcases h1 with (⟨i, hi, h2⟩ | h2) | ⟨i, hi, h2⟩
      · split_ifs at h2 <;> simp at h2
      · simp at h2
      · split_ifs at h2 <;> simp at h2
    · simp at h1
  · rintro ⟨rfl, hc, rfl, rfl, rfl, rfl⟩
    exact Or.inl (Or.inl ⟨c, hc, by simp⟩)

theorem rhs_get_gradient_mem (R : Roster) (dim nq cell2 : Nat) (sc : Bool) (c cell q : Nat) :
    FECall.get_gradient sc c cell q ∈ rhsCellTrace R dim nq cell2 ↔
      cell = cell2 ∧ q < nq ∧ c < R.num_var ∧ sc = R.isScalar c ∧
        R.need_gradient c = true := by
  simp only [rhsCellTrace, readTrace, gatherTrace, submitTrace, List.mem_append,
    List.mem_flatMap, List.mem_range, List.mem_cons, List.mem_singleton]
  constructor
  · rintro ((⟨i, hi, h1⟩ | ⟨q2, hq, h1⟩) | ⟨i, hi, h1⟩)
    · simp at h1
    · rcases h1 with (⟨i, hi, h2⟩ | h2) | ⟨i, hi, h2⟩
      · split_ifs at h2 with ha hb hc <;> simp at h2 <;>
          (obtain ⟨rfl, rfl, rfl, rfl⟩ := h2; exact ⟨rfl, hq, hi, rfl, by assumption⟩)
      · simp at h2
      · split_ifs at h2 <;> simp at h2
    · simp at h1
  · rintro ⟨rfl, hq, hc, rfl, hg⟩
    exact Or.inl (Or.inr ⟨q, hq, Or.inl (Or.inl ⟨c, hc, by simp [hg]⟩)⟩)

theorem rhs_get_hessian_mem (R : Roster) (dim nq cell2 : Nat) (sc : Bool) (c cell q : Nat) :
    FECall.get_hessian sc c cell q ∈ rhsCellTrace R dim nq cell2 ↔
      cell = cell2 ∧ q < nq ∧ c < R.num_var ∧ sc = R.isScalar c ∧
        R.need_hessian c = true := by
  simp only [rhsCellTrace, readTrace, gatherTrace, submitTrace, List.mem_append,
    List.mem_flatMap, List.mem_range, List.mem_cons, List.mem_singleton]
  constructor
  · rintro ((⟨i, hi, h1⟩ | ⟨q2, hq, h1⟩) | ⟨i, hi, h1⟩)
    · simp at h1
    · rcases h1 with (⟨i, hi, h2⟩ | h2) | ⟨i, hi, h2⟩
      · split_ifs at h2 with ha hb hc <;> simp at h2 <;>
          (obtain ⟨rfl, rfl, rfl, rfl⟩ := h2; exact ⟨rfl, hq, hi, rfl, by assumption⟩)
      · simp at h2
      · split_ifs at h2 <;> simp at h2
    · simp at h1
  · rintro ⟨rfl, hq, hc, rfl, hg⟩
    exact Or.inl (Or.inr ⟨q, hq, Or.inl (Or.inl ⟨c, hc, by simp [hg]⟩)⟩)

theorem rhs_submit_value_mem (R : Roster) (dim nq cell2 : Nat) (sc : Bool) (c cell q : Nat) :
    FECall.submit_value sc c cell q ∈ rhsCellTrace R dim nq cell2 ↔
      cell = cell2 ∧ q < nq ∧ c < R.num_var ∧ sc = R.isScalar c ∧
        R.value_residual c = true := by
  simp only [rhsCellTrace, readTrace, gatherTrace, submitTrace, List.mem_append,
    List.mem_flatMap, List.mem_range, List.mem_cons, List.mem_singleton]
  constructor
  · rintro ((⟨i, hi, h1⟩ | ⟨q2, hq, h1⟩) | ⟨i, hi, h1⟩)
    · simp at h1
    · rcases h1 with (⟨i, hi, h2⟩ | h2) | ⟨i, hi, h2⟩
      · split_ifs at h2 <;> simp at h2
      · simp at h2
      · split_ifs at h2 with ha hb <;> simp at h2 <;>
          (obtain ⟨rfl, rfl, rfl, rfl⟩ := h2; exact ⟨rfl, hq, hi, rfl, by assumption⟩)
    · simp at h1
  · rintro ⟨rfl, hq, hc, rfl, hg⟩
    exact Or.inl (Or.inr ⟨q, hq, Or.inr ⟨c, hc, by simp [hg]⟩⟩)

theorem rhs_submit_gradient_mem (R : Roster) (dim nq cell2 : Nat) (sc : Bool)
    (c cell q : Nat) :
    FECall.submit_gradient sc c cell q ∈ rhsCellTrace R dim nq cell2 ↔
      cell = cell2 ∧ q < nq ∧ c < R.num_var ∧ sc = R.isScalar c ∧
        R.gradient_residual c = true := by
  simp only [rhsCellTrace, readTrace, gatherTrace, submitTrace, List.mem_append,
    List.mem_flatMap, List.mem_range, List.mem_cons, List.mem_singleton]
  constructor
  · rintro ((⟨i, hi, h1⟩ | ⟨q2, hq, h1⟩) | ⟨i, hi, h1⟩)
    · simp at h1
    · rcases h1 with (⟨i, hi, h2⟩ | h2) | ⟨i, hi, h2⟩
      · split_ifs at h2 <;> simp at h2
      · simp at h2
      · split_ifs at h2 with ha hb <;> simp at h2 <;>
          (obtain ⟨rfl, rfl, rfl, rfl⟩ := h2; exact ⟨rfl, hq, hi, rfl, by assumption⟩)
    · simp at h1
  · rintro ⟨rfl, hq, hc, rfl, hg⟩
    exact Or.inl (Or.inr ⟨q, hq, Or.inr ⟨c, hc, by simp [hg]⟩⟩)

theorem mem_cells (cell_range : Nat × Nat) (cell : Nat) :
    cell ∈ List.range' cell_range.1 (cell_range.2 - cell_range.1)
      ↔ cell_range.1 ≤ cell ∧ cell < cell_range.2 := by
  rw [List.mem_range'_1]
  omega

end TraceMembership

section LHSMembership

theorem lhs_evaluate_mem (R : Roster) (dim nq : Nat) (r : variable_info) (tc cell2 : Nat)
    (sc : Bool) (c cell : Nat) (v g h : Bool) :
    FECall.evaluate sc c cell v g h ∈ lhsCellTrace R dim nq r tc cell2 ↔
      cell = cell2 ∧ ∃ e ∈ varInfoList R dim, sc = e.is_scalar ∧ c = e.global_field_index ∧
        v = R.need_value_LHS e.global_var_index ∧ g = R.need_gradient_LHS e.global_var_index ∧
        h = R.need_hessian_LHS e.global_var_index := by
  simp only [lhsCellTrace, readTrace, gatherTrace, submitTrace, List.mem_append,
    List.mem_flatMap, List.mem_range, List.mem_cons, List.mem_singleton]
  constructor
  · rintro ((⟨e, he, h1⟩ | ⟨q, hq, h1⟩) | h1)
    · simp at h1
      obtain ⟨rfl, rfl, rfl, rfl, rfl, rfl⟩ := h1
      exact ⟨rfl, e, he, rfl, rfl, rfl, rfl, rfl⟩
    · rcases h1 with (⟨e, he, h2⟩ | h2) | h2
      · split_ifs at h2 <;> simp at h2
      · simp at h2
      · split_ifs at h2 <;> simp at h2
    · simp at h1
  · rintro ⟨rfl, e, he, rfl, rfl, rfl, rfl, rfl⟩
    exact Or.inl (Or.inl ⟨e, he, by simp⟩)

theorem lhs_read_mem (R : Roster) (dim nq : Nat) (r : variable_info) (tc cell2 : Nat)
    (sc : Bool) (c cell : Nat) (ref : VecRef) :
    FECall.read_dof_values_plain sc c cell ref ∈ lhsCellTrace R dim nq r tc cell2 ↔
      cell = cell2 ∧ ∃ e ∈ varInfoList R dim, sc = e.is_scalar ∧ c = e.global_field_index ∧
        ref = (if e.global_field_index = r.global_field_index then VecRef.trial
          else VecRef.solutionSet e.global_field_index) := by
  simp only [lhsCellTrace, readTrace, gatherTrace, submitTrace, List.mem_append,
    List.mem_flatMap, List.mem_range, List.mem_cons, List.mem_singleton]
  constructor
  · rintro ((⟨e, he, h1⟩ | ⟨q, hq, h1⟩) | h1)
    · simp at h1
      obtain ⟨rfl, rfl, rfl, rfl⟩ := h1
      exact ⟨rfl, e, he, rfl, rfl, rfl⟩
    · rcases h1 with (⟨e, he, h2⟩ | h2) | h2
      · split_ifs at h2 <;> simp at h2
      · simp at h2
      · split_ifs at h2 <;> simp at h2
    · simp at h1
  · rintro ⟨rfl, e, he, rfl, rfl, rfl⟩
    exact Or.inl (Or.inl ⟨e, he, by simp⟩)

theorem lhs_get_gradient_mem (R : Roster) (dim nq : Nat) (r : variable_info) (tc cell2 : Nat)
    (sc : Bool) (c cell q : Nat) :
    FECall.get_gradient sc c cell q ∈ lhsCellTrace R dim nq r tc cell2 ↔
      cell = cell2 ∧ q < nq ∧ ∃ e ∈ varInfoList R dim, sc = e.is_scalar ∧
        c = e.global_field_index ∧ R.need_gradient_LHS e.global_var_index = true := by
  simp only [lhsCellTrace, readTrace, gatherTrace, submitTrace, List.mem_append,
    List.mem_flatMap, List.mem_range, List.mem_cons, List.mem_singleton]
  constructor
  · rintro ((⟨e, he, h1⟩ | ⟨q2, hq, h1⟩) | h1)
    · simp at h1
    · rcases h1 with (⟨e, he, h2⟩ | h2) | h2
      · split_ifs at h2 with ha hb hc <;> simp at h2 <;>
          (obtain ⟨rfl, rfl, rfl, rfl⟩ := h2
           exact ⟨rfl, hq, e, he, rfl, rfl, by assumption⟩)
      · simp at h2
      · split_ifs at h2 <;> simp at h2
    · simp at h1
  · rintro ⟨rfl, hq, e, he, rfl, rfl, hg⟩
    exact Or.inl (Or.inr ⟨q, hq, Or.inl (Or.inl ⟨e, he, by simp [hg]⟩)⟩)

theorem lhs_get_hessian_mem (R : Roster) (dim nq : Nat) (r : variable_info) (tc cell2 : Nat)
    (sc : Bool) (c cell q : Nat) :
    FECall.get_hessian sc c cell q ∈ lhsCellTrace R dim nq r tc cell2 ↔
      cell = cell2 ∧ q < nq ∧ ∃ e ∈ varInfoList R dim, sc = e.is_scalar ∧
        c = e.global_field_index ∧ R.need_hessian_LHS e.global_var_index = true := by
  simp only [lhsCellTrace, readTrace, gatherTrace, submitTrace, List.mem_append,
    List.mem_flatMap, List.mem_range, List.mem_cons, List.mem_singleton]
  constructor
  · rintro ((⟨e, he, h1⟩ | ⟨q2, hq, h1⟩) | h1)
    · simp at h1
    · rcases h1 with (⟨e, he, h2⟩ | h2) | h2
      · split_ifs at h2 with ha hb hc <;> simp at h2 <;>
          (obtain ⟨rfl, rfl, rfl, rfl⟩ := h2
           exact ⟨rfl, hq, e, he, rfl, rfl, by assumption⟩)
      · simp at h2
      · split_ifs at h2 <;> simp at h2
    · simp at h1
  · rintro ⟨rfl, hq, e, he, rfl, rfl, hg⟩
    exact Or.inl (Or.inr ⟨q, hq, Or.inl (Or.inl ⟨e, he, by simp [hg]⟩)⟩)

theorem lhs_submit_value_mem (R : Roster) (dim nq : Nat) (r : variable_info) (tc cell2 : Nat)
    (sc : Bool) (c cell q : Nat) :
    FECall.submit_value sc c cell q ∈ lhsCellTrace R dim nq r tc cell2 ↔
      cell = cell2 ∧ q < nq ∧ sc = r.is_scalar ∧ c = tc ∧
        R.value_residual r.global_var_index = true := by
  simp only [lhsCellTrace, readTrace, gatherTrace, submitTrace, List.mem_append,
    List.mem_flatMap, List.mem_range, List.mem_cons, List.mem_singleton]
  constructor
  · rintro ((⟨e, he, h1⟩ | ⟨q2, hq, h1⟩) | h1)
    · simp at h1
    · rcases h1 with (⟨e, he, h2⟩ | h2) | h2
      · split_ifs at h2 <;> simp at h2
      · simp at h2
      · split_ifs at h2 with ha hb <;> simp at h2 <;>
          (obtain ⟨rfl, rfl, rfl, rfl⟩ := h2
           exact ⟨rfl, hq, rfl, rfl, by assumption⟩)
    · simp at h1
  · rintro ⟨rfl, hq, rfl, rfl, hg⟩
    exact Or.inl (Or.inr ⟨q, hq, Or.inr (by simp [hg])⟩)

theorem lhs_submit_gradient_mem (R : Roster) (dim nq : Nat) (r : variable_info)
    (tc cell2 : Nat) (sc : Bool) (c cell q : Nat) :
    FECall.submit_gradient sc c cell q ∈ lhsCellTrace R dim nq r tc cell2 ↔
      cell = cell2 ∧ q < nq ∧ sc = r.is_scalar ∧ c = tc ∧
        R.gradient_residual r.global_var_index = true := by
  simp only [lhsCellTrace, readTrace, gatherTrace, submitTrace, List.mem_append,
    List.mem_flatMap, List.mem_range, List.mem_cons, List.mem_singleton]
  constructor
  · rintro ((⟨e, he, h1⟩ | ⟨q2, hq, h1⟩) | h1)
    · simp at h1
    · rcases h1 with (⟨e, he, h2⟩ | h2) | h2
      · split_ifs at h2 <;> simp at h2
      · simp at h2
      · split_ifs at h2 with ha hb <;> simp at h2 <;>
          (obtain ⟨rfl, rfl, rfl, rfl⟩ := h2
           exact ⟨rfl, hq, rfl, rfl, by assumption⟩)
    · simp at h1
  · rintro ⟨rfl, hq, rfl, rfl, hg⟩
    exact Or.inl (Or.inr ⟨q, hq, Or.inr (by simp [hg])⟩)

theorem lhs_integrate_mem (R : Roster) (dim nq : Nat) (r : variable_info) (tc cell2 : Nat)
    (sc : Bool) (c cell : Nat) (v g : Bool) :
    FECall.integrate sc c cell v g ∈ lhsCellTrace R dim nq r tc cell2 ↔
      cell = cell2 ∧ sc = r.is_scalar ∧ c = tc ∧ v = R.value_residual r.global_var_index ∧
        g = R.gradient_residual r.global_var_index := by
  simp only [lhsCellTrace, readTrace, gatherTrace, submitTrace, List.mem_append,
    List.mem_flatMap, List.mem_range, List.mem_cons, List.mem_singleton]
  constructor
  · rintro ((⟨e, he, h1⟩ | ⟨q2, hq, h1⟩) | h1)
    · simp at h1
    · rcases h1 with (⟨e, he, h2⟩ | h2) | h2
      · split_ifs at h2 <;> simp at h2
      · simp at h2
      · split_ifs at h2 <;> simp at h2
    · simp at h1
      obtain ⟨rfl, rfl, rfl, rfl, rfl⟩ := h1
      exact ⟨rfl, rfl, rfl, rfl, rfl⟩
  · rintro ⟨rfl, rfl, rfl, rfl, rfl⟩
    exact Or.inr (Or.inl rfl)

theorem lhs_distribute_mem (R : Roster) (dim nq : Nat) (r : variable_info) (tc cell2 : Nat)
    (sc : Bool) (c cell : Nat) (ref : VecRef) :
    FECall.distribute_local_to_global sc c cell ref ∈ lhsCellTrace R dim nq r tc cell2 ↔
      cell = cell2 ∧ sc = r.is_scalar ∧ c = tc ∧ ref = VecRef.result := by
  simp only [lhsCellTrace, readTrace, gatherTrace, submitTrace, List.mem_append,
    List.mem_flatMap, List.mem_range, List.mem_cons, List.mem_singleton]
  constructor
  · rintro ((⟨e, he, h1⟩ | ⟨q2, hq, h1⟩) | h1)
    · simp at h1
    · rcases h1 with (⟨e, he, h2⟩ | h2) | h2
      · split_ifs at h2 <;> simp at h2
      · simp at h2
      · split_ifs at h2 <;> simp at h2
    · simp at h1
      obtain ⟨rfl, rfl, rfl, rfl⟩ := h1
      exact ⟨rfl, rfl, rfl, rfl⟩
  · rintro ⟨rfl, rfl, rfl, rfl⟩
    exact Or.inr (Or.inr (Or.inl rfl))

end LHSMembership

section NonInterference

variable {E V : Type}

theorem foldl_rel {S1 S2 β : Type} (Rel : S1 → S2 → Prop) (f1 : S1 → β → S1)
    (f2 : S2 → β → S2) (l : List β)
    (h : ∀ s1 s2, Rel s1 s2 → ∀ x ∈ l, Rel (f1 s1 x) (f2 s2 x)) (s1 : S1) (s2 : S2)
    (hs : Rel s1 s2) : Rel (l.foldl f1 s1) (l.foldl f2 s2) := by
  induction l generalizing s1 s2 with
  | nil => exact hs
  | cons x l ih =>
    exact ih (fun a b hab y hy => h a b hab y (List.mem_cons_of_mem _ hy)) _ _
      (h s1 s2 hs x (List.mem_cons_self _ _))

theorem foldlM_rel {S1 S2 β : Type} (Rel : S1 → S2 → Prop) (f1 : S1 → β → Option S1)
    (f2 : S2 → β → Option S2) (l : List β)
    (h : ∀ s1 s2, Rel s1 s2 → ∀ x ∈ l,
      (f1 s1 x = none ∧ f2 s2 x = none) ∨
        ∃ t1 t2, f1 s1 x = some t1 ∧ f2 s2 x = some t2 ∧ Rel t1 t2)
    (s1 : S1) (s2 : S2) (hs : Rel s1 s2) :
    (l.foldlM f1 s1 = none ∧ l.foldlM f2 s2 = none) ∨
      ∃ t1 t2, l.foldlM f1 s1 = some t1 ∧ l.foldlM f2 s2 = some t2 ∧ Rel t1 t2 := by
  induction l generalizing s1 s2 with
  | nil => exact Or.inr ⟨s1, s2, rfl, rfl, hs⟩
  | cons x l ih =>
    rcases h s1 s2 hs x (List.mem_cons_self _ _) with ⟨h1, h2⟩ | ⟨t1, t2, h1, h2, h3⟩
    · left
      rw [List.foldlM_cons, List.foldlM_cons, h1, h2]
      exact ⟨rfl, rfl⟩
    · rw [List.foldlM_cons, List.foldlM_cons, h1, h2]
      exact ih (fun a b hab y hy => h a b hab y (List.mem_cons_of_mem _ hy)) t1 t2 h3

theorem submitRes_congr (sc : Bool) (k cell q : Nat) (vf gf : Bool) (r1 r2 : modelResidual E)
    (a : Assembly E V) (hv : vf = true → r1.valueResidual sc = r2.valueResidual sc)
    (hg : gf = true → r1.gradResidual sc = r2.gradResidual sc) :
    submitRes sc k cell q vf gf r1 a = submitRes sc k cell q vf gf r2 a := by
  cases vf <;> cases gf <;> simp only [submitRes, if_true, if_false, Bool.false_eq_true]
  · rw [hg rfl]
  · rw [hv rfl]
  · rw [hv rfl, hg rfl]

theorem rhsSubmit_congr (R : Roster) (dim : Nat) (blank : FEEval E V) (cell q : Nat)
    (s1 s2 : RHSState E V) (hfe : s1.fe = s2.fe) (hmv : s1.modelVarList = s2.modelVarList)
    (hdst : s1.dst = s2.dst)
    (hres : declaredAgree R s1.modelResidualsList s2.modelResidualsList) :
    ((List.range R.num_var).foldl (rhsSubmitStep R (rhsSetup R dim blank) cell q) s1).fe
        = ((List.range R.num_var).foldl (rhsSubmitStep R (rhsSetup R dim blank) cell q) s2).fe ∧
      ((List.range R.num_var).foldl
          (rhsSubmitStep R (rhsSetup R dim blank) cell q) s1).modelVarList
        = ((List.range R.num_var).foldl
          (rhsSubmitStep R (rhsSetup R dim blank) cell q) s2).modelVarList ∧
      ((List.range R.num_var).foldl (rhsSubmitStep R (rhsSetup R dim blank) cell q) s1).dst
        = ((List.range R.num_var).foldl
          (rhsSubmitStep R (rhsSetup R dim blank) cell q) s2).dst := by
  have h := foldl_rel
    (fun a b : RHSState E V => a.fe = b.fe ∧ a.modelVarList = b.modelVarList ∧ a.dst = b.dst ∧
      declaredAgree R a.modelResidualsList b.modelResidualsList)
    (rhsSubmitStep R (rhsSetup R dim blank) cell q)
    (rhsSubmitStep R (rhsSetup R dim blank) cell q) (List.range R.num_var)
    (by
      rintro a b ⟨h1, h2, h3, h4⟩ i hi
      rw [List.mem_range] at hi
      obtain ⟨e1, _, _, _⟩ := rhsSetup_arrays R dim blank i hi
      refine ⟨?_, h2, h3, h4⟩
      simp only [rhsSubmitStep]
      rw [h1, e1]
      exact submitRes_congr _ _ _ _ _ _ _ _ _ (h4 i hi).1 (h4 i hi).2)
    s1 s2 ⟨hfe, hmv, hdst, hres⟩
  exact ⟨h.1, h.2.1, h.2.2.1⟩

theorem rhsQuad_congr (ops : FEOps E V) (R : Roster) (dim : Nat) (blank : FEEval E V)
    (K1 K2 : (Nat → modelVariable E) → (Nat → modelResidual E))
    (hK : ∀ m, declaredAgree R (K1 m) (K2 m)) (cell q : Nat)
    (s1 s2 : RHSState E V) (hfe : s1.fe = s2.fe) (hmv : s1.modelVarList = s2.modelVarList)
    (hdst : s1.dst = s2.dst) :
    (rhsQuad ops R (rhsSetup R dim blank) K1 cell s1 q).fe
        = (rhsQuad ops R (rhsSetup R dim blank) K2 cell s2 q).fe ∧
      (rhsQuad ops R (rhsSetup R dim blank) K1 cell s1 q).modelVarList
        = (rhsQuad ops R (rhsSetup R dim blank) K2 cell s2 q).modelVarList ∧
      (rhsQuad ops R (rhsSetup R dim blank) K1 cell s1 q).dst
        = (rhsQuad ops R (rhsSetup R dim blank) K2 cell s2 q).dst := by
  have hg := foldl_rel
    (fun a b : RHSState E V => a.fe = b.fe ∧ a.modelVarList = b.modelVarList ∧ a.dst = b.dst)
    (rhsGatherStep ops R (rhsSetup R dim blank) cell q)
    (rhsGatherStep ops R (rhsSetup R dim blank) cell q) (List.range R.num_var)
    (by
      rintro a b ⟨h1, h2, h3⟩ i _
      simp only [rhsGatherStep]
      rw [h1, h2]
      exact ⟨rfl, rfl, h3⟩)
    s1 s2 ⟨hfe, hmv, hdst⟩
  unfold rhsQuad
  simp only
  apply rhsSubmit_congr
  · simp only
    rw [hg.1]
  · exact hg.2.1
  · exact hg.2.2
  · simp only
    rw [hg.2.1]
    exact hK _

theorem rhsCell_congr [Add V] (ops : FEOps E V) (R : Roster) (dim : Nat)
    (blank : FEEval E V) (K1 K2 : (Nat → modelVariable E) → (Nat → modelResidual E))
    (hK : ∀ m, declaredAgree R (K1 m) (K2 m)) (src : Nat → V) (cell : Nat)
    (s1 s2 : RHSState E V) (hfe : s1.fe = s2.fe) (hmv : s1.modelVarList = s2.modelVarList)
    (hdst : s1.dst = s2.dst) :
    (rhsCell ops R (rhsSetup R dim blank) K1 src s1 cell = none ∧
        rhsCell ops R (rhsSetup R dim blank) K2 src s2 cell = none) ∨
      ∃ t1 t2, rhsCell ops R (rhsSetup R dim blank) K1 src s1 cell = some t1 ∧
        rhsCell ops R (rhsSetup R dim blank) K2 src s2 cell = some t2 ∧
        t1.fe = t2.fe ∧ t1.modelVarList = t2.modelVarList ∧ t1.dst = t2.dst := by
  unfold rhsCell
  simp only
  rw [hfe]
  split
  · exact Or.inl ⟨rfl, rfl⟩
  · refine Or.inr ⟨_, _, rfl, rfl, ?_⟩
    unfold rhsCellRest
    have hq := foldl_rel
      (fun a b : RHSState E V => a.fe = b.fe ∧ a.modelVarList = b.modelVarList ∧ a.dst = b.dst)
      (rhsQuad ops R (rhsSetup R dim blank) K1 cell)
      (rhsQuad ops R (rhsSetup R dim blank) K2 cell) (List.range ops.n_q_points)
      (by
        rintro a b ⟨h1, h2, h3⟩ q _
        exact rhsQuad_congr ops R dim blank K1 K2 hK cell q a b h1 h2 h3)
      { s1 with
        fe := ((List.range R.num_var).foldl
          (rhsReadStep R (rhsSetup R dim blank) src cell) s2.fe) }
      { s2 with
        fe := ((List.range R.num_var).foldl
          (rhsReadStep R (rhsSetup R dim blank) src cell) s2.fe) }
      ⟨rfl, hmv, hdst⟩
    exact foldl_rel
      (fun a b : RHSState E V => a.fe = b.fe ∧ a.modelVarList = b.modelVarList ∧ a.dst = b.dst)
      (rhsIntegrateStep ops R (rhsSetup R dim blank) cell)
      (rhsIntegrateStep ops R (rhsSetup R dim blank) cell) (List.range R.num_var)
      (by
        rintro a b ⟨h1, h2, h3⟩ i _
        simp only [rhsIntegrateStep]
        rw [h1, h3]
        exact ⟨rfl, h2, rfl⟩)
      _ _ hq

theorem getRHS_congr [Add V] (ops : FEOps E V) (R : Roster) (dim : Nat)
    (blank : FEEval E V) (K1 K2 : (Nat → modelVariable E) → (Nat → modelResidual E))
    (hK : ∀ m, declaredAgree R (K1 m) (K2 m))
    (mv0 : Nat → modelVariable E) (res1 res2 : Nat → modelResidual E) (dst src : Nat → V)
    (cell_range : Nat × Nat) :
    (getRHS ops R dim blank K1 mv0 res1 dst src cell_range).map
        (fun s => (s.fe, s.modelVarList, s.dst))
      = (getRHS ops R dim blank K2 mv0 res2 dst src cell_range).map
        (fun s => (s.fe, s.modelVarList, s.dst)) := by
  unfold getRHS
  rcases foldlM_rel
    (fun a b : RHSState E V => a.fe = b.fe ∧ a.modelVarList = b.modelVarList ∧ a.dst = b.dst)
    (rhsCell ops R (rhsSetup R dim blank) K1 src)
    (rhsCell ops R (rhsSetup R dim blank) K2 src)
    (List.range' cell_range.1 (cell_range.2 - cell_range.1))
    (by
      rintro a b ⟨h1, h2, h3⟩ cell _
      exact rhsCell_congr ops R dim blank K1 K2 hK src cell a b h1 h2 h3)
    { fe := (rhsSetup R dim blank).fe, modelVarList := mv0, modelResidualsList := res1,
      dst := dst }
    { fe := (rhsSetup R dim blank).fe, modelVarList := mv0, modelResidualsList := res2,
      dst := dst }
    ⟨rfl, rfl, rfl⟩ with ⟨h1, h2⟩ | ⟨t1, t2, h1, h2, h3, h4, h5⟩
  · rw [h1, h2]
  · rw [h1, h2]
    simp only [Option.map_some']
    rw [h3, h4, h5]

end NonInterference

section CtxFormulas

variable {E V : Type}

theorem foldl_range_inv3 {S : Type} (P : Nat → S → S → S → Prop) (f f1 f2 : S → Nat → S)
    (n : Nat) (s s1 s2 : S) (h0 : P 0 s s1 s2)
    (hstep : ∀ k, k < n → ∀ t t1 t2, P k t t1 t2 → P (k + 1) (f t k) (f1 t1 k) (f2 t2 k)) :
    P n ((List.range n).foldl f s) ((List.range n).foldl f1 s1)
      ((List.range n).foldl f2 s2) := by
  induction n with
  | zero => exact h0
  | succ n ih =>
    rw [List.range_succ, List.foldl_append, List.foldl_append, List.foldl_append]
    exact hstep n (Nat.lt_succ_self n) _ _ _
      (ih (fun k hk t t1 t2 h => hstep k (Nat.lt_succ_of_lt hk) t t1 t2 h))

theorem ctx_readEval (sc : Bool) (k cell : Nat) (ref : VecRef) (v : V) (vf gf hf : Bool)
    (a : Assembly E V) (sc2 : Bool) (k2 : Nat) :
    (readEval sc k cell ref v vf gf hf a).ctx sc2 k2
      = if sc2 = sc ∧ k2 = k then { a.ctx sc k with cell := cell, values_dofs := v }
        else a.ctx sc2 k2 := by
  unfold readEval Assembly.evaluate Assembly.read_dof_values_plain
  rw [ctx_record, ctx_record, ctx_setCtx]
  unfold Assembly.reinit
  rw [ctx_record, ctx_setCtx_self, ctx_record, ctx_setCtx]
  split <;> rfl

theorem ctx_submitRes (sc : Bool) (k cell q : Nat) (vf gf : Bool) (r : modelResidual E)
    (a : Assembly E V) (sc2 : Bool) (k2 : Nat) :
    (submitRes sc k cell q vf gf r a).ctx sc2 k2
      = if sc2 = sc ∧ k2 = k then
          { a.ctx sc k with
            values_quad :=
              if vf then Function.update (a.ctx sc k).values_quad q (r.valueResidual sc)
              else (a.ctx sc k).values_quad
            gradients_quad :=
              if gf then Function.update (a.ctx sc k).gradients_quad q (r.gradResidual sc)
              else (a.ctx sc k).gradients_quad }
        else a.ctx sc2 k2 := by
  cases vf <;> cases gf <;>
    simp only [submitRes, if_true, if_false, Bool.false_eq_true, Assembly.submit_value,
      Assembly.submit_gradient, ctx_record, ctx_setCtx, ctx_setCtx_self] <;>
    split <;> simp_all

theorem ctx_integrate (ops : FEOps E V) (a : Assembly E V) (sc : Bool)
    (k cell : Nat) (vf gf : Bool) (sc2 : Bool) (k2 : Nat) :
    (a.integrate ops sc k cell vf gf).ctx sc2 k2
      = if sc2 = sc ∧ k2 = k then
          { a.ctx sc k with
            values_dofs :=
              ops.integrate sc (a.ctx sc k).component (a.ctx sc k).cell vf gf
                (a.ctx sc k).values_dofs (a.ctx sc k).values_quad
                (a.ctx sc k).gradients_quad }
        else a.ctx sc2 k2 := by
  unfold Assembly.integrate
  rw [ctx_record, ctx_setCtx]

theorem ctx_submitRes_self (sc : Bool) (k cell q : Nat) (vf gf : Bool) (r : modelResidual E)
    (a : Assembly E V) :
    (submitRes sc k cell q vf gf r a).ctx sc k
      = { a.ctx sc k with
          values_quad :=
            if vf then Function.update (a.ctx sc k).values_quad q (r.valueResidual sc)
            else (a.ctx sc k).values_quad
          gradients_quad :=
            if gf then Function.update (a.ctx sc k).gradients_quad q (r.gradResidual sc)
            else (a.ctx sc k).gradients_quad } := by
  rw [ctx_submitRes, if_pos ⟨rfl, rfl⟩]

theorem ctx_submitRes_other (sc : Bool) (k cell q : Nat) (vf gf : Bool) (r : modelResidual E)
    (a : Assembly E V) (sc2 : Bool) (k2 : Nat) (hne : ¬ (sc2 = sc ∧ k2 = k)) :
    (submitRes sc k cell q vf gf r a).ctx sc2 k2 = a.ctx sc2 k2 := by
  rw [ctx_submitRes, if_neg hne]

theorem ctx_integrate_self (ops : FEOps E V) (a : Assembly E V) (sc : Bool)
    (k cell : Nat) (vf gf : Bool) :
    (a.integrate ops sc k cell vf gf).ctx sc k
      = { a.ctx sc k with
          values_dofs :=
            ops.integrate sc (a.ctx sc k).component (a.ctx sc k).cell vf gf
              (a.ctx sc k).values_dofs (a.ctx sc k).values_quad
              (a.ctx sc k).gradients_quad } := by
  rw [ctx_integrate, if_pos ⟨rfl, rfl⟩]

theorem ctx_integrate_other (ops : FEOps E V) (a : Assembly E V) (sc : Bool)
    (k cell : Nat) (vf gf : Bool) (sc2 : Bool) (k2 : Nat) (hne : ¬ (sc2 = sc ∧ k2 = k)) :
    (a.integrate ops sc k cell vf gf).ctx sc2 k2 = a.ctx sc2 k2 := by
  rw [ctx_integrate, if_neg hne]

theorem gatherVar_snd (ops : FEOps E V) (sc : Bool) (k cell q : Nat) (vf gf hf : Bool)
    (a : Assembly E V) (m : modelVariable E) :
    (gatherVar ops sc k cell q vf gf hf (a, m)).2
      = (fun m3 : modelVariable E => if hf then m3.setHess sc (a.get_hessian ops sc k q) else m3)
          ((fun m2 : modelVariable E =>
              if gf then m2.setGrad sc (a.get_gradient ops sc k q) else m2)
            (if vf then m.setValue sc (a.get_value ops sc k q) else m)) := by
  cases vf <;> cases gf <;> cases hf <;>
    simp [gatherVar, Assembly.get_value, Assembly.get_gradient, Assembly.get_hessian,
      Assembly.record, Assembly.ctx]

theorem ctx_gatherVar (ops : FEOps E V) (sc : Bool) (k cell q : Nat) (vf gf hf : Bool)
    (a : Assembly E V) (m : modelVariable E) (sc2 : Bool) (k2 : Nat) :
    (gatherVar ops sc k cell q vf gf hf (a, m)).1.ctx sc2 k2 = a.ctx sc2 k2 := by
  rw [gatherVar_fst]
  rfl

end CtxFormulas

section Positions

theorem varInfoList_nodup (R : Roster) (dim : Nat) : (varInfoList R dim).Nodup := by
  rw [varInfoList_eq]
  apply List.Nodup.map_on
  · intro i _ j _ h
    have : (R.entry dim i).global_var_index = (R.entry dim j).global_var_index := by rw [h]
    exact this
  · exact (List.nodup_range _).filter _

theorem varInfoList_pos_inj (R : Roster) (dim : Nat) (e1 e2 : variable_info)
    (h1 : e1 ∈ varInfoList R dim) (h2 : e2 ∈ varInfoList R dim)
    (hs : e1.is_scalar = e2.is_scalar)
    (hk : e1.scalar_or_vector_index = e2.scalar_or_vector_index) : e1 = e2 := by
  obtain ⟨i, _, hni, rfl⟩ := (mem_varInfoList R dim e1).1 h1
  obtain ⟨j, _, hnj, rfl⟩ := (mem_varInfoList R dim e2).1 h2
  simp only [Roster.entry] at hs hk
  have hij : i = j := by
    rcases Nat.lt_trichotomy i j with hlt | heq | hgt
    · have := countLHS_lt R i j hlt hni
      rw [hs] at this hk
      omega
    · exact heq
    · have := countLHS_lt R j i hgt hnj
      rw [← hs] at this hk
      omega
  rw [hij]

theorem getD_varInfoList_inj (R : Roster) (dim : Nat) (d : variable_info) (i j : Nat)
    (hi : i < num_var_LHS R) (hj : j < num_var_LHS R)
    (h : (varInfoList R dim).getD i d = (varInfoList R dim).getD j d) : i = j := by
  have hi2 : i < (varInfoList R dim).length := by rw [length_varInfoList]; exact hi
  have hj2 : j < (varInfoList R dim).length := by rw [length_varInfoList]; exact hj
  rw [List.getD_eq_getElem _ _ hi2, List.getD_eq_getElem _ _ hj2] at h
  exact (List.Nodup.getElem_inj_iff (varInfoList_nodup R dim)).1 h

end Positions

section ReadSteps

variable {E V : Type}

theorem lhsReadStep_target (R : Roster) (dim : Nat) (d r : variable_info) (x : V)
    (solutionSet : Nat → V) (cell : Nat) (A : Assembly E V) (k : Nat)
    (hk : (varInfoList R dim).getD k d = r) (sc2 : Bool) (k2 : Nat) :
    (lhsReadStep R dim d r x solutionSet cell A k).ctx sc2 k2
      = if sc2 = r.is_scalar ∧ k2 = r.scalar_or_vector_index then
          { A.ctx r.is_scalar r.scalar_or_vector_index with cell := cell, values_dofs := x }
        else A.ctx sc2 k2 := by
  unfold lhsReadStep
  simp only
  rw [hk, if_pos rfl, ctx_readEval]

theorem lhsReadStep_other (R : Roster) (dim : Nat) (d r : variable_info) (x : V)
    (solutionSet : Nat → V) (cell : Nat) (A : Assembly E V) (k : Nat)
    (hk : ((varInfoList R dim).getD k d).global_field_index ≠ r.global_field_index)
    (sc2 : Bool) (k2 : Nat) :
    (lhsReadStep R dim d r x solutionSet cell A k).ctx sc2 k2
      = if sc2 = ((varInfoList R dim).getD k d).is_scalar ∧
            k2 = ((varInfoList R dim).getD k d).scalar_or_vector_index then
          { A.ctx ((varInfoList R dim).getD k d).is_scalar
              ((varInfoList R dim).getD k d).scalar_or_vector_index with
            cell := cell
            values_dofs := solutionSet ((varInfoList R dim).getD k d).global_field_index }
        else A.ctx sc2 k2 := by
  unfold lhsReadStep
  simp only
  rw [if_neg hk, ctx_readEval]

end ReadSteps

section ReadRel

variable {α E V : Type} [Ring α] [AddCommGroup E] [Module α E] [AddCommGroup V] [Module α V]

theorem lhsRead_rel (a b : α) (R : Roster) (dim : Nat) (hdim : 0 < dim) (d r : variable_info)
    (hr : r ∈ varInfoList R dim) (j : Nat) (hj : j < num_var_LHS R)
    (hjr : (varInfoList R dim).getD j d = r) (x1 x2 : V) (solutionSet : Nat → V) (cell : Nat)
    (vr gr : Bool) (A A1 A2 : Assembly E V) (h : storesRel r A A1 A2) :
    storesRel r
        ((List.range (num_var_LHS R)).foldl
          (lhsReadStep R dim d r (a • x1 + b • x2) solutionSet cell) A)
        ((List.range (num_var_LHS R)).foldl (lhsReadStep R dim d r x1 solutionSet cell) A1)
        ((List.range (num_var_LHS R)).foldl (lhsReadStep R dim d r x2 solutionSet cell) A2) ∧
      ctxRel a b vr gr 0
        (((List.range (num_var_LHS R)).foldl
          (lhsReadStep R dim d r (a • x1 + b • x2) solutionSet cell) A).ctx
            r.is_scalar r.scalar_or_vector_index)
        (((List.range (num_var_LHS R)).foldl
          (lhsReadStep R dim d r x1 solutionSet cell) A1).ctx
            r.is_scalar r.scalar_or_vector_index)
        (((List.range (num_var_LHS R)).foldl
          (lhsReadStep R dim d r x2 solutionSet cell) A2).ctx
            r.is_scalar r.scalar_or_vector_index) := by
  have key := foldl_range_inv3
    (fun k (B B1 B2 : Assembly E V) => storesRel r B B1 B2 ∧
      (j < k → ctxRel a b vr gr 0 (B.ctx r.is_scalar r.scalar_or_vector_index)
        (B1.ctx r.is_scalar r.scalar_or_vector_index)
        (B2.ctx r.is_scalar r.scalar_or_vector_index)))
    (lhsReadStep R dim d r (a • x1 + b • x2) solutionSet cell)
    (lhsReadStep R dim d r x1 solutionSet cell)
    (lhsReadStep R dim d r x2 solutionSet cell)
    (num_var_LHS R) A A1 A2 ⟨h, fun h0 => absurd h0 (Nat.not_lt_zero _)⟩ ?_
  · exact ⟨key.1, key.2 hj⟩
  · rintro k hk B B1 B2 ⟨⟨hs1, hs2, hs3, hs4⟩, hc⟩
    by_cases hkj : k = j
    · subst hkj
      have e0 := lhsReadStep_target R dim d r (a • x1 + b • x2) solutionSet cell B k hjr
      have e1 := lhsReadStep_target R dim d r x1 solutionSet cell B1 k hjr
      have e2 := lhsReadStep_target R dim d r x2 solutionSet cell B2 k hjr
      refine ⟨⟨?_, ?_, ?_, ?_⟩, fun _ => ?_⟩
      · intro sc2 k2 hne
        rw [e0, e1, e2, if_neg hne, if_neg hne, if_neg hne]
        exact hs1 sc2 k2 hne
      · rw [e0, if_pos ⟨rfl, rfl⟩]
        exact hs2
      · rw [e1, if_pos ⟨rfl, rfl⟩]
        exact hs3
      · rw [e2, if_pos ⟨rfl, rfl⟩]
        exact hs4
      · rw [e0, e1, e2, if_pos ⟨rfl, rfl⟩, if_pos ⟨rfl, rfl⟩, if_pos ⟨rfl, rfl⟩]
        refine ⟨?_, ?_, rfl, rfl, rfl, ?_, ?_⟩
        · exact hs2.trans hs3.symm
        · exact hs2.trans hs4.symm
        · intro _ q hq
          exact absurd hq (Nat.not_lt_zero _)
        · intro _ q hq
          exact absurd hq (Nat.not_lt_zero _)
    · have hmem := getD_mem_varInfoList R dim d k hk
      have hne : (varInfoList R dim).getD k d ≠ r := by
        intro he
        exact hkj (getD_varInfoList_inj R dim d k j hk hj (he.trans hjr.symm))
      have hg : ((varInfoList R dim).getD k d).global_field_index ≠ r.global_field_index :=
        fun he => hne (varInfoList_gfi_inj R dim hdim _ _ hmem hr he)
      have hp : ¬ (r.is_scalar = ((varInfoList R dim).getD k d).is_scalar ∧
          r.scalar_or_vector_index
            = ((varInfoList R dim).getD k d).scalar_or_vector_index) := by
        rintro ⟨p1, p2⟩
        exact hne (varInfoList_pos_inj R dim _ _ hmem hr p1.symm p2.symm)
      have hp2 : ¬ (((varInfoList R dim).getD k d).is_scalar = r.is_scalar ∧
          ((varInfoList R dim).getD k d).scalar_or_vector_index
            = r.scalar_or_vector_index) := by
        rintro ⟨p1, p2⟩
        exact hp ⟨p1.symm, p2.symm⟩
      have e0 := lhsReadStep_other R dim d r (a • x1 + b • x2) solutionSet cell B k hg
      have e1 := lhsReadStep_other R dim d r x1 solutionSet cell B1 k hg
      have e2 := lhsReadStep_other R dim d r x2 solutionSet cell B2 k hg
      refine ⟨⟨?_, ?_, ?_, ?_⟩, fun hlt => ?_⟩
      · intro sc2 k2 hn
        rw [e0, e1, e2]
        split
        · rw [← (hs1 _ _ hp2).1, ← (hs1 _ _ hp2).2]
          exact ⟨rfl, rfl⟩
        · exact hs1 sc2 k2 hn
      · rw [e0, if_neg hp]
        exact hs2
      · rw [e1, if_neg hp]
        exact hs3
      · rw [e2, if_neg hp]
        exact hs4
      · rw [e0, e1, e2, if_neg hp, if_neg hp, if_neg hp]
        exact hc (by omega)

end ReadRel

section GatherSteps

variable {E V : Type}

theorem lhsGatherStep_ctx (ops : FEOps E V) (R : Roster) (dim : Nat) (d : variable_info)
    (cell q : Nat) (t : LHSState E V) (k : Nat) (sc : Bool) (k2 : Nat) :
    (lhsGatherStep ops R dim d cell q t k).fe.ctx sc k2 = t.fe.ctx sc k2 := by
  unfold lhsGatherStep
  simp only
  rw [ctx_gatherVar]

theorem lhsGatherStep_mv (ops : FEOps E V) (R : Roster) (dim : Nat) (d : variable_info)
    (cell q : Nat) (t : LHSState E V) (k : Nat) :
    (lhsGatherStep ops R dim d cell q t k).modelVarList
      = Function.update t.modelVarList k
          ((fun m3 : modelVariable E =>
              if R.need_hessian_LHS ((varInfoList R dim).getD k d).global_var_index then
                m3.setHess ((varInfoList R dim).getD k d).is_scalar
                  (t.fe.get_hessian ops ((varInfoList R dim).getD k d).is_scalar
                    ((varInfoList R dim).getD k d).scalar_or_vector_index q)
              else m3)
            ((fun m3 : modelVariable E =>
                if R.need_gradient_LHS ((varInfoList R dim).getD k d).global_var_index then
                  m3.setGrad ((varInfoList R dim).getD k d).is_scalar
                    (t.fe.get_gradient ops ((varInfoList R dim).getD k d).is_scalar
                      ((varInfoList R dim).getD k d).scalar_or_vector_index q)
                else m3)
              (if R.need_value_LHS ((varInfoList R dim).getD k d).global_var_index then
                (t.modelVarList k).setValue ((varInfoList R dim).getD k d).is_scalar
                  (t.fe.get_value ops ((varInfoList R dim).getD k d).is_scalar
                    ((varInfoList R dim).getD k d).scalar_or_vector_index q)
              else t.modelVarList k))) := by
  unfold lhsGatherStep
  simp only
  rw [gatherVar_snd]

end GatherSteps

section GatherRel

variable {α E V : Type} [Ring α] [AddCommGroup E] [Module α E] [AddCommGroup V] [Module α V]

theorem gather_varRel (a b : α) (sc vf gf hf filled : Bool) (m m1 m2 : modelVariable E)
    (v v1 v2 g g1 g2 h h1 h2 : E) (hv : v = a • v1 + b • v2) (hg : g = a • g1 + b • g2)
    (hh : h = a • h1 + b • h2) (hm : varRel a b sc vf gf hf filled m m1 m2) :
    varRel a b sc vf gf hf true
      ((fun m3 : modelVariable E => if hf then m3.setHess sc h else m3)
        ((fun m3 : modelVariable E => if gf then m3.setGrad sc g else m3)
          (if vf then m.setValue sc v else m)))
      ((fun m3 : modelVariable E => if hf then m3.setHess sc h1 else m3)
        ((fun m3 : modelVariable E => if gf then m3.setGrad sc g1 else m3)
          (if vf then m1.setValue sc v1 else m1)))
      ((fun m3 : modelVariable E => if hf then m3.setHess sc h2 else m3)
        ((fun m3 : modelVariable E => if gf then m3.setGrad sc g2 else m3)
          (if vf then m2.setValue sc v2 else m2))) := by
  obtain ⟨c1, c2, c3, c4, c5, c6⟩ := hm
  cases sc <;> cases vf <;> cases gf <;> cases hf <;>
    simp only [varRel, compRel, modelVariable.setValue, modelVariable.setGrad,
      modelVariable.setHess, Bool.and_true, Bool.and_false, Bool.not_true, Bool.not_false,
      Bool.true_and, Bool.false_and, if_true, if_false, Bool.false_eq_true] at * <;>
    refine ⟨?_, ?_, ?_, ?_, ?_, ?_⟩ <;>
    first
    | assumption
    | exact fun _ => hv
    | exact fun _ => hg
    | exact fun _ => hh

theorem varRel_mono (a b : α) (sc vf gf hf : Bool) (m m1 m2 : modelVariable E)
    (hm : varRel a b sc vf gf hf true m m1 m2) : varRel a b sc vf gf hf false m m1 m2 := by
  obtain ⟨c1, c2, c3, c4, c5, c6⟩ := hm
  cases sc <;> cases vf <;> cases gf <;> cases hf <;>
    simp only [varRel, compRel, Bool.and_true, Bool.and_false, Bool.not_true, Bool.not_false,
      Bool.true_and, Bool.false_and, if_true, if_false, Bool.false_eq_true,
      false_implies] at * <;>
    refine ⟨?_, ?_, ?_, ?_, ?_, ?_⟩ <;>
    first
    | assumption
    | trivial

theorem lhsGather_rel (a b : α) (ops : FEOps E V) (R : Roster) (dim : Nat)
    (d r : variable_info) (hr : r ∈ varInfoList R dim) (j : Nat) (hj : j < num_var_LHS R)
    (hjr : (varInfoList R dim).getD j d = r)
    (hops : opsLinearAt a b ops r.is_scalar r.global_field_index) (d0 : V) (cell q n : Nat)
    (s s1 s2 : LHSState E V) (h : lhsRel a b R r j d0 n false s s1 s2) :
    lhsRel a b R r j d0 n true
      ((List.range (num_var_LHS R)).foldl (lhsGatherStep ops R dim d cell q) s)
      ((List.range (num_var_LHS R)).foldl (lhsGatherStep ops R dim d cell q) s1)
      ((List.range (num_var_LHS R)).foldl (lhsGatherStep ops R dim d cell q) s2) := by
  have key := foldl_range_inv3
    (fun k (t t1 t2 : LHSState E V) => lhsRel a b R r j d0 n (decide (j < k)) t t1 t2)
    (lhsGatherStep ops R dim d cell q) (lhsGatherStep ops R dim d cell q)
    (lhsGatherStep ops R dim d cell q) (num_var_LHS R) s s1 s2
    (by simpa using h) ?_
  · simpa [hj] using key
  · rintro k hk t t1 t2 ⟨hst, hct, ⟨hv1, hv2⟩, hd⟩
    have hst2 : storesRel r (lhsGatherStep ops R dim d cell q t k).fe
        (lhsGatherStep ops R dim d cell q t1 k).fe
        (lhsGatherStep ops R dim d cell q t2 k).fe := by
      unfold storesRel
      simp only [lhsGatherStep_ctx]
      exact hst
    refine ⟨hst2, ?_, ?_, hd⟩
    · simp only [lhsGatherStep_ctx]
      exact hct
    · rw [lhsGatherStep_mv, lhsGatherStep_mv, lhsGatherStep_mv]
      by_cases hkj : k = j
      · subst hkj
        rw [hjr]
        refine ⟨?_, ?_⟩
        · intro i hi
          rw [Function.update_noteq hi, Function.update_noteq hi, Function.update_noteq hi]
          exact hv1 i hi
        · rw [Function.update_same, Function.update_same, Function.update_same]
          have hdec : decide (k < k + 1) = true := by simp
          rw [hdec]
          obtain ⟨_, c2, c3, c4⟩ := hst
          obtain ⟨_, _, e3, e4, e5, _, _⟩ := hct
          apply gather_varRel a b _ _ _ _ _ _ _ _ _ _ _ _ _ _ _ _ _ ?_ ?_ ?_ hv2
          · simp only [Assembly.get_value]
            rw [c2, c3, c4, ← e3, ← e4, e5]
            exact hops.1 _ _ _ _
          · simp only [Assembly.get_gradient]
            rw [c2, c3, c4, ← e3, ← e4, e5]
            exact hops.2.1 _ _ _ _
          · simp only [Assembly.get_hessian]
            rw [c2, c3, c4, ← e3, ← e4, e5]
            exact hops.2.2.1 _ _ _ _
      · have hmem := getD_mem_varInfoList R dim d k hk
        have hne : (varInfoList R dim).getD k d ≠ r := by
          intro he
          exact hkj (getD_varInfoList_inj R dim d k j hk hj (he.trans hjr.symm))
        have hp : ¬ (((varInfoList R dim).getD k d).is_scalar = r.is_scalar ∧
            ((varInfoList R dim).getD k d).scalar_or_vector_index
              = r.scalar_or_vector_index) := by
          rintro ⟨p1, p2⟩
          exact hne (varInfoList_pos_inj R dim _ _ hmem hr p1 p2)
        have hc1 := (hst.1 _ _ hp).1
        have hc2 := (hst.1 _ _ hp).2
        have hjk : j ≠ k := fun h => hkj h.symm
        have hdec : decide (j < k + 1) = decide (j < k) := by
          have : (j < k + 1) ↔ (j < k) := by omega
          simp [this]
        refine ⟨?_, ?_⟩
        · intro i hi
          by_cases hik : i = k
          · subst hik
            rw [Function.update_same, Function.update_same, Function.update_same]
            simp only [Assembly.get_value, Assembly.get_gradient, Assembly.get_hessian]
            rw [← hc1, ← hc2, ← (hv1 i hi).1, ← (hv1 i hi).2]
            exact ⟨rfl, rfl⟩
          · rw [Function.update_noteq hik, Function.update_noteq hik,
              Function.update_noteq hik]
            exact hv1 i hi
        · rw [Function.update_noteq hjk, Function.update_noteq hjk,
            Function.update_noteq hjk, hdec]
          exact hv2

end GatherRel

section QuadRel

variable {α E V : Type} [Ring α] [AddCommGroup E] [Module α E] [AddCommGroup V] [Module α V]

theorem lhsQuad_rel (a b : α) (ops : FEOps E V) (R : Roster) (dim : Nat)
    (d r : variable_info) (hr : r ∈ varInfoList R dim) (j : Nat) (hj : j < num_var_LHS R)
    (hjr : (varInfoList R dim).getD j d = r)
    (hops : opsLinearAt a b ops r.is_scalar r.global_field_index)
    (K : (Nat → modelVariable E) → modelResidual E)
    (hK : kernelLinearIn a b K j r.is_scalar (R.need_value_LHS r.global_var_index)
      (R.need_gradient_LHS r.global_var_index) (R.need_hessian_LHS r.global_var_index)
      (R.value_residual r.global_var_index) (R.gradient_residual r.global_var_index))
    (d0 : V) (cell q : Nat) (s s1 s2 : LHSState E V)
    (h : lhsRel a b R r j d0 q false s s1 s2) :
    lhsRel a b R r j d0 (q + 1) false (lhsQuad ops R dim d r K cell s q)
      (lhsQuad ops R dim d r K cell s1 q) (lhsQuad ops R dim d r K cell s2 q) := by
  obtain ⟨⟨g1, g2, g3, g4⟩, ⟨c1, c2, c3, c4, c5, c6, c7⟩, ⟨v1, v2⟩, gd⟩ :=
    lhsGather_rel a b ops R dim d r hr j hj hjr hops d0 cell q q s s1 s2 h
  obtain ⟨k1, k2⟩ := hK _ _ _ v1 v2
  unfold lhsQuad
  simp only
  refine ⟨⟨?_, ?_, ?_, ?_⟩, ?_, ⟨v1, varRel_mono a b _ _ _ _ _ _ _ v2⟩, gd⟩
  · intro sc k hne
    rw [ctx_submitRes_other _ _ _ _ _ _ _ _ _ _ hne, ctx_submitRes_other _ _ _ _ _ _ _ _ _ _ hne,
      ctx_submitRes_other _ _ _ _ _ _ _ _ _ _ hne, ctx_record, ctx_record, ctx_record]
    exact g1 sc k hne
  · rw [ctx_submitRes_self, ctx_record]
    exact g2
  · rw [ctx_submitRes_self, ctx_record]
    exact g3
  · rw [ctx_submitRes_self, ctx_record]
    exact g4
  · rw [ctx_submitRes_self, ctx_submitRes_self, ctx_submitRes_self, ctx_record, ctx_record,
      ctx_record]
    refine ⟨c1, c2, c3, c4, c5, ?_, ?_⟩
    · intro hvr q2 hq2
      simp only [hvr, if_true]
      by_cases hq : q2 = q
      · subst hq
        rw [Function.update_same, Function.update_same, Function.update_same]
        exact k1 hvr
      · rw [Function.update_noteq hq, Function.update_noteq hq, Function.update_noteq hq]
        exact c6 hvr q2 (by omega)
    · intro hgr q2 hq2
      simp only [hgr, if_true]
      by_cases hq : q2 = q
      · subst hq
        rw [Function.update_same, Function.update_same, Function.update_same]
        exact k2 hgr
      · rw [Function.update_noteq hq, Function.update_noteq hq, Function.update_noteq hq]
        exact c7 hgr q2 (by omega)

theorem lhsCellRest_rel (a b : α) (ops : FEOps E V) (R : Roster) (dim : Nat)
    (d r : variable_info) (hr : r ∈ varInfoList R dim) (j : Nat) (hj : j < num_var_LHS R)
    (hjr : (varInfoList R dim).getD j d = r)
    (hops : opsLinearAt a b ops r.is_scalar r.global_field_index)
    (K : (Nat → modelVariable E) → modelResidual E)
    (hK : kernelLinearIn a b K j r.is_scalar (R.need_value_LHS r.global_var_index)
      (R.need_gradient_LHS r.global_var_index) (R.need_hessian_LHS r.global_var_index)
      (R.value_residual r.global_var_index) (R.gradient_residual r.global_var_index))
    (d0 : V) (cell : Nat) (s s1 s2 : LHSState E V)
    (h : lhsRel a b R r j d0 0 false s s1 s2) :
    cellRel a b R r j d0 (lhsCellRest ops R dim d r K ops.n_q_points cell s)
      (lhsCellRest ops R dim d r K ops.n_q_points cell s1)
      (lhsCellRest ops R dim d r K ops.n_q_points cell s2) := by
  obtain ⟨⟨g1, g2, g3, g4⟩, ⟨c1, c2, c3, c4, c5, c6, c7⟩, hv, gd⟩ := foldl_range_inv3
    (fun q (t t1 t2 : LHSState E V) => lhsRel a b R r j d0 q false t t1 t2)
    (lhsQuad ops R dim d r K cell) (lhsQuad ops R dim d r K cell)
    (lhsQuad ops R dim d r K cell) ops.n_q_points s s1 s2 h
    (fun q _ t t1 t2 ht => lhsQuad_rel a b ops R dim d r hr j hj hjr hops K hK d0 cell q
      t t1 t2 ht)
  unfold lhsCellRest
  simp only
  refine ⟨⟨?_, ?_, ?_, ?_⟩, hv, ?_⟩
  · intro sc k hne
    rw [ctx_record, ctx_record, ctx_record, ctx_integrate_other _ _ _ _ _ _ _ _ _ hne,
      ctx_integrate_other _ _ _ _ _ _ _ _ _ hne, ctx_integrate_other _ _ _ _ _ _ _ _ _ hne]
    exact g1 sc k hne
  · rw [ctx_record, ctx_integrate_self]
    exact g2
  · rw [ctx_record, ctx_integrate_self]
    exact g3
  · rw [ctx_record, ctx_integrate_self]
    exact g4
  · simp only [Assembly.distribute_local_to_global]
    rw [ctx_integrate_self, ctx_integrate_self, ctx_integrate_self]
    simp only
    rw [g3, g4, ← c3, ← c4, g2,
      hops.2.2.2 _ (R.value_residual r.global_var_index)
        (R.gradient_residual r.global_var_index) _ _ _ _ _ _ _ _ _ c5 c6 c7]
    have hd2 : ((List.range ops.n_q_points).foldl (lhsQuad ops R dim d r K cell) s).dst
        = d0 + (a • (((List.range ops.n_q_points).foldl
            (lhsQuad ops R dim d r K cell) s1).dst - d0)
          + b • (((List.range ops.n_q_points).foldl
            (lhsQuad ops R dim d r K cell) s2).dst - d0)) := by
      rw [← gd]
      abel
    rw [hd2]
    simp only [smul_add, smul_sub]
    abel

end QuadRel

section CellSome

variable {E V : Type}

theorem lhsCell_some [Add V] (ops : FEOps E V) (R : Roster) (dim : Nat)
    (d r : variable_info) (blank : FEEval E V) (K : (Nat → modelVariable E) → modelResidual E)
    (src : V) (solutionSet : Nat → V) (s : LHSState E V) (cell : Nat)
    (hne : 0 < R.countLHS true R.num_var ∨ 0 < R.countLHS false R.num_var)
    (hs : (lhsStores R dim d blank).sameShape s.fe) :
    lhsCell ops R dim d r K src solutionSet s cell
        = some (lhsCellRest ops R dim d r K ops.n_q_points cell
          { s with
            fe := ((List.range (num_var_LHS R)).foldl
              (lhsReadStep R dim d r src solutionSet cell) s.fe) }) ∧
      (lhsStores R dim d blank).sameShape
        (lhsCellRest ops R dim d r K ops.n_q_points cell
          { s with
            fe := ((List.range (num_var_LHS R)).foldl
              (lhsReadStep R dim d r src solutionSet cell) s.fe) }).fe := by
  obtain ⟨r1, _⟩ := lhsRead_trace R dim d r blank src solutionSet cell s.fe hs
  obtain ⟨c1, _⟩ := lhsCellRest_trace ops R dim d r blank K ops.n_q_points cell
    { s with
      fe := ((List.range (num_var_LHS R)).foldl
        (lhsReadStep R dim d r src solutionSet cell) s.fe) } r1
  have hsz := lhsStores_sizes R dim d blank
  refine ⟨?_, c1⟩
  unfold lhsCell
  simp only
  rw [r1.2.1, r1.2.2, hsz.1, hsz.2]
  rcases hne with h | h
  · rw [if_pos h]
  · rw [if_pos h]
    split <;> rfl

theorem foldlM_rel3 {S β : Type} (Rel : S → S → S → Prop) (f f1 f2 : S → β → Option S)
    (l : List β)
    (h : ∀ s s1 s2, Rel s s1 s2 → ∀ x ∈ l,
      ∃ t t1 t2, f s x = some t ∧ f1 s1 x = some t1 ∧ f2 s2 x = some t2 ∧ Rel t t1 t2)
    (s s1 s2 : S) (hs : Rel s s1 s2) :
    ∃ t t1 t2, l.foldlM f s = some t ∧ l.foldlM f1 s1 = some t1 ∧
      l.foldlM f2 s2 = some t2 ∧ Rel t t1 t2 := by
  induction l generalizing s s1 s2 with
  | nil => exact ⟨s, s1, s2, rfl, rfl, rfl, hs⟩
  | cons x l ih =>
    obtain ⟨t, t1, t2, e, e1, e2, ht⟩ := h s s1 s2 hs x (List.mem_cons_self _ _)
    rw [List.foldlM_cons, List.foldlM_cons, List.foldlM_cons, e, e1, e2]
    exact ih (fun u u1 u2 hu y hy => h u u1 u2 hu y (List.mem_cons_of_mem _ hy)) t t1 t2 ht

end CellSome

section CellRel

variable {α E V : Type} [Ring α] [AddCommGroup E] [Module α E] [AddCommGroup V] [Module α V]

theorem varRel_refl (a b : α) (sc vf gf hf : Bool) (m : modelVariable E) :
    varRel a b sc vf gf hf false m m m := by
  cases sc <;> cases vf <;> cases gf <;> cases hf <;> simp [varRel, compRel]

theorem lhsCell_rel (a b : α) (ops : FEOps E V) (R : Roster) (dim : Nat) (hdim : 0 < dim)
    (d r : variable_info) (hr : r ∈ varInfoList R dim) (j : Nat) (hj : j < num_var_LHS R)
    (hjr : (varInfoList R dim).getD j d = r)
    (hops : opsLinearAt a b ops r.is_scalar r.global_field_index)
    (blank : FEEval E V) (K : (Nat → modelVariable E) → modelResidual E)
    (hK : kernelLinearIn a b K j r.is_scalar (R.need_value_LHS r.global_var_index)
      (R.need_gradient_LHS r.global_var_index) (R.need_hessian_LHS r.global_var_index)
      (R.value_residual r.global_var_index) (R.gradient_residual r.global_var_index))
    (x1 x2 : V) (solutionSet : Nat → V) (d0 : V) (cell : Nat) (s s1 s2 : LHSState E V)
    (h : cellRel a b R r j d0 s s1 s2 ∧ (lhsStores R dim d blank).sameShape s.fe ∧
      (lhsStores R dim d blank).sameShape s1.fe ∧ (lhsStores R dim d blank).sameShape s2.fe) :
    ∃ t t1 t2,
      lhsCell ops R dim d r K (a • x1 + b • x2) solutionSet s cell = some t ∧
      lhsCell ops R dim d r K x1 solutionSet s1 cell = some t1 ∧
      lhsCell ops R dim d r K x2 solutionSet s2 cell = some t2 ∧
      (cellRel a b R r j d0 t t1 t2 ∧ (lhsStores R dim d blank).sameShape t.fe ∧
        (lhsStores R dim d blank).sameShape t1.fe ∧
        (lhsStores R dim d blank).sameShape t2.fe) := by
  obtain ⟨⟨hst, hv, hd⟩, hA, hA1, hA2⟩ := h
  have hne := countLHS_pos R dim r hr
  obtain ⟨e, hsh⟩ := lhsCell_some ops R dim d r blank K (a • x1 + b • x2) solutionSet s cell
    hne hA
  obtain ⟨e1, hsh1⟩ := lhsCell_some ops R dim d r blank K x1 solutionSet s1 cell hne hA1
  obtain ⟨e2, hsh2⟩ := lhsCell_some ops R dim d r blank K x2 solutionSet s2 cell hne hA2
  obtain ⟨r1, r2⟩ := lhsRead_rel a b R dim hdim d r hr j hj hjr x1 x2 solutionSet cell
    (R.value_residual r.global_var_index) (R.gradient_residual r.global_var_index)
    s.fe s1.fe s2.fe hst
  refine ⟨_, _, _, e, e1, e2, ?_, hsh, hsh1, hsh2⟩
  exact lhsCellRest_rel a b ops R dim d r hr j hj hjr hops K hK d0 cell _ _ _
    ⟨r1, r2, hv, hd⟩

theorem getLHS_linear (a b : α) (ops : FEOps E V) (R : Roster) (dim : Nat) (hdim : 0 < dim)
    (d r : variable_info) (hr : r ∈ varInfoList R dim) (j : Nat) (hj : j < num_var_LHS R)
    (hjr : (varInfoList R dim).getD j d = r)
    (hops : opsLinearAt a b ops r.is_scalar r.global_field_index)
    (blank : FEEval E V) (K : (Nat → modelVariable E) → modelResidual E)
    (hK : kernelLinearIn a b K j r.is_scalar (R.need_value_LHS r.global_var_index)
      (R.need_gradient_LHS r.global_var_index) (R.need_hessian_LHS r.global_var_index)
      (R.value_residual r.global_var_index) (R.gradient_residual r.global_var_index))
    (mv0 : Nat → modelVariable E) (res0 : modelResidual E) (solutionSet : Nat → V)
    (dst x1 x2 : V) (cell_range : Nat × Nat) :
    ∃ s s1 s2,
      getLHS ops R dim blank K mv0 res0 d solutionSet r.global_field_index dst
        (a • x1 + b • x2) cell_range = some s ∧
      getLHS ops R dim blank K mv0 res0 d solutionSet r.global_field_index dst x1 cell_range
        = some s1 ∧
      getLHS ops R dim blank K mv0 res0 d solutionSet r.global_field_index dst x2 cell_range
        = some s2 ∧
      s.dst - dst = a • (s1.dst - dst) + b • (s2.dst - dst) := by
  unfold getLHS
  rw [selectResInfo_target R dim hdim d r hr]
  obtain ⟨t, t1, t2, e, e1, e2, ⟨_, _, hd⟩, _⟩ := foldlM_rel3
    (fun u u1 u2 : LHSState E V => cellRel a b R r j dst u u1 u2 ∧
      (lhsStores R dim d blank).sameShape u.fe ∧ (lhsStores R dim d blank).sameShape u1.fe ∧
      (lhsStores R dim d blank).sameShape u2.fe)
    (lhsCell ops R dim d r K (a • x1 + b • x2) solutionSet)
    (lhsCell ops R dim d r K x1 solutionSet) (lhsCell ops R dim d r K x2 solutionSet)
    (List.range' cell_range.1 (cell_range.2 - cell_range.1))
    (fun u u1 u2 hu cell _ => lhsCell_rel a b ops R dim hdim d r hr j hj hjr hops blank K hK
      x1 x2 solutionSet dst cell u u1 u2 hu)
    { fe := lhsStores R dim d blank, modelVarList := mv0, modelRes := res0, dst := dst }
    { fe := lhsStores R dim d blank, modelVarList := mv0, modelRes := res0, dst := dst }
    { fe := lhsStores R dim d blank, modelVarList := mv0, modelRes := res0, dst := dst }
    ⟨⟨⟨fun _ _ _ => ⟨rfl, rfl⟩, lhsStores_ctx R dim d blank r hr,
        lhsStores_ctx R dim d blank r hr, lhsStores_ctx R dim d blank r hr⟩,
      ⟨fun _ _ => ⟨rfl, rfl⟩, varRel_refl a b _ _ _ _ _⟩, by simp⟩,
      sameShape_refl _, sameShape_refl _, sameShape_refl _⟩
  exact ⟨t, t1, t2, e, e1, e2, hd⟩

end CellRel

section WindowTests
variable {α : Type}

theorem activeMech_eq_false_iff (P : Parameters α) (inc : Nat) :
    activeMech P inc = false ↔ inc > P.timeIncrements := by
  simp [activeMech]

theorem activeApp_eq_false_iff (P : Parameters α) (inc : Nat)
    (h1 : P.skipOutputSteps ≤ P.timeIncrements)
    (h2 : P.timeIncrements - P.skipOutputSteps < 4294967296) :
    activeApp P inc = false ↔ inc > P.timeIncrements - P.skipOutputSteps := by
  have hm : ((P.timeIncrements : Int) - (P.skipOutputSteps : Int)) % 4294967296
      = ((P.timeIncrements - P.skipOutputSteps : Nat) : Int) := by
    rw [Nat.cast_sub h1]
    apply Int.emod_eq_of_lt <;> omega
  simp only [activeApp, hm, decide_eq_false_iff_not, not_le, gt_iff_lt, Nat.cast_lt]

end WindowTests

section WindowLemmas
variable {α : Type} [LinearOrderedField α] {dim : Nat}

theorem modifySolutionFieldsMech_inactive (P : Parameters α) (RAND_MAX : Nat) (tanh : α → α)
    (dist : Point dim α → Point dim α → α) (t : α) (inc : Nat)
    (parts : List (PartitionMech dim α)) (h : activeMech P inc = false) :
    modifySolutionFieldsMech P RAND_MAX tanh dist t inc parts
      = parts.map (fun q => { q with nuclei := [] }) := by
  unfold modifySolutionFieldsMech
  rw [h]
  rfl

theorem modifySolutionFieldsApp_inactive (P : Parameters α) (exp tanh : α → α)
    (dist : Point dim α → Point dim α → α) (t : α) (inc : Nat)
    (parts : List (PartitionApp dim α)) (h : activeApp P inc = false) :
    modifySolutionFieldsApp P exp tanh dist t inc parts
      = parts.map (fun q => { q with nuclei := [] }) := by
  unfold modifySolutionFieldsApp
  rw [h]
  rfl

end WindowLemmas

section PairLemmas

theorem forall2_map_enum_map {β γ δ : Type} (Rel : β → δ → Prop) (D : β → γ) (F : Nat × γ → δ)
    (h : ∀ i x, Rel x (F (i, D x))) (l : List β) :
    List.Forall₂ Rel l ((l.map D).enum.map F) := by
  have key : ∀ (l : List β) (k : Nat), List.Forall₂ Rel l (((l.map D).enumFrom k).map F) := by
    intro l
    induction l with
    | nil => intro k; exact List.Forall₂.nil
    | cons x l ih =>
      intro k
      rw [List.map_cons, List.enumFrom_cons, List.map_cons]
      exact List.Forall₂.cons (h k x) (ih (k + 1))
  exact key l 0

end PairLemmas

section AcceptLemmas
variable {α : Type} [LinearOrderedField α] {dim : Nat}

theorem detectMech_added (P : Parameters α) (RAND_MAX : Nat)
    (dist : Point dim α → Point dim α → α) (support_points : List (Nat × Point dim α))
    (owned : Nat → Bool) (n1 n2 n3 c : Nat → α) (t : α) (rand : Nat → Nat)
    (st : List (nucleus dim α) × Nat) :
    ∃ added, (detectMech P RAND_MAX dist support_points owned n1 n2 n3 c t rand st).1
        = st.1 ++ added ∧
      ∀ m ∈ added, m.seededTime = t ∧ m.seedingTime = 10000 * P.timeStep ∧
        m.radius = nRadiusMech := by
  unfold detectMech
  induction support_points generalizing st with
  | nil => exact ⟨[], by simp, fun m hm => by simp at hm⟩
  | cons it pts ih =>
    rw [List.foldl_cons]
    obtain ⟨add2, h2, h3⟩ := ih (detectPointMech P RAND_MAX dist owned n1 n2 n3 c t rand st it)
    have h1 : ∃ add1, (detectPointMech P RAND_MAX dist owned n1 n2 n3 c t rand st it).1
        = st.1 ++ add1 ∧ ∀ m ∈ add1, m.seededTime = t ∧ m.seedingTime = 10000 * P.timeStep ∧
          m.radius = nRadiusMech := by
      unfold detectPointMech proposeAt
      simp only
      split_ifs
      · exact ⟨_, rfl, fun m hm => by
          rw [List.mem_singleton] at hm
          rw [hm]
          exact ⟨rfl, rfl, rfl⟩⟩
      · exact ⟨[], by simp, fun m hm => by simp at hm⟩
      · exact ⟨[], by simp, fun m hm => by simp at hm⟩
      · exact ⟨[], by simp, fun m hm => by simp at hm⟩
    obtain ⟨add1, h4, h5⟩ := h1
    refine ⟨add1 ++ add2, ?_, ?_⟩
    · rw [h2, h4, List.append_assoc]
    · intro m hm
      rcases List.mem_append.1 hm with h | h
      · exact h5 m h
      · exact h3 m h

theorem seedPass_same_time (tanh : α → α) (dist : Point dim α → Point dim α → α)
    (support_points : List (Nat × Point dim α)) (owned : Nat → Bool) (t : α)
    (m : nucleus dim α) (hm : t ≤ m.seededTime) (n1 : Nat → α) :
    support_points.foldl (seedPointMech tanh dist owned t m) n1 = n1 :=
  foldl_fixed _ (fun s x => seedPointMech_out tanh dist owned t m s x (Or.inl hm)) _ _

theorem seedNucleiMech_filter (tanh : α → α) (dist : Point dim α → Point dim α → α)
    (support_points : List (Nat × Point dim α)) (owned : Nat → Bool) (t : α)
    (nuclei : List (nucleus dim α)) (n1 : Nat → α) :
    seedNucleiMech tanh dist support_points owned t nuclei n1
      = seedNucleiMech tanh dist support_points owned t
          (nuclei.filter (fun m => decide (m.seededTime ≠ t))) n1 := by
  unfold seedNucleiMech
  induction nuclei generalizing n1 with
  | nil => rfl
  | cons m l ih =>
    rw [List.foldl_cons]
    by_cases h : m.seededTime = t
    · have hf : (m :: l).filter (fun m => decide (m.seededTime ≠ t))
          = l.filter (fun m => decide (m.seededTime ≠ t)) := by
        simp [h]
      rw [hf, seedPass_same_time tanh dist support_points owned t m (le_of_eq h.symm)]
      exact ih n1
    · have hf : (m :: l).filter (fun m => decide (m.seededTime ≠ t))
          = m :: l.filter (fun m => decide (m.seededTime ≠ t)) := by
        simp [h]
      rw [hf, List.foldl_cons]
      exact ih _

theorem seedPointMech_written (tanh : α → α) (dist : Point dim α → Point dim α → α)
    (owned : Nat → Bool) (t2 : α) (m : nucleus dim α) (n1 : Nat → α) (it : Nat × Point dim α)
    (h : seedPointMech tanh dist owned t2 m n1 it ≠ n1) :
    m.seededTime < t2 ∧ t2 < m.seededTime + m.seedingTime := by
  by_contra hc
  apply h
  apply seedPointMech_out
  by_cases h1 : t2 ≤ m.seededTime
  · exact Or.inl h1
  · right
    by_contra h2
    exact hc ⟨not_le.1 h1, not_le.1 h2⟩

theorem modifySolutionFieldsMech_seed (P : Parameters α) (RAND_MAX : Nat) (tanh : α → α)
    (dist : Point dim α → Point dim α → α) (t : α) (inc : Nat)
    (parts : List (PartitionMech dim α)) :
    List.Forall₂
      (fun q r => r.n1 = seedNucleiMech tanh dist q.support_points q.owned t
          (r.nuclei.filter (fun m => decide (m.seededTime ≠ t))) q.n1)
      parts (modifySolutionFieldsMech P RAND_MAX tanh dist t inc parts) := by
  unfold modifySolutionFieldsMech
  split_ifs
  · apply forall2_map_enum_map
    intro i q
    exact seedNucleiMech_filter tanh dist _ _ t _ _
  · rw [List.forall₂_map_right_iff, List.forall₂_same]
    intro q _
    rfl

theorem modifySolutionFieldsMech_nuclei_mem (P : Parameters α) (RAND_MAX : Nat)
    (tanh : α → α) (dist : Point dim α → Point dim α → α) (t : α) (inc : Nat)
    (parts : List (PartitionMech dim α)) (r : PartitionMech dim α)
    (hr : r ∈ modifySolutionFieldsMech P RAND_MAX tanh dist t inc parts)
    (m : nucleus dim α) (hm : m ∈ r.nuclei) :
    ∃ q ∈ parts, ∃ b ∈ q.detect P RAND_MAX dist t, attrs b = attrs m := by
  unfold modifySolutionFieldsMech at hr
  split_ifs at hr
  · rw [List.mem_map] at hr
    obtain ⟨pq, _, rfl⟩ := hr
    simp only at hm
    have hrec : ∃ m2 ∈ reconcile dim dist minDistMech
          ((parts.map (PartitionMech.detectState P RAND_MAX dist t)).map
            (fun q => q.localNuclei)), attrs m2 = attrs m := by
      split_ifs at hm
      · exact ⟨m, hm, rfl⟩
      · rw [broadcastNuclei_eq] at hm
        have h1 : attrs m ∈ (renumberFrom 0 (reconcile dim dist minDistMech
            ((parts.map (PartitionMech.detectState P RAND_MAX dist t)).map
              (fun q => q.localNuclei)))).map attrs := List.mem_map_of_mem _ hm
        rw [map_attrs_renumberFrom, List.mem_map] at h1
        exact h1
    obtain ⟨m2, hm2, he⟩ := hrec
    obtain ⟨l, hl, b, hb, hbe⟩ := reconcile_attrs_mem dist minDistMech _ m2 hm2
    rw [List.map_map, List.mem_map] at hl
    obtain ⟨q, hq, rfl⟩ := hl
    exact ⟨q, hq, b, hb, hbe.trans he⟩
  · rw [List.mem_map] at hr
    obtain ⟨q, _, rfl⟩ := hr
    simp at hm

end AcceptLemmas

section SolveLemmas
variable {α : Type}

theorem record_members (s : SolveState α) (c : SolveCall) :
    (s.record c).currentTime = s.currentTime ∧
    (s.record c).currentIncrement = s.currentIncrement ∧
    (s.record c).totalIncrements = s.totalIncrements := ⟨rfl, rfl, rfl⟩

theorem record_count (s : SolveState α) (c : SolveCall) :
    (s.record c).log.count SolveCall.solveIncrement
      = s.log.count SolveCall.solveIncrement
        + (if c = SolveCall.solveIncrement then 1 else 0) := by
  simp only [SolveState.record, List.count_append, List.count_singleton, beq_iff_eq]

theorem outputBlock_frame (c : SolveConfig α) (s : SolveState α) :
    (outputBlock c s).currentTime = s.currentTime ∧
    (outputBlock c s).currentIncrement = s.currentIncrement ∧
    (outputBlock c s).totalIncrements = s.totalIncrements ∧
    (outputBlock c s).log.count SolveCall.solveIncrement
      = s.log.count SolveCall.solveIncrement := by
  unfold outputBlock
  split
  · refine ⟨rfl, rfl, rfl, ?_⟩
    rw [record_count, record_count, record_count]
    simp
  · refine ⟨rfl, rfl, rfl, ?_⟩
    rw [record_count]
    simp

theorem outputStep_frame (c : SolveConfig α) (s : SolveState α)
    (hdef : c.writeOutput = true → c.skipOutputSteps ≠ 0) :
    ∃ s1, outputStep c s = some s1 ∧
      s1.currentTime = s.currentTime ∧
      s1.currentIncrement = s.currentIncrement ∧
      s1.totalIncrements = s.totalIncrements ∧
      s1.log.count SolveCall.solveIncrement = s.log.count SolveCall.solveIncrement := by
  unfold outputStep
  by_cases hw : c.writeOutput = true
  · rw [if_pos hw, if_neg (hdef hw)]
    split
    · exact ⟨_, rfl, outputBlock_frame c s⟩
    · exact ⟨_, rfl, rfl, rfl, rfl, rfl⟩
  · rw [if_neg hw]
    exact ⟨_, rfl, rfl, rfl, rfl, rfl⟩

theorem ghostFields_frame (c : SolveConfig α) (s : SolveState α) :
    (ghostFields c s).currentTime = s.currentTime ∧
    (ghostFields c s).currentIncrement = s.currentIncrement ∧
    (ghostFields c s).totalIncrements = s.totalIncrements ∧
    (ghostFields c s).log.count SolveCall.solveIncrement
      = s.log.count SolveCall.solveIncrement := by
  unfold ghostFields
  induction c.n_fields with
  | zero => exact ⟨rfl, rfl, rfl, rfl⟩
  | succ n ih =>
    rw [List.range_succ, List.foldl_append]
    obtain ⟨h1, h2, h3, h4⟩ := ih
    refine ⟨h1, h2, h3, ?_⟩
    simp only [List.foldl_cons, List.foldl_nil]
    rw [record_count, record_count, h4]
    simp

theorem timeStepBody_frame [Add α] (c : SolveConfig α) (s : SolveState α)
    (hdef : c.writeOutput = true → c.skipOutputSteps ≠ 0) :
    ∃ s1, timeStepBody c s = some s1 ∧
      s1.currentTime = s.currentTime + c.dtValue ∧
      s1.currentIncrement = s.currentIncrement ∧
      s1.totalIncrements = s.totalIncrements ∧
      s1.log.count SolveCall.solveIncrement
        = s.log.count SolveCall.solveIncrement + 1 := by
  unfold timeStepBody
  obtain ⟨s1, h0, h1, h2, h3, h4⟩ := outputStep_frame c
    (ghostFields c
      ((({ s with currentTime := s.currentTime + c.dtValue } : SolveState α).record
        (SolveCall.adaptiveRefine s.currentIncrement)).record SolveCall.solveIncrement)) hdef
  obtain ⟨g1, g2, g3, g4⟩ := ghostFields_frame c
    ((({ s with currentTime := s.currentTime + c.dtValue } : SolveState α).record
      (SolveCall.adaptiveRefine s.currentIncrement)).record SolveCall.solveIncrement)
  refine ⟨s1, h0, h1.trans g1, h2.trans g2, h3.trans g3, ?_⟩
  rw [h4, g4, record_count, record_count]
  simp

end SolveLemmas

section SolveLoopLemmas
variable {α : Type} [LinearOrderedField α]

theorem timeLoop_spec (c : SolveConfig α)
    (hdef : c.writeOutput = true → c.skipOutputSteps ≠ 0) (fuel : Nat) :
    ∀ s : SolveState α, s.currentIncrement ≤ s.totalIncrements + 1 →
      s.totalIncrements + 1 - s.currentIncrement < fuel →
      ∃ s1 m, timeLoop c fuel s = some s1 ∧
        s.currentIncrement + m ≤ s.totalIncrements + 1 ∧
        s1.log.count SolveCall.solveIncrement = s.log.count SolveCall.solveIncrement + m ∧
        s1.currentTime = s.currentTime + (m : α) * c.dtValue ∧
        s1.totalIncrements = s.totalIncrements ∧
        (∀ j : Nat, 1 ≤ j → j < m → s.currentTime + (j : α) * c.dtValue < c.finalTime) ∧
        ((1 ≤ m ∧ c.finalTime ≤ s.currentTime + (m : α) * c.dtValue) ∨
          s.currentIncrement + m = s.totalIncrements + 1) := by
  induction fuel with
  | zero => intro s _ h; omega
  | succ fuel ih =>
    intro s hle hfuel
    unfold timeLoop
    by_cases hi : s.currentIncrement ≤ s.totalIncrements
    · rw [if_pos hi]
      obtain ⟨s1, h0, h1, h2, h3, h4⟩ := timeStepBody_frame c s hdef
      rw [h0]
      by_cases hf : c.finalTime ≤ s1.currentTime
      · simp only [if_pos hf]
        refine ⟨s1, 1, rfl, by omega, h4, by rw [h1]; simp, h3, ?_, Or.inl ⟨le_refl _, ?_⟩⟩
        · intro j hj1 hj2
          omega
        · rw [h1] at hf
          simpa using hf
      · simp only [if_neg hf]
        obtain ⟨s2, m, e0, e1, e2, e3, e4, e5, e6⟩ :=
          ih { s1 with currentIncrement := s1.currentIncrement + 1 }
            (by show s1.currentIncrement + 1 ≤ s1.totalIncrements + 1; omega)
            (by show s1.totalIncrements + 1 - (s1.currentIncrement + 1) < fuel; omega)
        have e1b : s1.currentIncrement + 1 + m ≤ s1.totalIncrements + 1 := e1
        have e2b : s2.log.count SolveCall.solveIncrement
            = s1.log.count SolveCall.solveIncrement + m := e2
        have e3b : s2.currentTime = s1.currentTime + (m : α) * c.dtValue := e3
        have e4b : s2.totalIncrements = s1.totalIncrements := e4
        have e5b : ∀ j : Nat, 1 ≤ j → j < m →
            s1.currentTime + (j : α) * c.dtValue < c.finalTime := e5
        have e6b : (1 ≤ m ∧ c.finalTime ≤ s1.currentTime + (m : α) * c.dtValue) ∨
            s1.currentIncrement + 1 + m = s1.totalIncrements + 1 := e6
        refine ⟨s2, m + 1, e0, by omega, by omega, ?_, by omega, ?_, ?_⟩
        · rw [e3b, h1]
          push_cast
          ring
        · intro j hj1 hj2
          rcases Nat.eq_or_lt_of_le hj1 with h | h
          · subst h
            rw [h1] at hf
            simpa using lt_of_not_le hf
          · have := e5b (j - 1) (by omega) (by omega)
            rw [h1] at this
            have hc : ((j - 1 : Nat) : α) = (j : α) - 1 := by
              rw [Nat.cast_sub (by omega)]
              simp
            rw [hc] at this
            have hr : s.currentTime + c.dtValue + ((j : α) - 1) * c.dtValue
                = s.currentTime + (j : α) * c.dtValue := by ring
            rw [hr] at this
            exact this
        · rcases e6b with ⟨_, h⟩ | h
          · left
            refine ⟨by omega, ?_⟩
            rw [h1] at h
            have hr : s.currentTime + c.dtValue + (m : α) * c.dtValue
                = s.currentTime + ((m + 1 : Nat) : α) * c.dtValue := by
              push_cast
              ring
            rw [hr] at h
            exact h
          · right
            omega
    · rw [if_neg hi]
      exact ⟨s, 0, rfl, by omega, by omega, by simp, rfl, fun j h1 h2 => by omega,
        Or.inr (by omega)⟩

end SolveLoopLemmas

section SeederGeneral
variable {α : Type}

theorem foldl_unchanged_at {β : Type} (f : (Nat → α) → β → (Nat → α)) (d : Nat)
    (pts : List β) (h : ∀ x ∈ pts, ∀ n, f n x d = n d) (n : Nat → α) :
    (pts.foldl f n) d = n d := by
  induction pts generalizing n with
  | nil => rfl
  | cons x l ih =>
    rw [List.foldl_cons, ih (fun y hy => h y (List.mem_cons_of_mem _ hy)),
      h x (List.mem_cons_self _ _)]

theorem eq_of_nodup_fst {β : Type} (pts : List (Nat × β)) (hnd : (pts.map Prod.fst).Nodup)
    (x y : Nat × β) (hx : x ∈ pts) (hy : y ∈ pts) (h : x.1 = y.1) : x = y :=
  List.inj_on_of_nodup_map hnd hx hy h

end SeederGeneral

section SeederLemmas
variable {α : Type} [LinearOrderedField α] {dim : Nat}

theorem seedPointMech_idle (tanh : α → α) (dist : Point dim α → Point dim α → α)
    (owned : Nat → Bool) (t : α) (m : nucleus dim α) (n1 : Nat → α) (it : Nat × Point dim α)
    (h : ¬ (dist it.2 m.center ≤ 2 * m.radius ∧
      m.seededTime < t ∧ t < m.seededTime + m.seedingTime)) :
    seedPointMech tanh dist owned t m n1 it = n1 := by
  unfold seedPointMech
  simp only
  split_ifs with h1 h2 h3
  · exact absurd ⟨h2, h3⟩ h
  all_goals rfl

theorem seedPointApp_idle (P : Parameters α) (tanh : α → α)
    (dist : Point dim α → Point dim α → α)
    (owned : Nat → Bool) (t : α) (m : nucleus dim α) (n : Nat → α) (it : Nat × Point dim α)
    (h : ¬ (dist it.2 m.center ≤ m.radius + 3 * dxApp P ∧
      m.seededTime < t ∧ t < m.seededTime + m.seedingTime)) :
    seedPointApp P tanh dist owned t m n it = n := by
  unfold seedPointApp
  simp only
  split_ifs with h1 h2 h3
  · exact absurd ⟨h2, h3⟩ h
  all_goals rfl

theorem seedPassMech_written (tanh : α → α) (dist : Point dim α → Point dim α → α)
    (support_points : List (Nat × Point dim α)) (owned : Nat → Bool) (t : α)
    (nuc : nucleus dim α) (it : Nat × Point dim α)
    (hnd : (support_points.map Prod.fst).Nodup) (hmem : it ∈ support_points)
    (hown : owned it.1 = true) (hrange : dist it.2 nuc.center ≤ 2 * nuc.radius)
    (hwin : nuc.seededTime < t ∧ t < nuc.seededTime + nuc.seedingTime) (n1 : Nat → α) :
    (support_points.foldl (seedPointMech tanh dist owned t nuc) n1) it.1
      = (1 / 2) * (1 - tanh ((dist it.2 nuc.center - nuc.radius) / (2 / 5))) := by
  refine foldl_written _ Prod.fst ?_ support_points hnd it hmem _ ?_ n1
  · intro n x d hx
    exact seedPointMech_frame tanh dist owned t nuc n x d hx
  · intro n
    rw [seedPointMech_in tanh dist owned t nuc n it hown hrange hwin, Function.update_same]

theorem seedPassApp_written (P : Parameters α) (tanh : α → α)
    (dist : Point dim α → Point dim α → α)
    (support_points : List (Nat × Point dim α)) (owned : Nat → Bool) (t : α)
    (nuc : nucleus dim α) (it : Nat × Point dim α)
    (hnd : (support_points.map Prod.fst).Nodup) (hmem : it ∈ support_points)
    (hown : owned it.1 = true) (hrange : dist it.2 nuc.center ≤ nuc.radius + 3 * dxApp P)
    (hwin : nuc.seededTime < t ∧ t < nuc.seededTime + nuc.seedingTime) (n : Nat → α) :
    (support_points.foldl (seedPointApp P tanh dist owned t nuc) n) it.1
      = (1 / 2) * (1 - tanh ((dist it.2 nuc.center - P.spanX / 50) / dxApp P)) := by
  refine foldl_written _ Prod.fst ?_ support_points hnd it hmem _ ?_ n
  · intro n x d hx
    exact seedPointApp_frame P tanh dist owned t nuc n x d hx
  · intro n
    rw [seedPointApp_in P tanh dist owned t nuc n it hown hrange hwin, Function.update_same]

theorem seedPassMech_unwritten (tanh : α → α) (dist : Point dim α → Point dim α → α)
    (support_points : List (Nat × Point dim α)) (owned : Nat → Bool) (t : α)
    (m : nucleus dim α) (it : Nat × Point dim α)
    (hnd : (support_points.map Prod.fst).Nodup) (hmem : it ∈ support_points)
    (h : ¬ (dist it.2 m.center ≤ 2 * m.radius ∧
      m.seededTime < t ∧ t < m.seededTime + m.seedingTime)) (n1 : Nat → α) :
    (support_points.foldl (seedPointMech tanh dist owned t m) n1) it.1 = n1 it.1 := by
  refine foldl_unchanged_at _ _ _ ?_ n1
  intro x hx n
  by_cases hk : x.1 = it.1
  · have hxe : x = it := eq_of_nodup_fst support_points hnd x it hx hmem hk
    rw [hxe, seedPointMech_idle tanh dist owned t m n it h]
  · exact seedPointMech_frame tanh dist owned t m n x it.1 hk

theorem seedPassApp_unwritten (P : Parameters α) (tanh : α → α)
    (dist : Point dim α → Point dim α → α)
    (support_points : List (Nat × Point dim α)) (owned : Nat → Bool) (t : α)
    (m : nucleus dim α) (it : Nat × Point dim α)
    (hnd : (support_points.map Prod.fst).Nodup) (hmem : it ∈ support_points)
    (h : ¬ (dist it.2 m.center ≤ m.radius + 3 * dxApp P ∧
      m.seededTime < t ∧ t < m.seededTime + m.seedingTime)) (n : Nat → α) :
    (support_points.foldl (seedPointApp P tanh dist owned t m) n) it.1 = n it.1 := by
  refine foldl_unchanged_at _ _ _ ?_ n
  intro x hx n
  by_cases hk : x.1 = it.1
  · have hxe : x = it := eq_of_nodup_fst support_points hnd x it hx hmem hk
    rw [hxe, seedPointApp_idle P tanh dist owned t m n it h]
  · exact seedPointApp_frame P tanh dist owned t m n x it.1 hk

theorem seedNucleiMech_append (tanh : α → α) (dist : Point dim α → Point dim α → α)
    (support_points : List (Nat × Point dim α)) (owned : Nat → Bool) (t : α)
    (l1 l2 : List (nucleus dim α)) (n1 : Nat → α) :
    seedNucleiMech tanh dist support_points owned t (l1 ++ l2) n1
      = seedNucleiMech tanh dist support_points owned t l2
          (seedNucleiMech tanh dist support_points owned t l1 n1) := by
  unfold seedNucleiMech
  rw [List.foldl_append]

theorem seedNucleiApp_append (P : Parameters α) (tanh : α → α)
    (dist : Point dim α → Point dim α → α)
    (support_points : List (Nat × Point dim α)) (owned : Nat → Bool) (t : α)
    (l1 l2 : List (nucleus dim α)) (n : Nat → α) :
    seedNucleiApp P tanh dist support_points owned t (l1 ++ l2) n
      = seedNucleiApp P tanh dist support_points owned t l2
          (seedNucleiApp P tanh dist support_points owned t l1 n) := by
  unfold seedNucleiApp
  rw [List.foldl_append]

theorem seedNucleiMech_cons (tanh : α → α) (dist : Point dim α → Point dim α → α)
    (support_points : List (Nat × Point dim α)) (owned : Nat → Bool) (t : α)
    (m : nucleus dim α) (l : List (nucleus dim α)) (n1 : Nat → α) :
    seedNucleiMech tanh dist support_points owned t (m :: l) n1
      = seedNucleiMech tanh dist support_points owned t l
          (support_points.foldl (seedPointMech tanh dist owned t m) n1) := rfl

theorem seedNucleiApp_cons (P : Parameters α) (tanh : α → α)
    (dist : Point dim α → Point dim α → α)
    (support_points : List (Nat × Point dim α)) (owned : Nat → Bool) (t : α)
    (m : nucleus dim α) (l : List (nucleus dim α)) (n : Nat → α) :
    seedNucleiApp P tanh dist support_points owned t (m :: l) n
      = seedNucleiApp P tanh dist support_points owned t l
          (support_points.foldl (seedPointApp P tanh dist owned t m) n) := rfl

theorem seedNucleiMech_drop (tanh : α → α) (dist : Point dim α → Point dim α → α)
    (support_points : List (Nat × Point dim α)) (owned : Nat → Bool) (t : α)
    (pre post : List (nucleus dim α)) (nuc : nucleus dim α)
    (hwin : t ≤ nuc.seededTime ∨ nuc.seededTime + nuc.seedingTime ≤ t) (n1 : Nat → α) :
    seedNucleiMech tanh dist support_points owned t (pre ++ nuc :: post) n1
      = seedNucleiMech tanh dist support_points owned t (pre ++ post) n1 := by
  rw [seedNucleiMech_append, seedNucleiMech_append, seedNucleiMech_cons,
    foldl_fixed _ (fun s x => seedPointMech_out tanh dist owned t nuc s x hwin)]

theorem seedNucleiApp_drop (P : Parameters α) (tanh : α → α)
    (dist : Point dim α → Point dim α → α)
    (support_points : List (Nat × Point dim α)) (owned : Nat → Bool) (t : α)
    (pre post : List (nucleus dim α)) (nuc : nucleus dim α)
    (hwin : t ≤ nuc.seededTime ∨ nuc.seededTime + nuc.seedingTime ≤ t) (n : Nat → α) :
    seedNucleiApp P tanh dist support_points owned t (pre ++ nuc :: post) n
      = seedNucleiApp P tanh dist support_points owned t (pre ++ post) n := by
  rw [seedNucleiApp_append, seedNucleiApp_append, seedNucleiApp_cons,
    foldl_fixed _ (fun s x => seedPointApp_out P tanh dist owned t nuc s x hwin)]

theorem seedNucleiMech_unwritten (tanh : α → α) (dist : Point dim α → Point dim α → α)
    (support_points : List (Nat × Point dim α)) (owned : Nat → Bool) (t : α)
    (it : Nat × Point dim α)
    (hnd : (support_points.map Prod.fst).Nodup) (hmem : it ∈ support_points)
    (l : List (nucleus dim α))
    (h : ∀ m ∈ l, ¬ (dist it.2 m.center ≤ 2 * m.radius ∧
      m.seededTime < t ∧ t < m.seededTime + m.seedingTime)) (n1 : Nat → α) :
    (seedNucleiMech tanh dist support_points owned t l n1) it.1 = n1 it.1 := by
  induction l generalizing n1 with
  | nil => rfl
  | cons m l ih =>
    rw [seedNucleiMech_cons, ih (fun m2 h2 => h m2 (List.mem_cons_of_mem _ h2)),
      seedPassMech_unwritten tanh dist support_points owned t m it hnd hmem
        (h m (List.mem_cons_self _ _))]

theorem seedNucleiApp_unwritten (P : Parameters α) (tanh : α → α)
    (dist : Point dim α → Point dim α → α)
    (support_points : List (Nat × Point dim α)) (owned : Nat → Bool) (t : α)
    (it : Nat × Point dim α)
    (hnd : (support_points.map Prod.fst).Nodup) (hmem : it ∈ support_points)
    (l : List (nucleus dim α))
    (h : ∀ m ∈ l, ¬ (dist it.2 m.center ≤ m.radius + 3 * dxApp P ∧
      m.seededTime < t ∧ t < m.seededTime + m.seedingTime)) (n : Nat → α) :
    (seedNucleiApp P tanh dist support_points owned t l n) it.1 = n it.1 := by
  induction l generalizing n with
  | nil => rfl
  | cons m l ih =>
    rw [seedNucleiApp_cons, ih (fun m2 h2 => h m2 (List.mem_cons_of_mem _ h2)),
      seedPassApp_unwritten P tanh dist support_points owned t m it hnd hmem
        (h m (List.mem_cons_self _ _))]

theorem seedNucleiMech_snoc (tanh : α → α) (dist : Point dim α → Point dim α → α)
    (support_points : List (Nat × Point dim α)) (owned : Nat → Bool) (t : α)
    (pre : List (nucleus dim α)) (nuc : nucleus dim α) (it : Nat × Point dim α)
    (hnd : (support_points.map Prod.fst).Nodup) (hmem : it ∈ support_points)
    (hown : owned it.1 = true) (hrange : dist it.2 nuc.center ≤ 2 * nuc.radius)
    (hwin : nuc.seededTime < t ∧ t < nuc.seededTime + nuc.seedingTime) (n1 : Nat → α) :
    (seedNucleiMech tanh dist support_points owned t (pre ++ [nuc]) n1) it.1
      = (1 / 2) * (1 - tanh ((dist it.2 nuc.center - nuc.radius) / (2 / 5))) := by
  rw [seedNucleiMech_append, seedNucleiMech_cons]
  exact seedPassMech_written tanh dist support_points owned t nuc it hnd hmem hown hrange
    hwin _

theorem seedNucleiApp_snoc (P : Parameters α) (tanh : α → α)
    (dist : Point dim α → Point dim α → α)
    (support_points : List (Nat × Point dim α)) (owned : Nat → Bool) (t : α)
    (pre : List (nucleus dim α)) (nuc : nucleus dim α) (it : Nat × Point dim α)
    (hnd : (support_points.map Prod.fst).Nodup) (hmem : it ∈ support_points)
    (hown : owned it.1 = true) (hrange : dist it.2 nuc.center ≤ nuc.radius + 3 * dxApp P)
    (hwin : nuc.seededTime < t ∧ t < nuc.seededTime + nuc.seedingTime) (n : Nat → α) :
    (seedNucleiApp P tanh dist support_points owned t (pre ++ [nuc]) n) it.1
      = (1 / 2) * (1 - tanh ((dist it.2 nuc.center - P.spanX / 50) / dxApp P)) := by
  rw [seedNucleiApp_append, seedNucleiApp_cons]
  exact seedPassApp_written P tanh dist support_points owned t nuc it hnd hmem hown hrange
    hwin _

theorem seedNucleiMech_last (tanh : α → α) (dist : Point dim α → Point dim α → α)
    (support_points : List (Nat × Point dim α)) (owned : Nat → Bool) (t : α)
    (pre post : List (nucleus dim α)) (nuc : nucleus dim α) (it : Nat × Point dim α)
    (hnd : (support_points.map Prod.fst).Nodup) (hmem : it ∈ support_points)
    (hown : owned it.1 = true) (hrange : dist it.2 nuc.center ≤ 2 * nuc.radius)
    (hwin : nuc.seededTime < t ∧ t < nuc.seededTime + nuc.seedingTime)
    (hpost : ∀ m ∈ post, ¬ (dist it.2 m.center ≤ 2 * m.radius ∧
      m.seededTime < t ∧ t < m.seededTime + m.seedingTime)) (n1 : Nat → α) :
    (seedNucleiMech tanh dist support_points owned t (pre ++ nuc :: post) n1) it.1
      = (1 / 2) * (1 - tanh ((dist it.2 nuc.center - nuc.radius) / (2 / 5))) := by
  have e : pre ++ nuc :: post = (pre ++ [nuc]) ++ post := by simp
  rw [e, seedNucleiMech_append,
    seedNucleiMech_unwritten tanh dist support_points owned t it hnd hmem post hpost]
  exact seedNucleiMech_snoc tanh dist support_points owned t pre nuc it hnd hmem hown hrange
    hwin n1

theorem seedNucleiApp_last (P : Parameters α) (tanh : α → α)
    (dist : Point dim α → Point dim α → α)
    (support_points : List (Nat × Point dim α)) (owned : Nat → Bool) (t : α)
    (pre post : List (nucleus dim α)) (nuc : nucleus dim α) (it : Nat × Point dim α)
    (hnd : (support_points.map Prod.fst).Nodup) (hmem : it ∈ support_points)
    (hown : owned it.1 = true) (hrange : dist it.2 nuc.center ≤ nuc.radius + 3 * dxApp P)
    (hwin : nuc.seededTime < t ∧ t < nuc.seededTime + nuc.seedingTime)
    (hpost : ∀ m ∈ post, ¬ (dist it.2 m.center ≤ m.radius + 3 * dxApp P ∧
      m.seededTime < t ∧ t < m.seededTime + m.seedingTime)) (n : Nat → α) :
    (seedNucleiApp P tanh dist support_points owned t (pre ++ nuc :: post) n) it.1
      = (1 / 2) * (1 - tanh ((dist it.2 nuc.center - P.spanX / 50) / dxApp P)) := by
  have e : pre ++ nuc :: post = (pre ++ [nuc]) ++ post := by simp
  rw [e, seedNucleiApp_append,
    seedNucleiApp_unwritten P tanh dist support_points owned t it hnd hmem post hpost]
  exact seedNucleiApp_snoc P tanh dist support_points owned t pre nuc it hnd hmem hown hrange
    hwin n

theorem modifySolutionFieldsMech_n1 (P : Parameters α) (RAND_MAX : Nat) (tanh : α → α)
    (dist : Point dim α → Point dim α → α) (t : α) (inc : Nat)
    (parts : List (PartitionMech dim α)) :
    List.Forall₂
      (fun q r => r.n1 = seedNucleiMech tanh dist q.support_points q.owned t r.nuclei q.n1)
      parts (modifySolutionFieldsMech P RAND_MAX tanh dist t inc parts) := by
  unfold modifySolutionFieldsMech
  split_ifs
  · apply forall2_map_enum_map
    intro i q
    rfl
  · rw [List.forall₂_map_right_iff, List.forall₂_same]
    intro q _
    rfl

theorem modifySolutionFieldsApp_n (P : Parameters α) (exp tanh : α → α)
    (dist : Point dim α → Point dim α → α) (t : α) (inc : Nat)
    (parts : List (PartitionApp dim α))
    (hinv : ∀ q ∈ parts, ∀ m ∈ q.localNuclei, m.radius = P.spanX / 50) :
    List.Forall₂
      (fun q r => r.n = seedNucleiApp P tanh dist q.support_points q.owned t r.nuclei q.n ∧
        ∀ m ∈ r.nuclei, m.radius = P.spanX / 50)
      parts (modifySolutionFieldsApp P exp tanh dist t inc parts) := by
  unfold modifySolutionFieldsApp
  split_ifs
  · have hN : ∀ m ∈ reconcile dim dist (minDistApp P)
        ((parts.map (PartitionApp.detectState P exp dist t)).map (fun q => q.localNuclei)),
        m.radius = P.spanX / 50 := by
      intro m hm
      refine nucleationStepApp_radius P exp dist t parts hinv m ?_
      unfold nucleationStepApp
      rw [List.map_map] at hm
      exact hm
    apply forall2_map_enum_map
    intro i q
    refine ⟨rfl, ?_⟩
    intro m hm
    simp only at hm
    split_ifs at hm
    · exact hN m hm
    · rw [broadcastNuclei_eq] at hm
      have h1 : attrs m ∈ (renumberFrom 0 (reconcile dim dist (minDistApp P)
          ((parts.map (PartitionApp.detectState P exp dist t)).map
            (fun q => q.localNuclei)))).map attrs := List.mem_map_of_mem _ hm
      rw [map_attrs_renumberFrom, List.mem_map] at h1
      obtain ⟨m2, hm2, he⟩ := h1
      have hr : m.radius = m2.radius := by
        have := congrArg (fun x => x.2.1) he
        exact this.symm
      rw [hr]
      exact hN m2 hm2
  · rw [List.forall₂_map_right_iff, List.forall₂_same]
    intro q _
    exact ⟨rfl, fun m hm => absurd hm (List.not_mem_nil m)⟩

theorem modifySolutionFieldsApp_n_only (P : Parameters α) (exp tanh : α → α)
    (dist : Point dim α → Point dim α → α) (t : α) (inc : Nat)
    (parts : List (PartitionApp dim α)) :
    List.Forall₂
      (fun q r => r.n = seedNucleiApp P tanh dist q.support_points q.owned t r.nuclei q.n)
      parts (modifySolutionFieldsApp P exp tanh dist t inc parts) := by
  unfold modifySolutionFieldsApp
  split_ifs
  · apply forall2_map_enum_map
    intro i q
    rfl
  · rw [List.forall₂_map_right_iff, List.forall₂_same]
    intro q _
    rfl

end SeederLemmas

section CountLemmas

theorem countP_split {β : Type} (p r : β → Bool) (l : List β) :
    l.countP p = l.countP (fun x => r x && p x) + l.countP (fun x => !r x && p x) := by
  induction l with
  | nil => rfl
  | cons x l ih =>
    rw [List.countP_cons, List.countP_cons, List.countP_cons, ih]
    cases r x <;> cases p x <;> simp <;> omega

theorem countP_tag {β : Type} (f : β → Bool) (L : List (List β)) :
    ∀ (k p : Nat) (l : List β), (p, l) ∈ L.enumFrom k →
      ((L.enumFrom k).flatMap (fun pl => pl.2.map (fun n => (pl.1, n)))).countP
          (fun qb => decide (qb.1 = p) && f qb.2) = l.countP f := by
  induction L with
  | nil => intro k p l h; simp at h
  | cons h T ih =>
    intro k p l hm
    rw [List.enumFrom_cons, List.flatMap_cons, List.countP_append]
    rw [List.enumFrom_cons, List.mem_cons] at hm
    rcases hm with he | ht
    · have hp : p = k := congrArg Prod.fst he
      have hl : l = h := congrArg Prod.snd he
      subst hp; subst hl
      have h2 : ((T.enumFrom (p + 1)).flatMap (fun pl => pl.2.map (fun n => (pl.1, n)))).countP
          (fun qb => decide (qb.1 = p) && f qb.2) = 0 := by
        rw [List.countP_eq_zero]
        intro qb hqb
        rw [List.mem_flatMap] at hqb
        obtain ⟨pl, hpl, hq⟩ := hqb
        rw [List.mem_map] at hq
        obtain ⟨n, _, rfl⟩ := hq
        have := List.le_fst_of_mem_enumFrom hpl
        simp only [Bool.and_eq_true, decide_eq_true_eq, not_and]
        intro hcon
        omega
      rw [h2, List.countP_map]
      simp [Function.comp_def]
    · have hge : k + 1 ≤ p := List.le_fst_of_mem_enumFrom ht
      have h1 : (h.map (fun n => (k, n))).countP (fun qb => decide (qb.1 = p) && f qb.2)
          = 0 := by
        rw [List.countP_eq_zero]
        intro qb hqb
        rw [List.mem_map] at hqb
        obtain ⟨n, _, rfl⟩ := hqb
        simp only [Bool.and_eq_true, decide_eq_true_eq, not_and]
        intro hcon
        omega
      rw [h1, ih (k + 1) p l ht, Nat.zero_add]

end CountLemmas

section SplitLocal
variable {α : Type} [LinearOrder α] {dim : Nat}

theorem countP_local (dist : Point dim α → Point dim α → α)
    (hsymm : ∀ p q, dist p q = dist q p) (minDist : α) (l : List (nucleus dim α))
    (hl : l.Pairwise (fun a b => minDist < dist a.center b.center))
    (a : nucleus dim α) (ha : a ∈ l) :
    l.countP (fun b => rival dist minDist (attrs a) (attrs b))
      = if rival dist minDist (attrs a) (attrs a) then 1 else 0 := by
  induction l with
  | nil => simp at ha
  | cons h t ih =>
    rw [List.pairwise_cons] at hl
    obtain ⟨hh, ht⟩ := hl
    rw [List.countP_cons]
    by_cases hah : a = h
    · subst hah
      have h0 : t.countP (fun b => rival dist minDist (attrs a) (attrs b)) = 0 := by
        rw [List.countP_eq_zero]
        intro b hb
        have := hh b hb
        simp only [rival, attrs, decide_eq_true_eq, not_and]
        intro hcon
        exact absurd hcon (not_le_of_lt this)
      rw [h0, Nat.zero_add]
    · have hat : a ∈ t := by
        rcases List.mem_cons.1 ha with h1 | h1
        · exact absurd h1 hah
        · exact h1
      have hr : rival dist minDist (attrs a) (attrs h) = false := by
        have := hh a hat
        rw [hsymm] at this
        simp only [rival, attrs, decide_eq_false_iff_not, not_and]
        intro hcon
        exact absurd hcon (not_le_of_lt this)
      rw [ih ht hat, hr]
      simp

theorem unrivalled_perm (dist : Point dim α → Point dim α → α) (minDist : α)
    (cs1 cs2 : List (Point dim α × α × α × α)) (h : cs1.Perm cs2) :
    unrivalled dist minDist cs1 = unrivalled dist minDist cs2 := by
  funext x
  unfold unrivalled
  rw [h.countP_eq]

theorem discarded_iff_count (dist : Point dim α → Point dim α → α)
    (hsymm : ∀ p q, dist p q = dist q p) (minDist : α)
    (locals : List (List (nucleus dim α)))
    (hloc : ∀ l ∈ locals, l.Pairwise (fun a b => minDist < dist a.center b.center))
    (pa : Nat × nucleus dim α) (hpa : pa ∈ candidates locals) :
    unrivalled dist minDist (locals.flatten.map attrs) (attrs pa.2)
      = decide (¬ discarded dist minDist locals pa) := by
  obtain ⟨p, a⟩ := pa
  obtain ⟨l, hl, hal⟩ := (mem_candidates locals p a).1 hpa
  have hlmem : l ∈ locals := by
    have := List.mem_enumFrom hl
    simp only [this.2.2]
    exact List.getElem_mem _
  have hsame : (candidates locals).countP
      (fun qb => decide (qb.1 = p) && rival dist minDist (attrs a) (attrs qb.2))
        = if rival dist minDist (attrs a) (attrs a) then 1 else 0 := by
    unfold candidates List.enum
    rw [countP_tag (fun b => rival dist minDist (attrs a) (attrs b)) locals 0 p l hl]
    exact countP_local dist hsymm minDist l (hloc l hlmem) a hal
  have htot : (locals.flatten.map attrs).countP (rival dist minDist (attrs a))
      = (candidates locals).countP
          (fun qb => rival dist minDist (attrs a) (attrs qb.2)) := by
    rw [← candidates_map_snd, List.map_map, List.countP_map]
    rfl
  have hother : (0 < (candidates locals).countP
      (fun qb => !decide (qb.1 = p) && rival dist minDist (attrs a) (attrs qb.2)))
        ↔ discarded dist minDist locals (p, a) := by
    rw [List.countP_pos_iff]
    unfold discarded
    constructor
    · rintro ⟨qb, hqb, h⟩
      simp only [rival, attrs, Bool.and_eq_true, Bool.not_eq_true', decide_eq_false_iff_not,
        decide_eq_true_eq] at h
      exact ⟨qb, hqb, h.1, h.2.1, h.2.2⟩
    · rintro ⟨qb, hqb, h1, h2, h3⟩
      refine ⟨qb, hqb, ?_⟩
      simp only [rival, attrs, Bool.and_eq_true, Bool.not_eq_true', decide_eq_false_iff_not,
        decide_eq_true_eq]
      exact ⟨h1, h2, h3⟩
  unfold unrivalled
  rw [htot, countP_split _ (fun qb => decide (qb.1 = p)), hsame]
  by_cases hd : discarded dist minDist locals (p, a)
  · have := hother.2 hd
    simp only [hd, not_true_eq_false, decide_False, decide_eq_false_iff_not, not_le]
    omega
  · have h0 : ¬ 0 < (candidates locals).countP
        (fun qb => !decide (qb.1 = p) && rival dist minDist (attrs a) (attrs qb.2)) :=
      fun h => hd (hother.1 h)
    simp only [hd, not_false_eq_true, decide_True, decide_eq_true_eq]
    omega

end SplitLocal

section SplitLemmas
variable {α : Type} [LinearOrder α] [Zero α] {dim : Nat}

theorem reconcile_attrs_eq (dist : Point dim α → Point dim α → α)
    (hsymm : ∀ p q, dist p q = dist q p) (minDist : α)
    (locals : List (List (nucleus dim α)))
    (hloc : ∀ l ∈ locals, l.Pairwise (fun a b => minDist < dist a.center b.center)) :
    (reconcile dim dist minDist locals).map attrs
      = (locals.flatten.map attrs).filter
          (unrivalled dist minDist (locals.flatten.map attrs)) := by
  rw [reconcile_eq, map_attrs_renumberFrom]
  have hf : (candidates locals).filter
      (fun pa => decide (¬ discarded dist minDist locals pa))
        = (candidates locals).filter
      (fun pa => unrivalled dist minDist (locals.flatten.map attrs) (attrs pa.2)) := by
    apply List.filter_congr
    intro pa hpa
    exact (discarded_iff_count dist hsymm minDist locals hloc pa hpa).symm
  rw [hf, List.map_map, ← candidates_map_snd locals, List.map_map, List.filter_map]
  rfl

end SplitLemmas

section RangeInv

theorem foldl_range_inv1 {S : Type} (P : Nat → S → Prop) (f : S → Nat → S) (n : Nat) (s : S)
    (h0 : P 0 s) (hstep : ∀ k, k < n → ∀ t, P k t → P (k + 1) (f t k)) :
    P n ((List.range n).foldl f s) := by
  induction n with
  | zero => exact h0
  | succ n ih =>
    rw [List.range_succ, List.foldl_append]
    exact hstep n (Nat.lt_succ_self n) _
      (ih (fun k hk t h => hstep k (Nat.lt_succ_of_lt hk) t h))

theorem foldlM_prefix_inv {S β : Type} (P : List β → S → Prop) (f : S → β → Option S)
    (l : List β)
    (hstep : ∀ pre x t, P pre t → ∃ t2, f t x = some t2 ∧ P (pre ++ [x]) t2) :
    ∀ (pre : List β) (s : S), P pre s → ∃ t, l.foldlM f s = some t ∧ P (pre ++ l) t := by
  induction l with
  | nil =>
    intro pre s h
    exact ⟨s, rfl, by rw [List.append_nil]; exact h⟩
  | cons x l ih =>
    intro pre s h
    obtain ⟨t2, h1, h2⟩ := hstep pre x s h
    obtain ⟨t, h3, h4⟩ := ih (pre ++ [x]) t2 h2
    refine ⟨t, ?_, ?_⟩
    · rw [List.foldlM_cons, h1]
      exact h3
    · rw [List.append_assoc] at h4
      exact h4

end RangeInv

section FillLemmas
variable {E : Type}

theorem fill_fill (sc vf gf hf : Bool) (x y z x2 y2 z2 : E) (m : modelVariable E) :
    (m.fill sc vf gf hf x y z).fill sc vf gf hf x2 y2 z2 = m.fill sc vf gf hf x2 y2 z2 := by
  cases sc <;> cases vf <;> cases gf <;> cases hf <;> rfl

end FillLemmas

section RhsPositions

theorem rhsPos_ne (R : Roster) (i j : Nat) (h : i ≠ j) :
    ¬ (R.isScalar i = R.isScalar j ∧
      R.countKind (R.isScalar i) i = R.countKind (R.isScalar j) j) := by
  rintro ⟨hs, hk⟩
  rcases Nat.lt_or_gt_of_ne h with hlt | hgt
  · have := countKind_lt R i j hlt
    rw [hs] at this hk
    omega
  · have := countKind_lt R j i hgt
    rw [← hs] at this hk
    omega

end RhsPositions

section RhsObjects
variable {E V : Type}

theorem push_back_blank (blank : FEEval E V) (a : Assembly E V) (sc : Bool) (c : Nat)
    (h : ∀ sc2 k2, ∃ c2, a.ctx sc2 k2 = { blank with component := c2 }) :
    ∀ sc2 k2, ∃ c2, (a.push_back sc { blank with component := c }).ctx sc2 k2
      = { blank with component := c2 } := by
  intro sc2 k2
  rw [ctx_push_back]
  by_cases hc : sc2 = sc ∧ k2 = (if sc = true then a.n_scalar else a.n_vector)
  · rw [if_pos hc]
    exact ⟨c, rfl⟩
  · rw [if_neg hc]
    exact h sc2 k2

theorem rhsSetup_blank (R : Roster) (dim : Nat) (blank : FEEval E V) :
    ∀ sc k, ∃ c, (rhsSetup R dim blank).fe.ctx sc k = { blank with component := c } := by
  unfold rhsSetup
  refine foldl_preserves
    (fun s : RHSSetup E V => ∀ sc k, ∃ c, s.fe.ctx sc k = { blank with component := c })
    (rhsSetupStep R dim blank) ?_ _ _ ?_
  · intro s i hs
    unfold rhsSetupStep
    split
    · exact push_back_blank blank s.fe true i hs
    · exact push_back_blank blank s.fe false i hs
  · intro sc k
    refine ⟨blank.component, ?_⟩
    cases sc <;> rfl

theorem rhsSetup_obj (R : Roster) (dim : Nat) (blank : FEEval E V) (i : Nat)
    (hi : i < R.num_var) :
    (rhsSetup R dim blank).fe.ctx (R.isScalar i) (R.countKind (R.isScalar i) i)
      = { blank with component := i } := by
  obtain ⟨c, hc⟩ := rhsSetup_blank R dim blank (R.isScalar i) (R.countKind (R.isScalar i) i)
  have h := (rhsSetup_arrays R dim blank i hi).2.2.2
  rw [hc] at h
  have hci : c = i := h
  rw [hc, hci]

theorem rhsReadStep_eq (R : Roster) (dim : Nat) (blank : FEEval E V) (src : Nat → V)
    (cell : Nat) (a : Assembly E V) (i : Nat) (hi : i < R.num_var) :
    rhsReadStep R (rhsSetup R dim blank) src cell a i
      = readEval (R.isScalar i) (R.countKind (R.isScalar i) i) cell
          (VecRef.src (R.offset dim i)) (src (R.offset dim i))
          (R.need_value i) (R.need_gradient i) (R.need_hessian i) a := by
  obtain ⟨e1, e2, e3, _⟩ := rhsSetup_arrays R dim blank i hi
  unfold rhsReadStep
  rw [e1, e2, e3]

theorem rhsRead_obj (R : Roster) (dim : Nat) (blank : FEEval E V) (src : Nat → V)
    (cell : Nat) (a : Assembly E V) (i : Nat) (hi : i < R.num_var) :
    ((List.range R.num_var).foldl (rhsReadStep R (rhsSetup R dim blank) src cell) a).ctx
        (R.isScalar i) (R.countKind (R.isScalar i) i)
      = { a.ctx (R.isScalar i) (R.countKind (R.isScalar i) i) with
          cell := cell, values_dofs := src (R.offset dim i) } := by
  have h := foldl_range_inv1
    (fun n (t : Assembly E V) =>
      (∀ j, j < n → t.ctx (R.isScalar j) (R.countKind (R.isScalar j) j)
        = { a.ctx (R.isScalar j) (R.countKind (R.isScalar j) j) with
            cell := cell, values_dofs := src (R.offset dim j) }) ∧
      (∀ j, n ≤ j → t.ctx (R.isScalar j) (R.countKind (R.isScalar j) j)
        = a.ctx (R.isScalar j) (R.countKind (R.isScalar j) j)))
    (rhsReadStep R (rhsSetup R dim blank) src cell) R.num_var a
    ⟨fun j hj => absurd hj (Nat.not_lt_zero j), fun j _ => rfl⟩
    (by
      intro k hk t ht
      obtain ⟨h1, h2⟩ := ht
      rw [rhsReadStep_eq R dim blank src cell t k hk]
      constructor
      · intro j hj
        rw [ctx_readEval]
        by_cases hjk : j = k
        · subst hjk
          rw [if_pos ⟨rfl, rfl⟩, h2 j (le_refl j)]
        · rw [if_neg (rhsPos_ne R j k hjk)]
          exact h1 j (by omega)
      · intro j hj
        rw [ctx_readEval, if_neg (rhsPos_ne R j k (by omega))]
        exact h2 j (by omega))
  exact h.1 i hi

end RhsObjects

section RhsLoops
variable {E V : Type}

theorem rhsKeeps_refl (R : Roster) (mv0 : Nat → modelVariable E) : rhsKeeps R mv0 mv0 :=
  fun _ => ⟨fun _ _ _ _ => rfl, fun _ => rfl⟩

theorem rhsKeeps_rhsVars (ops : FEOps E V) (R : Roster) (dim : Nat) (src : Nat → V)
    (mv0 : Nat → modelVariable E) (cell q : Nat) :
    rhsKeeps R mv0 (rhsVars ops R dim src mv0 cell q) := by
  intro i
  constructor
  · intro hi x y z
    unfold rhsVars
    rw [if_pos hi, fill_fill]
  · intro hi
    unfold rhsVars
    rw [if_neg hi]

theorem rhsGatherStep_eq (ops : FEOps E V) (R : Roster) (dim : Nat) (blank : FEEval E V)
    (cell q : Nat) (t : RHSState E V) (i : Nat) (hi : i < R.num_var) :
    rhsGatherStep ops R (rhsSetup R dim blank) cell q t i
      = { t with
          fe := (gatherVar ops (R.isScalar i) (R.countKind (R.isScalar i) i) cell q
            (R.need_value i) (R.need_gradient i) (R.need_hessian i)
            (t.fe, t.modelVarList i)).1
          modelVarList := Function.update t.modelVarList i
            (gatherVar ops (R.isScalar i) (R.countKind (R.isScalar i) i) cell q
              (R.need_value i) (R.need_gradient i) (R.need_hessian i)
              (t.fe, t.modelVarList i)).2 } := by
  obtain ⟨e1, e2, _, _⟩ := rhsSetup_arrays R dim blank i hi
  unfold rhsGatherStep
  simp only
  rw [e1, e2]

theorem rhsGather_run (ops : FEOps E V) (R : Roster) (dim : Nat) (blank : FEEval E V)
    (src : Nat → V) (mv0 : Nat → modelVariable E) (cell q : Nat) (t : RHSState E V)
    (hobj : ∀ i, i < R.num_var →
      (t.fe.ctx (R.isScalar i) (R.countKind (R.isScalar i) i)).component = i ∧
      (t.fe.ctx (R.isScalar i) (R.countKind (R.isScalar i) i)).cell = cell ∧
      (t.fe.ctx (R.isScalar i) (R.countKind (R.isScalar i) i)).values_dofs
        = src (R.offset dim i))
    (hmv : rhsKeeps R mv0 t.modelVarList) :
    (∀ sc k, ((List.range R.num_var).foldl
        (rhsGatherStep ops R (rhsSetup R dim blank) cell q) t).fe.ctx sc k = t.fe.ctx sc k) ∧
    ((List.range R.num_var).foldl
        (rhsGatherStep ops R (rhsSetup R dim blank) cell q) t).dst = t.dst ∧
    ((List.range R.num_var).foldl
        (rhsGatherStep ops R (rhsSetup R dim blank) cell q) t).modelVarList
      = rhsVars ops R dim src mv0 cell q := by
  have h := foldl_range_inv1
    (fun n (u : RHSState E V) =>
      (∀ sc k, u.fe.ctx sc k = t.fe.ctx sc k) ∧ u.dst = t.dst ∧
      ∀ i, u.modelVarList i
        = if i < n then rhsVars ops R dim src mv0 cell q i else t.modelVarList i)
    (rhsGatherStep ops R (rhsSetup R dim blank) cell q) R.num_var t
    ⟨fun _ _ => rfl, rfl, fun i => by rw [if_neg (Nat.not_lt_zero i)]⟩
    (by
      intro k hk u hu
      obtain ⟨h1, h2, h3⟩ := hu
      rw [rhsGatherStep_eq ops R dim blank cell q u k hk]
      refine ⟨?_, h2, ?_⟩
      · intro sc k2
        simp only
        rw [ctx_gatherVar]
        exact h1 sc k2
      · intro i
        simp only
        by_cases hik : i = k
        · subst hik
          rw [Function.update_same, if_pos (Nat.lt_succ_self i), gatherVar_snd]
          obtain ⟨o1, o2, o3⟩ := hobj i hk
          unfold Assembly.get_value Assembly.get_gradient Assembly.get_hessian
          rw [h1, o1, o2, o3, h3 i, if_neg (Nat.lt_irrefl i)]
          unfold rhsVars
          rw [if_pos hk]
          exact (hmv i).1 hk _ _ _
        · rw [Function.update_noteq hik, h3 i]
          by_cases hlt : i < k
          · rw [if_pos hlt, if_pos (Nat.lt_succ_of_lt hlt)]
          · rw [if_neg hlt, if_neg (by omega)])
  obtain ⟨h1, h2, h3⟩ := h
  refine ⟨h1, h2, ?_⟩
  funext i
  rw [h3 i]
  by_cases hi : i < R.num_var
  · rw [if_pos hi]
  · rw [if_neg hi]
    unfold rhsVars
    rw [if_neg hi]
    exact (hmv i).2 hi

theorem rhsSubmitStep_eq (R : Roster) (dim : Nat) (blank : FEEval E V)
    (cell q : Nat) (t : RHSState E V) (i : Nat) (hi : i < R.num_var) :
    rhsSubmitStep R (rhsSetup R dim blank) cell q t i
      = { t with
          fe := submitRes (R.isScalar i) (R.countKind (R.isScalar i) i) cell q
            (R.value_residual i) (R.gradient_residual i) (t.modelResidualsList i) t.fe } := by
  obtain ⟨e1, e2, _, _⟩ := rhsSetup_arrays R dim blank i hi
  unfold rhsSubmitStep
  rw [e1, e2]

theorem rhsSubmit_run (R : Roster) (dim : Nat) (blank : FEEval E V)
    (cell q : Nat) (t : RHSState E V) :
    ((List.range R.num_var).foldl
        (rhsSubmitStep R (rhsSetup R dim blank) cell q) t).modelVarList = t.modelVarList ∧
    ((List.range R.num_var).foldl
        (rhsSubmitStep R (rhsSetup R dim blank) cell q) t).dst = t.dst ∧
    ∀ i, i < R.num_var →
      ((List.range R.num_var).foldl
        (rhsSubmitStep R (rhsSetup R dim blank) cell q) t).fe.ctx
          (R.isScalar i) (R.countKind (R.isScalar i) i)
        = { t.fe.ctx (R.isScalar i) (R.countKind (R.isScalar i) i) with
            values_quad :=
              if R.value_residual i then
                Function.update
                  (t.fe.ctx (R.isScalar i) (R.countKind (R.isScalar i) i)).values_quad q
                  ((t.modelResidualsList i).valueResidual (R.isScalar i))
              else (t.fe.ctx (R.isScalar i) (R.countKind (R.isScalar i) i)).values_quad
            gradients_quad :=
              if R.gradient_residual i then
                Function.update
                  (t.fe.ctx (R.isScalar i) (R.countKind (R.isScalar i) i)).gradients_quad q
                  ((t.modelResidualsList i).gradResidual (R.isScalar i))
              else (t.fe.ctx (R.isScalar i) (R.countKind (R.isScalar i) i)).gradients_quad } := by
  have h := foldl_range_inv1
    (fun n (u : RHSState E V) =>
      u.modelVarList = t.modelVarList ∧ u.dst = t.dst ∧
      u.modelResidualsList = t.modelResidualsList ∧
      (∀ j, j < n → u.fe.ctx (R.isScalar j) (R.countKind (R.isScalar j) j)
        = { t.fe.ctx (R.isScalar j) (R.countKind (R.isScalar j) j) with
            values_quad :=
              if R.value_residual j then
                Function.update
                  (t.fe.ctx (R.isScalar j) (R.countKind (R.isScalar j) j)).values_quad q
                  ((t.modelResidualsList j).valueResidual (R.isScalar j))
              else (t.fe.ctx (R.isScalar j) (R.countKind (R.isScalar j) j)).values_quad
            gradients_quad :=
              if R.gradient_residual j then
                Function.update
                  (t.fe.ctx (R.isScalar j) (R.countKind (R.isScalar j) j)).gradients_quad q
                  ((t.modelResidualsList j).gradResidual (R.isScalar j))
              else (t.fe.ctx (R.isScalar j) (R.countKind (R.isScalar j) j)).gradients_quad }) ∧
      (∀ j, n ≤ j → u.fe.ctx (R.isScalar j) (R.countKind (R.isScalar j) j)
        = t.fe.ctx (R.isScalar j) (R.countKind (R.isScalar j) j)))
    (rhsSubmitStep R (rhsSetup R dim blank) cell q) R.num_var t
    ⟨rfl, rfl, rfl, fun j hj => absurd hj (Nat.not_lt_zero j), fun j _ => rfl⟩
    (by
      intro k hk u hu
      obtain ⟨h1, h2, h3, h4, h5⟩ := hu
      rw [rhsSubmitStep_eq R dim blank cell q u k hk]
      refine ⟨h1, h2, h3, ?_, ?_⟩
      · intro j hj
        simp only
        by_cases hjk : j = k
        · subst hjk
          rw [ctx_submitRes_self, h5 j (le_refl j), h3]
        · rw [ctx_submitRes_other _ _ _ _ _ _ _ _ _ _ (rhsPos_ne R j k hjk)]
          exact h4 j (by omega)
      · intro j hj
        simp only
        rw [ctx_submitRes_other _ _ _ _ _ _ _ _ _ _ (rhsPos_ne R j k (by omega))]
        exact h5 j (by omega))
  exact ⟨h.1, h.2.1, fun i hi => h.2.2.2.1 i hi⟩

end RhsLoops

section RhsQuad
variable {E V : Type}

theorem rhsQuad_run (ops : FEOps E V) (R : Roster) (dim : Nat) (blank : FEEval E V)
    (K : (Nat → modelVariable E) → (Nat → modelResidual E)) (src : Nat → V)
    (mv0 : Nat → modelVariable E) (cell q : Nat) (t : RHSState E V)
    (hobj : ∀ i, i < R.num_var →
      (t.fe.ctx (R.isScalar i) (R.countKind (R.isScalar i) i)).component = i ∧
      (t.fe.ctx (R.isScalar i) (R.countKind (R.isScalar i) i)).cell = cell ∧
      (t.fe.ctx (R.isScalar i) (R.countKind (R.isScalar i) i)).values_dofs
        = src (R.offset dim i))
    (hmv : rhsKeeps R mv0 t.modelVarList) :
    (rhsQuad ops R (rhsSetup R dim blank) K cell t q).modelVarList
      = rhsVars ops R dim src mv0 cell q ∧
    (rhsQuad ops R (rhsSetup R dim blank) K cell t q).dst = t.dst ∧
    ∀ i, i < R.num_var →
      (rhsQuad ops R (rhsSetup R dim blank) K cell t q).fe.ctx
          (R.isScalar i) (R.countKind (R.isScalar i) i)
        = { t.fe.ctx (R.isScalar i) (R.countKind (R.isScalar i) i) with
            values_quad :=
              if R.value_residual i then
                Function.update
                  (t.fe.ctx (R.isScalar i) (R.countKind (R.isScalar i) i)).values_quad q
                  ((K (rhsVars ops R dim src mv0 cell q) i).valueResidual (R.isScalar i))
              else (t.fe.ctx (R.isScalar i) (R.countKind (R.isScalar i) i)).values_quad
            gradients_quad :=
              if R.gradient_residual i then
                Function.update
                  (t.fe.ctx (R.isScalar i) (R.countKind (R.isScalar i) i)).gradients_quad q
                  ((K (rhsVars ops R dim src mv0 cell q) i).gradResidual (R.isScalar i))
              else (t.fe.ctx (R.isScalar i) (R.countKind (R.isScalar i) i)).gradients_quad } := by
  obtain ⟨g1, g2, g3⟩ := rhsGather_run ops R dim blank src mv0 cell q t hobj hmv
  unfold rhsQuad
  simp only
  obtain ⟨s1, s2, s3⟩ := rhsSubmit_run R dim blank cell q
    { (List.range R.num_var).foldl (rhsGatherStep ops R (rhsSetup R dim blank) cell q) t with
      fe := ((List.range R.num_var).foldl
        (rhsGatherStep ops R (rhsSetup R dim blank) cell q) t).fe.record
          (FECall.residual cell q)
      modelResidualsList := K ((List.range R.num_var).foldl
        (rhsGatherStep ops R (rhsSetup R dim blank) cell q) t).modelVarList }
  refine ⟨s1.trans g3, s2.trans g2, ?_⟩
  intro i hi
  rw [s3 i hi]
  simp only [ctx_record, g1, g3]

theorem rhsQuadLoop_run (ops : FEOps E V) (R : Roster) (dim : Nat) (blank : FEEval E V)
    (K : (Nat → modelVariable E) → (Nat → modelResidual E)) (src : Nat → V)
    (mv0 : Nat → modelVariable E) (cell n : Nat) (t : RHSState E V)
    (hobj : ∀ i, i < R.num_var →
      (t.fe.ctx (R.isScalar i) (R.countKind (R.isScalar i) i)).component = i ∧
      (t.fe.ctx (R.isScalar i) (R.countKind (R.isScalar i) i)).cell = cell ∧
      (t.fe.ctx (R.isScalar i) (R.countKind (R.isScalar i) i)).values_dofs
        = src (R.offset dim i))
    (hmv : rhsKeeps R mv0 t.modelVarList) :
    rhsKeeps R mv0
      ((List.range n).foldl (rhsQuad ops R (rhsSetup R dim blank) K cell) t).modelVarList ∧
    ((List.range n).foldl (rhsQuad ops R (rhsSetup R dim blank) K cell) t).dst = t.dst ∧
    ∀ i, i < R.num_var →
      (((List.range n).foldl (rhsQuad ops R (rhsSetup R dim blank) K cell) t).fe.ctx
        (R.isScalar i) (R.countKind (R.isScalar i) i)).component = i ∧
      (((List.range n).foldl (rhsQuad ops R (rhsSetup R dim blank) K cell) t).fe.ctx
        (R.isScalar i) (R.countKind (R.isScalar i) i)).cell = cell ∧
      (((List.range n).foldl (rhsQuad ops R (rhsSetup R dim blank) K cell) t).fe.ctx
        (R.isScalar i) (R.countKind (R.isScalar i) i)).values_dofs = src (R.offset dim i) ∧
      (∀ q, (((List.range n).foldl (rhsQuad ops R (rhsSetup R dim blank) K cell) t).fe.ctx
          (R.isScalar i) (R.countKind (R.isScalar i) i)).values_quad q
        = if R.value_residual i = true ∧ q < n then
            (K (rhsVars ops R dim src mv0 cell q) i).valueResidual (R.isScalar i)
          else (t.fe.ctx (R.isScalar i) (R.countKind (R.isScalar i) i)).values_quad q) ∧
      (∀ q, (((List.range n).foldl (rhsQuad ops R (rhsSetup R dim blank) K cell) t).fe.ctx
          (R.isScalar i) (R.countKind (R.isScalar i) i)).gradients_quad q
        = if R.gradient_residual i = true ∧ q < n then
            (K (rhsVars ops R dim src mv0 cell q) i).gradResidual (R.isScalar i)
          else (t.fe.ctx (R.isScalar i) (R.countKind (R.isScalar i) i)).gradients_quad q) := by
  refine foldl_range_inv1
    (fun n (u : RHSState E V) =>
      rhsKeeps R mv0 u.modelVarList ∧ u.dst = t.dst ∧
      ∀ i, i < R.num_var →
        (u.fe.ctx (R.isScalar i) (R.countKind (R.isScalar i) i)).component = i ∧
        (u.fe.ctx (R.isScalar i) (R.countKind (R.isScalar i) i)).cell = cell ∧
        (u.fe.ctx (R.isScalar i) (R.countKind (R.isScalar i) i)).values_dofs
          = src (R.offset dim i) ∧
        (∀ q, (u.fe.ctx (R.isScalar i) (R.countKind (R.isScalar i) i)).values_quad q
          = if R.value_residual i = true ∧ q < n then
              (K (rhsVars ops R dim src mv0 cell q) i).valueResidual (R.isScalar i)
            else (t.fe.ctx (R.isScalar i) (R.countKind (R.isScalar i) i)).values_quad q) ∧
        (∀ q, (u.fe.ctx (R.isScalar i) (R.countKind (R.isScalar i) i)).gradients_quad q
          = if R.gradient_residual i = true ∧ q < n then
              (K (rhsVars ops R dim src mv0 cell q) i).gradResidual (R.isScalar i)
            else (t.fe.ctx (R.isScalar i) (R.countKind (R.isScalar i) i)).gradients_quad q))
    (rhsQuad ops R (rhsSetup R dim blank) K cell) n t ?_ ?_
  · refine ⟨hmv, rfl, fun i hi => ⟨(hobj i hi).1, (hobj i hi).2.1, (hobj i hi).2.2, ?_, ?_⟩⟩
    · intro q
      rw [if_neg (fun h => Nat.not_lt_zero q h.2)]
    · intro q
      rw [if_neg (fun h => Nat.not_lt_zero q h.2)]
  · intro k _ u hu
    obtain ⟨h1, h2, h3⟩ := hu
    obtain ⟨q1, q2, q3⟩ := rhsQuad_run ops R dim blank K src mv0 cell k u
      (fun i hi => ⟨(h3 i hi).1, (h3 i hi).2.1, (h3 i hi).2.2.1⟩) h1
    refine ⟨?_, q2.trans h2, ?_⟩
    · rw [q1]
      exact rhsKeeps_rhsVars ops R dim src mv0 cell k
    · intro i hi
      obtain ⟨o1, o2, o3, o4, o5⟩ := h3 i hi
      rw [q3 i hi]
      refine ⟨o1, o2, o3, ?_, ?_⟩
      · intro q
        simp only
        cases hv : R.value_residual i
        · simp only [Bool.false_eq_true, if_false, false_and]
          rw [o4 q, hv]
          simp
        · simp only [if_true, true_and]
          rw [Function.update_apply]
          by_cases hqk : q = k
          · subst hqk
            rw [if_pos rfl, if_pos (Nat.lt_succ_self q)]
          · rw [if_neg hqk, o4 q, hv]
            simp only [true_and]
            by_cases hlt : q < k
            · rw [if_pos hlt, if_pos (Nat.lt_succ_of_lt hlt)]
            · rw [if_neg hlt, if_neg (by omega)]
      · intro q
        simp only
        cases hv : R.gradient_residual i
        · simp only [Bool.false_eq_true, if_false, false_and]
          rw [o5 q, hv]
          simp
        · simp only [if_true, true_and]
          rw [Function.update_apply]
          by_cases hqk : q = k
          · subst hqk
            rw [if_pos rfl, if_pos (Nat.lt_succ_self q)]
          · rw [if_neg hqk, o5 q, hv]
            simp only [true_and]
            by_cases hlt : q < k
            · rw [if_pos hlt, if_pos (Nat.lt_succ_of_lt hlt)]
            · rw [if_neg hlt, if_neg (by omega)]

end RhsQuad

section RhsIntegrate
variable {E V : Type}

theorem rhsIntegrateStep_eq [Add V] (ops : FEOps E V) (R : Roster) (dim : Nat)
    (blank : FEEval E V) (cell : Nat) (t : RHSState E V) (i : Nat) (hi : i < R.num_var) :
    rhsIntegrateStep ops R (rhsSetup R dim blank) cell t i
      = { t with
          fe := (t.fe.integrate ops (R.isScalar i) (R.countKind (R.isScalar i) i) cell
              (R.value_residual i) (R.gradient_residual i)).record
            (FECall.distribute_local_to_global (R.isScalar i)
              ((t.fe.integrate ops (R.isScalar i) (R.countKind (R.isScalar i) i) cell
                (R.value_residual i) (R.gradient_residual i)).ctx (R.isScalar i)
                  (R.countKind (R.isScalar i) i)).component cell
              (VecRef.dst (R.offset dim i)))
          dst := Function.update t.dst (R.offset dim i)
            (t.dst (R.offset dim i) +
              ((t.fe.integrate ops (R.isScalar i) (R.countKind (R.isScalar i) i) cell
                (R.value_residual i) (R.gradient_residual i)).ctx (R.isScalar i)
                  (R.countKind (R.isScalar i) i)).values_dofs) } := by
  obtain ⟨e1, e2, e3, _⟩ := rhsSetup_arrays R dim blank i hi
  unfold rhsIntegrateStep
  simp only
  rw [e1, e2, e3]
  rfl

theorem rhsIntegrate_run [Add V] (ops : FEOps E V) (R : Roster) (dim : Nat)
    (blank : FEEval E V) (src : Nat → V) (cell : Nat) (vq gq : Nat → Nat → E)
    (t : RHSState E V)
    (hobj : ∀ i, i < R.num_var →
      (t.fe.ctx (R.isScalar i) (R.countKind (R.isScalar i) i)).component = i ∧
      (t.fe.ctx (R.isScalar i) (R.countKind (R.isScalar i) i)).cell = cell ∧
      (t.fe.ctx (R.isScalar i) (R.countKind (R.isScalar i) i)).values_dofs
        = src (R.offset dim i) ∧
      (t.fe.ctx (R.isScalar i) (R.countKind (R.isScalar i) i)).values_quad = vq i ∧
      (t.fe.ctx (R.isScalar i) (R.countKind (R.isScalar i) i)).gradients_quad = gq i) :
    ((List.range R.num_var).foldl
        (rhsIntegrateStep ops R (rhsSetup R dim blank) cell) t).modelVarList
      = t.modelVarList ∧
    ((List.range R.num_var).foldl
        (rhsIntegrateStep ops R (rhsSetup R dim blank) cell) t).dst
      = (List.range R.num_var).foldl
          (fun d i => Function.update d (R.offset dim i)
            (d (R.offset dim i) +
              ops.integrate (R.isScalar i) i cell (R.value_residual i) (R.gradient_residual i)
                (src (R.offset dim i)) (vq i) (gq i)))
          t.dst ∧
    ∀ i, i < R.num_var →
      ((List.range R.num_var).foldl
        (rhsIntegrateStep ops R (rhsSetup R dim blank) cell) t).fe.ctx
          (R.isScalar i) (R.countKind (R.isScalar i) i)
        = { t.fe.ctx (R.isScalar i) (R.countKind (R.isScalar i) i) with
            values_dofs :=
              ops.integrate (R.isScalar i) i cell (R.value_residual i) (R.gradient_residual i)
                (src (R.offset dim i)) (vq i) (gq i) } := by
  have h := foldl_range_inv1
    (fun n (u : RHSState E V) =>
      u.modelVarList = t.modelVarList ∧
      u.dst = (List.range n).foldl
          (fun d i => Function.update d (R.offset dim i)
            (d (R.offset dim i) +
              ops.integrate (R.isScalar i) i cell (R.value_residual i) (R.gradient_residual i)
                (src (R.offset dim i)) (vq i) (gq i)))
          t.dst ∧
      (∀ j, j < n → u.fe.ctx (R.isScalar j) (R.countKind (R.isScalar j) j)
        = { t.fe.ctx (R.isScalar j) (R.countKind (R.isScalar j) j) with
            values_dofs :=
              ops.integrate (R.isScalar j) j cell (R.value_residual j) (R.gradient_residual j)
                (src (R.offset dim j)) (vq j) (gq j) }) ∧
      (∀ j, n ≤ j → u.fe.ctx (R.isScalar j) (R.countKind (R.isScalar j) j)
        = t.fe.ctx (R.isScalar j) (R.countKind (R.isScalar j) j)))
    (rhsIntegrateStep ops R (rhsSetup R dim blank) cell) R.num_var t
    ⟨rfl, rfl, fun j hj => absurd hj (Nat.not_lt_zero j), fun j _ => rfl⟩
    (by
      intro k hk u hu
      obtain ⟨h1, h2, h3, h4⟩ := hu
      obtain ⟨o1, o2, o3, o4, o5⟩ := hobj k hk
      have hself : (u.fe.integrate ops (R.isScalar k) (R.countKind (R.isScalar k) k) cell
          (R.value_residual k) (R.gradient_residual k)).ctx (R.isScalar k)
            (R.countKind (R.isScalar k) k)
          = { t.fe.ctx (R.isScalar k) (R.countKind (R.isScalar k) k) with
              values_dofs :=
                ops.integrate (R.isScalar k) k cell (R.value_residual k)
                  (R.gradient_residual k) (src (R.offset dim k)) (vq k) (gq k) } := by
        rw [ctx_integrate_self, h4 k (le_refl k), o1, o2, o3, o4, o5]
      rw [rhsIntegrateStep_eq ops R dim blank cell u k hk]
      refine ⟨h1, ?_, ?_, ?_⟩
      · simp only
        rw [hself, List.range_succ, List.foldl_append, List.foldl_cons, List.foldl_nil, ← h2]
      · intro j hj
        simp only
        rw [ctx_record]
        by_cases hjk : j = k
        · subst hjk
          exact hself
        · rw [ctx_integrate_other _ _ _ _ _ _ _ _ _ (rhsPos_ne R j k hjk)]
          exact h3 j (by omega)
      · intro j hj
        simp only
        rw [ctx_record, ctx_integrate_other _ _ _ _ _ _ _ _ _ (rhsPos_ne R j k (by omega))]
        exact h4 j (by omega))
  exact ⟨h.1, h.2.1, fun i hi => h.2.2.1 i hi⟩

end RhsIntegrate

section RhsCells
variable {E V : Type}

theorem rhsCell_run [Add V] (ops : FEOps E V) (R : Roster) (dim : Nat)
    (blank : FEEval E V) (K : (Nat → modelVariable E) → (Nat → modelResidual E))
    (src : Nat → V) (mv0 : Nat → modelVariable E) (t : RHSState E V) (cell : Nat)
    (hsc : 0 < R.countKind true R.num_var) (hinv : rhsCellInv ops R dim blank mv0 t) :
    ∃ t2, rhsCell ops R (rhsSetup R dim blank) K src t cell = some t2 ∧
      rhsCellInv ops R dim blank mv0 t2 ∧
      t2.dst = rhsScatter ops R dim blank K src mv0 t.dst cell ∧
      ∀ i, i < R.num_var →
        rhsObjAfter ops R dim blank K src mv0 cell i
          (t2.fe.ctx (R.isScalar i) (R.countKind (R.isScalar i) i)) := by
  obtain ⟨hshape, hblank, hmv⟩ := hinv
  obtain ⟨t2, hrun, hshape2, _⟩ := rhsCell_trace ops R dim blank K src t cell hsc hshape
  have hn : ((List.range R.num_var).foldl
      (rhsReadStep R (rhsSetup R dim blank) src cell) t.fe).n_scalar ≠ 0 := by
    rw [(rhsRead_trace R dim blank src cell t.fe hshape).1.2.1, rhsSetup_n_scalar]
    omega
  have hexp : rhsCell ops R (rhsSetup R dim blank) K src t cell
      = some (rhsCellRest ops R (rhsSetup R dim blank) K ops.n_q_points cell
          { t with
            fe := (List.range R.num_var).foldl
              (rhsReadStep R (rhsSetup R dim blank) src cell) t.fe }) := by
    unfold rhsCell
    simp only
    rw [if_neg hn]
  have ht2 : t2 = rhsCellRest ops R (rhsSetup R dim blank) K ops.n_q_points cell
      { t with
        fe := (List.range R.num_var).foldl
          (rhsReadStep R (rhsSetup R dim blank) src cell) t.fe } := by
    rw [hexp] at hrun
    exact (Option.some.inj hrun).symm
  have hcomp : ∀ i, i < R.num_var →
      (t.fe.ctx (R.isScalar i) (R.countKind (R.isScalar i) i)).component = i := by
    intro i hi
    rw [hshape.1, (rhsSetup_arrays R dim blank i hi).2.2.2]
  obtain ⟨q1, q2, q3⟩ := rhsQuadLoop_run ops R dim blank K src mv0 cell ops.n_q_points
    { t with
      fe := (List.range R.num_var).foldl
        (rhsReadStep R (rhsSetup R dim blank) src cell) t.fe }
    (by
      intro i hi
      simp only
      rw [rhsRead_obj R dim blank src cell t.fe i hi]
      exact ⟨hcomp i hi, rfl, rfl⟩)
    hmv
  have hvq : ∀ i, i < R.num_var →
      (((List.range ops.n_q_points).foldl (rhsQuad ops R (rhsSetup R dim blank) K cell)
        { t with
          fe := (List.range R.num_var).foldl
            (rhsReadStep R (rhsSetup R dim blank) src cell) t.fe }).fe.ctx
          (R.isScalar i) (R.countKind (R.isScalar i) i)).values_quad
        = rhsValues ops R dim blank K src mv0 cell i := by
    intro i hi
    funext q
    rw [(q3 i hi).2.2.2.1 q]
    unfold rhsValues
    by_cases hc : R.value_residual i = true ∧ q < ops.n_q_points
    · rw [if_pos hc, if_pos hc]
    · rw [if_neg hc, if_neg hc]
      simp only
      rw [rhsRead_obj R dim blank src cell t.fe i hi]
      exact (hblank i hi q).1 hc
  have hgq : ∀ i, i < R.num_var →
      (((List.range ops.n_q_points).foldl (rhsQuad ops R (rhsSetup R dim blank) K cell)
        { t with
          fe := (List.range R.num_var).foldl
            (rhsReadStep R (rhsSetup R dim blank) src cell) t.fe }).fe.ctx
          (R.isScalar i) (R.countKind (R.isScalar i) i)).gradients_quad
        = rhsGrads ops R dim blank K src mv0 cell i := by
    intro i hi
    funext q
    rw [(q3 i hi).2.2.2.2 q]
    unfold rhsGrads
    by_cases hc : R.gradient_residual i = true ∧ q < ops.n_q_points
    · rw [if_pos hc, if_pos hc]
    · rw [if_neg hc, if_neg hc]
      simp only
      rw [rhsRead_obj R dim blank src cell t.fe i hi]
      exact (hblank i hi q).2 hc
  obtain ⟨i1, i2, i3⟩ := rhsIntegrate_run ops R dim blank src cell
    (rhsValues ops R dim blank K src mv0 cell) (rhsGrads ops R dim blank K src mv0 cell)
    ((List.range ops.n_q_points).foldl (rhsQuad ops R (rhsSetup R dim blank) K cell)
      { t with
        fe := (List.range R.num_var).foldl
          (rhsReadStep R (rhsSetup R dim blank) src cell) t.fe })
    (fun i hi => ⟨(q3 i hi).1, (q3 i hi).2.1, (q3 i hi).2.2.1, hvq i hi, hgq i hi⟩)
  have hobj : ∀ i, i < R.num_var →
      rhsObjAfter ops R dim blank K src mv0 cell i
        (t2.fe.ctx (R.isScalar i) (R.countKind (R.isScalar i) i)) := by
    intro i hi
    rw [ht2]
    unfold rhsCellRest
    rw [i3 i hi]
    exact ⟨(q3 i hi).1, (q3 i hi).2.1, rfl, hvq i hi, hgq i hi⟩
  refine ⟨t2, hrun, ⟨hshape2, ?_, ?_⟩, ?_, hobj⟩
  · intro i hi q
    obtain ⟨_, _, _, o4, o5⟩ := hobj i hi
    rw [o4, o5]
    constructor
    · intro hc
      unfold rhsValues
      rw [if_neg hc]
    · intro hc
      unfold rhsGrads
      rw [if_neg hc]
  · rw [ht2]
    unfold rhsCellRest
    rw [i1]
    exact q1
  · rw [ht2]
    unfold rhsCellRest
    rw [i2, q2]
    rfl

theorem rhsCellInv_init (ops : FEOps E V) (R : Roster) (dim : Nat) (blank : FEEval E V)
    (mv0 : Nat → modelVariable E) (res0 : Nat → modelResidual E) (dst : Nat → V) :
    rhsCellInv ops R dim blank mv0
      { fe := (rhsSetup R dim blank).fe, modelVarList := mv0, modelResidualsList := res0,
        dst := dst } := by
  refine ⟨sameShape_refl _, ?_, rhsKeeps_refl R mv0⟩
  intro i hi q
  simp only
  rw [rhsSetup_obj R dim blank i hi]
  exact ⟨fun _ => rfl, fun _ => rfl⟩

theorem getRHS_run [Add V] (ops : FEOps E V) (R : Roster) (dim : Nat)
    (blank : FEEval E V) (K : (Nat → modelVariable E) → (Nat → modelResidual E))
    (mv0 : Nat → modelVariable E) (res0 : Nat → modelResidual E) (dst src : Nat → V)
    (cell_range : Nat × Nat) (hsc : 0 < R.countKind true R.num_var) :
    ∃ s, getRHS ops R dim blank K mv0 res0 dst src cell_range = some s ∧
      s.dst = (List.range' cell_range.1 (cell_range.2 - cell_range.1)).foldl
        (rhsScatter ops R dim blank K src mv0) dst ∧
      ∀ cell, (List.range' cell_range.1 (cell_range.2 - cell_range.1)).getLast? = some cell →
        ∀ i, i < R.num_var →
          rhsObjAfter ops R dim blank K src mv0 cell i
            (s.fe.ctx (R.isScalar i) (R.countKind (R.isScalar i) i)) := by
  have h := foldlM_prefix_inv
    (fun (pre : List Nat) (t : RHSState E V) =>
      rhsCellInv ops R dim blank mv0 t ∧
      t.dst = pre.foldl (rhsScatter ops R dim blank K src mv0) dst ∧
      ∀ cell, pre.getLast? = some cell → ∀ i, i < R.num_var →
        rhsObjAfter ops R dim blank K src mv0 cell i
          (t.fe.ctx (R.isScalar i) (R.countKind (R.isScalar i) i)))
    (rhsCell ops R (rhsSetup R dim blank) K src)
    (List.range' cell_range.1 (cell_range.2 - cell_range.1))
    (by
      intro pre x t ht
      obtain ⟨h1, h2, _⟩ := ht
      obtain ⟨t2, r1, r2, r3, r4⟩ := rhsCell_run ops R dim blank K src mv0 t x hsc h1
      refine ⟨t2, r1, r2, ?_, ?_⟩
      · rw [r3, h2, List.foldl_append]
        rfl
      · intro cell hc i hi
        have hx : cell = x := by
          simpa using hc.symm
        rw [hx]
        exact r4 i hi)
    [] { fe := (rhsSetup R dim blank).fe, modelVarList := mv0, modelResidualsList := res0,
         dst := dst }
    ⟨rhsCellInv_init ops R dim blank mv0 res0 dst, rfl,
      fun cell hc => by simp at hc⟩
  obtain ⟨s, h1, _, h3, h4⟩ := h
  rw [List.nil_append] at h3 h4
  exact ⟨s, h1, h3, h4⟩

end RhsCells

section CellRange

theorem getLast_cells (cell_range : Nat × Nat) (h : cell_range.1 < cell_range.2) :
    (List.range' cell_range.1 (cell_range.2 - cell_range.1)).getLast?
      = some (cell_range.2 - 1) := by
  obtain ⟨n, hn⟩ : ∃ n, cell_range.2 - cell_range.1 = n + 1 := ⟨cell_range.2 - cell_range.1 - 1, by omega⟩
  rw [hn, List.range'_concat, List.getLast?_concat]
  congr 1
  omega

end CellRange

section RhsState
variable {E V : Type}

theorem getRHS_state [Add V] (ops : FEOps E V) (R : Roster) (dim : Nat)
    (blank : FEEval E V) (K : (Nat → modelVariable E) → (Nat → modelResidual E))
    (mv0 : Nat → modelVariable E) (res0 : Nat → modelResidual E) (dst src : Nat → V)
    (cell_range : Nat × Nat) (s : RHSState E V)
    (h : getRHS ops R dim blank K mv0 res0 dst src cell_range = some s) :
    s.dst = (List.range' cell_range.1 (cell_range.2 - cell_range.1)).foldl
        (rhsScatter ops R dim blank K src mv0) dst ∧
      (cell_range.1 < cell_range.2 → ∀ i, i < R.num_var →
        rhsObjAfter ops R dim blank K src mv0 (cell_range.2 - 1) i
          (s.fe.ctx ((rhsSetup R dim blank).is_scalar_var.getD i false)
            ((rhsSetup R dim blank).scalar_or_vector_index.getD i 0))) := by
  by_cases hsc : 0 < R.countKind true R.num_var
  · obtain ⟨s2, h1, h2, h3⟩ := getRHS_run ops R dim blank K mv0 res0 dst src cell_range hsc
    rw [h1] at h
    cases h
    refine ⟨h2, ?_⟩
    intro hc i hi
    obtain ⟨e1, e2, _, _⟩ := rhsSetup_arrays R dim blank i hi
    rw [e1, e2]
    exact h3 _ (getLast_cells cell_range hc) i hi
  · have hz : R.countKind true R.num_var = 0 := by omega
    unfold getRHS at h
    cases hl : List.range' cell_range.1 (cell_range.2 - cell_range.1) with
    | nil =>
      rw [hl] at h
      simp only [List.foldlM_nil] at h
      cases h
      refine ⟨rfl, ?_⟩
      intro hc
      have hlen := congrArg List.length hl
      simp only [List.length_range', List.length_nil] at hlen
      omega
    | cons c l =>
      rw [hl, List.foldlM_cons,
        rhsCell_none ops R dim blank K src _ c hz (sameShape_refl _)] at h
      cases h

end RhsState

section LhsObjects
variable {E V : Type}

theorem lhsKeeps_refl (R : Roster) (dim : Nat) (d : variable_info)
    (mv0 : Nat → modelVariable E) : lhsKeeps R dim d mv0 mv0 :=
  fun _ => ⟨fun _ _ _ _ => rfl, fun _ => rfl⟩

theorem lhsKeeps_lhsVars (ops : FEOps E V) (R : Roster) (dim : Nat) (d r : variable_info)
    (src : V) (solutionSet : Nat → V) (mv0 : Nat → modelVariable E) (cell q : Nat) :
    lhsKeeps R dim d mv0 (lhsVars ops R dim d r src solutionSet mv0 cell q) := by
  intro j
  constructor
  · intro hj x y z
    unfold lhsVars
    rw [if_pos hj, fill_fill]
  · intro hj
    unfold lhsVars
    rw [if_neg hj]

theorem lhsStores_blank (R : Roster) (dim : Nat) (d : variable_info) (blank : FEEval E V) :
    ∀ sc k, ∃ c, (lhsStores R dim d blank).ctx sc k = { blank with component := c } := by
  unfold lhsStores
  refine foldl_preserves
    (fun a : Assembly E V => ∀ sc k, ∃ c, a.ctx sc k = { blank with component := c })
    _ ?_ _ _ ?_
  · intro a i ha
    exact push_back_blank blank a _ _ ha
  · intro sc k
    refine ⟨blank.component, ?_⟩
    cases sc <;> rfl

theorem lhsStores_obj (R : Roster) (dim : Nat) (d : variable_info) (blank : FEEval E V)
    (e : variable_info) (he : e ∈ varInfoList R dim) :
    (lhsStores R dim d blank).ctx e.is_scalar e.scalar_or_vector_index
      = { blank with component := e.global_field_index } := by
  obtain ⟨c, hc⟩ := lhsStores_blank R dim d blank e.is_scalar e.scalar_or_vector_index
  have h := lhsStores_ctx R dim d blank e he
  rw [hc] at h
  have hce : c = e.global_field_index := h
  rw [hc, hce]

theorem lhsPos_ne (R : Roster) (dim : Nat) (e1 e2 : variable_info)
    (h1 : e1 ∈ varInfoList R dim) (h2 : e2 ∈ varInfoList R dim) (hne : e1 ≠ e2) :
    ¬ (e1.is_scalar = e2.is_scalar ∧
      e1.scalar_or_vector_index = e2.scalar_or_vector_index) :=
  fun h => hne (varInfoList_pos_inj R dim e1 e2 h1 h2 h.1 h.2)

theorem getD_ne_varInfoList (R : Roster) (dim : Nat) (d : variable_info) (j k : Nat)
    (hj : j < num_var_LHS R) (hk : k < num_var_LHS R) (hjk : j ≠ k) :
    (varInfoList R dim).getD j d ≠ (varInfoList R dim).getD k d :=
  fun h => hjk (getD_varInfoList_inj R dim d j k hj hk h)

theorem exists_index_varInfoList (R : Roster) (dim : Nat) (d : variable_info)
    (e : variable_info) (he : e ∈ varInfoList R dim) :
    ∃ j, j < num_var_LHS R ∧ (varInfoList R dim).getD j d = e := by
  obtain ⟨j, hj, hje⟩ := List.getElem_of_mem he
  refine ⟨j, ?_, ?_⟩
  · rw [← length_varInfoList R dim]
    exact hj
  · rw [List.getD_eq_getElem _ _ hj]
    exact hje

theorem lhsReadStep_readEval (R : Roster) (dim : Nat) (d r : variable_info) (src : V)
    (solutionSet : Nat → V) (cell : Nat) (a : Assembly E V) (k : Nat) (sc2 : Bool)
    (k2 : Nat) :
    (lhsReadStep R dim d r src solutionSet cell a k).ctx sc2 k2
      = if sc2 = ((varInfoList R dim).getD k d).is_scalar ∧
            k2 = ((varInfoList R dim).getD k d).scalar_or_vector_index then
          { a.ctx ((varInfoList R dim).getD k d).is_scalar
              ((varInfoList R dim).getD k d).scalar_or_vector_index with
            cell := cell
            values_dofs :=
              if ((varInfoList R dim).getD k d).global_field_index = r.global_field_index
                then src
                else solutionSet ((varInfoList R dim).getD k d).global_field_index }
        else a.ctx sc2 k2 := by
  unfold lhsReadStep
  simp only
  by_cases hg : ((varInfoList R dim).getD k d).global_field_index = r.global_field_index
  · rw [if_pos hg, ctx_readEval, if_pos hg]
  · rw [if_neg hg, ctx_readEval, if_neg hg]

theorem lhsRead_obj (R : Roster) (dim : Nat) (d r : variable_info) (src : V)
    (solutionSet : Nat → V) (cell : Nat) (a : Assembly E V) (e : variable_info)
    (he : e ∈ varInfoList R dim) :
    ((List.range (num_var_LHS R)).foldl (lhsReadStep R dim d r src solutionSet cell) a).ctx
        e.is_scalar e.scalar_or_vector_index
      = { a.ctx e.is_scalar e.scalar_or_vector_index with
          cell := cell
          values_dofs :=
            if e.global_field_index = r.global_field_index then src
            else solutionSet e.global_field_index } := by
  have h := foldl_range_inv1
    (fun n (t : Assembly E V) =>
      (∀ j, j < n → j < num_var_LHS R →
        t.ctx ((varInfoList R dim).getD j d).is_scalar
            ((varInfoList R dim).getD j d).scalar_or_vector_index
          = { a.ctx ((varInfoList R dim).getD j d).is_scalar
                ((varInfoList R dim).getD j d).scalar_or_vector_index with
              cell := cell
              values_dofs :=
                if ((varInfoList R dim).getD j d).global_field_index = r.global_field_index
                  then src
                  else solutionSet ((varInfoList R dim).getD j d).global_field_index }) ∧
      (∀ j, n ≤ j → j < num_var_LHS R →
        t.ctx ((varInfoList R dim).getD j d).is_scalar
            ((varInfoList R dim).getD j d).scalar_or_vector_index
          = a.ctx ((varInfoList R dim).getD j d).is_scalar
            ((varInfoList R dim).getD j d).scalar_or_vector_index))
    (lhsReadStep R dim d r src solutionSet cell) (num_var_LHS R) a
    ⟨fun j hj => absurd hj (Nat.not_lt_zero j), fun j _ _ => rfl⟩
    (by
      intro k hk t ht
      obtain ⟨h1, h2⟩ := ht
      constructor
      · intro j hj hjN
        rw [lhsReadStep_readEval]
        by_cases hjk : j = k
        · subst hjk
          rw [if_pos ⟨rfl, rfl⟩, h2 j (le_refl j) hjN]
        · rw [if_neg (lhsPos_ne R dim _ _ (getD_mem_varInfoList R dim d j hjN)
            (getD_mem_varInfoList R dim d k hk) (getD_ne_varInfoList R dim d j k hjN hk hjk))]
          exact h1 j (by omega) hjN
      · intro j hj hjN
        rw [lhsReadStep_readEval,
          if_neg (lhsPos_ne R dim _ _ (getD_mem_varInfoList R dim d j hjN)
            (getD_mem_varInfoList R dim d k hk)
            (getD_ne_varInfoList R dim d j k hjN hk (by omega)))]
        exact h2 j (by omega) hjN)
  obtain ⟨j, hj, hje⟩ := exists_index_varInfoList R dim d e he
  have := h.1 j hj hj
  rw [hje] at this
  exact this

theorem lhsGather_run (ops : FEOps E V) (R : Roster) (dim : Nat) (d r : variable_info)
    (src : V) (solutionSet : Nat → V) (mv0 : Nat → modelVariable E) (cell q : Nat)
    (t : LHSState E V)
    (hobj : ∀ e ∈ varInfoList R dim,
      (t.fe.ctx e.is_scalar e.scalar_or_vector_index).component = e.global_field_index ∧
      (t.fe.ctx e.is_scalar e.scalar_or_vector_index).cell = cell ∧
      (t.fe.ctx e.is_scalar e.scalar_or_vector_index).values_dofs
        = if e.global_field_index = r.global_field_index then src
          else solutionSet e.global_field_index)
    (hmv : lhsKeeps R dim d mv0 t.modelVarList) :
    (∀ sc k, ((List.range (num_var_LHS R)).foldl
        (lhsGatherStep ops R dim d cell q) t).fe.ctx sc k = t.fe.ctx sc k) ∧
    ((List.range (num_var_LHS R)).foldl (lhsGatherStep ops R dim d cell q) t).dst = t.dst ∧
    ((List.range (num_var_LHS R)).foldl (lhsGatherStep ops R dim d cell q) t).modelVarList
      = lhsVars ops R dim d r src solutionSet mv0 cell q := by
  have h := foldl_range_inv1
    (fun n (u : LHSState E V) =>
      (∀ sc k, u.fe.ctx sc k = t.fe.ctx sc k) ∧ u.dst = t.dst ∧
      ∀ j, u.modelVarList j
        = if j < n then lhsVars ops R dim d r src solutionSet mv0 cell q j
          else t.modelVarList j)
    (lhsGatherStep ops R dim d cell q) (num_var_LHS R) t
    ⟨fun _ _ => rfl, rfl, fun j => by rw [if_neg (Nat.not_lt_zero j)]⟩
    (by
      intro k hk u hu
      obtain ⟨h1, h2, h3⟩ := hu
      refine ⟨?_, ?_, ?_⟩
      · intro sc k2
        rw [lhsGatherStep_ctx]
        exact h1 sc k2
      · unfold lhsGatherStep
        exact h2
      · intro j
        rw [lhsGatherStep_mv]
        by_cases hjk : j = k
        · subst hjk
          rw [Function.update_same, if_pos (Nat.lt_succ_self j)]
          obtain ⟨o1, o2, o3⟩ := hobj _ (getD_mem_varInfoList R dim d j hk)
          unfold Assembly.get_value Assembly.get_gradient Assembly.get_hessian
          rw [h1, o1, o2, o3, h3 j, if_neg (Nat.lt_irrefl j)]
          unfold lhsVars
          rw [if_pos hk]
          exact (hmv j).1 hk _ _ _
        · rw [Function.update_noteq hjk, h3 j]
          by_cases hlt : j < k
          · rw [if_pos hlt, if_pos (Nat.lt_succ_of_lt hlt)]
          · rw [if_neg hlt, if_neg (by omega)])
  obtain ⟨h1, h2, h3⟩ := h
  refine ⟨h1, h2, ?_⟩
  funext j
  rw [h3 j]
  by_cases hj : j < num_var_LHS R
  · rw [if_pos hj]
  · rw [if_neg hj]
    unfold lhsVars
    rw [if_neg hj]
    exact (hmv j).2 hj

end LhsObjects

section LhsQuad
variable {E V : Type}

theorem lhsQuad_run (ops : FEOps E V) (R : Roster) (dim : Nat) (d r : variable_info)
    (K : (Nat → modelVariable E) → modelResidual E) (src : V) (solutionSet : Nat → V)
    (mv0 : Nat → modelVariable E) (cell q : Nat) (t : LHSState E V)
    (hobj : ∀ e ∈ varInfoList R dim,
      (t.fe.ctx e.is_scalar e.scalar_or_vector_index).component = e.global_field_index ∧
      (t.fe.ctx e.is_scalar e.scalar_or_vector_index).cell = cell ∧
      (t.fe.ctx e.is_scalar e.scalar_or_vector_index).values_dofs
        = if e.global_field_index = r.global_field_index then src
          else solutionSet e.global_field_index)
    (hmv : lhsKeeps R dim d mv0 t.modelVarList) :
    (lhsQuad ops R dim d r K cell t q).modelVarList
      = lhsVars ops R dim d r src solutionSet mv0 cell q ∧
    (lhsQuad ops R dim d r K cell t q).dst = t.dst ∧
    (lhsQuad ops R dim d r K cell t q).fe.ctx r.is_scalar r.scalar_or_vector_index
      = { t.fe.ctx r.is_scalar r.scalar_or_vector_index with
          values_quad :=
            if R.value_residual r.global_var_index then
              Function.update (t.fe.ctx r.is_scalar r.scalar_or_vector_index).values_quad q
                ((K (lhsVars ops R dim d r src solutionSet mv0 cell q)).valueResidual
                  r.is_scalar)
            else (t.fe.ctx r.is_scalar r.scalar_or_vector_index).values_quad
          gradients_quad :=
            if R.gradient_residual r.global_var_index then
              Function.update
                (t.fe.ctx r.is_scalar r.scalar_or_vector_index).gradients_quad q
                ((K (lhsVars ops R dim d r src solutionSet mv0 cell q)).gradResidual
                  r.is_scalar)
            else (t.fe.ctx r.is_scalar r.scalar_or_vector_index).gradients_quad } ∧
    ∀ sc k, ¬ (sc = r.is_scalar ∧ k = r.scalar_or_vector_index) →
      (lhsQuad ops R dim d r K cell t q).fe.ctx sc k = t.fe.ctx sc k := by
  obtain ⟨g1, g2, g3⟩ := lhsGather_run ops R dim d r src solutionSet mv0 cell q t hobj hmv
  unfold lhsQuad
  simp only
  refine ⟨g3, g2, ?_, ?_⟩
  · rw [ctx_submitRes_self, ctx_record, g1, g3]
  · intro sc k hne
    rw [ctx_submitRes_other _ _ _ _ _ _ _ _ _ _ hne, ctx_record, g1]

theorem lhsQuadLoop_run (ops : FEOps E V) (R : Roster) (dim : Nat) (d r : variable_info)
    (hr : r ∈ varInfoList R dim)
    (K : (Nat → modelVariable E) → modelResidual E) (src : V) (solutionSet : Nat → V)
    (mv0 : Nat → modelVariable E) (cell n : Nat) (t : LHSState E V)
    (hobj : ∀ e ∈ varInfoList R dim,
      (t.fe.ctx e.is_scalar e.scalar_or_vector_index).component = e.global_field_index ∧
      (t.fe.ctx e.is_scalar e.scalar_or_vector_index).cell = cell ∧
      (t.fe.ctx e.is_scalar e.scalar_or_vector_index).values_dofs
        = if e.global_field_index = r.global_field_index then src
          else solutionSet e.global_field_index)
    (hmv : lhsKeeps R dim d mv0 t.modelVarList) :
    lhsKeeps R dim d mv0
      ((List.range n).foldl (lhsQuad ops R dim d r K cell) t).modelVarList ∧
    ((List.range n).foldl (lhsQuad ops R dim d r K cell) t).dst = t.dst ∧
    (∀ sc k, ¬ (sc = r.is_scalar ∧ k = r.scalar_or_vector_index) →
      ((List.range n).foldl (lhsQuad ops R dim d r K cell) t).fe.ctx sc k = t.fe.ctx sc k) ∧
    (((List.range n).foldl (lhsQuad ops R dim d r K cell) t).fe.ctx
      r.is_scalar r.scalar_or_vector_index).component = r.global_field_index ∧
    (((List.range n).foldl (lhsQuad ops R dim d r K cell) t).fe.ctx
      r.is_scalar r.scalar_or_vector_index).cell = cell ∧
    (((List.range n).foldl (lhsQuad ops R dim d r K cell) t).fe.ctx
      r.is_scalar r.scalar_or_vector_index).values_dofs = src ∧
    (∀ q, (((List.range n).foldl (lhsQuad ops R dim d r K cell) t).fe.ctx
        r.is_scalar r.scalar_or_vector_index).values_quad q
      = if R.value_residual r.global_var_index = true ∧ q < n then
          (K (lhsVars ops R dim d r src solutionSet mv0 cell q)).valueResidual r.is_scalar
        else (t.fe.ctx r.is_scalar r.scalar_or_vector_index).values_quad q) ∧
    (∀ q, (((List.range n).foldl (lhsQuad ops R dim d r K cell) t).fe.ctx
        r.is_scalar r.scalar_or_vector_index).gradients_quad q
      = if R.gradient_residual r.global_var_index = true ∧ q < n then
          (K (lhsVars ops R dim d r src solutionSet mv0 cell q)).gradResidual r.is_scalar
        else (t.fe.ctx r.is_scalar r.scalar_or_vector_index).gradients_quad q) := by
  have hsrc : (t.fe.ctx r.is_scalar r.scalar_or_vector_index).values_dofs = src := by
    rw [(hobj r hr).2.2, if_pos rfl]
  refine foldl_range_inv1
    (fun n (u : LHSState E V) =>
      lhsKeeps R dim d mv0 u.modelVarList ∧ u.dst = t.dst ∧
      (∀ sc k, ¬ (sc = r.is_scalar ∧ k = r.scalar_or_vector_index) →
        u.fe.ctx sc k = t.fe.ctx sc k) ∧
      (u.fe.ctx r.is_scalar r.scalar_or_vector_index).component = r.global_field_index ∧
      (u.fe.ctx r.is_scalar r.scalar_or_vector_index).cell = cell ∧
      (u.fe.ctx r.is_scalar r.scalar_or_vector_index).values_dofs = src ∧
      (∀ q, (u.fe.ctx r.is_scalar r.scalar_or_vector_index).values_quad q
        = if R.value_residual r.global_var_index = true ∧ q < n then
            (K (lhsVars ops R dim d r src solutionSet mv0 cell q)).valueResidual r.is_scalar
          else (t.fe.ctx r.is_scalar r.scalar_or_vector_index).values_quad q) ∧
      (∀ q, (u.fe.ctx r.is_scalar r.scalar_or_vector_index).gradients_quad q
        = if R.gradient_residual r.global_var_index = true ∧ q < n then
            (K (lhsVars ops R dim d r src solutionSet mv0 cell q)).gradResidual r.is_scalar
          else (t.fe.ctx r.is_scalar r.scalar_or_vector_index).gradients_quad q))
    (lhsQuad ops R dim d r K cell) n t ?_ ?_
  · refine ⟨hmv, rfl, fun _ _ _ => rfl, (hobj r hr).1, (hobj r hr).2.1, hsrc, ?_, ?_⟩
    · intro q
      rw [if_neg (fun h => Nat.not_lt_zero q h.2)]
    · intro q
      rw [if_neg (fun h => Nat.not_lt_zero q h.2)]
  · intro k _ u hu
    obtain ⟨h1, h2, h3, h4, h5, h6, h7, h8⟩ := hu
    have hobju : ∀ e ∈ varInfoList R dim,
        (u.fe.ctx e.is_scalar e.scalar_or_vector_index).component = e.global_field_index ∧
        (u.fe.ctx e.is_scalar e.scalar_or_vector_index).cell = cell ∧
        (u.fe.ctx e.is_scalar e.scalar_or_vector_index).values_dofs
          = if e.global_field_index = r.global_field_index then src
            else solutionSet e.global_field_index := by
      intro e he
      by_cases her : e = r
      · subst her
        exact ⟨h4, h5, by rw [h6, if_pos rfl]⟩
      · rw [h3 _ _ (lhsPos_ne R dim e r he hr her)]
        exact hobj e he
    obtain ⟨q1, q2, q3, q4⟩ := lhsQuad_run ops R dim d r K src solutionSet mv0 cell k u
      hobju h1
    refine ⟨?_, q2.trans h2, ?_, ?_, ?_, ?_, ?_, ?_⟩
    · rw [q1]
      exact lhsKeeps_lhsVars ops R dim d r src solutionSet mv0 cell k
    · intro sc k2 hne
      rw [q4 sc k2 hne]
      exact h3 sc k2 hne
    · rw [q3]
      exact h4
    · rw [q3]
      exact h5
    · rw [q3]
      exact h6
    · intro q
      rw [q3]
      simp only
      cases hv : R.value_residual r.global_var_index
      · simp only [Bool.false_eq_true, if_false, false_and]
        rw [h7 q, hv]
        simp
      · simp only [if_true, true_and]
        rw [Function.update_apply]
        by_cases hqk : q = k
        · subst hqk
          rw [if_pos rfl, if_pos (Nat.lt_succ_self q)]
        · rw [if_neg hqk, h7 q, hv]
          simp only [true_and]
          by_cases hlt : q < k
          · rw [if_pos hlt, if_pos (Nat.lt_succ_of_lt hlt)]
          · rw [if_neg hlt, if_neg (by omega)]
    · intro q
      rw [q3]
      simp only
      cases hv : R.gradient_residual r.global_var_index
      · simp only [Bool.false_eq_true, if_false, false_and]
        rw [h8 q, hv]
        simp
      · simp only [if_true, true_and]
        rw [Function.update_apply]
        by_cases hqk : q = k
        · subst hqk
          rw [if_pos rfl, if_pos (Nat.lt_succ_self q)]
        · rw [if_neg hqk, h8 q, hv]
          simp only [true_and]
          by_cases hlt : q < k
          · rw [if_pos hlt, if_pos (Nat.lt_succ_of_lt hlt)]
          · rw [if_neg hlt, if_neg (by omega)]

end LhsQuad

section LhsCells
variable {E V : Type}

theorem lhsCell_run [Add V] (ops : FEOps E V) (R : Roster) (dim : Nat) (hdim : 0 < dim)
    (d r : variable_info) (hr : r ∈ varInfoList R dim) (blank : FEEval E V)
    (K : (Nat → modelVariable E) → modelResidual E) (src : V) (solutionSet : Nat → V)
    (mv0 : Nat → modelVariable E) (t : LHSState E V) (cell : Nat)
    (hinv : lhsCellInv ops R dim blank d r mv0 t) :
    ∃ t2, lhsCell ops R dim d r K src solutionSet t cell = some t2 ∧
      lhsCellInv ops R dim blank d r mv0 t2 ∧
      t2.dst = t.dst + lhsDofs ops R dim blank K d r src solutionSet mv0 cell ∧
      lhsObjAfter ops R dim blank K d r src solutionSet mv0 cell t2.fe := by
  obtain ⟨hshape, hblank, hothers, hmv⟩ := hinv
  obtain ⟨hrun, hshape2⟩ := lhsCell_some ops R dim d r blank K src solutionSet t cell
    (countLHS_pos R dim r hr) hshape
  have hcomp : ∀ e ∈ varInfoList R dim,
      (t.fe.ctx e.is_scalar e.scalar_or_vector_index).component = e.global_field_index := by
    intro e he
    rw [hshape.1, lhsStores_ctx R dim d blank e he]
  have hobj1 : ∀ e ∈ varInfoList R dim,
      (((List.range (num_var_LHS R)).foldl
          (lhsReadStep R dim d r src solutionSet cell) t.fe).ctx
        e.is_scalar e.scalar_or_vector_index).component = e.global_field_index ∧
      (((List.range (num_var_LHS R)).foldl
          (lhsReadStep R dim d r src solutionSet cell) t.fe).ctx
        e.is_scalar e.scalar_or_vector_index).cell = cell ∧
      (((List.range (num_var_LHS R)).foldl
          (lhsReadStep R dim d r src solutionSet cell) t.fe).ctx
        e.is_scalar e.scalar_or_vector_index).values_dofs
        = if e.global_field_index = r.global_field_index then src
          else solutionSet e.global_field_index := by
    intro e he
    rw [lhsRead_obj R dim d r src solutionSet cell t.fe e he]
    exact ⟨hcomp e he, rfl, rfl⟩
  obtain ⟨q1, q2, q3, q4, q5, q6, q7, q8⟩ := lhsQuadLoop_run ops R dim d r hr K src
    solutionSet mv0 cell ops.n_q_points
    { t with
      fe := (List.range (num_var_LHS R)).foldl
        (lhsReadStep R dim d r src solutionSet cell) t.fe }
    hobj1 hmv
  have hvq : (((List.range ops.n_q_points).foldl (lhsQuad ops R dim d r K cell)
      { t with
        fe := (List.range (num_var_LHS R)).foldl
          (lhsReadStep R dim d r src solutionSet cell) t.fe }).fe.ctx
        r.is_scalar r.scalar_or_vector_index).values_quad
      = lhsValues ops R dim blank K d r src solutionSet mv0 cell := by
    funext q
    rw [q7 q]
    unfold lhsValues
    by_cases hc : R.value_residual r.global_var_index = true ∧ q < ops.n_q_points
    · rw [if_pos hc, if_pos hc]
    · rw [if_neg hc, if_neg hc]
      simp only
      rw [lhsRead_obj R dim d r src solutionSet cell t.fe r hr]
      exact (hblank q).1 hc
  have hgq : (((List.range ops.n_q_points).foldl (lhsQuad ops R dim d r K cell)
      { t with
        fe := (List.range (num_var_LHS R)).foldl
          (lhsReadStep R dim d r src solutionSet cell) t.fe }).fe.ctx
        r.is_scalar r.scalar_or_vector_index).gradients_quad
      = lhsGrads ops R dim blank K d r src solutionSet mv0 cell := by
    funext q
    rw [q8 q]
    unfold lhsGrads
    by_cases hc : R.gradient_residual r.global_var_index = true ∧ q < ops.n_q_points
    · rw [if_pos hc, if_pos hc]
    · rw [if_neg hc, if_neg hc]
      simp only
      rw [lhsRead_obj R dim d r src solutionSet cell t.fe r hr]
      exact (hblank q).2 hc
  have htarget : ((((List.range ops.n_q_points).foldl (lhsQuad ops R dim d r K cell)
      { t with
        fe := (List.range (num_var_LHS R)).foldl
          (lhsReadStep R dim d r src solutionSet cell) t.fe }).fe.integrate ops
        r.is_scalar r.scalar_or_vector_index cell (R.value_residual r.global_var_index)
        (R.gradient_residual r.global_var_index)).ctx
          r.is_scalar r.scalar_or_vector_index)
      = { ((List.range ops.n_q_points).foldl (lhsQuad ops R dim d r K cell)
            { t with
              fe := (List.range (num_var_LHS R)).foldl
                (lhsReadStep R dim d r src solutionSet cell) t.fe }).fe.ctx
              r.is_scalar r.scalar_or_vector_index with
          values_dofs := lhsDofs ops R dim blank K d r src solutionSet mv0 cell } := by
    rw [ctx_integrate_self, q4, q5, q6, hvq, hgq]
    rfl
  have hafter : lhsObjAfter ops R dim blank K d r src solutionSet mv0 cell
      (lhsCellRest ops R dim d r K ops.n_q_points cell
        { t with
          fe := (List.range (num_var_LHS R)).foldl
            (lhsReadStep R dim d r src solutionSet cell) t.fe }).fe := by
    unfold lhsCellRest
    simp only
    constructor
    · rw [ctx_record, htarget]
      exact ⟨q4, q5, rfl, hvq, hgq⟩
    · intro e he her
      have hpos := lhsPos_ne R dim e r he hr her
      have hg : ¬ e.global_field_index = r.global_field_index :=
        fun h => her (varInfoList_gfi_inj R dim hdim e r he hr h)
      rw [ctx_record, ctx_integrate_other _ _ _ _ _ _ _ _ _ hpos, q3 _ _ hpos]
      simp only
      rw [lhsRead_obj R dim d r src solutionSet cell t.fe e he, if_neg hg]
      exact ⟨hcomp e he, rfl, rfl, (hothers e he her).1, (hothers e he her).2⟩
  refine ⟨_, hrun, ⟨hshape2, ?_, ?_, ?_⟩, ?_, hafter⟩
  · intro q
    obtain ⟨⟨_, _, _, o4, o5⟩, _⟩ := hafter
    rw [o4, o5]
    constructor
    · intro hc
      unfold lhsValues
      rw [if_neg hc]
    · intro hc
      unfold lhsGrads
      rw [if_neg hc]
  · intro e he her
    obtain ⟨_, _, _, o4, o5⟩ := hafter.2 e he her
    exact ⟨o4, o5⟩
  · unfold lhsCellRest
    exact q1
  · unfold lhsCellRest
    simp only
    unfold Assembly.distribute_local_to_global
    rw [htarget, q2]

theorem lhsCellInv_init (ops : FEOps E V) (R : Roster) (dim : Nat) (blank : FEEval E V)
    (d r : variable_info) (hr : r ∈ varInfoList R dim) (mv0 : Nat → modelVariable E)
    (res0 : modelResidual E) (dst : V) :
    lhsCellInv ops R dim blank d r mv0
      { fe := lhsStores R dim d blank, modelVarList := mv0, modelRes := res0,
        dst := dst } := by
  refine ⟨sameShape_refl _, ?_, ?_, lhsKeeps_refl R dim d mv0⟩
  · intro q
    simp only
    rw [lhsStores_obj R dim d blank r hr]
    exact ⟨fun _ => rfl, fun _ => rfl⟩
  · intro e he _
    simp only
    rw [lhsStores_obj R dim d blank e he]
    exact ⟨rfl, rfl⟩

theorem getLHS_run [Add V] (ops : FEOps E V) (R : Roster) (dim : Nat) (hdim : 0 < dim)
    (blank : FEEval E V) (K : (Nat → modelVariable E) → modelResidual E)
    (mv0 : Nat → modelVariable E) (res0 : modelResidual E) (d : variable_info)
    (solutionSet : Nat → V) (dst src : V) (cell_range : Nat × Nat) (r : variable_info)
    (hr : r ∈ varInfoList R dim) :
    ∃ s, getLHS ops R dim blank K mv0 res0 d solutionSet r.global_field_index dst src
        cell_range = some s ∧
      s.dst = (List.range' cell_range.1 (cell_range.2 - cell_range.1)).foldl
        (fun v cell => v + lhsDofs ops R dim blank K d r src solutionSet mv0 cell) dst ∧
      (cell_range.1 < cell_range.2 →
        lhsObjAfter ops R dim blank K d r src solutionSet mv0 (cell_range.2 - 1) s.fe) := by
  have h := foldlM_prefix_inv
    (fun (pre : List Nat) (t : LHSState E V) =>
      lhsCellInv ops R dim blank d r mv0 t ∧
      t.dst = pre.foldl
        (fun v cell => v + lhsDofs ops R dim blank K d r src solutionSet mv0 cell) dst ∧
      ∀ cell, pre.getLast? = some cell →
        lhsObjAfter ops R dim blank K d r src solutionSet mv0 cell t.fe)
    (lhsCell ops R dim d r K src solutionSet)
    (List.range' cell_range.1 (cell_range.2 - cell_range.1))
    (by
      intro pre x t ht
      obtain ⟨h1, h2, _⟩ := ht
      obtain ⟨t2, r1, r2, r3, r4⟩ := lhsCell_run ops R dim hdim d r hr blank K src
        solutionSet mv0 t x h1
      refine ⟨t2, r1, r2, ?_, ?_⟩
      · rw [r3, h2, List.foldl_append]
        rfl
      · intro cell hc
        have hx : cell = x := by
          simpa using hc.symm
        rw [hx]
        exact r4)
    [] { fe := lhsStores R dim d blank, modelVarList := mv0, modelRes := res0, dst := dst }
    ⟨lhsCellInv_init ops R dim blank d r hr mv0 res0 dst, rfl,
      fun cell hc => by simp at hc⟩
  obtain ⟨s, h1, _, h3, h4⟩ := h
  rw [List.nil_append] at h3 h4
  refine ⟨s, ?_, h3, fun hc => h4 _ (getLast_cells cell_range hc)⟩
  unfold getLHS
  rw [selectResInfo_target R dim hdim d r hr]
  exact h1

end LhsCells

/-! ## The claims -/

section ClaimsReconciler
variable {α : Type} [LinearOrder α] [Zero α] {dim : Nat}

/-- C1: on rank 0 the canonical list `nuclei` produced by the reconciliation phase is the
concatenation of the candidate lists in rank order and local order, from which exactly the
candidates with a rival in another partition (distance at most the minimum separation and
`seededTime` not later) are removed; survivors get sequential indices and keep centre,
radius, `seededTime` and `seedingTime`. -/
theorem C1_reconcile_filter (dist : Point dim α → Point dim α → α) (minDist : α)
    (locals : List (List (nucleus dim α))) :
    (candidates locals).map Prod.snd = locals.flatten ∧
    reconcile dim dist minDist locals
      = renumberFrom 0 (((candidates locals).filter
          (fun pa => decide (¬ discarded dist minDist locals pa))).map Prod.snd) ∧
    (reconcile dim dist minDist locals).map attrs
      = ((candidates locals).filter
          (fun pa => decide (¬ discarded dist minDist locals pa))).map (fun pa => attrs pa.2) := by
  refine ⟨candidates_map_snd locals, reconcile_eq dist minDist locals, ?_⟩
  rw [reconcile_eq, map_attrs_renumberFrom, List.map_map]
  rfl

end ClaimsReconciler

section ClaimsStep
variable {α : Type} [LinearOrderedField α] {dim : Nat}

/-- C2 (dedup invariant): after detection on every partition followed by reconciliation,
any two distinct canonical nuclei are at least the minimum separation apart, for every
number of partitions, in the mechanics model and in the two-field application.  The local
lists are separated before the step, which is true of the empty lists of the start and,
by the second part of each statement, true again after the detection of the step.  The
distance is symmetric. -/
theorem C2_dedup_invariant (P : Parameters α) (RAND_MAX : Nat) (exp : α → α)
    (dist : Point dim α → Point dim α → α) (hsymm : ∀ p q, dist p q = dist q p) (t : α)
    (partsM : List (PartitionMech dim α)) (partsA : List (PartitionApp dim α)) :
    ((∀ q ∈ partsM,
        q.localNuclei.Pairwise (fun a b => minDistMech ≤ dist a.center b.center)) →
      (∀ (i j : Nat) (hi : i < (nucleationStepMech P RAND_MAX dist t partsM).length)
          (hj : j < (nucleationStepMech P RAND_MAX dist t partsM).length), i ≠ j →
          minDistMech ≤ dist (nucleationStepMech P RAND_MAX dist t partsM)[i].center
            (nucleationStepMech P RAND_MAX dist t partsM)[j].center) ∧
      (∀ q ∈ partsM, (q.detect P RAND_MAX dist t).Pairwise
          (fun a b => minDistMech ≤ dist a.center b.center))) ∧
    ((∀ q ∈ partsA,
        q.localNuclei.Pairwise (fun a b => minDistApp P ≤ dist a.center b.center)) →
      (∀ (i j : Nat) (hi : i < (nucleationStepApp P exp dist t partsA).length)
          (hj : j < (nucleationStepApp P exp dist t partsA).length), i ≠ j →
          minDistApp P ≤ dist (nucleationStepApp P exp dist t partsA)[i].center
            (nucleationStepApp P exp dist t partsA)[j].center) ∧
      (∀ q ∈ partsA, (q.detect P exp dist t).Pairwise
          (fun a b => minDistApp P ≤ dist a.center b.center))) := by
  constructor
  · intro hM
    have hdet : ∀ q ∈ partsM, (q.detect P RAND_MAX dist t).Pairwise
        (fun a b => minDistMech ≤ dist a.center b.center) := fun q hq =>
      detectMech_pairwise P RAND_MAX dist _ _ _ _ _ _ t _ _ (hM q hq)
    refine ⟨?_, hdet⟩
    intro i j hi hj hne
    refine pairwise_distinct dist hsymm _ _ ?_ i j hi hj hne
    apply reconcile_pairwise dist hsymm
    intro l hl
    rw [List.mem_map] at hl
    obtain ⟨q, hq, rfl⟩ := hl
    exact hdet q hq
  · intro hA
    have hdet : ∀ q ∈ partsA, (q.detect P exp dist t).Pairwise
        (fun a b => minDistApp P ≤ dist a.center b.center) := fun q hq =>
      detectApp_pairwise P exp dist _ _ _ _ t _ _ (hA q hq)
    refine ⟨?_, hdet⟩
    intro i j hi hj hne
    refine pairwise_distinct dist hsymm _ _ ?_ i j hi hj hne
    apply reconcile_pairwise dist hsymm
    intro l hl
    rw [List.mem_map] at hl
    obtain ⟨q, hq, rfl⟩ := hl
    exact hdet q hq

/-- Witness of C2: two partitions of the mechanics model, each owning one point, at 0 and
at 20; both points nucleate, the canonical list has the two nuclei and they are
`20 ≥ minDistBetwenNuclei = 10` apart. -/
theorem C2_witness :
    (∀ p q, dist1 ℚ p q = dist1 ℚ q p) ∧
    (∀ q ∈ [exPartMech ℚ 0, exPartMech ℚ 20],
      q.localNuclei.Pairwise (fun a b => minDistMech ≤ dist1 ℚ a.center b.center)) ∧
    (nucleationStepMech (exParams ℚ) 32767 (dist1 ℚ) 1
        [exPartMech ℚ 0, exPartMech ℚ 20]).map (fun n => n.center 0) = [0, 20] ∧
    (∀ (i j : Nat)
        (hi : i < (nucleationStepMech (exParams ℚ) 32767 (dist1 ℚ) 1
          [exPartMech ℚ 0, exPartMech ℚ 20]).length)
        (hj : j < (nucleationStepMech (exParams ℚ) 32767 (dist1 ℚ) 1
          [exPartMech ℚ 0, exPartMech ℚ 20]).length), i ≠ j →
        minDistMech ≤ dist1 ℚ
          (nucleationStepMech (exParams ℚ) 32767 (dist1 ℚ) 1
            [exPartMech ℚ 0, exPartMech ℚ 20])[i].center
          (nucleationStepMech (exParams ℚ) 32767 (dist1 ℚ) 1
            [exPartMech ℚ 0, exPartMech ℚ 20])[j].center) := by
  have h0 : ∀ q ∈ [exPartMech ℚ 0, exPartMech ℚ 20],
      q.localNuclei.Pairwise (fun a b => minDistMech ≤ dist1 ℚ a.center b.center) := by
    simp [exPartMech]
  refine ⟨dist1_comm ℚ, h0, ?_,
    ((C2_dedup_invariant (exParams ℚ) 32767 (fun _ => 0) (dist1 ℚ) (dist1_comm ℚ) 1
      [exPartMech ℚ 0, exPartMech ℚ 20] ([] : List (PartitionApp 1 ℚ))).1 h0).1⟩
  have hr : List.range 1 = [0] := rfl
  simp [nucleationStepMech, PartitionMech.detect, detectMech, detectPointMech, exPartMech,
    proposeAt, isClose, pointJMech, JMech, exParams, dxMech, minDistMech, nRadiusMech,
    reconcile, filterNuclei, filterStep, scanProc2, scanI2, packNuclei, packOne, rd,
    readCenter, dist1, List.range_succ, hr]
  norm_num [hr, filterStep, scanProc2, scanI2, packOne, rd, readCenter, dist1,
    List.range_succ]

end ClaimsStep

section ClaimsSplit
variable {α : Type} [LinearOrder α] [Zero α] {dim : Nat}

/-- C3, as stated, fails, on candidates that the detector itself produces.  In the mechanics
model (minimum separation 10) the detector accepts a point at distance exactly 10 from a
nucleus of its own list, because its test is `distance < minDist`, while the reconciler
discards on `distance <= minDist`.  With the mesh points 0 and 10 owned by one partition,
the two candidates both reach the canonical list; with the same points owned by two
partitions the detectors propose the same two candidates and the reconciler drops both. -/
theorem C3_counterexample :
    (([{ exPartMech ℚ 0 with support_points := [(0, fun _ => 0), (1, fun _ => 10)] }].map
        (PartitionMech.detect (exParams ℚ) 32767 (dist1 ℚ) 1)).flatten.map attrs
      = ([exPartMech ℚ 0, exPartMech ℚ 10].map
        (PartitionMech.detect (exParams ℚ) 32767 (dist1 ℚ) 1)).flatten.map attrs) ∧
    (nucleationStepMech (exParams ℚ) 32767 (dist1 ℚ) 1
        [{ exPartMech ℚ 0 with support_points := [(0, fun _ => 0), (1, fun _ => 10)] }]).map
        (fun n => (n.center 0, n.seededTime)) = [(0, 1), (10, 1)] ∧
    nucleationStepMech (exParams ℚ) 32767 (dist1 ℚ) 1 [exPartMech ℚ 0, exPartMech ℚ 10]
      = [] ∧
    ¬ ((nucleationStepMech (exParams ℚ) 32767 (dist1 ℚ) 1
        [{ exPartMech ℚ 0 with support_points := [(0, fun _ => 0), (1, fun _ => 10)] }]).map
          attrs).Perm
        ((nucleationStepMech (exParams ℚ) 32767 (dist1 ℚ) 1
          [exPartMech ℚ 0, exPartMech ℚ 10]).map attrs) := by
  have hr : List.range 1 = [0] := rfl
  have h2 : nucleationStepMech (exParams ℚ) 32767 (dist1 ℚ) 1
      [exPartMech ℚ 0, exPartMech ℚ 10] = [] := by
    simp [nucleationStepMech, PartitionMech.detect, detectMech, detectPointMech, exPartMech,
      proposeAt, isClose, pointJMech, JMech, exParams, dxMech, minDistMech, nRadiusMech,
      reconcile, filterNuclei, filterStep, scanProc2, scanI2, packNuclei, packOne, rd,
      readCenter, dist1, List.range_succ, hr]
    norm_num [hr, filterStep, scanProc2, scanI2, packOne, rd, readCenter, dist1,
      List.range_succ]
  have h1 : (nucleationStepMech (exParams ℚ) 32767 (dist1 ℚ) 1
      [{ exPartMech ℚ 0 with support_points := [(0, fun _ => 0), (1, fun _ => 10)] }]).map
        (fun n => (n.center 0, n.seededTime)) = [(0, 1), (10, 1)] := by
    simp only [nucleationStepMech, List.map_cons, List.map_nil, reconcile_single]
    simp [PartitionMech.detect, detectMech, detectPointMech, exPartMech,
      proposeAt, isClose, pointJMech, JMech, exParams, dxMech, minDistMech, nRadiusMech,
      dist1, renumberFrom]
    norm_num [renumberFrom]
  refine ⟨?_, h1, h2, ?_⟩
  · simp [PartitionMech.detect, detectMech, detectPointMech, exPartMech,
      proposeAt, isClose, pointJMech, JMech, exParams, dxMech, minDistMech, nRadiusMech,
      dist1, attrs]
    norm_num [attrs]
  · intro h
    rw [h2] at h
    have hl := h.length_eq
    have hlen := congrArg List.length h1
    simp only [List.length_map, List.length_cons, List.length_nil] at hl hlen
    omega

/-- C3 (amended): for every two splits of the same candidates over partitions in which no
partition holds two candidates at distance at most the minimum separation, the canonical
lists hold the same (centre, radius, seededTime, seedingTime) tuples, as many times each.
In each split the canonical list consists, in rank order, of the candidates that have no
rival among the other candidates, whichever partitions hold them. -/
theorem C3_partition_invariance (dist : Point dim α → Point dim α → α)
    (hsymm : ∀ p q, dist p q = dist q p) (minDist : α)
    (parts1 parts2 : List (List (nucleus dim α)))
    (hperm : (parts1.flatten.map attrs).Perm (parts2.flatten.map attrs))
    (hloc1 : ∀ l ∈ parts1, l.Pairwise (fun a b => minDist < dist a.center b.center))
    (hloc2 : ∀ l ∈ parts2, l.Pairwise (fun a b => minDist < dist a.center b.center)) :
    ((reconcile dim dist minDist parts1).map attrs).Perm
        ((reconcile dim dist minDist parts2).map attrs) ∧
      (reconcile dim dist minDist parts1).map attrs
        = (parts1.flatten.map attrs).filter
            (unrivalled dist minDist (parts1.flatten.map attrs)) ∧
      (reconcile dim dist minDist parts2).map attrs
        = (parts2.flatten.map attrs).filter
            (unrivalled dist minDist (parts2.flatten.map attrs)) := by
  have e1 := reconcile_attrs_eq dist hsymm minDist parts1 hloc1
  have e2 := reconcile_attrs_eq dist hsymm minDist parts2 hloc2
  refine ⟨?_, e1, e2⟩
  rw [e1, e2, unrivalled_perm dist minDist _ _ hperm]
  exact hperm.filter _

/-- Witness of C3 (amended): the candidates A (centre 0, seededTime 1), B (centre 1,
seededTime 2) and C (centre 5, seededTime 3) on the line, with minimum separation 1, split
over three partitions and split as `[A, C]`, `[B]`.  B has the rival A; both splits give
the canonical tuples of A and C. -/
theorem C3_witness :
    (∀ p q, dist1 ℚ p q = dist1 ℚ q p) ∧
    (([[nuc1 ℚ 0 1], [nuc1 ℚ 1 2], [nuc1 ℚ 5 3]] :
        List (List (nucleus 1 ℚ))).flatten.map attrs).Perm
      (([[nuc1 ℚ 0 1, nuc1 ℚ 5 3], [nuc1 ℚ 1 2]] :
        List (List (nucleus 1 ℚ))).flatten.map attrs) ∧
    (∀ l ∈ ([[nuc1 ℚ 0 1], [nuc1 ℚ 1 2], [nuc1 ℚ 5 3]] : List (List (nucleus 1 ℚ))),
      l.Pairwise (fun a b => (1 : ℚ) < dist1 ℚ a.center b.center)) ∧
    (∀ l ∈ ([[nuc1 ℚ 0 1, nuc1 ℚ 5 3], [nuc1 ℚ 1 2]] : List (List (nucleus 1 ℚ))),
      l.Pairwise (fun a b => (1 : ℚ) < dist1 ℚ a.center b.center)) ∧
    (reconcile 1 (dist1 ℚ) 1 [[nuc1 ℚ 0 1], [nuc1 ℚ 1 2], [nuc1 ℚ 5 3]]).map attrs
      = [attrs (nuc1 ℚ 0 1), attrs (nuc1 ℚ 5 3)] ∧
    (reconcile 1 (dist1 ℚ) 1 [[nuc1 ℚ 0 1, nuc1 ℚ 5 3], [nuc1 ℚ 1 2]]).map attrs
      = [attrs (nuc1 ℚ 0 1), attrs (nuc1 ℚ 5 3)] ∧
    ((reconcile 1 (dist1 ℚ) 1 [[nuc1 ℚ 0 1], [nuc1 ℚ 1 2], [nuc1 ℚ 5 3]]).map
        attrs).Perm
      ((reconcile 1 (dist1 ℚ) 1 [[nuc1 ℚ 0 1, nuc1 ℚ 5 3], [nuc1 ℚ 1 2]]).map attrs) := by
  have hp : (([[nuc1 ℚ 0 1], [nuc1 ℚ 1 2], [nuc1 ℚ 5 3]] :
        List (List (nucleus 1 ℚ))).flatten.map attrs).Perm
      (([[nuc1 ℚ 0 1, nuc1 ℚ 5 3], [nuc1 ℚ 1 2]] :
        List (List (nucleus 1 ℚ))).flatten.map attrs) := by
    simp only [List.flatten, List.append_nil, List.cons_append, List.nil_append,
      List.map_cons, List.map_nil]
    exact List.Perm.cons _ (List.Perm.swap _ _ _)
  have hl1 : ∀ l ∈ ([[nuc1 ℚ 0 1], [nuc1 ℚ 1 2], [nuc1 ℚ 5 3]] : List (List (nucleus 1 ℚ))),
      l.Pairwise (fun a b => (1 : ℚ) < dist1 ℚ a.center b.center) := by simp
  have hl2 : ∀ l ∈ ([[nuc1 ℚ 0 1, nuc1 ℚ 5 3], [nuc1 ℚ 1 2]] : List (List (nucleus 1 ℚ))),
      l.Pairwise (fun a b => (1 : ℚ) < dist1 ℚ a.center b.center) := by
    simp [dist1, nuc1]
  have h := C3_partition_invariance (dist1 ℚ) (dist1_comm ℚ) 1
    [[nuc1 ℚ 0 1], [nuc1 ℚ 1 2], [nuc1 ℚ 5 3]]
    [[nuc1 ℚ 0 1, nuc1 ℚ 5 3], [nuc1 ℚ 1 2]] hp hl1 hl2
  refine ⟨dist1_comm ℚ, hp, hl1, hl2, ?_, ?_, h.1⟩
  · rw [h.2.1]
    simp [unrivalled, rival, attrs, nuc1, dist1, List.filter_cons, List.countP_cons]
    norm_num
  · rw [h.2.2]
    simp [unrivalled, rival, attrs, nuc1, dist1, List.filter_cons, List.countP_cons]
    norm_num

/-- C4, as stated, fails: two candidates of different partitions at the same place with the
same `seededTime` and no other candidate anywhere are both dropped; the canonical list is
empty instead of holding the candidate of the lower rank. -/
theorem C4_counterexample :
    reconcile 1 (dist1 ℚ) 1 [[nuc1 ℚ 0 1], [nuc1 ℚ 0 1]] = [] := by
  simp [reconcile, filterNuclei, filterStep, scanProc2, scanI2, packNuclei, packOne, rd,
    readCenter, dist1, nuc1, List.range_succ]

/-- C4 (amended): two candidates of different partitions whose centres are within the
minimum separation of each other and whose `seededTime` values are equal are both
discarded by the reconciliation; when they are the only candidates the canonical list is
empty. -/
theorem C4_equal_times_both_discarded (dist : Point dim α → Point dim α → α) (minDist : α)
    (locals : List (List (nucleus dim α))) (p q : Nat) (a b : nucleus dim α)
    (ha : (p, a) ∈ candidates locals) (hb : (q, b) ∈ candidates locals) (hpq : p ≠ q)
    (hab : dist a.center b.center ≤ minDist) (hba : dist b.center a.center ≤ minDist)
    (ht : a.seededTime = b.seededTime) :
    discarded dist minDist locals (p, a) ∧ discarded dist minDist locals (q, b) ∧
    reconcile dim dist minDist locals
      = renumberFrom 0 (((candidates locals).filter
          (fun pa => decide (¬ discarded dist minDist locals pa))).map Prod.snd) ∧
    reconcile dim dist minDist [[a], [b]] = [] := by
  refine ⟨⟨(q, b), hb, fun h => hpq h.symm, hab, le_of_eq ht.symm⟩,
    ⟨(p, a), ha, hpq, hba, le_of_eq ht⟩, reconcile_eq dist minDist locals, ?_⟩
  rw [reconcile_eq]
  simp [candidates, discarded, List.enum, renumberFrom, hab, hba, ht]

/-- Witness of C4 (amended): the two candidates of the counterexample. -/
theorem C4_witness :
    ((0, nuc1 ℚ 0 1) ∈ candidates [[nuc1 ℚ 0 1], [nuc1 ℚ 0 1]]) ∧
    ((1, nuc1 ℚ 0 1) ∈ candidates [[nuc1 ℚ 0 1], [nuc1 ℚ 0 1]]) ∧ (0 : Nat) ≠ 1 ∧
    dist1 ℚ (nuc1 ℚ 0 1).center (nuc1 ℚ 0 1).center ≤ 1 ∧
    (nuc1 ℚ 0 1).seededTime = (nuc1 ℚ 0 1).seededTime ∧
    (discarded (dist1 ℚ) 1 [[nuc1 ℚ 0 1], [nuc1 ℚ 0 1]] (0, nuc1 ℚ 0 1) ∧
      discarded (dist1 ℚ) 1 [[nuc1 ℚ 0 1], [nuc1 ℚ 0 1]] (1, nuc1 ℚ 0 1) ∧
      reconcile 1 (dist1 ℚ) 1 [[nuc1 ℚ 0 1], [nuc1 ℚ 0 1]]
        = renumberFrom 0 (((candidates [[nuc1 ℚ 0 1], [nuc1 ℚ 0 1]]).filter
            (fun pa => decide (¬ discarded (dist1 ℚ) 1 [[nuc1 ℚ 0 1], [nuc1 ℚ 0 1]] pa))).map
              Prod.snd) ∧
      reconcile 1 (dist1 ℚ) 1 [[nuc1 ℚ 0 1], [nuc1 ℚ 0 1]] = []) :=
  ⟨by simp [candidates, List.enum], by simp [candidates, List.enum], by decide,
    by simp [dist1, nuc1], rfl,
    C4_equal_times_both_discarded (dist1 ℚ) 1 [[nuc1 ℚ 0 1], [nuc1 ℚ 0 1]] 0 1 (nuc1 ℚ 0 1)
      (nuc1 ℚ 0 1) (by simp [candidates, List.enum]) (by simp [candidates, List.enum])
      (by decide) (by simp [dist1, nuc1]) (by simp [dist1, nuc1]) rfl⟩

/-- C5 (cross-rank dedup): with exactly two partitions that contribute one candidate each,
centres within the minimum separation and different `seededTime`, the canonical list holds
exactly one nucleus, the candidate seeded earlier, whichever rank proposed it. -/
theorem C5_cross_rank_dedup (dist : Point dim α → Point dim α → α) (minDist : α)
    (a b : nucleus dim α)
    (hab : dist a.center b.center ≤ minDist) (hba : dist b.center a.center ≤ minDist)
    (ht : a.seededTime < b.seededTime) :
    reconcile dim dist minDist [[a], [b]] = [{ a with index := 0 }] ∧
    reconcile dim dist minDist [[b], [a]] = [{ a with index := 0 }] := by
  constructor
  · rw [reconcile_eq]
    simp [candidates, discarded, List.enum, renumberFrom, hab, hba, ht, le_of_lt ht]
  · rw [reconcile_eq]
    simp [candidates, discarded, List.enum, renumberFrom, hab, hba, ht, le_of_lt ht]

/-- Witness of C5, the scenario of the specification: two partitions detect a candidate at
the same place (distance 0) with `seededTime` 1 and 2; the one with `seededTime` 1 is kept. -/
theorem C5_witness :
    dist1 ℚ (nuc1 ℚ 0 1).center (nuc1 ℚ 0 2).center ≤ 1 ∧
    dist1 ℚ (nuc1 ℚ 0 2).center (nuc1 ℚ 0 1).center ≤ 1 ∧
    (nuc1 ℚ 0 1).seededTime < (nuc1 ℚ 0 2).seededTime ∧
    (reconcile 1 (dist1 ℚ) 1 [[nuc1 ℚ 0 1], [nuc1 ℚ 0 2]] = [{ nuc1 ℚ 0 1 with index := 0 }] ∧
      reconcile 1 (dist1 ℚ) 1 [[nuc1 ℚ 0 2], [nuc1 ℚ 0 1]] = [{ nuc1 ℚ 0 1 with index := 0 }]) :=
  ⟨by simp [dist1, nuc1], by simp [dist1, nuc1], by simp [nuc1],
    C5_cross_rank_dedup (dist1 ℚ) 1 (nuc1 ℚ 0 1) (nuc1 ℚ 0 2)
      (by simp [dist1, nuc1]) (by simp [dist1, nuc1]) (by simp [nuc1])⟩

end ClaimsSplit

section ClaimsSeeder
variable {α : Type} [LinearOrderedField α] {dim : Nat}

/-- C6 (time window of the Seeder).  Let `q` be a partition before a call of
`modifySolutionFields` at time `t` and `r` the same partition after it, in the mechanics
model and in the two-field application.  The order parameter of `r` is what the seeding
loops over `r.nuclei` and over the mesh give from the order parameter of `q`.  A nucleus of
`r.nuclei` with `t ≤ T0` or `t ≥ T0 + W` changes nothing: the result is the one obtained
with that nucleus removed from the list.  A nucleus with `T0 < t < T0 + W` writes at every
locally owned mesh point within its seeding range (`r ≤ 2*radius` in the mechanics model,
`r ≤ radius + 3*dx` in the application; the mesh lists every point once): right after the
loop over the mesh for this nucleus the point holds the profile value, and it still holds
it after the call unless a later nucleus of the list writes at the same point. -/
theorem C6_time_window (P : Parameters α) (RAND_MAX : Nat) (exp tanh : α → α)
    (dist : Point dim α → Point dim α → α) (t : α) (inc : Nat)
    (partsM : List (PartitionMech dim α)) (partsA : List (PartitionApp dim α)) :
    List.Forall₂
      (fun q r =>
        r.n1 = seedNucleiMech tanh dist q.support_points q.owned t r.nuclei q.n1 ∧
        ∀ pre nuc post, r.nuclei = pre ++ nuc :: post →
          ((t ≤ nuc.seededTime ∨ nuc.seededTime + nuc.seedingTime ≤ t) →
            r.n1 = seedNucleiMech tanh dist q.support_points q.owned t (pre ++ post) q.n1) ∧
          ((nuc.seededTime < t ∧ t < nuc.seededTime + nuc.seedingTime) →
            ∀ it ∈ q.support_points, (q.support_points.map Prod.fst).Nodup →
              q.owned it.1 = true → dist it.2 nuc.center ≤ 2 * nuc.radius →
              (seedNucleiMech tanh dist q.support_points q.owned t (pre ++ [nuc]) q.n1) it.1
                = (1 / 2) * (1 - tanh ((dist it.2 nuc.center - nuc.radius) / (2 / 5))) ∧
              ((∀ m ∈ post, ¬ (dist it.2 m.center ≤ 2 * m.radius ∧
                  m.seededTime < t ∧ t < m.seededTime + m.seedingTime)) →
                r.n1 it.1
                  = (1 / 2) * (1 - tanh ((dist it.2 nuc.center - nuc.radius) / (2 / 5))))))
      partsM (modifySolutionFieldsMech P RAND_MAX tanh dist t inc partsM) ∧
    List.Forall₂
      (fun q r =>
        r.n = seedNucleiApp P tanh dist q.support_points q.owned t r.nuclei q.n ∧
        ∀ pre nuc post, r.nuclei = pre ++ nuc :: post →
          ((t ≤ nuc.seededTime ∨ nuc.seededTime + nuc.seedingTime ≤ t) →
            r.n = seedNucleiApp P tanh dist q.support_points q.owned t (pre ++ post) q.n) ∧
          ((nuc.seededTime < t ∧ t < nuc.seededTime + nuc.seedingTime) →
            ∀ it ∈ q.support_points, (q.support_points.map Prod.fst).Nodup →
              q.owned it.1 = true → dist it.2 nuc.center ≤ nuc.radius + 3 * dxApp P →
              (seedNucleiApp P tanh dist q.support_points q.owned t (pre ++ [nuc]) q.n) it.1
                = (1 / 2) * (1 - tanh ((dist it.2 nuc.center - P.spanX / 50) / dxApp P)) ∧
              ((∀ m ∈ post, ¬ (dist it.2 m.center ≤ m.radius + 3 * dxApp P ∧
                  m.seededTime < t ∧ t < m.seededTime + m.seedingTime)) →
                r.n it.1
                  = (1 / 2) * (1 - tanh ((dist it.2 nuc.center - P.spanX / 50) / dxApp P)))))
      partsA (modifySolutionFieldsApp P exp tanh dist t inc partsA) := by
  constructor
  · refine (modifySolutionFieldsMech_n1 P RAND_MAX tanh dist t inc partsM).imp ?_
    intro q r hqr
    refine ⟨hqr, ?_⟩
    intro pre nuc post hl
    rw [hl] at hqr
    refine ⟨fun hout => ?_, fun hwin it hmem hnd hown hrange => ⟨?_, fun hpost => ?_⟩⟩
    · rw [hqr]
      exact seedNucleiMech_drop tanh dist _ _ t pre post nuc hout _
    · exact seedNucleiMech_snoc tanh dist _ _ t pre nuc it hnd hmem hown hrange hwin _
    · rw [hqr]
      exact seedNucleiMech_last tanh dist _ _ t pre post nuc it hnd hmem hown hrange hwin
        hpost _
  · refine (modifySolutionFieldsApp_n_only P exp tanh dist t inc partsA).imp ?_
    intro q r hqr
    refine ⟨hqr, ?_⟩
    intro pre nuc post hl
    rw [hl] at hqr
    refine ⟨fun hout => ?_, fun hwin it hmem hnd hown hrange => ⟨?_, fun hpost => ?_⟩⟩
    · rw [hqr]
      exact seedNucleiApp_drop P tanh dist _ _ t pre post nuc hout _
    · exact seedNucleiApp_snoc P tanh dist _ _ t pre nuc it hnd hmem hown hrange hwin _
    · rw [hqr]
      exact seedNucleiApp_last P tanh dist _ _ t pre post nuc it hnd hmem hown hrange hwin
        hpost _

/-- Witness of C6: one partition of the mechanics model that owns the point 7, with `J = 1`
there, and `tanh` replaced by the zero function.  The call at time 1 accepts a nucleus with
`seededTime = 1` and leaves the order parameter at 0; the call at time 2 finds it inside
its window and writes 1/2 at the point.  In the two-field application the nucleus accepted
at time 1 has the window `0 < t < 31`: the order parameter at the point is written at time
1 and is left as it is by a call at time 40. -/
theorem C6_witness :
    (modifySolutionFieldsMech { exParams ℚ with c_matrix := 1 / 100 } 32767 (fun _ => 0)
        (dist1 ℚ) 1 1 [{ exPartMech ℚ 7 with rand := fun _ => 32767 }]).map
        (fun r => (r.nuclei.map (fun m => (m.seededTime, m.seedingTime)), r.n1 0))
      = [([(1, 10000)], 0)] ∧
    (modifySolutionFieldsMech { exParams ℚ with c_matrix := 1 / 100 } 32767 (fun _ => 0)
        (dist1 ℚ) 2 2
        (modifySolutionFieldsMech { exParams ℚ with c_matrix := 1 / 100 } 32767 (fun _ => 0)
          (dist1 ℚ) 1 1 [{ exPartMech ℚ 7 with rand := fun _ => 32767 }])).map
        (fun r => (r.nuclei.map (fun m => (m.seededTime, m.seedingTime)), r.n1 0))
      = [([(1, 10000)], 1 / 2)] ∧
    (modifySolutionFieldsApp (exParams ℚ) (fun _ => 1) (fun _ => 0) (dist1 ℚ) 1 1
        [exPartApp ℚ 7]).map
        (fun r => (r.nuclei.map (fun m => (m.seededTime, m.seedingTime)), r.n 0))
      = [([(0, 31)], 1 / 2)] ∧
    (modifySolutionFieldsApp (exParams ℚ) (fun _ => 1) (fun _ => 0) (dist1 ℚ) 40 2
        (modifySolutionFieldsApp (exParams ℚ) (fun _ => 1) (fun _ => 0) (dist1 ℚ) 1 1
          [{ exPartApp ℚ 7 with n := fun _ => 9 }])).map
        (fun r => (r.nuclei.map (fun m => (m.seededTime, m.seedingTime)), r.n 0))
      = [([(0, 31)], 1 / 2)] ∧
    List.Forall₂
      (fun q r =>
        r.n1 = seedNucleiMech (fun _ => 0) (dist1 ℚ) q.support_points q.owned 2 r.nuclei q.n1)
      (modifySolutionFieldsMech { exParams ℚ with c_matrix := 1 / 100 } 32767 (fun _ => 0)
        (dist1 ℚ) 1 1 [{ exPartMech ℚ 7 with rand := fun _ => 32767 }])
      (modifySolutionFieldsMech { exParams ℚ with c_matrix := 1 / 100 } 32767 (fun _ => 0)
        (dist1 ℚ) 2 2
        (modifySolutionFieldsMech { exParams ℚ with c_matrix := 1 / 100 } 32767 (fun _ => 0)
          (dist1 ℚ) 1 1 [{ exPartMech ℚ 7 with rand := fun _ => 32767 }])) := by
  refine ⟨?_, ?_, ?_, ?_,
    (C6_time_window { exParams ℚ with c_matrix := 1 / 100 } 32767 (fun _ => 1)
      (fun _ => 0) (dist1 ℚ) 2 2
      (modifySolutionFieldsMech { exParams ℚ with c_matrix := 1 / 100 } 32767 (fun _ => 0)
        (dist1 ℚ) 1 1 [{ exPartMech ℚ 7 with rand := fun _ => 32767 }])
      ([] : List (PartitionApp 1 ℚ))).1.imp (fun _ _ h => h.1)⟩
  · simp [modifySolutionFieldsMech, activeMech, exParams, exPartMech,
      PartitionMech.detectState, detectMech, detectPointMech, proposeAt, isClose, pointJMech,
      JMech, dxMech, reconcile_single, renumberFrom, seedNucleiMech, seedPointMech]
  · simp [modifySolutionFieldsMech, activeMech, exParams, exPartMech,
      PartitionMech.detectState, detectMech, detectPointMech, proposeAt, isClose, pointJMech,
      JMech, dxMech, reconcile_single, renumberFrom, seedNucleiMech, seedPointMech]
    norm_num [dist1, minDistMech, nRadiusMech, renumberFrom]
  · simp [modifySolutionFieldsApp, activeApp, exParams, exPartApp,
      PartitionApp.detectState, detectApp, detectPointApp, proposeAt, isClose, pointJApp,
      JApp, dxApp, reconcile_single, renumberFrom, seedNucleiApp, seedPointApp]
    norm_num [dist1, minDistApp, nRadiusApp, renumberFrom]
  · simp [modifySolutionFieldsApp, activeApp, exParams, exPartApp,
      PartitionApp.detectState, detectApp, detectPointApp, proposeAt, isClose, pointJApp,
      JApp, dxApp, reconcile_single, renumberFrom, seedNucleiApp, seedPointApp]
    norm_num [dist1, minDistApp, nRadiusApp, renumberFrom]

end ClaimsSeeder

section ClaimsProfile
variable {dim : Nat}

/-- C7 (seed profile).  Let `q` be a partition before a call of `modifySolutionFields` at
time `t` and `r` the same partition after it.  For a nucleus of `r.nuclei` inside its time
window and a locally owned mesh point at distance `r` from its centre within seeding range
(the mesh lists every point once): right after the loop over the mesh for this nucleus the
primary order parameter at the point is `0.5*(1 - tanh((r - radius)/w))` with `radius` the
radius of that nucleus, whatever field the seeding loops started from; it is `0.5` at
`r = radius`; and it is still the value after the call unless a later nucleus of the list
writes at the same point.  In the mechanics model `w = 0.4`.  In the two-field application
`w = dx`, and the constant `spanX/50` that the code subtracts is the radius of every
nucleus of `r.nuclei`, provided that the local lists hold only nuclei of that radius before
the call (true of the empty lists of the start, and true again after every call). -/
theorem C7_seed_profile (P : Parameters ℝ) (RAND_MAX : Nat) (exp : ℝ → ℝ)
    (dist : Point dim ℝ → Point dim ℝ → ℝ) (t : ℝ) (inc : Nat)
    (partsM : List (PartitionMech dim ℝ)) (partsA : List (PartitionApp dim ℝ))
    (hinv : ∀ q ∈ partsA, ∀ m ∈ q.localNuclei, m.radius = P.spanX / 50) :
    List.Forall₂
      (fun q r =>
        r.n1 = seedNucleiMech Real.tanh dist q.support_points q.owned t r.nuclei q.n1 ∧
        ∀ pre nuc post, r.nuclei = pre ++ nuc :: post →
          (nuc.seededTime < t ∧ t < nuc.seededTime + nuc.seedingTime) →
          ∀ it ∈ q.support_points, (q.support_points.map Prod.fst).Nodup →
            q.owned it.1 = true → dist it.2 nuc.center ≤ 2 * nuc.radius →
            (∀ field : Nat → ℝ,
              (seedNucleiMech Real.tanh dist q.support_points q.owned t (pre ++ [nuc])
                  field) it.1
                = 1 / 2 * (1 - Real.tanh ((dist it.2 nuc.center - nuc.radius) / (2 / 5)))) ∧
            (dist it.2 nuc.center = nuc.radius → ∀ field : Nat → ℝ,
              (seedNucleiMech Real.tanh dist q.support_points q.owned t (pre ++ [nuc])
                  field) it.1 = 1 / 2) ∧
            ((∀ m ∈ post, ¬ (dist it.2 m.center ≤ 2 * m.radius ∧
                m.seededTime < t ∧ t < m.seededTime + m.seedingTime)) →
              r.n1 it.1
                = 1 / 2 * (1 - Real.tanh ((dist it.2 nuc.center - nuc.radius) / (2 / 5)))))
      partsM (modifySolutionFieldsMech P RAND_MAX Real.tanh dist t inc partsM) ∧
    List.Forall₂
      (fun q r =>
        r.n = seedNucleiApp P Real.tanh dist q.support_points q.owned t r.nuclei q.n ∧
        (∀ m ∈ r.nuclei, m.radius = P.spanX / 50) ∧
        ∀ pre nuc post, r.nuclei = pre ++ nuc :: post →
          (nuc.seededTime < t ∧ t < nuc.seededTime + nuc.seedingTime) →
          ∀ it ∈ q.support_points, (q.support_points.map Prod.fst).Nodup →
            q.owned it.1 = true → dist it.2 nuc.center ≤ nuc.radius + 3 * dxApp P →
            (∀ field : Nat → ℝ,
              (seedNucleiApp P Real.tanh dist q.support_points q.owned t (pre ++ [nuc])
                  field) it.1
                = 1 / 2 * (1 - Real.tanh ((dist it.2 nuc.center - nuc.radius) / dxApp P))) ∧
            (dist it.2 nuc.center = nuc.radius → ∀ field : Nat → ℝ,
              (seedNucleiApp P Real.tanh dist q.support_points q.owned t (pre ++ [nuc])
                  field) it.1 = 1 / 2) ∧
            ((∀ m ∈ post, ¬ (dist it.2 m.center ≤ m.radius + 3 * dxApp P ∧
                m.seededTime < t ∧ t < m.seededTime + m.seedingTime)) →
              r.n it.1
                = 1 / 2 * (1 - Real.tanh ((dist it.2 nuc.center - nuc.radius) / dxApp P))))
      partsA (modifySolutionFieldsApp P exp Real.tanh dist t inc partsA) := by
  constructor
  · refine (modifySolutionFieldsMech_n1 P RAND_MAX Real.tanh dist t inc partsM).imp ?_
    intro q r hqr
    refine ⟨hqr, ?_⟩
    intro pre nuc post hl hwin it hmem hnd hown hrange
    have hval : ∀ field : Nat → ℝ,
        (seedNucleiMech Real.tanh dist q.support_points q.owned t (pre ++ [nuc]) field) it.1
          = 1 / 2 * (1 - Real.tanh ((dist it.2 nuc.center - nuc.radius) / (2 / 5))) :=
      fun field => seedNucleiMech_snoc Real.tanh dist _ _ t pre nuc it hnd hmem hown hrange
        hwin field
    refine ⟨hval, ?_, ?_⟩
    · intro he field
      rw [hval, he]
      simp
    · intro hpost
      rw [hqr, hl]
      exact seedNucleiMech_last Real.tanh dist _ _ t pre post nuc it hnd hmem hown hrange
        hwin hpost q.n1
  · refine (modifySolutionFieldsApp_n P exp Real.tanh dist t inc partsA hinv).imp ?_
    intro q r hqr
    obtain ⟨hn, hrad⟩ := hqr
    refine ⟨hn, hrad, ?_⟩
    intro pre nuc post hl hwin it hmem hnd hown hrange
    have hnr : nuc.radius = P.spanX / 50 := hrad nuc (by rw [hl]; simp)
    have hval : ∀ field : Nat → ℝ,
        (seedNucleiApp P Real.tanh dist q.support_points q.owned t (pre ++ [nuc]) field) it.1
          = 1 / 2 * (1 - Real.tanh ((dist it.2 nuc.center - nuc.radius) / dxApp P)) := by
      intro field
      rw [hnr]
      exact seedNucleiApp_snoc P Real.tanh dist _ _ t pre nuc it hnd hmem hown hrange
        hwin field
    refine ⟨hval, ?_, ?_⟩
    · intro he field
      rw [hval, he]
      simp
    · intro hpost
      rw [hn, hl, hnr]
      exact seedNucleiApp_last P Real.tanh dist _ _ t pre post nuc it hnd hmem hown hrange
        hwin hpost q.n

/-- Witness of C7: the two-field application at time 1 with one partition that owns the
point 0.  The call yields the canonical nucleus `exNucApp` (radius `spanX/50 = 2`, window
`0 < t < 31`) and stores `0.5*(1 - tanh((0 - 2)/dx))` at the point. -/
theorem C7_witness :
    (∀ q ∈ [exPartApp ℝ 0], ∀ m ∈ q.localNuclei, m.radius = (exParams ℝ).spanX / 50) ∧
    ∃ r, modifySolutionFieldsApp (exParams ℝ) Real.exp Real.tanh (dist1 ℝ) 1 1
        [exPartApp ℝ 0] = [r] ∧
      r.nuclei = [exNucApp ℝ] ∧
      r.n 0 = 1 / 2 * (1 - Real.tanh ((dist1 ℝ (fun _ => 0) (exNucApp ℝ).center
          - (exNucApp ℝ).radius) / dxApp (exParams ℝ))) ∧
      r.n 0 = 1 / 2 * (1 - Real.tanh (-2 / 100)) := by
  have hinv : ∀ q ∈ [exPartApp ℝ 0], ∀ m ∈ q.localNuclei,
      m.radius = (exParams ℝ).spanX / 50 := by simp [exPartApp]
  have h := (C7_seed_profile (exParams ℝ) 32767 Real.exp (dist1 ℝ) 1 1
    ([] : List (PartitionMech 1 ℝ)) [exPartApp ℝ 0] hinv).2
  obtain ⟨r, rest, hr, hrest, hout⟩ := List.forall₂_cons_left_iff.1 h
  have hnil : rest = [] := List.forall₂_nil_left_iff.1 hrest
  subst hnil
  have hnuc : r.nuclei = [exNucApp ℝ] := by
    have hs := modifySolutionFieldsApp_single (exParams ℝ) Real.exp Real.tanh (dist1 ℝ) 1 1
      (exPartApp ℝ 0) (by decide)
    rw [hout] at hs
    simp only [List.map_cons, List.map_nil, List.cons.injEq, and_true] at hs
    rw [hs]
    simp [PartitionApp.detect, detectApp, detectPointApp, exPartApp, proposeAt, isClose,
      pointJApp, JApp, exParams, renumberFrom, exNucApp, Real.exp_nonneg]
    norm_num
  have hwin : (exNucApp ℝ).seededTime < 1
      ∧ 1 < (exNucApp ℝ).seededTime + (exNucApp ℝ).seedingTime := by
    simp [exNucApp]
  have hrA : dist1 ℝ (fun _ => 0) (exNucApp ℝ).center
      ≤ (exNucApp ℝ).radius + 3 * dxApp (exParams ℝ) := by
    simp [dist1, exNucApp, dxApp, exParams]
    norm_num
  have hv := (hr.2.2 [] (exNucApp ℝ) [] (by rw [hnuc]; rfl) hwin (0, fun _ => 0)
    (by simp [exPartApp]) (by simp [exPartApp]) rfl hrA).2.2
    (fun m hm => absurd hm (List.not_mem_nil m))
  refine ⟨hinv, r, hout, hnuc, hv, ?_⟩
  rw [hv]
  simp [dist1, exNucApp, dxApp, exParams]

end ClaimsProfile

section ClaimsBroadcast
variable {α : Type} [LinearOrder α] [Zero α] {dim : Nat}

/-- C8 (broadcast round trip): unpacking on another rank the buffer of `dim+3` doubles per
nucleus packed from the canonical list of rank 0 gives back that list: same length and
order, and for each element the same index, radius, `seededTime`, `seedingTime` and
centre.  For an arbitrary list the round trip keeps every attribute and numbers the
elements by position. -/
theorem C8_broadcast_round_trip (dist : Point dim α → Point dim α → α) (minDist : α)
    (locals : List (List (nucleus dim α))) (l : List (nucleus dim α)) :
    broadcastNuclei dim (reconcile dim dist minDist locals) = reconcile dim dist minDist locals ∧
    (packNuclei dim l).length = l.length * (dim + 3) ∧
    broadcastNuclei dim l = renumberFrom 0 l ∧
    (broadcastNuclei dim l).length = l.length ∧
    (broadcastNuclei dim l).map attrs = l.map attrs := by
  refine ⟨?_, length_packNuclei l, broadcastNuclei_eq l, ?_, ?_⟩
  · rw [broadcastNuclei_eq, reconcile_eq, renumberFrom_idem]
  · rw [broadcastNuclei_eq, length_renumberFrom]
  · rw [broadcastNuclei_eq, map_attrs_renumberFrom]

/-- Witness of C8: the canonical list of two nuclei, at 0 and at 5, comes back unchanged. -/
theorem C8_witness :
    broadcastNuclei 1 (reconcile 1 (dist1 ℚ) 1 [[nuc1 ℚ 0 1], [nuc1 ℚ 5 2]])
        = reconcile 1 (dist1 ℚ) 1 [[nuc1 ℚ 0 1], [nuc1 ℚ 5 2]] ∧
    (reconcile 1 (dist1 ℚ) 1 [[nuc1 ℚ 0 1], [nuc1 ℚ 5 2]]).map (fun n => (n.index, n.center 0))
        = [(0, 0), (1, 5)] := by
  refine ⟨(C8_broadcast_round_trip (dist1 ℚ) 1 [[nuc1 ℚ 0 1], [nuc1 ℚ 5 2]] []).1, ?_⟩
  simp [reconcile, filterNuclei, filterStep, scanProc2, scanI2, packNuclei, packOne, rd,
    readCenter, dist1, nuc1, List.range_succ]

end ClaimsBroadcast

section ClaimsDetector
variable {α : Type} [LinearOrderedField α] {dim : Nat}

/-- C9, as stated, fails.  Mechanics model, one partition that owns the point 0.  The call
at time 0 starts from the empty list and proposes a nucleus at 0.  In the call at time 1 the
list still holds that nucleus; the point 0 has a sample `≤ J`, nothing has been proposed
in this step, so no nucleus proposed in this step is near the point, and still no candidate
is appended. -/
theorem C9_counterexample :
    (exPartMech ℚ 0).detect (exParams ℚ) 32767 (dist1 ℚ) 0 = [exNucMech ℚ] ∧
    ((0 : Nat) : ℚ) / ((32767 : Nat) : ℚ)
        ≤ pointJMech (exParams ℚ) 1 (fun _ => 0) (fun _ => 0) (fun _ => 0) (fun _ => 1) 0 ∧
    (∀ m ∈ ([] : List (nucleus 1 ℚ)), minDistMech ≤ dist1 ℚ m.center (fun _ => 0)) ∧
    (detectPointMech (exParams ℚ) 32767 (dist1 ℚ) (fun _ => true)
        (fun _ => 0) (fun _ => 0) (fun _ => 0) (fun _ => 1) 1 (fun _ => 0)
        ([exNucMech ℚ] ++ [], 1) (0, fun _ => 0)).1 = [exNucMech ℚ] := by
  refine ⟨?_, ?_, by simp, ?_⟩
  · simp [PartitionMech.detect, detectMech, detectPointMech, exPartMech, proposeAt, isClose,
      pointJMech, JMech, exParams, dxMech, nRadiusMech, exNucMech]
    norm_num
  · simp [pointJMech, JMech, exParams, dxMech]
    norm_num
  · simp [detectPointMech, proposeAt, isClose, pointJMech, JMech, exParams, dxMech,
      minDistMech, nRadiusMech, dist1, exNucMech]

/-- C9 (amended): at a locally owned point whose random sample is at most `J`, the detector
appends a candidate centred at that point if and only if every nucleus already in
`localNuclei`, whether proposed in this step or kept from an earlier one, is at distance at
least the minimum separation from the point; when some nucleus of the list is closer than
that, the list is unchanged.  In the mechanics model and in the two-field application. -/
theorem C9_local_dedup (P : Parameters α) (RAND_MAX : Nat) (exp : α → α)
    (dist : Point dim α → Point dim α → α) (owned : Nat → Bool)
    (n1 n2 n3 n c : Nat → α) (t : α) (rand : Nat → Nat)
    (st : List (nucleus dim α) × Nat) (it : Nat × Point dim α)
    (hown : owned it.1 = true) :
    ((rand st.2 : α) / (RAND_MAX : α) ≤ pointJMech P t n1 n2 n3 c it.1 →
      ((detectPointMech P RAND_MAX dist owned n1 n2 n3 c t rand st it).1
          = st.1 ++ [{ index := st.1.length, center := it.2, radius := nRadiusMech,
                       seededTime := t, seedingTime := 10000 * P.timeStep }]
        ↔ ∀ m ∈ st.1, minDistMech ≤ dist m.center it.2) ∧
      ((∃ m ∈ st.1, dist m.center it.2 < minDistMech) →
        (detectPointMech P RAND_MAX dist owned n1 n2 n3 c t rand st it).1 = st.1)) ∧
    (((rand st.2 % 10000 : Nat) : α) / 10000 ≤ pointJApp exp n c it.1 →
      ((detectPointApp P exp dist owned n c t rand st it).1
          = st.1 ++ [{ index := st.1.length, center := it.2, radius := P.spanX / 50,
                       seededTime := 0, seedingTime := t + 30 * P.timeStep }]
        ↔ ∀ m ∈ st.1, minDistApp P ≤ dist m.center it.2) ∧
      ((∃ m ∈ st.1, dist m.center it.2 < minDistApp P) →
        (detectPointApp P exp dist owned n c t rand st it).1 = st.1)) := by
  constructor
  · intro hJM
    have h := proposeAt_iff dist minDistMech nRadiusMech t (10000 * P.timeStep) st.1 it.2 _ _ hJM
    unfold detectPointMech
    simp only [hown, if_true]
    exact h
  · intro hJA
    have h := proposeAt_iff dist (minDistApp P) (P.spanX / 50) 0 (t + 30 * P.timeStep) st.1 it.2
      _ _ hJA
    unfold detectPointApp
    simp only [hown, if_true]
    exact h

/-- Witness of C9 (amended): `localNuclei` holds a nucleus at 20; the owned point 0, whose
sample is `0 ≤ J`, is 20 away from it, which is at least the minimum separation of both
models (10), so a candidate at 0 is appended in both. -/
theorem C9_witness :
    ((0 : Nat) : ℝ) / ((32767 : Nat) : ℝ)
        ≤ pointJMech (exParams ℝ) 1 (fun _ => 0) (fun _ => 0) (fun _ => 0) (fun _ => 1) 0 ∧
    (((0 % 10000 : Nat) : ℝ) / 10000 ≤ pointJApp Real.exp (fun _ => 0) (fun _ => 1) 0) ∧
    (∀ m ∈ [nuc1 ℝ 20 0], minDistMech ≤ dist1 ℝ m.center (fun _ => 0)) ∧
    (∀ m ∈ [nuc1 ℝ 20 0], minDistApp (exParams ℝ) ≤ dist1 ℝ m.center (fun _ => 0)) ∧
    (detectPointMech (exParams ℝ) 32767 (dist1 ℝ) (fun _ => true) (fun _ => 0) (fun _ => 0)
          (fun _ => 0) (fun _ => 1) 1 (fun _ => 0) ([nuc1 ℝ 20 0], 0) (0, fun _ => 0)).1
        = [nuc1 ℝ 20 0] ++ [{ index := [nuc1 ℝ 20 0].length, center := fun _ => 0,
                              radius := nRadiusMech, seededTime := 1,
                              seedingTime := 10000 * (exParams ℝ).timeStep }] ∧
    (detectPointApp (exParams ℝ) Real.exp (dist1 ℝ) (fun _ => true) (fun _ => 0)
          (fun _ => 1) 1 (fun _ => 0) ([nuc1 ℝ 20 0], 0) (0, fun _ => 0)).1
        = [nuc1 ℝ 20 0] ++ [{ index := [nuc1 ℝ 20 0].length, center := fun _ => 0,
                              radius := (exParams ℝ).spanX / 50, seededTime := 0,
                              seedingTime := 1 + 30 * (exParams ℝ).timeStep }] := by
  have hJM : ((0 : Nat) : ℝ) / ((32767 : Nat) : ℝ)
      ≤ pointJMech (exParams ℝ) 1 (fun _ => 0) (fun _ => 0) (fun _ => 0) (fun _ => 1) 0 := by
    simp [pointJMech, JMech, exParams, dxMech]
    norm_num
  have hJA : ((0 % 10000 : Nat) : ℝ) / 10000
      ≤ pointJApp Real.exp (fun _ => 0) (fun _ => 1) 0 := by
    simp [pointJApp, JApp]
    positivity
  have hfarM : ∀ m ∈ [nuc1 ℝ 20 0], minDistMech ≤ dist1 ℝ m.center (fun _ => 0) := by
    simp [minDistMech, nRadiusMech, dist1, nuc1]
    norm_num
  have hfarA : ∀ m ∈ [nuc1 ℝ 20 0],
      minDistApp (exParams ℝ) ≤ dist1 ℝ m.center (fun _ => 0) := by
    simp [minDistApp, exParams, dist1, nuc1]
    norm_num
  have h := C9_local_dedup (exParams ℝ) 32767 Real.exp (dist1 ℝ) (fun _ => true) (fun _ => 0)
    (fun _ => 0) (fun _ => 0) (fun _ => 0) (fun _ => 1) 1 (fun _ => 0) ([nuc1 ℝ 20 0], 0)
    (0, fun _ => 0) rfl
  exact ⟨hJM, hJA, hfarM, hfarA, (h.1 hJM).1.2 hfarM, (h.2 hJA).1.2 hfarA⟩

/-- C10, as stated, fails.  Two-field application: `J = k1*exp(-k2/(c - c0))` is computed
from the composition alone, and at a point where the order parameter `n` is 1 it is not
zero.  Mechanics model: the test is on the sum, and with `n1 = 1`, `n2 = -1`, `n3 = 0` the
order parameter `n1` exceeds the threshold while `J` is not zero. -/
theorem C10_counterexample :
    pointJApp Real.exp (fun _ => 1) (fun _ => 1 / 2) 0 ≠ 0 ∧
    pointJMech (exParams ℚ) 1 (fun _ => 1) (fun _ => -1) (fun _ => 0) (fun _ => 1) 0 ≠ 0 := by
  constructor
  · simp only [pointJApp, JApp]
    exact mul_ne_zero (by norm_num) (Real.exp_ne_zero _)
  · simp [pointJMech, JMech, exParams, dxMech]

/-- C10 (amended): in the detector of the mechanics model, at every locally owned point,
`J = 0` whenever `n1 + n2 + n3 > 1e-6` (so whenever one of the order parameters exceeds the
threshold and none of them is negative), whenever the current time exceeds
`1e9 * timeStep`, and whenever `c ≤ 0`. -/
theorem C10_forced_zero (P : Parameters α) (t : α) (n1 n2 n3 c : Nat → α) (dof : Nat) :
    (n1 dof + n2 dof + n3 dof > 1 / 1000000 → pointJMech P t n1 n2 n3 c dof = 0) ∧
    (0 ≤ n1 dof → 0 ≤ n2 dof → 0 ≤ n3 dof →
      (n1 dof > 1 / 1000000 ∨ n2 dof > 1 / 1000000 ∨ n3 dof > 1 / 1000000) →
      pointJMech P t n1 n2 n3 c dof = 0) ∧
    (t > 1000000000 * P.timeStep → pointJMech P t n1 n2 n3 c dof = 0) ∧
    (c dof ≤ 0 → pointJMech P t n1 n2 n3 c dof = 0) := by
  have hsum : n1 dof + n2 dof + n3 dof > 1 / 1000000 → pointJMech P t n1 n2 n3 c dof = 0 := by
    intro h
    simp only [pointJMech, JMech]
    rw [if_pos (Or.inr (Or.inl h))]
  refine ⟨hsum, ?_, ?_, ?_⟩
  · intro h1 h2 h3 h
    apply hsum
    rcases h with h | h | h <;> linarith
  · intro h
    simp only [pointJMech, JMech]
    rw [if_pos (Or.inl h)]
  · intro h
    simp only [pointJMech, JMech]
    rw [if_pos (Or.inr (Or.inr h))]

/-- Witness of C10 (amended): in the mechanics model a point with `n1 = 1` and `n2 = n3 = 0`
has `J = 0`, and so has every point at time `2e9` with unit time step. -/
theorem C10_witness :
    pointJMech (exParams ℚ) 1 (fun _ => 1) (fun _ => 0) (fun _ => 0) (fun _ => 1) 0 = 0 ∧
    pointJMech (exParams ℚ) 2000000000 (fun _ => 0) (fun _ => 0) (fun _ => 0) (fun _ => 1) 0
      = 0 :=
  ⟨(C10_forced_zero (exParams ℚ) 1 (fun _ => 1) (fun _ => 0) (fun _ => 0) (fun _ => 1) 0).1
      (by norm_num),
   (C10_forced_zero (exParams ℚ) 2000000000 (fun _ => 0) (fun _ => 0) (fun _ => 0)
      (fun _ => 1) 0).2.2.1 (by simp [exParams]; norm_num)⟩

end ClaimsDetector

section ClaimsOccupied
variable {α : Type} [LinearOrderedField α] {dim : Nat}

/-- C11, as stated, fails.  Two-field application: at the owned point 0 the order parameter
`n` is 1, the composition is 0.29 and `rand()` returns 100, so the sample is 0.01; the
detector has no test on `n` and proposes a candidate.  Mechanics model: at the owned point 0
with `n1 = 1` the probability is forced to `J = 0`, and when `rand()` returns 0 the test
`rand_val <= J` holds and a candidate is proposed. -/
theorem C11_counterexample :
    (detectPointApp (exParams ℝ) Real.exp (dist1 ℝ) (fun _ => true) (fun _ => 1)
        (fun _ => 29 / 100) 1 (fun _ => 100) ([], 0) (0, fun _ => 0)).1
      = [{ index := 0, center := fun _ => 0, radius := (exParams ℝ).spanX / 50,
           seededTime := 0, seedingTime := 1 + 30 * (exParams ℝ).timeStep }] ∧
    pointJMech (exParams ℚ) 1 (fun _ => 1) (fun _ => 0) (fun _ => 0) (fun _ => 1) 0 = 0 ∧
    (detectPointMech (exParams ℚ) 32767 (dist1 ℚ) (fun _ => true) (fun _ => 1) (fun _ => 0)
        (fun _ => 0) (fun _ => 1) 1 (fun _ => 0) ([], 0) (0, fun _ => 0)).1
      = [{ index := 0, center := fun _ => 0, radius := nRadiusMech, seededTime := 1,
           seedingTime := 10000 * (exParams ℚ).timeStep }] := by
  refine ⟨?_, ?_, ?_⟩
  · have hJ : ((100 % 10000 : Nat) : ℝ) / 10000
        ≤ pointJApp Real.exp (fun _ => 1) (fun _ => 29 / 100) 0 := by
      have he : (100 : ℝ) + 1 ≤ Real.exp 100 := Real.add_one_le_exp 100
      have hx : (-1 : ℝ) / (29 / 100 - 3 / 10) = 100 := by norm_num
      simp only [pointJApp, JApp, hx]
      norm_num
      linarith
    simp only [detectPointApp, if_true]
    exact proposeAt_nil _ _ _ _ _ _ _ _ hJ
  · simp [pointJMech, JMech, exParams, dxMech]
    norm_num
  · simp [detectPointMech, proposeAt, isClose, pointJMech, JMech, exParams, dxMech]
    norm_num

/-- C11 (amended): in the mechanics model, at a locally owned point where
`n1 + n2 + n3 > 1e-6` (so where one of the order parameters exceeds the threshold and none
is negative), for every value of `rand()` other than 0, that is for every sample
`rand_val > 0`, the detector leaves the local candidate list unchanged. -/
theorem C11_no_renucleation (P : Parameters α) (RAND_MAX : Nat)
    (dist : Point dim α → Point dim α → α) (owned : Nat → Bool)
    (n1 n2 n3 c : Nat → α) (t : α) (rand : Nat → Nat)
    (st : List (nucleus dim α) × Nat) (it : Nat × Point dim α)
    (hown : owned it.1 = true) (hR : 0 < RAND_MAX) (hr : rand st.2 ≠ 0) :
    (n1 it.1 + n2 it.1 + n3 it.1 > 1 / 1000000 →
      (detectPointMech P RAND_MAX dist owned n1 n2 n3 c t rand st it).1 = st.1) ∧
    (0 ≤ n1 it.1 → 0 ≤ n2 it.1 → 0 ≤ n3 it.1 →
      (n1 it.1 > 1 / 1000000 ∨ n2 it.1 > 1 / 1000000 ∨ n3 it.1 > 1 / 1000000) →
      (detectPointMech P RAND_MAX dist owned n1 n2 n3 c t rand st it).1 = st.1) := by
  have hsum : n1 it.1 + n2 it.1 + n3 it.1 > 1 / 1000000 →
      (detectPointMech P RAND_MAX dist owned n1 n2 n3 c t rand st it).1 = st.1 := by
    intro h
    have hJ : pointJMech P t n1 n2 n3 c it.1 = 0 := by
      simp only [pointJMech, JMech]
      rw [if_pos (Or.inr (Or.inl h))]
    simp only [detectPointMech, hown, if_true, hJ]
    exact proposeAt_of_lt dist _ _ _ _ _ _ _ _ (rand_val_mech_pos RAND_MAX _ hR hr)
  refine ⟨hsum, ?_⟩
  intro h1 h2 h3 h
  apply hsum
  rcases h with h | h | h <;> linarith

/-- Witness of C11 (amended): the owned point 0 with `n1 = 1`; `rand()` returns 5 and the
list, which holds a nucleus at 20, is unchanged. -/
theorem C11_witness :
    (0 : Nat) < 32767 ∧ (5 : Nat) ≠ 0 ∧
    ((1 : ℚ) + 0 + 0 > 1 / 1000000) ∧
    (detectPointMech (exParams ℚ) 32767 (dist1 ℚ) (fun _ => true) (fun _ => 1) (fun _ => 0)
        (fun _ => 0) (fun _ => 1) 1 (fun _ => 5) ([nuc1 ℚ 20 0], 0) (0, fun _ => 0)).1
      = [nuc1 ℚ 20 0] :=
  ⟨by decide, by decide, by norm_num,
    (C11_no_renucleation (exParams ℚ) 32767 (dist1 ℚ) (fun _ => true) (fun _ => 1) (fun _ => 0)
      (fun _ => 0) (fun _ => 1) 1 (fun _ => 5) ([nuc1 ℚ 20 0], 0) (0, fun _ => 0) rfl
      (by decide) (by decide)).1 (by norm_num)⟩

/-- C12 (single-rank nucleation): one partition whose local list is empty and that owns
exactly one mesh point, at which `J = 1`; after one call of `modifySolutionFields` inside
the nucleation-active window, whatever `rand()` returns (a value in `[0, RAND_MAX]`), the
canonical list holds exactly one nucleus and its centre is that point.  In the mechanics
model and in the two-field application. -/
theorem C12_single_rank_nucleation (P : Parameters α) (RAND_MAX : Nat) (exp tanh : α → α)
    (dist : Point dim α → Point dim α → α) (t : α) (inc : Nat)
    (qM : PartitionMech dim α) (qA : PartitionApp dim α) (it : Nat × Point dim α) :
    (activeMech P inc = true → qM.localNuclei = [] →
      qM.support_points.filter (fun x => qM.owned x.1) = [it] →
      pointJMech P t qM.n1 qM.n2 qM.n3 qM.c it.1 = 1 →
      (∀ k, qM.rand k ≤ RAND_MAX) →
      (modifySolutionFieldsMech P RAND_MAX tanh dist t inc [qM]).map (fun r => r.nuclei)
        = [[{ index := 0, center := it.2, radius := nRadiusMech, seededTime := t,
              seedingTime := 10000 * P.timeStep }]]) ∧
    (activeApp P inc = true → qA.localNuclei = [] →
      qA.support_points.filter (fun x => qA.owned x.1) = [it] →
      pointJApp exp qA.n qA.c it.1 = 1 →
      (modifySolutionFieldsApp P exp tanh dist t inc [qA]).map (fun r => r.nuclei)
        = [[{ index := 0, center := it.2, radius := P.spanX / 50, seededTime := 0,
              seedingTime := t + 30 * P.timeStep }]]) := by
  constructor
  · intro hact hnil hone hJ hrand
    rw [modifySolutionFieldsMech_single P RAND_MAX tanh dist t inc qM hact]
    unfold PartitionMech.detect
    rw [hnil, detectMech_single P RAND_MAX dist _ _ _ _ _ _ t _ _ it hone hJ (hrand _)]
    rfl
  · intro hact hnil hone hJ
    rw [modifySolutionFieldsApp_single P exp tanh dist t inc qA hact]
    unfold PartitionApp.detect
    rw [hnil, detectApp_single P exp dist _ _ _ _ t _ _ it hone hJ]
    rfl

/-- Witness of C12: the mechanics model with `c_matrix = dx*dx/(spanX*spanY)*0.01 = 1/100`
and composition 1 at the only point, so that `J = 1`; `rand()` returns `RAND_MAX`, the
largest sample, and the point still nucleates. -/
theorem C12_witness :
    activeMech { exParams ℚ with c_matrix := 1 / 100 } 1 = true ∧
    pointJMech { exParams ℚ with c_matrix := 1 / 100 } 1 (fun _ => 0) (fun _ => 0)
      (fun _ => 0) (fun _ => 1) 0 = 1 ∧
    (modifySolutionFieldsMech { exParams ℚ with c_matrix := 1 / 100 } 32767 (fun _ => 0)
        (dist1 ℚ) 1 1 [{ exPartMech ℚ 7 with rand := fun _ => 32767 }]).map (fun r => r.nuclei)
      = [[{ index := 0, center := fun _ => 7, radius := nRadiusMech, seededTime := 1,
            seedingTime := 10000 * (1 : ℚ) }]] := by
  have hact : activeMech { exParams ℚ with c_matrix := 1 / 100 } 1 = true := by
    simp [activeMech, exParams]
  have hJ : pointJMech { exParams ℚ with c_matrix := 1 / 100 } 1 (fun _ => 0) (fun _ => 0)
      (fun _ => 0) (fun _ => 1) 0 = 1 := by
    simp [pointJMech, JMech, exParams, dxMech]
  exact ⟨hact, hJ,
    (C12_single_rank_nucleation { exParams ℚ with c_matrix := 1 / 100 } 32767 (fun _ => 0)
      (fun _ => 0) (dist1 ℚ) 1 1 { exPartMech ℚ 7 with rand := fun _ => 32767 }
      (exPartApp ℚ 7) (0, fun _ => 7)).1 hact rfl (by simp [exPartMech]) hJ
      (fun _ => le_refl _)⟩

end ClaimsOccupied

section ClaimsEnergy
variable {α : Type} [LinearOrderedField α]

/-- C13 (energy negligibility cutoff).  If the composition `c` is at or below `1e-10` in
every lane of every quadrature point of every cell of the range, `getEnergy` leaves
`energy` and `energy_components` as they were, whatever the chemical, gradient and elastic
densities are. -/
theorem C13_energy_cutoff (n_array_elements n_q_points : Nat)
    (quad : Nat → Nat → EnergyPoint α) (cell_range : Nat × Nat) (s : EnergyState α)
    (h : ∀ cell q i, cell_range.1 ≤ cell → cell < cell_range.2 → q < n_q_points →
      i < n_array_elements → (quad cell q).c i ≤ 1 / 10000000000) :
    getEnergy n_array_elements n_q_points quad cell_range s = s ∧
      (s.energy = 0 →
        (getEnergy n_array_elements n_q_points quad cell_range s).energy = 0) := by
  have hfix := getEnergy_fixed n_array_elements n_q_points quad cell_range s h
  refine ⟨hfix, fun h0 => ?_⟩
  rw [hfix, h0]

/-- Witness of C13: composition uniformly `1e-12`, densities 1, 2 and 3, four lanes, eight
quadrature points, cells 0 to 4, totals starting at 0. -/
theorem C13_witness :
    (getEnergy 4 8 (fun _ _ => exEnergyPoint ℚ) (0, 5)
        { energy := 0, energy_components := fun _ => 0 }).energy = 0 ∧
      ∀ k, (getEnergy 4 8 (fun _ _ => exEnergyPoint ℚ) (0, 5)
        { energy := 0, energy_components := fun _ => 0 }).energy_components k = 0 := by
  have h := C13_energy_cutoff 4 8 (fun _ _ => exEnergyPoint ℚ) (0, 5)
    { energy := 0, energy_components := fun _ => 0 }
    (by intro cell q i _ _ _ _; simp only [exEnergyPoint]; norm_num)
  rw [h.1]
  exact ⟨rfl, fun _ => rfl⟩

end ClaimsEnergy

section ClaimsRegistry

/-- C14 (variable registry table).  The constructor leaves in `varInfoList` exactly the
variables with an LHS need flag, in increasing `global_var_index`, and `num_var_LHS` is
their number.  The entry at position `k` has as `global_field_index` the sum over all
preceding variables of 1 for a scalar and `dim` for a vector, `is_scalar` tells whether its
variable is `"SCALAR"`, and `scalar_or_vector_index` is the number of entries before
position `k` of the same storage kind, which is below the number of entries of that
kind. -/
theorem C14_variable_registry (R : Roster) (dim : Nat) :
    (varInfoList R dim).map (fun e => e.global_var_index)
        = (List.range R.num_var).filter
            (fun i => R.need_value_LHS i || R.need_gradient_LHS i || R.need_hessian_LHS i) ∧
      num_var_LHS R = (varInfoList R dim).length ∧
      ∀ (k : Nat) (hk : k < (varInfoList R dim).length),
        (varInfoList R dim)[k].global_field_index
            = ((List.range (varInfoList R dim)[k].global_var_index).map
                (fun j => if R.var_type j = "SCALAR" then 1 else dim)).sum ∧
          (varInfoList R dim)[k].is_scalar
            = decide (R.var_type (varInfoList R dim)[k].global_var_index = "SCALAR") ∧
          (varInfoList R dim)[k].scalar_or_vector_index
            = (((varInfoList R dim).take k).filter
                (fun e => e.is_scalar == (varInfoList R dim)[k].is_scalar)).length ∧
          (varInfoList R dim)[k].scalar_or_vector_index
            < ((varInfoList R dim).filter
                (fun e => e.is_scalar == (varInfoList R dim)[k].is_scalar)).length := by
  refine ⟨?_, ?_, ?_⟩
  · rw [varInfoList_eq, List.map_map]
    exact List.map_id _
  · rw [num_var_LHS_eq, varInfoList_eq, List.length_map]
  · intro k hk
    obtain ⟨i, hi, hn, he, ht⟩ := varInfoList_getElem R dim k hk
    rw [he, ht]
    have hcount : ∀ m, (((List.range m).filter R.needLHS).map (R.entry dim)).filter
        (fun e => e.is_scalar == (R.entry dim i).is_scalar)
        = (((List.range m).filter R.needLHS).filter
            (fun j => R.isScalar j == R.isScalar i)).map (R.entry dim) := by
      intro m
      rw [List.filter_map]
      rfl
    refine ⟨?_, rfl, ?_, ?_⟩
    · simp only [Roster.entry, Roster.offset]
      congr 2
      funext j
      simp [Roster.width, Roster.isScalar]
    · rw [hcount, List.length_map, ← countLHS_eq]
      rfl
    · rw [varInfoList_eq, hcount, List.length_map, ← countLHS_eq]
      exact filter_range_length_lt
        (fun k => R.needLHS k && (R.isScalar k == R.isScalar i)) i R.num_var hi (by simp [hn])

/-- Witness of C14: the registry of `exRoster` in two dimensions. -/
theorem C14_witness :
    varInfoList exRoster 2
        = [{ global_var_index := 0, global_field_index := 0, is_scalar := true,
             scalar_or_vector_index := 0 },
           { global_var_index := 2, global_field_index := 3, is_scalar := true,
             scalar_or_vector_index := 1 },
           { global_var_index := 3, global_field_index := 4, is_scalar := false,
             scalar_or_vector_index := 0 }] ∧
      (varInfoList exRoster 2).map (fun e => e.global_var_index) = [0, 2, 3] := by
  refine ⟨by decide, ?_⟩
  rw [(C14_variable_registry exRoster 2).1]
  decide

end ClaimsRegistry

section ClaimsAssembler

variable {E V : Type} [Add V]

/-- C15 (derivative minimality).  Whenever `getRHS` or `getLHS` runs to its end, the calls it
has made are exactly those of `rhsCellTrace`, respectively `lhsCellTrace`, cell after cell.
In `getRHS`, for every cell of the range and every variable `i`, `evaluate` is called on the
object of `i` with the flags `need_value[i]`, `need_gradient[i]`, `need_hessian[i]`, every
call of `evaluate` is of that form, and `get_gradient` or `get_hessian` is called on the
object of a variable only if its flag is set.  In `getLHS` the same holds for the entries of
`varInfoList`, whose objects are constructed for `global_field_index`, with the flags
`need_value_LHS`, `need_gradient_LHS`, `need_hessian_LHS` of `global_var_index`.  `getRHS`
runs to its end when some variable is a scalar, `getLHS` when `varInfoList` is not empty. -/
theorem C15_derivative_minimality (ops : FEOps E V) (R : Roster) (dim : Nat)
    (blank : FEEval E V) (residualRHS : (Nat → modelVariable E) → (Nat → modelResidual E))
    (residualLHS : (Nat → modelVariable E) → modelResidual E)
    (mv0 : Nat → modelVariable E) (resR0 : Nat → modelResidual E) (resL0 : modelResidual E)
    (resInfo0 : variable_info) (solutionSet : Nat → V) (currentFieldIndex : Nat)
    (dstR srcR : Nat → V) (dstL srcL : V) (cell_range : Nat × Nat) :
    (∀ s, getRHS ops R dim blank residualRHS mv0 resR0 dstR srcR cell_range = some s →
      s.fe.log = (List.range' cell_range.1 (cell_range.2 - cell_range.1)).flatMap
          (rhsCellTrace R dim ops.n_q_points) ∧
      (∀ cell i, cell_range.1 ≤ cell → cell < cell_range.2 → i < R.num_var →
        FECall.evaluate (decide (R.var_type i = "SCALAR")) i cell (R.need_value i)
          (R.need_gradient i) (R.need_hessian i) ∈ s.fe.log) ∧
      (∀ sc c cell v g h, FECall.evaluate sc c cell v g h ∈ s.fe.log →
        c < R.num_var ∧ v = R.need_value c ∧ g = R.need_gradient c ∧ h = R.need_hessian c) ∧
      (∀ sc c cell q, FECall.get_gradient sc c cell q ∈ s.fe.log →
        c < R.num_var ∧ R.need_gradient c = true) ∧
      (∀ sc c cell q, FECall.get_hessian sc c cell q ∈ s.fe.log →
        c < R.num_var ∧ R.need_hessian c = true)) ∧
    ((∃ i, i < R.num_var ∧ R.var_type i = "SCALAR") →
      ∃ s, getRHS ops R dim blank residualRHS mv0 resR0 dstR srcR cell_range = some s) ∧
    (∀ s, getLHS ops R dim blank residualLHS mv0 resL0 resInfo0 solutionSet currentFieldIndex
        dstL srcL cell_range = some s →
      (∃ tc, s.fe.log = (List.range' cell_range.1 (cell_range.2 - cell_range.1)).flatMap
          (lhsCellTrace R dim ops.n_q_points
            (selectResInfo R dim currentFieldIndex resInfo0) tc)) ∧
      (∀ cell e, cell_range.1 ≤ cell → cell < cell_range.2 → e ∈ varInfoList R dim →
        FECall.evaluate e.is_scalar e.global_field_index cell
          (R.need_value_LHS e.global_var_index) (R.need_gradient_LHS e.global_var_index)
          (R.need_hessian_LHS e.global_var_index) ∈ s.fe.log) ∧
      (∀ sc c cell v g h, FECall.evaluate sc c cell v g h ∈ s.fe.log →
        ∃ e ∈ varInfoList R dim, sc = e.is_scalar ∧ c = e.global_field_index ∧
          v = R.need_value_LHS e.global_var_index ∧
          g = R.need_gradient_LHS e.global_var_index ∧
          h = R.need_hessian_LHS e.global_var_index) ∧
      (∀ sc c cell q, FECall.get_gradient sc c cell q ∈ s.fe.log →
        ∃ e ∈ varInfoList R dim, sc = e.is_scalar ∧ c = e.global_field_index ∧
          R.need_gradient_LHS e.global_var_index = true) ∧
      (∀ sc c cell q, FECall.get_hessian sc c cell q ∈ s.fe.log →
        ∃ e ∈ varInfoList R dim, sc = e.is_scalar ∧ c = e.global_field_index ∧
          R.need_hessian_LHS e.global_var_index = true)) ∧
    (varInfoList R dim ≠ [] →
      ∃ s, getLHS ops R dim blank residualLHS mv0 resL0 resInfo0 solutionSet currentFieldIndex
        dstL srcL cell_range = some s) := by
  refine ⟨?_, ?_, ?_, ?_⟩
  · intro s hs
    have hlog := getRHS_log ops R dim blank residualRHS mv0 resR0 dstR srcR cell_range s hs
    refine ⟨hlog, ?_, ?_, ?_, ?_⟩
    · intro cell i h1 h2 hi
      rw [hlog, List.mem_flatMap]
      exact ⟨cell, (mem_cells cell_range cell).2 ⟨h1, h2⟩,
        (rhs_evaluate_mem R dim _ cell _ i cell _ _ _).2 ⟨rfl, hi, rfl, rfl, rfl, rfl⟩⟩
    · intro sc c cell v g h hev
      rw [hlog, List.mem_flatMap] at hev
      obtain ⟨cell2, _, hm⟩ := hev
      obtain ⟨_, h2, _, h4, h5, h6⟩ := (rhs_evaluate_mem R dim _ cell2 sc c cell v g h).1 hm
      exact ⟨h2, h4, h5, h6⟩
    · intro sc c cell q hev
      rw [hlog, List.mem_flatMap] at hev
      obtain ⟨cell2, _, hm⟩ := hev
      obtain ⟨_, _, h3, _, h5⟩ := (rhs_get_gradient_mem R dim _ cell2 sc c cell q).1 hm
      exact ⟨h3, h5⟩
    · intro sc c cell q hev
      rw [hlog, List.mem_flatMap] at hev
      obtain ⟨cell2, _, hm⟩ := hev
      obtain ⟨_, _, h3, _, h5⟩ := (rhs_get_hessian_mem R dim _ cell2 sc c cell q).1 hm
      exact ⟨h3, h5⟩
  · rintro ⟨i, hi, hv⟩
    have hsc : 0 < R.countKind true R.num_var := by
      have hs : R.isScalar i = true := by simp [Roster.isScalar, hv]
      have := countKind_lt R i R.num_var hi
      rw [hs] at this
      omega
    obtain ⟨s, h1, _⟩ :=
      getRHS_trace ops R dim blank residualRHS mv0 resR0 dstR srcR cell_range hsc
    exact ⟨s, h1⟩
  · intro s hs
    have hlog := getLHS_log ops R dim blank residualLHS mv0 resL0 resInfo0 solutionSet
      currentFieldIndex dstL srcL cell_range s hs
    refine ⟨⟨_, hlog⟩, ?_, ?_, ?_, ?_⟩
    · intro cell e h1 h2 he
      rw [hlog, List.mem_flatMap]
      exact ⟨cell, (mem_cells cell_range cell).2 ⟨h1, h2⟩,
        (lhs_evaluate_mem R dim _ _ _ cell _ _ cell _ _ _).2
          ⟨rfl, e, he, rfl, rfl, rfl, rfl, rfl⟩⟩
    · intro sc c cell v g h hev
      rw [hlog, List.mem_flatMap] at hev
      obtain ⟨cell2, _, hm⟩ := hev
      exact ((lhs_evaluate_mem R dim _ _ _ cell2 sc c cell v g h).1 hm).2
    · intro sc c cell q hev
      rw [hlog, List.mem_flatMap] at hev
      obtain ⟨cell2, _, hm⟩ := hev
      exact ((lhs_get_gradient_mem R dim _ _ _ cell2 sc c cell q).1 hm).2.2
    · intro sc c cell q hev
      rw [hlog, List.mem_flatMap] at hev
      obtain ⟨cell2, _, hm⟩ := hev
      exact ((lhs_get_hessian_mem R dim _ _ _ cell2 sc c cell q).1 hm).2.2
  · intro hne
    obtain ⟨e, he⟩ := List.exists_mem_of_ne_nil _ hne
    obtain ⟨s, h1, _⟩ := getLHS_trace ops R dim blank residualLHS mv0 resL0 resInfo0
      solutionSet currentFieldIndex dstL srcL cell_range (countLHS_pos R dim e he)
    exact ⟨s, h1⟩

/-- Witness of C15: `getRHS` and `getLHS` on the roster `exRoster` in two dimensions, over
one cell; no variable needs a hessian and `get_hessian` is never called, and gradients are
requested from variable 0 only (`getRHS`), respectively from the object of variable 3, which
is constructed for component 4, only (`getLHS`). -/
theorem C15_witness :
    ∃ sR sL,
      getRHS (exOps ℤ) exRoster 2 (exBlank ℤ) (exKernelRHS ℤ) (fun _ => exVar ℤ)
        (fun _ => exRes ℤ) (fun _ => 0) (fun f => (f : ℤ) + 1) (0, 1) = some sR ∧
      getLHS (exOps ℤ) exRoster 2 (exBlank ℤ) (exKernelLHS ℤ) (fun _ => exVar ℤ) (exRes ℤ)
        { global_var_index := 0, global_field_index := 0, is_scalar := false,
          scalar_or_vector_index := 0 } (fun f => (f : ℤ) + 1) 0 0 5 (0, 1) = some sL ∧
      FECall.evaluate true 0 0 true true false ∈ sR.fe.log ∧
      (∀ sc c cell q, FECall.get_hessian sc c cell q ∉ sR.fe.log) ∧
      (∀ sc c cell q, FECall.get_gradient sc c cell q ∈ sR.fe.log → c = 0) ∧
      (∀ sc c cell q, FECall.get_hessian sc c cell q ∉ sL.fe.log) ∧
      (∀ sc c cell q, FECall.get_gradient sc c cell q ∈ sL.fe.log → c = 4) := by
  have h := C15_derivative_minimality (exOps ℤ) exRoster 2 (exBlank ℤ) (exKernelRHS ℤ)
    (exKernelLHS ℤ) (fun _ => exVar ℤ) (fun _ => exRes ℤ) (exRes ℤ)
    { global_var_index := 0, global_field_index := 0, is_scalar := false,
      scalar_or_vector_index := 0 } (fun f => (f : ℤ) + 1) 0 (fun _ => 0)
    (fun f => (f : ℤ) + 1) 0 5 (0, 1)
  obtain ⟨hR, hRex, hL, hLex⟩ := h
  obtain ⟨sR, hsR⟩ := hRex ⟨0, by decide, by decide⟩
  obtain ⟨sL, hsL⟩ := hLex (by decide)
  obtain ⟨_, r2, _, r4, r5⟩ := hR sR hsR
  obtain ⟨_, _, _, l4, l5⟩ := hL sL hsL
  refine ⟨sR, sL, hsR, hsL, r2 0 0 (le_refl _) (by decide) (by decide), ?_, ?_, ?_, ?_⟩
  · intro sc c cell q hm
    have h5 := r5 sc c cell q hm
    simp [exRoster] at h5
  · intro sc c cell q hm
    have h4 := r4 sc c cell q hm
    simpa [exRoster] using h4.2
  · intro sc c cell q hm
    obtain ⟨e, _, _, _, h5⟩ := l5 sc c cell q hm
    simp [exRoster] at h5
  · intro sc c cell q hm
    obtain ⟨e, he, _, hc, h4⟩ := l4 sc c cell q hm
    have hL2 : varInfoList exRoster 2
        = [{ global_var_index := 0, global_field_index := 0, is_scalar := true,
             scalar_or_vector_index := 0 },
           { global_var_index := 2, global_field_index := 3, is_scalar := true,
             scalar_or_vector_index := 1 },
           { global_var_index := 3, global_field_index := 4, is_scalar := false,
             scalar_or_vector_index := 0 }] := by decide
    rw [hL2] at he
    simp only [List.mem_cons, List.mem_singleton, List.not_mem_nil, or_false] at he
    rcases he with rfl | rfl | rfl
    · simp [exRoster] at h4
    · simp [exRoster] at h4
    · exact hc

/-- C16 (only declared residuals are read).  `getRHS` runs to its end as soon as one
variable is a scalar (the code reads `scalar_vars[0]`).  Whenever it runs to its end: for every
variable `i`, every cell of the range and every quadrature point, `submit_value` is called
on the object of `i` if and only if `value_residual[i]` is set, and `submit_gradient` if and
only if `gradient_residual[i]` is set; every call of `submit_value` or `submit_gradient` is
made on the object of a variable that declares that residual.  What is submitted is the
residual of the kernel: after the last cell of a range (hence, the range being arbitrary,
after any cell) the object `scalar_vars[…]` or `vector_vars[…]` of variable `i` holds at
every quadrature point of the cell the value residual of field `i` that the kernel returned
for the variables evaluated there, if `value_residual[i]` is set, and still the content of a
new object if it is not, and likewise for the gradient residual; the object then holds the
integral of exactly these values, and the destination vectors are the initial ones plus
these integrals, cell by cell and variable by variable.  Two kernels that agree on the
declared residuals, whatever else they return, leave the same evaluation objects, the same
record of calls and the same destination vectors. -/
theorem C16_declared_residuals (ops : FEOps E V) (R : Roster) (dim : Nat)
    (blank : FEEval E V) (K1 K2 : (Nat → modelVariable E) → (Nat → modelResidual E))
    (mv0 : Nat → modelVariable E) (res1 res2 : Nat → modelResidual E)
    (dst src : Nat → V) (cell_range : Nat × Nat) :
    (∀ s, getRHS ops R dim blank K1 mv0 res1 dst src cell_range = some s →
      (∀ i cell q, i < R.num_var → cell_range.1 ≤ cell → cell < cell_range.2 →
        q < ops.n_q_points →
        (FECall.submit_value (decide (R.var_type i = "SCALAR")) i cell q ∈ s.fe.log
            ↔ R.value_residual i = true) ∧
        (FECall.submit_gradient (decide (R.var_type i = "SCALAR")) i cell q ∈ s.fe.log
            ↔ R.gradient_residual i = true)) ∧
      (∀ sc c cell q, FECall.submit_value sc c cell q ∈ s.fe.log →
        c < R.num_var ∧ sc = decide (R.var_type c = "SCALAR") ∧
          R.value_residual c = true) ∧
      (∀ sc c cell q, FECall.submit_gradient sc c cell q ∈ s.fe.log →
        c < R.num_var ∧ sc = decide (R.var_type c = "SCALAR") ∧
          R.gradient_residual c = true) ∧
      s.dst = (List.range' cell_range.1 (cell_range.2 - cell_range.1)).foldl
          (rhsScatter ops R dim blank K1 src mv0) dst ∧
      (cell_range.1 < cell_range.2 → ∀ i, i < R.num_var →
        (s.fe.ctx ((rhsSetup R dim blank).is_scalar_var.getD i false)
            ((rhsSetup R dim blank).scalar_or_vector_index.getD i 0)).component = i ∧
        (s.fe.ctx ((rhsSetup R dim blank).is_scalar_var.getD i false)
            ((rhsSetup R dim blank).scalar_or_vector_index.getD i 0)).cell
          = cell_range.2 - 1 ∧
        (s.fe.ctx ((rhsSetup R dim blank).is_scalar_var.getD i false)
            ((rhsSetup R dim blank).scalar_or_vector_index.getD i 0)).values_dofs
          = rhsDofs ops R dim blank K1 src mv0 (cell_range.2 - 1) i ∧
        (s.fe.ctx ((rhsSetup R dim blank).is_scalar_var.getD i false)
            ((rhsSetup R dim blank).scalar_or_vector_index.getD i 0)).values_quad
          = rhsValues ops R dim blank K1 src mv0 (cell_range.2 - 1) i ∧
        (s.fe.ctx ((rhsSetup R dim blank).is_scalar_var.getD i false)
            ((rhsSetup R dim blank).scalar_or_vector_index.getD i 0)).gradients_quad
          = rhsGrads ops R dim blank K1 src mv0 (cell_range.2 - 1) i ∧
        (∀ q, q < ops.n_q_points →
          (R.value_residual i = true →
            (s.fe.ctx ((rhsSetup R dim blank).is_scalar_var.getD i false)
                ((rhsSetup R dim blank).scalar_or_vector_index.getD i 0)).values_quad q
              = ((K1 (rhsVars ops R dim src mv0 (cell_range.2 - 1) q)) i).valueResidual
                  (R.isScalar i)) ∧
          (R.gradient_residual i = true →
            (s.fe.ctx ((rhsSetup R dim blank).is_scalar_var.getD i false)
                ((rhsSetup R dim blank).scalar_or_vector_index.getD i 0)).gradients_quad q
              = ((K1 (rhsVars ops R dim src mv0 (cell_range.2 - 1) q)) i).gradResidual
                  (R.isScalar i))) ∧
        (R.value_residual i = false →
          (s.fe.ctx ((rhsSetup R dim blank).is_scalar_var.getD i false)
              ((rhsSetup R dim blank).scalar_or_vector_index.getD i 0)).values_quad
            = blank.values_quad) ∧
        (R.gradient_residual i = false →
          (s.fe.ctx ((rhsSetup R dim blank).is_scalar_var.getD i false)
              ((rhsSetup R dim blank).scalar_or_vector_index.getD i 0)).gradients_quad
            = blank.gradients_quad))) ∧
    ((∀ m, declaredAgree R (K1 m) (K2 m)) →
      (getRHS ops R dim blank K1 mv0 res1 dst src cell_range).map
          (fun s => (s.fe, s.modelVarList, s.dst))
        = (getRHS ops R dim blank K2 mv0 res2 dst src cell_range).map
          (fun s => (s.fe, s.modelVarList, s.dst))) ∧
    (0 < R.countKind true R.num_var →
      ∃ s, getRHS ops R dim blank K1 mv0 res1 dst src cell_range = some s) := by
  refine ⟨?_, fun hK => getRHS_congr ops R dim blank K1 K2 hK mv0 res1 res2 dst src cell_range,
    fun hsc => ?_⟩
  rotate_left
  · obtain ⟨s, hs, _⟩ := getRHS_run ops R dim blank K1 mv0 res1 dst src cell_range hsc
    exact ⟨s, hs⟩
  intro s hs
  have hlog := getRHS_log ops R dim blank K1 mv0 res1 dst src cell_range s hs
  obtain ⟨hdst, hobj⟩ := getRHS_state ops R dim blank K1 mv0 res1 dst src cell_range s hs
  refine ⟨?_, ?_, ?_, hdst, ?_⟩
  rotate_left 3
  · intro hc i hi
    obtain ⟨o1, o2, o3, o4, o5⟩ := hobj hc i hi
    refine ⟨o1, o2, o3, o4, o5, ?_, ?_, ?_⟩
    · intro q hq
      constructor
      · intro hv
        rw [o4]
        unfold rhsValues
        rw [if_pos ⟨hv, hq⟩]
      · intro hv
        rw [o5]
        unfold rhsGrads
        rw [if_pos ⟨hv, hq⟩]
    · intro hv
      rw [o4]
      funext q
      unfold rhsValues
      rw [if_neg (fun h => by rw [hv] at h; exact Bool.false_ne_true h.1)]
    · intro hv
      rw [o5]
      funext q
      unfold rhsGrads
      rw [if_neg (fun h => by rw [hv] at h; exact Bool.false_ne_true h.1)]
  · intro i cell q hi h1 h2 hq
    rw [hlog, List.mem_flatMap, List.mem_flatMap]
    constructor
    · constructor
      · rintro ⟨cell2, _, hm⟩
        exact ((rhs_submit_value_mem R dim _ cell2 _ i cell q).1 hm).2.2.2.2
      · intro hv
        exact ⟨cell, (mem_cells cell_range cell).2 ⟨h1, h2⟩,
          (rhs_submit_value_mem R dim _ cell _ i cell q).2 ⟨rfl, hq, hi, rfl, hv⟩⟩
    · constructor
      · rintro ⟨cell2, _, hm⟩
        exact ((rhs_submit_gradient_mem R dim _ cell2 _ i cell q).1 hm).2.2.2.2
      · intro hv
        exact ⟨cell, (mem_cells cell_range cell).2 ⟨h1, h2⟩,
          (rhs_submit_gradient_mem R dim _ cell _ i cell q).2 ⟨rfl, hq, hi, rfl, hv⟩⟩
  · intro sc c cell q hev
    rw [hlog, List.mem_flatMap] at hev
    obtain ⟨cell2, _, hm⟩ := hev
    exact ((rhs_submit_value_mem R dim _ cell2 sc c cell q).1 hm).2.2
  · intro sc c cell q hev
    rw [hlog, List.mem_flatMap] at hev
    obtain ⟨cell2, _, hm⟩ := hev
    exact ((rhs_submit_gradient_mem R dim _ cell2 sc c cell q).1 hm).2.2

/-- Witness of C16: `getRHS` on the roster `exRoster` in two dimensions over one cell, with
`*src[f] = f + 1`.  Only variable 3 declares a gradient residual: `submit_gradient` is
called on its object and not on that of variable 0.  The object of variable 2 (slot 3)
ends with the value residual 4 of the kernel at the quadrature point, and `*dst[3]` with
its integral 4.  The kernels `exKernelRHS` and `exKernelRHSNoise` agree on the declared
residuals and differ on the others; the runs end in the same objects, calls and destination
vectors. -/
theorem C16_witness :
    (∃ s, getRHS (exOps ℤ) exRoster 2 (exBlank ℤ) (exKernelRHS ℤ) (fun _ => exVar ℤ)
        (fun _ => exRes ℤ) (fun _ => 0) (fun f => (f : ℤ) + 1) (0, 1) = some s ∧
      FECall.submit_gradient false 3 0 0 ∈ s.fe.log ∧
      FECall.submit_gradient true 0 0 0 ∉ s.fe.log ∧
      (s.fe.ctx true 1).values_quad 0
        = ((exKernelRHS ℤ (rhsVars (exOps ℤ) exRoster 2 (fun f => (f : ℤ) + 1)
            (fun _ => exVar ℤ) 0 0)) 2).scalarValueResidual ∧
      (s.fe.ctx true 1).values_quad 0 = 4 ∧
      (s.fe.ctx true 1).gradients_quad = (exBlank ℤ).gradients_quad ∧
      s.dst 3 = 4) ∧
    (exKernelRHS ℤ (fun _ => exVar ℤ) 0).scalarGradResidual
      ≠ (exKernelRHSNoise ℤ (fun _ => exVar ℤ) 0).scalarGradResidual ∧
    (getRHS (exOps ℤ) exRoster 2 (exBlank ℤ) (exKernelRHS ℤ) (fun _ => exVar ℤ)
        (fun _ => exRes ℤ) (fun _ => 0) (fun f => (f : ℤ) + 1) (0, 1)).map
        (fun s => (s.fe, s.modelVarList, s.dst))
      = (getRHS (exOps ℤ) exRoster 2 (exBlank ℤ) (exKernelRHSNoise ℤ) (fun _ => exVar ℤ)
        (fun _ => exRes ℤ) (fun _ => 0) (fun f => (f : ℤ) + 1) (0, 1)).map
        (fun s => (s.fe, s.modelVarList, s.dst)) := by
  have h := C16_declared_residuals (exOps ℤ) exRoster 2 (exBlank ℤ) (exKernelRHS ℤ)
    (exKernelRHSNoise ℤ) (fun _ => exVar ℤ) (fun _ => exRes ℤ) (fun _ => exRes ℤ)
    (fun _ => 0) (fun f => (f : ℤ) + 1) (0, 1)
  refine ⟨?_, by decide, h.2.1 ?_⟩
  · obtain ⟨s, hs⟩ := h.2.2 (by decide)
    obtain ⟨h1, _, _, hdst, hobj⟩ := h.1 s hs
    obtain ⟨_, _, _, _, _, o6, _, o8⟩ := hobj (by decide) 2 (by decide)
    have e1 : (rhsSetup exRoster 2 (exBlank ℤ)).is_scalar_var.getD 2 false = true := by
      decide
    have e2 : (rhsSetup exRoster 2 (exBlank ℤ)).scalar_or_vector_index.getD 2 0 = 1 := by
      decide
    rw [e1, e2] at o6 o8
    have hv := (o6 0 (by decide)).1 (by decide)
    refine ⟨s, hs, ?_, ?_, hv, ?_, o8 (by decide), ?_⟩
    · exact ((h1 3 0 0 (by decide) (le_refl _) (by decide) (by decide)).2).2 (by decide)
    · intro hm
      have := ((h1 0 0 0 (by decide) (le_refl _) (by decide) (by decide)).2).1 hm
      simp [exRoster] at this
    · rw [hv]
      decide
    · rw [hdst]
      decide
  · intro m i hi
    have hi4 : i < 4 := hi
    interval_cases i <;>
      simp [exRoster, Roster.isScalar, exKernelRHS, exKernelRHSNoise,
        modelResidual.valueResidual, modelResidual.gradResidual]

/-- C17 (LHS data sources).  In at least one dimension, let `r` be an entry of `varInfoList`
and `currentFieldIndex` its `global_field_index`.  Then `getLHS` runs to its end and, for
every cell of the range: the object of `r` reads the trial vector `src`; the object of every
other entry reads `*solutionSet[global_field_index]` of its own field; and every call of
`submit_value`, `submit_gradient`, `integrate` and `distribute_local_to_global` is made on
the object of `r`, the latter into `dst`, once per cell.  The data follow the calls: the
kernel is handed the members evaluated from `src` for the entry `r` and from the stored
solution for every other entry (`lhsVars`); after the last cell of a range (hence, the range
being arbitrary, after any cell) the object of `r` holds the residuals of the kernel at the
quadrature points and their integral, taken with the values `src`, while the object of every
other entry holds the stored solution of its field and nothing submitted; and `dst` is the
initial vector plus the integrals of the object of `r`, one per cell. -/
theorem C17_lhs_data_sources (ops : FEOps E V) (R : Roster) (dim : Nat)
    (blank : FEEval E V) (residualLHS : (Nat → modelVariable E) → modelResidual E)
    (mv0 : Nat → modelVariable E) (res0 : modelResidual E) (resInfo0 : variable_info)
    (solutionSet : Nat → V) (dst src : V) (cell_range : Nat × Nat) (r : variable_info)
    (hdim : 0 < dim) (hr : r ∈ varInfoList R dim) :
    ∃ s, getLHS ops R dim blank residualLHS mv0 res0 resInfo0 solutionSet
        r.global_field_index dst src cell_range = some s ∧
      s.fe.log = (List.range' cell_range.1 (cell_range.2 - cell_range.1)).flatMap
          (lhsCellTrace R dim ops.n_q_points r r.global_field_index) ∧
      (∀ cell, cell_range.1 ≤ cell → cell < cell_range.2 →
        FECall.read_dof_values_plain r.is_scalar r.global_field_index cell VecRef.trial
            ∈ s.fe.log ∧
        (∀ e ∈ varInfoList R dim, e ≠ r →
          FECall.read_dof_values_plain e.is_scalar e.global_field_index cell
            (VecRef.solutionSet e.global_field_index) ∈ s.fe.log) ∧
        FECall.integrate r.is_scalar r.global_field_index cell
            (R.value_residual r.global_var_index) (R.gradient_residual r.global_var_index)
            ∈ s.fe.log ∧
        FECall.distribute_local_to_global r.is_scalar r.global_field_index cell
            VecRef.result ∈ s.fe.log) ∧
      (∀ sc c cell ref, FECall.read_dof_values_plain sc c cell ref ∈ s.fe.log →
        (c = r.global_field_index ∧ sc = r.is_scalar ∧ ref = VecRef.trial) ∨
        (c ≠ r.global_field_index ∧ ref = VecRef.solutionSet c)) ∧
      (∀ sc c cell q, FECall.submit_value sc c cell q ∈ s.fe.log →
        sc = r.is_scalar ∧ c = r.global_field_index) ∧
      (∀ sc c cell q, FECall.submit_gradient sc c cell q ∈ s.fe.log →
        sc = r.is_scalar ∧ c = r.global_field_index) ∧
      (∀ sc c cell v g, FECall.integrate sc c cell v g ∈ s.fe.log →
        sc = r.is_scalar ∧ c = r.global_field_index) ∧
      (∀ sc c cell ref, FECall.distribute_local_to_global sc c cell ref ∈ s.fe.log →
        sc = r.is_scalar ∧ c = r.global_field_index ∧ ref = VecRef.result) ∧
      s.dst = (List.range' cell_range.1 (cell_range.2 - cell_range.1)).foldl
          (fun v cell =>
            v + lhsDofs ops R dim blank residualLHS resInfo0 r src solutionSet mv0 cell)
          dst ∧
      (cell_range.1 < cell_range.2 →
        ((s.fe.ctx r.is_scalar r.scalar_or_vector_index).component = r.global_field_index ∧
          (s.fe.ctx r.is_scalar r.scalar_or_vector_index).cell = cell_range.2 - 1 ∧
          (s.fe.ctx r.is_scalar r.scalar_or_vector_index).values_dofs
            = ops.integrate r.is_scalar r.global_field_index (cell_range.2 - 1)
                (R.value_residual r.global_var_index)
                (R.gradient_residual r.global_var_index) src
                (lhsValues ops R dim blank residualLHS resInfo0 r src solutionSet mv0
                  (cell_range.2 - 1))
                (lhsGrads ops R dim blank residualLHS resInfo0 r src solutionSet mv0
                  (cell_range.2 - 1)) ∧
          (∀ q, q < ops.n_q_points →
            (R.value_residual r.global_var_index = true →
              (s.fe.ctx r.is_scalar r.scalar_or_vector_index).values_quad q
                = (residualLHS (lhsVars ops R dim resInfo0 r src solutionSet mv0
                    (cell_range.2 - 1) q)).valueResidual r.is_scalar) ∧
            (R.gradient_residual r.global_var_index = true →
              (s.fe.ctx r.is_scalar r.scalar_or_vector_index).gradients_quad q
                = (residualLHS (lhsVars ops R dim resInfo0 r src solutionSet mv0
                    (cell_range.2 - 1) q)).gradResidual r.is_scalar)) ∧
          (s.fe.ctx r.is_scalar r.scalar_or_vector_index).values_quad
            = lhsValues ops R dim blank residualLHS resInfo0 r src solutionSet mv0
                (cell_range.2 - 1) ∧
          (s.fe.ctx r.is_scalar r.scalar_or_vector_index).gradients_quad
            = lhsGrads ops R dim blank residualLHS resInfo0 r src solutionSet mv0
                (cell_range.2 - 1)) ∧
        ∀ e ∈ varInfoList R dim, e ≠ r →
          (s.fe.ctx e.is_scalar e.scalar_or_vector_index).component
            = e.global_field_index ∧
          (s.fe.ctx e.is_scalar e.scalar_or_vector_index).cell = cell_range.2 - 1 ∧
          (s.fe.ctx e.is_scalar e.scalar_or_vector_index).values_dofs
            = solutionSet e.global_field_index ∧
          (s.fe.ctx e.is_scalar e.scalar_or_vector_index).values_quad
            = blank.values_quad ∧
          (s.fe.ctx e.is_scalar e.scalar_or_vector_index).gradients_quad
            = blank.gradients_quad) := by
  obtain ⟨s, hs, hlog⟩ := getLHS_trace ops R dim blank residualLHS mv0 res0 resInfo0
    solutionSet r.global_field_index dst src cell_range (countLHS_pos R dim r hr)
  rw [selectResInfo_target R dim hdim resInfo0 r hr, lhsStores_ctx R dim resInfo0 blank r hr]
    at hlog
  obtain ⟨s2, hs2, hdst, hobj⟩ := getLHS_run ops R dim hdim blank residualLHS mv0 res0
    resInfo0 solutionSet dst src cell_range r hr
  have hss : s2 = s := by
    rw [hs] at hs2
    exact (Option.some.inj hs2).symm
  rw [hss] at hdst hobj
  refine ⟨s, hs, hlog, ?_, ?_, ?_, ?_, ?_, ?_, hdst, ?_⟩
  rotate_left 6
  · intro hc
    obtain ⟨⟨o1, o2, o3, o4, o5⟩, oth⟩ := hobj hc
    refine ⟨⟨o1, o2, o3, ?_, o4, o5⟩, oth⟩
    intro q hq
    constructor
    · intro hv
      rw [o4]
      unfold lhsValues
      rw [if_pos ⟨hv, hq⟩]
    · intro hv
      rw [o5]
      unfold lhsGrads
      rw [if_pos ⟨hv, hq⟩]
  · intro cell h1 h2
    have hc := (mem_cells cell_range cell).2 ⟨h1, h2⟩
    refine ⟨?_, ?_, ?_, ?_⟩
    · rw [hlog, List.mem_flatMap]
      exact ⟨cell, hc, (lhs_read_mem R dim _ r _ cell _ _ cell _).2
        ⟨rfl, r, hr, rfl, rfl, by rw [if_pos rfl]⟩⟩
    · intro e he hne
      rw [hlog, List.mem_flatMap]
      refine ⟨cell, hc, (lhs_read_mem R dim _ r _ cell _ _ cell _).2
        ⟨rfl, e, he, rfl, rfl, ?_⟩⟩
      rw [if_neg]
      exact fun h => hne (varInfoList_gfi_inj R dim hdim e r he hr h)
    · rw [hlog, List.mem_flatMap]
      exact ⟨cell, hc, (lhs_integrate_mem R dim _ r _ cell _ _ cell _ _).2
        ⟨rfl, rfl, rfl, rfl, rfl⟩⟩
    · rw [hlog, List.mem_flatMap]
      exact ⟨cell, hc, (lhs_distribute_mem R dim _ r _ cell _ _ cell _).2
        ⟨rfl, rfl, rfl, rfl⟩⟩
  · intro sc c cell ref hev
    rw [hlog, List.mem_flatMap] at hev
    obtain ⟨cell2, _, hm⟩ := hev
    obtain ⟨_, e, he, h1, h2, h3⟩ := (lhs_read_mem R dim _ r _ cell2 sc c cell ref).1 hm
    by_cases hg : e.global_field_index = r.global_field_index
    · left
      rw [if_pos hg] at h3
      have := varInfoList_gfi_inj R dim hdim e r he hr hg
      subst this
      exact ⟨h2, h1, h3⟩
    · right
      rw [if_neg hg] at h3
      rw [h2]
      exact ⟨hg, h3⟩
  · intro sc c cell q hev
    rw [hlog, List.mem_flatMap] at hev
    obtain ⟨cell2, _, hm⟩ := hev
    obtain ⟨_, _, h3, h4, _⟩ := (lhs_submit_value_mem R dim _ r _ cell2 sc c cell q).1 hm
    exact ⟨h3, h4⟩
  · intro sc c cell q hev
    rw [hlog, List.mem_flatMap] at hev
    obtain ⟨cell2, _, hm⟩ := hev
    obtain ⟨_, _, h3, h4, _⟩ := (lhs_submit_gradient_mem R dim _ r _ cell2 sc c cell q).1 hm
    exact ⟨h3, h4⟩
  · intro sc c cell v g hev
    rw [hlog, List.mem_flatMap] at hev
    obtain ⟨cell2, _, hm⟩ := hev
    obtain ⟨_, h3, h4, _⟩ := (lhs_integrate_mem R dim _ r _ cell2 sc c cell v g).1 hm
    exact ⟨h3, h4⟩
  · intro sc c cell ref hev
    rw [hlog, List.mem_flatMap] at hev
    obtain ⟨cell2, _, hm⟩ := hev
    obtain ⟨_, h3, h4, h5⟩ := (lhs_distribute_mem R dim _ r _ cell2 sc c cell ref).1 hm
    exact ⟨h3, h4, h5⟩

/-- Witness of C17: `getLHS` on the roster `exRoster` in two dimensions with target field 0,
trial vector 5 and stored solution `*solutionSet[f] = f + 1`, over the cells 0 and 1.  In
cell 1 the object of field 0 reads the trial vector and the objects of the fields 3 and 4
read the stored solution.  The kernel `exKernelLHS` returns the sum of the values of the
first two entries, `5 + 4`: the object of field 0 ends with the submitted value 9, the
object of field 3 with the stored value 4, and `dst` with `0 + 9 + 9`. -/
theorem C17_witness :
    (0 < 2) ∧
    ({ global_var_index := 0, global_field_index := 0, is_scalar := true,
       scalar_or_vector_index := 0 } : variable_info) ∈ varInfoList exRoster 2 ∧
    ∃ s, getLHS (exOps ℤ) exRoster 2 (exBlank ℤ) (exKernelLHS ℤ) (fun _ => exVar ℤ) (exRes ℤ)
        { global_var_index := 0, global_field_index := 0, is_scalar := false,
          scalar_or_vector_index := 0 } (fun f => (f : ℤ) + 1) 0 0 5 (0, 2) = some s ∧
      FECall.read_dof_values_plain true 0 1 VecRef.trial ∈ s.fe.log ∧
      FECall.read_dof_values_plain true 3 1 (VecRef.solutionSet 3) ∈ s.fe.log ∧
      FECall.read_dof_values_plain false 4 1 (VecRef.solutionSet 4) ∈ s.fe.log ∧
      FECall.distribute_local_to_global true 0 1 VecRef.result ∈ s.fe.log ∧
      (s.fe.ctx true 0).values_quad 0 = 9 ∧
      (s.fe.ctx true 1).values_dofs = 4 ∧
      (s.fe.ctx true 1).values_quad = (exBlank ℤ).values_quad ∧
      s.dst = 18 := by
  refine ⟨by decide, by decide, ?_⟩
  obtain ⟨s, hs, _, h3, _, _, _, _, _, hdst, hobj⟩ :=
    C17_lhs_data_sources (exOps ℤ) exRoster 2 (exBlank ℤ)
    (exKernelLHS ℤ) (fun _ => exVar ℤ) (exRes ℤ)
    { global_var_index := 0, global_field_index := 0, is_scalar := false,
      scalar_or_vector_index := 0 } (fun f => (f : ℤ) + 1) 0 5 (0, 2)
    { global_var_index := 0, global_field_index := 0, is_scalar := true,
      scalar_or_vector_index := 0 } (by decide) (by decide)
  obtain ⟨r1, r2, _, r4⟩ := h3 1 (by decide) (by decide)
  obtain ⟨⟨_, _, _, t4, _, _⟩, oth⟩ := hobj (by decide)
  obtain ⟨_, _, e3, e4, _⟩ := oth ⟨2, 3, true, 1⟩ (by decide) (by decide)
  refine ⟨s, hs, r1, ?_, ?_, r4, ?_, e3, e4, ?_⟩
  · exact r2 ⟨2, 3, true, 1⟩ (by decide) (by decide)
  · exact r2 ⟨3, 4, false, 0⟩ (by decide) (by decide)
  · rw [(t4 0 (by decide)).1 (by decide)]
    decide
  · rw [hdst]
    decide

end ClaimsAssembler

section ClaimsLinearity

variable {α E V : Type} [Ring α] [AddCommGroup E] [Module α E] [AddCommGroup V] [Module α V]

/-- C18, as stated, fails.  The kernel `exKernelLHS`, whose residuals are the sum of the
scalar values of the first two variables handed to it, is linear in its inputs, and the
operations `exOps` are linear.  On the roster `exRoster` in two dimensions, with the stored
solution `solutionSet[f] = f + 1`, target field 0 and two cells, `getLHS` adds 8 to `dst` for
the trial vector 0; with `a = b = 1` and `x1 = x2 = 0` the trial vector `a*x1 + b*x2` is 0
as well, and 8 is not `1*8 + 1*8`. -/
theorem C18_counterexample :
    (∀ (a b : ℤ) (m m1 m2 : Nat → modelVariable ℤ),
      (∀ i, (m i).scalarValue = a * (m1 i).scalarValue + b * (m2 i).scalarValue) →
      (exKernelLHS ℤ m).scalarValueResidual
        = a * (exKernelLHS ℤ m1).scalarValueResidual
          + b * (exKernelLHS ℤ m2).scalarValueResidual) ∧
    (∀ (a b : ℤ) (sc : Bool) (c : Nat), opsLinearAt a b (exOps ℤ) sc c) ∧
    (getLHS (exOps ℤ) exRoster 2 (exBlank ℤ) (exKernelLHS ℤ) (fun _ => exVar ℤ) (exRes ℤ)
        { global_var_index := 0, global_field_index := 0, is_scalar := false,
          scalar_or_vector_index := 0 } (fun f => (f : ℤ) + 1) 0 0 (1 * 0 + 1 * 0) (0, 2)).map
        (fun s => s.dst - 0) = some 8 ∧
    (getLHS (exOps ℤ) exRoster 2 (exBlank ℤ) (exKernelLHS ℤ) (fun _ => exVar ℤ) (exRes ℤ)
        { global_var_index := 0, global_field_index := 0, is_scalar := false,
          scalar_or_vector_index := 0 } (fun f => (f : ℤ) + 1) 0 0 0 (0, 2)).map
        (fun s => s.dst - 0) = some 8 ∧
    (8 : ℤ) ≠ 1 * 8 + 1 * 8 := by
  refine ⟨?_, ?_, by decide, by decide, by decide⟩
  · intro a b m m1 m2 h
    simp only [exKernelLHS]
    rw [h 0, h 1]
    ring
  · intro a b sc c
    refine ⟨?_, ?_, ?_, ?_⟩
    · intro cell q x y
      rfl
    · intro cell q x y
      simp only [exOps, smul_eq_mul]
      ring
    · intro cell q x y
      simp only [exOps, smul_eq_mul]
      ring
    · intro cell vf gf x x1 x2 v v1 v2 g g1 g2 _ hv hg
      cases vf <;> cases gf <;> simp only [exOps, if_true, if_false, Bool.false_eq_true]
      · simp
      · rw [hg rfl 0 (by decide)]
        simp
      · rw [hv rfl 0 (by decide)]
        simp
      · rw [hv rfl 0 (by decide), hg rfl 0 (by decide)]
        simp only [smul_eq_mul]
        ring

/-- C18 (amended).  In at least one dimension, let `r` be entry `j` of `varInfoList` and
`currentFieldIndex` its `global_field_index`.  If the operations on the object of `r` are
linear (values, gradients and hessians in the degree-of-freedom values, the cell integrals
in the submitted quantities) and the kernel is linear in the inputs of the target field,
the inputs of the other fields being held fixed, then `getLHS` runs to its end for the trial
vectors `a*x1 + b*x2`, `x1` and `x2`, and what it adds to `dst` for `a*x1 + b*x2` is `a`
times what it adds for `x1` plus `b` times what it adds for `x2`. -/
theorem C18_lhs_linearity (a b : α) (ops : FEOps E V) (R : Roster) (dim : Nat)
    (resInfo0 r : variable_info) (j : Nat) (blank : FEEval E V)
    (residualLHS : (Nat → modelVariable E) → modelResidual E)
    (mv0 : Nat → modelVariable E) (res0 : modelResidual E) (solutionSet : Nat → V)
    (dst x1 x2 : V) (cell_range : Nat × Nat)
    (hdim : 0 < dim) (hjr : (varInfoList R dim)[j]? = some r)
    (hops : opsLinearAt a b ops r.is_scalar r.global_field_index)
    (hK : kernelLinearIn a b residualLHS j r.is_scalar (R.need_value_LHS r.global_var_index)
      (R.need_gradient_LHS r.global_var_index) (R.need_hessian_LHS r.global_var_index)
      (R.value_residual r.global_var_index) (R.gradient_residual r.global_var_index)) :
    ∃ s s1 s2,
      getLHS ops R dim blank residualLHS mv0 res0 resInfo0 solutionSet r.global_field_index
        dst (a • x1 + b • x2) cell_range = some s ∧
      getLHS ops R dim blank residualLHS mv0 res0 resInfo0 solutionSet r.global_field_index
        dst x1 cell_range = some s1 ∧
      getLHS ops R dim blank residualLHS mv0 res0 resInfo0 solutionSet r.global_field_index
        dst x2 cell_range = some s2 ∧
      s.dst - dst = a • (s1.dst - dst) + b • (s2.dst - dst) := by
  obtain ⟨hlt, hget⟩ := List.getElem?_eq_some_iff.1 hjr
  have hr : r ∈ varInfoList R dim := by
    rw [← hget]
    exact List.getElem_mem _
  have hj : j < num_var_LHS R := by
    rw [← length_varInfoList R dim]
    exact hlt
  have hjd : (varInfoList R dim).getD j resInfo0 = r := by
    rw [List.getD_eq_getElem _ _ hlt]
    exact hget
  exact getLHS_linear a b ops R dim hdim resInfo0 r hr j hj hjd hops blank residualLHS hK
    mv0 res0 solutionSet dst x1 x2 cell_range

/-- Witness of C18 (amended): the roster `exRoster` in two dimensions, target field 0, the
kernel `exKernelLHSProd`, the stored solution `solutionSet[f] = f + 1`, two cells, and the
combination `2*1 + 3*10` of the trial vectors 1 and 10. -/
theorem C18_witness :
    (0 < 2) ∧
    (varInfoList exRoster 2)[0]?
      = some { global_var_index := 0, global_field_index := 0, is_scalar := true,
               scalar_or_vector_index := 0 } ∧
    ∃ s s1 s2,
      getLHS (exOps ℤ) exRoster 2 (exBlank ℤ) (exKernelLHSProd ℤ) (fun _ => exVar ℤ) (exRes ℤ)
        { global_var_index := 0, global_field_index := 0, is_scalar := false,
          scalar_or_vector_index := 0 } (fun f => (f : ℤ) + 1) 0 0
        ((2 : ℤ) • (1 : ℤ) + (3 : ℤ) • (10 : ℤ)) (0, 2) = some s ∧
      getLHS (exOps ℤ) exRoster 2 (exBlank ℤ) (exKernelLHSProd ℤ) (fun _ => exVar ℤ) (exRes ℤ)
        { global_var_index := 0, global_field_index := 0, is_scalar := false,
          scalar_or_vector_index := 0 } (fun f => (f : ℤ) + 1) 0 0 1 (0, 2) = some s1 ∧
      getLHS (exOps ℤ) exRoster 2 (exBlank ℤ) (exKernelLHSProd ℤ) (fun _ => exVar ℤ) (exRes ℤ)
        { global_var_index := 0, global_field_index := 0, is_scalar := false,
          scalar_or_vector_index := 0 } (fun f => (f : ℤ) + 1) 0 0 10 (0, 2) = some s2 ∧
      s.dst - 0 = (2 : ℤ) • (s1.dst - 0) + (3 : ℤ) • (s2.dst - 0) := by
  refine ⟨by decide, by decide, ?_⟩
  exact C18_lhs_linearity (2 : ℤ) (3 : ℤ) (exOps ℤ) exRoster 2
    { global_var_index := 0, global_field_index := 0, is_scalar := false,
      scalar_or_vector_index := 0 }
    { global_var_index := 0, global_field_index := 0, is_scalar := true,
      scalar_or_vector_index := 0 } 0 (exBlank ℤ) (exKernelLHSProd ℤ) (fun _ => exVar ℤ)
    (exRes ℤ) (fun f => (f : ℤ) + 1) 0 1 10 (0, 2) (by decide) (by decide)
    (by
      refine ⟨?_, ?_, ?_, ?_⟩
      · intro cell q x y
        rfl
      · intro cell q x y
        simp only [exOps, smul_eq_mul]
        ring
      · intro cell q x y
        simp only [exOps, smul_eq_mul]
        ring
      · intro cell vf gf x x1 x2 v v1 v2 g g1 g2 _ hv hg
        cases vf <;> cases gf <;> simp only [exOps, if_true, if_false, Bool.false_eq_true]
        · simp
        · rw [hg rfl 0 (by decide)]
          simp
        · rw [hv rfl 0 (by decide)]
          simp
        · rw [hv rfl 0 (by decide), hg rfl 0 (by decide)]
          simp only [smul_eq_mul]
          ring)
    (by
      intro m m1 m2 h1 h2
      have e1 := (h1 1 (by decide)).1
      have e2 := (h1 1 (by decide)).2
      have hv : (m 0).scalarValue = (2 : ℤ) • (m1 0).scalarValue + (3 : ℤ) • (m2 0).scalarValue :=
        h2.1 rfl
      refine ⟨fun _ => ?_, fun hf => ?_⟩
      · simp only [modelResidual.valueResidual, exKernelLHSProd, if_true]
        rw [hv, ← e1, ← e2]
        simp only [smul_eq_mul]
        ring
      · simp [exRoster] at hf)

end ClaimsLinearity

section ClaimsSample
variable {α : Type} [LinearOrderedField α] {dim : Nat}

/-- C19, as stated, fails: in the mechanics model the sample is `rand()/RAND_MAX`, and when
`rand()` returns `RAND_MAX` (here 32767) the sample is 1, outside `[0, 1)`. -/
theorem C19_counterexample :
    (rand_val_mech 32767 32767 : ℚ) = 1 ∧ ¬ ((rand_val_mech 32767 32767 : ℚ) < 1) := by
  have h : (rand_val_mech 32767 32767 : ℚ) = 1 := by
    simp [rand_val_mech]
  exact ⟨h, by rw [h]; exact lt_irrefl 1⟩

/-- C19 (amended): for every value `r` of `rand()` in `[0, RAND_MAX]`, the sample of the
mechanics model, `r/RAND_MAX`, lies in the closed interval `[0, 1]` and is below 1 exactly
when `r < RAND_MAX`; the sample of the two-field application, `(r % 10000)/10000`, lies in
`[0, 1)`.  These are the samples that the two detectors compare with `J`. -/
theorem C19_sample_range (RAND_MAX r : Nat) (h0 : 0 < RAND_MAX) (hr : r ≤ RAND_MAX) :
    ((0 : α) ≤ rand_val_mech RAND_MAX r ∧ (rand_val_mech RAND_MAX r : α) ≤ 1 ∧
      ((rand_val_mech RAND_MAX r : α) < 1 ↔ r < RAND_MAX)) ∧
    ((0 : α) ≤ rand_val_app r ∧ (rand_val_app r : α) < 1) ∧
    (∀ (P : Parameters α) (dist : Point dim α → Point dim α → α) (owned : Nat → Bool)
        (n1 n2 n3 c : Nat → α) (t : α) (rand : Nat → Nat)
        (st : List (nucleus dim α) × Nat) (it : Nat × Point dim α),
      detectPointMech P RAND_MAX dist owned n1 n2 n3 c t rand st it
        = if owned it.1 then
            (proposeAt dist minDistMech nRadiusMech t (10000 * P.timeStep) st.1 it.2
              (rand_val_mech RAND_MAX (rand st.2)) (pointJMech P t n1 n2 n3 c it.1), st.2 + 1)
          else st) ∧
    (∀ (P : Parameters α) (exp : α → α) (dist : Point dim α → Point dim α → α)
        (owned : Nat → Bool) (n c : Nat → α) (t : α) (rand : Nat → Nat)
        (st : List (nucleus dim α) × Nat) (it : Nat × Point dim α),
      detectPointApp P exp dist owned n c t rand st it
        = if owned it.1 then
            (proposeAt dist (minDistApp P) (P.spanX / 50) 0 (t + 30 * P.timeStep) st.1 it.2
              (rand_val_app (rand st.2)) (pointJApp exp n c it.1), st.2 + 1)
          else st) :=
  ⟨⟨rand_val_mech_nonneg RAND_MAX r, rand_val_mech_le_one RAND_MAX r hr,
      rand_val_mech_lt_one_iff RAND_MAX r h0⟩,
    ⟨rand_val_app_nonneg r, rand_val_app_lt_one r⟩,
    fun _ _ _ _ _ _ _ _ _ _ _ => rfl, fun _ _ _ _ _ _ _ _ _ _ => rfl⟩

/-- Witness of C19 (amended): `RAND_MAX = 32767` and `rand() = 12345`. -/
theorem C19_witness :
    (0 : Nat) < 32767 ∧ (12345 : Nat) ≤ 32767 ∧
    ((0 : ℚ) ≤ rand_val_mech 32767 12345 ∧ (rand_val_mech 32767 12345 : ℚ) ≤ 1 ∧
      ((rand_val_mech 32767 12345 : ℚ) < 1 ↔ 12345 < 32767)) ∧
    ((0 : ℚ) ≤ rand_val_app 12345 ∧ (rand_val_app 12345 : ℚ) < 1) :=
  ⟨by decide, by decide,
    (@C19_sample_range ℚ _ 1 32767 12345 (by decide) (by decide)).1,
    (@C19_sample_range ℚ _ 1 32767 12345 (by decide) (by decide)).2.1⟩

/-- C20 (local-list separation invariant): in every state that a run can reach from empty
lists `localNuclei` by any number of calls of `modifySolutionFields`, any two distinct
nuclei of the `localNuclei` of a partition are at least the minimum separation apart; and a
detection pass that starts from a separated list ends with a separated list.  In the
mechanics model and in the two-field application; the distance is symmetric. -/
theorem C20_local_separation (P : Parameters α) (RAND_MAX : Nat) (exp tanh : α → α)
    (dist : Point dim α → Point dim α → α) (hsymm : ∀ p q, dist p q = dist q p)
    (partsM : List (PartitionMech dim α)) (partsA : List (PartitionApp dim α)) (t : α) :
    (ReachableMech P RAND_MAX tanh dist partsM →
      ∀ q ∈ partsM, ∀ (i j : Nat) (hi : i < q.localNuclei.length)
        (hj : j < q.localNuclei.length), i ≠ j →
        minDistMech ≤ dist q.localNuclei[i].center q.localNuclei[j].center) ∧
    (ReachableApp P exp tanh dist partsA →
      ∀ q ∈ partsA, ∀ (i j : Nat) (hi : i < q.localNuclei.length)
        (hj : j < q.localNuclei.length), i ≠ j →
        minDistApp P ≤ dist q.localNuclei[i].center q.localNuclei[j].center) ∧
    (∀ q : PartitionMech dim α,
      q.localNuclei.Pairwise (fun a b => minDistMech ≤ dist a.center b.center) →
      (q.detect P RAND_MAX dist t).Pairwise
        (fun a b => minDistMech ≤ dist a.center b.center)) ∧
    (∀ q : PartitionApp dim α,
      q.localNuclei.Pairwise (fun a b => minDistApp P ≤ dist a.center b.center) →
      (q.detect P exp dist t).Pairwise
        (fun a b => minDistApp P ≤ dist a.center b.center)) := by
  refine ⟨?_, ?_, ?_, ?_⟩
  · intro h q hq i j hi hj hne
    exact pairwise_distinct dist hsymm _ _
      (reachableMech_separated P RAND_MAX tanh dist partsM h _ (List.mem_map_of_mem _ hq))
      i j hi hj hne
  · intro h q hq i j hi hj hne
    exact pairwise_distinct dist hsymm _ _
      (reachableApp_separated P exp tanh dist partsA h _ (List.mem_map_of_mem _ hq))
      i j hi hj hne
  · intro q h
    exact detectMech_pairwise P RAND_MAX dist _ _ _ _ _ _ t _ _ h
  · intro q h
    exact detectApp_pairwise P exp dist _ _ _ _ t _ _ h

/-- Witness of C20: a partition of the mechanics model that owns the points 0 and 20; after
one call from the empty list its `localNuclei` holds a nucleus at each of them. -/
theorem C20_witness :
    (∀ p q, dist1 ℚ p q = dist1 ℚ q p) ∧
    ReachableMech (exParams ℚ) 32767 (fun _ => 0) (dist1 ℚ)
      (modifySolutionFieldsMech (exParams ℚ) 32767 (fun _ => 0) (dist1 ℚ) 1 1
        [{ exPartMech ℚ 0 with support_points := [(0, fun _ => 0), (1, fun _ => 20)] }]) ∧
    (modifySolutionFieldsMech (exParams ℚ) 32767 (fun _ => 0) (dist1 ℚ) 1 1
        [{ exPartMech ℚ 0 with support_points := [(0, fun _ => 0), (1, fun _ => 20)] }]).map
      (fun q => q.localNuclei.map (fun n => n.center 0)) = [[0, 20]] ∧
    (∀ q ∈ modifySolutionFieldsMech (exParams ℚ) 32767 (fun _ => 0) (dist1 ℚ) 1 1
        [{ exPartMech ℚ 0 with support_points := [(0, fun _ => 0), (1, fun _ => 20)] }],
      ∀ (i j : Nat) (hi : i < q.localNuclei.length) (hj : j < q.localNuclei.length), i ≠ j →
        minDistMech ≤ dist1 ℚ q.localNuclei[i].center q.localNuclei[j].center) := by
  have hreach : ReachableMech (exParams ℚ) 32767 (fun _ => 0) (dist1 ℚ)
      (modifySolutionFieldsMech (exParams ℚ) 32767 (fun _ => 0) (dist1 ℚ) 1 1
        [{ exPartMech ℚ 0 with support_points := [(0, fun _ => 0), (1, fun _ => 20)] }]) :=
    ReachableMech.call _ _ 1 1 (ReachableMech.start _ (by simp [exPartMech])) rfl
  refine ⟨dist1_comm ℚ, hreach, ?_,
    (C20_local_separation (exParams ℚ) 32767 (fun _ => 0) (fun _ => 0) (dist1 ℚ)
      (dist1_comm ℚ) _ ([] : List (PartitionApp 1 ℚ)) 1).1 hreach⟩
  have hl := modifySolutionFieldsMech_local (exParams ℚ) 32767 (fun _ => 0) (dist1 ℚ) 1 1
    [{ exPartMech ℚ 0 with support_points := [(0, fun _ => 0), (1, fun _ => 20)] }]
  have hact : activeMech (exParams ℚ) 1 = true := by simp [activeMech, exParams]
  rw [if_pos hact] at hl
  have hm : ∀ L : List (PartitionMech 1 ℚ),
      L.map (fun q => q.localNuclei.map (fun n => n.center 0))
        = (L.map (fun q => q.localNuclei)).map (fun l => l.map (fun n => n.center 0)) := by
    intro L
    rw [List.map_map]
    rfl
  rw [hm, hl]
  simp [PartitionMech.detect, detectMech, detectPointMech, exPartMech, proposeAt, isClose,
    pointJMech, JMech, exParams, dxMech, minDistMech, nRadiusMech, dist1]
  norm_num

end ClaimsSample

section ClaimsLateSeed
variable {α : Type} [LinearOrderedField α] {dim : Nat}

/-- C21 (seeding starts one step late in the mechanics model).  In a call of
`modifySolutionFields` at time `t`: the detection loop of every partition appends to
`localNuclei` only nuclei with `seededTime = t`, `seedingTime = 10000*timeStep` and
`radius = nRadius`; every nucleus of the canonical list `nuclei` is a copy of a nucleus of
some local list after detection; the field `n1` of every partition after the call is what
the seeding loops give for the nuclei of `nuclei` whose `seededTime` is not `t`, so nothing
is written for a nucleus accepted in this call; and whenever the seeding of such a nucleus
changes the field, in a call at time `t2`, then `t < t2 < t + seedingTime`. -/
theorem C21_seeding_one_step_late (P : Parameters α) (RAND_MAX : Nat) (tanh : α → α)
    (dist : Point dim α → Point dim α → α) (t : α) (inc : Nat)
    (parts : List (PartitionMech dim α)) :
    (∀ q ∈ parts, ∃ added, q.detect P RAND_MAX dist t = q.localNuclei ++ added ∧
      ∀ m ∈ added, m.seededTime = t ∧ m.seedingTime = 10000 * P.timeStep ∧
        m.radius = nRadiusMech) ∧
    (∀ r ∈ modifySolutionFieldsMech P RAND_MAX tanh dist t inc parts, ∀ m ∈ r.nuclei,
      ∃ q ∈ parts, ∃ b ∈ q.detect P RAND_MAX dist t, attrs b = attrs m) ∧
    List.Forall₂
      (fun q r => r.n1 = seedNucleiMech tanh dist q.support_points q.owned t
          (r.nuclei.filter (fun m => decide (m.seededTime ≠ t))) q.n1)
      parts (modifySolutionFieldsMech P RAND_MAX tanh dist t inc parts) ∧
    (∀ (m : nucleus dim α) (support_points : List (Nat × Point dim α)) (owned : Nat → Bool)
      (n1 : Nat → α), m.seededTime = t →
      support_points.foldl (seedPointMech tanh dist owned t m) n1 = n1) ∧
    (∀ (m : nucleus dim α) (owned : Nat → Bool) (t2 : α) (n1 : Nat → α)
      (it : Nat × Point dim α), m.seededTime = t →
      seedPointMech tanh dist owned t2 m n1 it ≠ n1 → t < t2 ∧ t2 < t + m.seedingTime) := by
  refine ⟨?_, ?_, modifySolutionFieldsMech_seed P RAND_MAX tanh dist t inc parts, ?_, ?_⟩
  · intro q _
    exact detectMech_added P RAND_MAX dist _ _ _ _ _ _ t _ _
  · intro r hr m hm
    exact modifySolutionFieldsMech_nuclei_mem P RAND_MAX tanh dist t inc parts r hr m hm
  · intro m support_points owned n1 hm
    exact seedPass_same_time tanh dist support_points owned t m (le_of_eq hm.symm) n1
  · intro m owned t2 n1 it hm hw
    have h := seedPointMech_written tanh dist owned t2 m n1 it hw
    rw [hm] at h
    exact h

/-- Witness of C21: one partition that owns the point 7, with `J = 1` there.  The call at
time 1 accepts a nucleus at 7 with `seededTime = 1` and leaves `n1` at 0; a second call, at
time 2, writes `n1` at the point. -/
theorem C21_witness :
    (modifySolutionFieldsMech { exParams ℚ with c_matrix := 1 / 100 } 32767 (fun _ => 0)
        (dist1 ℚ) 1 1 [{ exPartMech ℚ 7 with rand := fun _ => 32767 }]).map
        (fun r => (r.nuclei.map (fun m => m.seededTime), r.n1 0)) = [([1], 0)] ∧
    (modifySolutionFieldsMech { exParams ℚ with c_matrix := 1 / 100 } 32767 (fun _ => 0)
        (dist1 ℚ) 2 2
        (modifySolutionFieldsMech { exParams ℚ with c_matrix := 1 / 100 } 32767 (fun _ => 0)
          (dist1 ℚ) 1 1 [{ exPartMech ℚ 7 with rand := fun _ => 32767 }])).map
        (fun r => (r.nuclei.map (fun m => m.seededTime), r.n1 0)) = [([1], 1 / 2)] ∧
    List.Forall₂
      (fun q r => r.n1 = seedNucleiMech (fun _ => 0) (dist1 ℚ) q.support_points q.owned 1
          (r.nuclei.filter (fun m => decide (m.seededTime ≠ 1))) q.n1)
      [{ exPartMech ℚ 7 with rand := fun _ => 32767 }]
      (modifySolutionFieldsMech { exParams ℚ with c_matrix := 1 / 100 } 32767 (fun _ => 0)
        (dist1 ℚ) 1 1 [{ exPartMech ℚ 7 with rand := fun _ => 32767 }]) := by
  refine ⟨?_, ?_, (C21_seeding_one_step_late { exParams ℚ with c_matrix := 1 / 100 } 32767
    (fun _ => 0) (dist1 ℚ) 1 1 [{ exPartMech ℚ 7 with rand := fun _ => 32767 }]).2.2.1⟩
  · simp [modifySolutionFieldsMech, activeMech, exParams, exPartMech,
      PartitionMech.detectState, detectMech, detectPointMech, proposeAt, isClose, pointJMech,
      JMech, dxMech, reconcile_single, renumberFrom, seedNucleiMech, seedPointMech]
  · simp [modifySolutionFieldsMech, activeMech, exParams, exPartMech,
      PartitionMech.detectState, detectMech, detectPointMech, proposeAt, isClose, pointJMech,
      JMech, dxMech, reconcile_single, renumberFrom, seedNucleiMech, seedPointMech]
    norm_num [dist1, minDistMech, nRadiusMech, renumberFrom]

end ClaimsLateSeed

section ClaimsWindow
variable {α : Type} [LinearOrderedField α] {dim : Nat}

/-- C22 (outside the nucleation-active window nothing is seeded).  The window test of the
mechanics model fails exactly when `inc > timeIncrements`; that of the two-field
application fails exactly when `inc` exceeds the value of `timeIncrements-skipOutputSteps`
in the comparison, which is the difference itself when it is not negative.  When the test
fails, a call of `modifySolutionFields` leaves every partition as it was, except that
`nuclei` is empty: `localNuclei` and every solution field are unchanged, whatever
`localNuclei` holds. -/
theorem C22_outside_window (P : Parameters α) (RAND_MAX : Nat) (exp tanh : α → α)
    (dist : Point dim α → Point dim α → α) (t : α) (inc : Nat)
    (partsM : List (PartitionMech dim α)) (partsA : List (PartitionApp dim α)) :
    (activeMech P inc = false ↔ inc > P.timeIncrements) ∧
    (activeApp P inc = false ↔
      (inc : Int) > ((P.timeIncrements : Int) - (P.skipOutputSteps : Int)) % 4294967296) ∧
    (P.skipOutputSteps ≤ P.timeIncrements →
      P.timeIncrements - P.skipOutputSteps < 4294967296 →
      (activeApp P inc = false ↔ inc > P.timeIncrements - P.skipOutputSteps)) ∧
    (activeMech P inc = false →
      modifySolutionFieldsMech P RAND_MAX tanh dist t inc partsM
        = partsM.map (fun q => { q with nuclei := [] })) ∧
    (activeApp P inc = false →
      modifySolutionFieldsApp P exp tanh dist t inc partsA
        = partsA.map (fun q => { q with nuclei := [] })) :=
  ⟨activeMech_eq_false_iff P inc, by simp [activeApp], activeApp_eq_false_iff P inc,
    modifySolutionFieldsMech_inactive P RAND_MAX tanh dist t inc partsM,
    modifySolutionFieldsApp_inactive P exp tanh dist t inc partsA⟩

/-- Witness of C22: ten increments, step index 11, time 3, and a local list that holds a
nucleus at the mesh point with time window `1 < t < 6`: the call returns the partition as
it was, with `nuclei` empty and the order parameter still 0 at the point. -/
theorem C22_witness :
    (11 > (exParams ℚ).timeIncrements ∧
      11 > (exParams ℚ).timeIncrements - (exParams ℚ).skipOutputSteps) ∧
    ((nuc1 ℚ 7 1).seededTime < 3 ∧ (3 : ℚ) < (nuc1 ℚ 7 1).seededTime + (nuc1 ℚ 7 1).seedingTime) ∧
    modifySolutionFieldsMech (exParams ℚ) 32767 (fun _ => 0) (dist1 ℚ) 3 11
        [{ exPartMech ℚ 7 with localNuclei := [nuc1 ℚ 7 1] }]
      = [{ exPartMech ℚ 7 with localNuclei := [nuc1 ℚ 7 1] }] ∧
    modifySolutionFieldsApp (exParams ℚ) (fun _ => 0) (fun _ => 0) (dist1 ℚ) 3 11
        [{ exPartApp ℚ 7 with localNuclei := [nuc1 ℚ 7 1] }]
      = [{ exPartApp ℚ 7 with localNuclei := [nuc1 ℚ 7 1] }] :=
  ⟨⟨by decide, by decide⟩, by norm_num [nuc1],
    (C22_outside_window (exParams ℚ) 32767 (fun _ => 0) (fun _ => 0) (dist1 ℚ) 3 11
      [{ exPartMech ℚ 7 with localNuclei := [nuc1 ℚ 7 1] }]
      [{ exPartApp ℚ 7 with localNuclei := [nuc1 ℚ 7 1] }]).2.2.2.1 (by decide),
    (C22_outside_window (exParams ℚ) 32767 (fun _ => 0) (fun _ => 0) (dist1 ℚ) 3 11
      [{ exPartMech ℚ 7 with localNuclei := [nuc1 ℚ 7 1] }]
      [{ exPartApp ℚ 7 with localNuclei := [nuc1 ℚ 7 1] }]).2.2.2.2 (by decide)⟩

end ClaimsWindow

section ClaimsAddressing
variable {E V : Type}

/-- C23 (how `getRHS` and `getLHS` address a field).  For a variable `v` that takes part in
the LHS, `varInfoList` holds exactly one entry `e` with `global_var_index = v`.  The slot
agrees: `field_index[v]` of `getRHS` is `e.global_field_index`, the sum of the widths of
the variables before `v`.  The component does not agree in general: the object of `v` in
`getRHS` is constructed for component `v`, the object of `e` in `getLHS` for component
`e.global_field_index`; the two are equal exactly when the widths of the variables before
`v` sum to `v`. -/
theorem C23_addressing (R : Roster) (dim : Nat) (blank : FEEval E V) (d : variable_info)
    (v : Nat) (hv : v < R.num_var) (hn : R.needLHS v = true) :
    (∃ e ∈ varInfoList R dim, e.global_var_index = v) ∧
    ∀ e ∈ varInfoList R dim, e.global_var_index = v →
      e.global_field_index = R.offset dim v ∧
      (rhsSetup R dim blank).field_index.getD v 0 = e.global_field_index ∧
      ((rhsSetup R dim blank).fe.ctx ((rhsSetup R dim blank).is_scalar_var.getD v false)
        ((rhsSetup R dim blank).scalar_or_vector_index.getD v 0)).component = v ∧
      ((lhsStores R dim d blank).ctx e.is_scalar e.scalar_or_vector_index).component
        = e.global_field_index ∧
      (((lhsStores R dim d blank).ctx e.is_scalar e.scalar_or_vector_index).component
          = ((rhsSetup R dim blank).fe.ctx ((rhsSetup R dim blank).is_scalar_var.getD v false)
            ((rhsSetup R dim blank).scalar_or_vector_index.getD v 0)).component
        ↔ R.offset dim v = v) := by
  obtain ⟨h1, h2, h3, h4⟩ := rhsSetup_arrays R dim blank v hv
  refine ⟨⟨R.entry dim v, (mem_varInfoList R dim _).2 ⟨v, hv, hn, rfl⟩, rfl⟩, ?_⟩
  intro e he hev
  have hc := lhsStores_ctx R dim d blank e he
  obtain ⟨i, _, _, rfl⟩ := (mem_varInfoList R dim e).1 he
  have hiv : i = v := hev
  subst hiv
  rw [h1, h2, h3, h4, hc]
  exact ⟨rfl, rfl, rfl, rfl, Iff.rfl⟩

/-- Witness of C23: the roster `exRoster` in two dimensions (a scalar, a vector, a scalar
and a vector variable) and its variable 2, which follows the vector variable 1.  Both
functions use slot 3 for it; `getRHS` constructs its object for component 2, `getLHS` for
component 3, and on cell 0 the two functions make their calls on these objects. -/
theorem C23_witness :
    (2 < exRoster.num_var ∧ exRoster.needLHS 2 = true) ∧
    (rhsSetup exRoster 2 (exBlank ℤ)).field_index.getD 2 0 = 3 ∧
    ((rhsSetup exRoster 2 (exBlank ℤ)).fe.ctx
      ((rhsSetup exRoster 2 (exBlank ℤ)).is_scalar_var.getD 2 false)
      ((rhsSetup exRoster 2 (exBlank ℤ)).scalar_or_vector_index.getD 2 0)).component = 2 ∧
    (∀ e ∈ varInfoList exRoster 2, e.global_var_index = 2 →
      e.global_field_index = 3 ∧
      ((lhsStores exRoster 2
          { global_var_index := 0, global_field_index := 0, is_scalar := false,
            scalar_or_vector_index := 0 } (exBlank ℤ)).ctx
        e.is_scalar e.scalar_or_vector_index).component = 3) ∧
    (getRHS (exOps ℤ) exRoster 2 (exBlank ℤ) (exKernelRHS ℤ) (fun _ => exVar ℤ)
        (fun _ => exRes ℤ) (fun _ => 0) (fun f => (f : ℤ) + 1) (0, 1)).map
      (fun s => s.fe.log.filter
        (fun c => match c with | FECall.read_dof_values_plain _ _ _ _ => true | _ => false))
      = some [FECall.read_dof_values_plain true 0 0 (VecRef.src 0),
          FECall.read_dof_values_plain false 1 0 (VecRef.src 1),
          FECall.read_dof_values_plain true 2 0 (VecRef.src 3),
          FECall.read_dof_values_plain false 3 0 (VecRef.src 4)] ∧
    (getLHS (exOps ℤ) exRoster 2 (exBlank ℤ) (exKernelLHS ℤ) (fun _ => exVar ℤ) (exRes ℤ)
        { global_var_index := 0, global_field_index := 0, is_scalar := false,
          scalar_or_vector_index := 0 } (fun f => (f : ℤ) + 1) 0 0 5 (0, 1)).map
      (fun s => s.fe.log.filter
        (fun c => match c with | FECall.read_dof_values_plain _ _ _ _ => true | _ => false))
      = some [FECall.read_dof_values_plain true 0 0 VecRef.trial,
          FECall.read_dof_values_plain true 3 0 (VecRef.solutionSet 3),
          FECall.read_dof_values_plain false 4 0 (VecRef.solutionSet 4)] := by
  have h := C23_addressing exRoster 2 (exBlank ℤ)
    { global_var_index := 0, global_field_index := 0, is_scalar := false,
      scalar_or_vector_index := 0 } 2 (by decide) (by decide)
  refine ⟨⟨by decide, by decide⟩, by decide, by decide, ?_, ?_, ?_⟩
  · intro e he hev
    obtain ⟨h1, _, _, h4, _⟩ := h.2 e he hev
    have ho : exRoster.offset 2 2 = 3 := by decide
    rw [h4, h1, ho]
    exact ⟨rfl, rfl⟩
  · decide
  · decide

end ClaimsAddressing

section ClaimsSolve
variable {α : Type} [LinearOrderedField α]

/-- C24 (time-stepping loop of `MatrixFreePDE::solve`).  Provided that the remainder
`currentIncrement%skipOutputSteps` has a value whenever it is computed, `solve` returns.
For a time-dependent problem `solveIncrement` is called `k` more times, where `k` is at
most `totalIncrements` and at least 1 when `totalIncrements >= 1`: `k` is the least
`j >= 1` with `t0 + j*dtValue >= finalTime` if such a `j <= totalIncrements` exists, and
`k = totalIncrements` otherwise; on return `currentTime = t0 + k*dtValue`.  For a
time-independent problem `totalIncrements` is 1 on return, `solveIncrement` is called once
more and `currentTime` is unchanged. -/
theorem C24_time_loop (c : SolveConfig α) (s : SolveState α) (fuel : Nat)
    (hdef : c.writeOutput = true → c.skipOutputSteps ≠ 0)
    (hfuel : s.totalIncrements < fuel) :
    ∃ s1, solve c fuel s = some s1 ∧
      (c.isTimeDependentBVP = true →
        ∃ k : Nat, k ≤ s.totalIncrements ∧ (1 ≤ s.totalIncrements → 1 ≤ k) ∧
          s1.log.count SolveCall.solveIncrement
            = s.log.count SolveCall.solveIncrement + k ∧
          s1.currentTime = s.currentTime + (k : α) * c.dtValue ∧
          s1.totalIncrements = s.totalIncrements ∧
          ((∃ j : Nat, 1 ≤ j ∧ j ≤ s.totalIncrements ∧
              c.finalTime ≤ s.currentTime + (j : α) * c.dtValue) →
            1 ≤ k ∧ c.finalTime ≤ s.currentTime + (k : α) * c.dtValue ∧
            ∀ j : Nat, 1 ≤ j → c.finalTime ≤ s.currentTime + (j : α) * c.dtValue → k ≤ j) ∧
          ((¬ ∃ j : Nat, 1 ≤ j ∧ j ≤ s.totalIncrements ∧
              c.finalTime ≤ s.currentTime + (j : α) * c.dtValue) →
            k = s.totalIncrements)) ∧
      (c.isTimeDependentBVP = false →
        s1.totalIncrements = 1 ∧
        s1.log.count SolveCall.solveIncrement = s.log.count SolveCall.solveIncrement + 1 ∧
        s1.currentTime = s.currentTime) := by
  unfold solve
  by_cases ht : c.isTimeDependentBVP = true
  · rw [if_pos ht]
    have hs0 : (if c.writeOutput = true then outputBlock c s else s).currentTime
          = s.currentTime ∧
        (if c.writeOutput = true then outputBlock c s else s).totalIncrements
          = s.totalIncrements ∧
        (if c.writeOutput = true then outputBlock c s else s).log.count
          SolveCall.solveIncrement = s.log.count SolveCall.solveIncrement := by
      split
      · exact ⟨(outputBlock_frame c s).1, (outputBlock_frame c s).2.2.1,
          (outputBlock_frame c s).2.2.2⟩
      · exact ⟨rfl, rfl, rfl⟩
    obtain ⟨a1, a2, a3⟩ := hs0
    obtain ⟨s1, m, e0, e1, e2, e3, e4, e5, e6⟩ := timeLoop_spec c hdef fuel
      { (if c.writeOutput = true then outputBlock c s else s) with currentIncrement := 1 }
      (by show 1 ≤ _ + 1; omega)
      (by show (if c.writeOutput = true then outputBlock c s else s).totalIncrements + 1 - 1
            < fuel
          rw [a2]; omega)
    have e1b : 1 + m ≤ (if c.writeOutput = true then outputBlock c s else s).totalIncrements
        + 1 := e1
    have e2b : s1.log.count SolveCall.solveIncrement
        = (if c.writeOutput = true then outputBlock c s else s).log.count
          SolveCall.solveIncrement + m := e2
    have e3b : s1.currentTime
        = (if c.writeOutput = true then outputBlock c s else s).currentTime
          + (m : α) * c.dtValue := e3
    have e4b : s1.totalIncrements
        = (if c.writeOutput = true then outputBlock c s else s).totalIncrements := e4
    have e5b : ∀ j : Nat, 1 ≤ j → j < m →
        (if c.writeOutput = true then outputBlock c s else s).currentTime
          + (j : α) * c.dtValue < c.finalTime := e5
    have e6b : (1 ≤ m ∧ c.finalTime
          ≤ (if c.writeOutput = true then outputBlock c s else s).currentTime
            + (m : α) * c.dtValue) ∨
        1 + m = (if c.writeOutput = true then outputBlock c s else s).totalIncrements + 1 :=
      e6
    rw [a1] at e3b e5b e6b
    rw [a2] at e1b e4b e6b
    rw [a3] at e2b
    have hk1 : 1 ≤ s.totalIncrements → 1 ≤ m := by
      intro h1
      rcases e6b with ⟨h, _⟩ | h
      · exact h
      · omega
    refine ⟨s1, e0, fun _ => ⟨m, by omega, hk1, e2b, e3b, e4b, ?_, ?_⟩, fun hf => ?_⟩
    · rintro ⟨j, hj1, hj2, hj3⟩
      have hfin : c.finalTime ≤ s.currentTime + (m : α) * c.dtValue := by
        rcases e6b with ⟨_, h⟩ | h
        · exact h
        · by_contra hcon
          have hjm : j ≠ m := fun hjm => hcon (hjm ▸ hj3)
          exact absurd hj3 (not_le_of_lt (e5b j hj1 (by omega)))
      refine ⟨hk1 (by omega), hfin, ?_⟩
      intro i hi1 hi2
      by_contra hcon
      exact absurd hi2 (not_le_of_lt (e5b i hi1 (by omega)))
    · intro hno
      rcases e6b with ⟨h1, h⟩ | h
      · exact absurd ⟨m, h1, by omega, h⟩ hno
      · omega
    · rw [ht] at hf
      cases hf
  · rw [if_neg ht]
    obtain ⟨s1, h0, h1, _, h3, h4⟩ := outputStep_frame c
      ((({ s with totalIncrements := 1 } : SolveState α).record
        (SolveCall.adaptiveRefine 0)).record SolveCall.solveIncrement) hdef
    refine ⟨s1, h0, fun h => absurd h ht, fun _ => ⟨h3, ?_, h1⟩⟩
    rw [h4, record_count, record_count]
    simp

/-- Witness of C24: unit steps towards the final time 5/2 with five increments allowed.
From time 0 three increments are solved and the time on return is 3; from time 3, which is
past the final time, one increment is solved and the time on return is 4; for the same data
as a time-independent problem one increment is solved and the time stays 0. -/
theorem C24_witness :
    ((exSolveConfig ℚ).writeOutput = true → (exSolveConfig ℚ).skipOutputSteps ≠ 0) ∧
    (exSolveState ℚ 0).totalIncrements < 6 ∧
    (solve (exSolveConfig ℚ) 6 (exSolveState ℚ 0)).map
        (fun s => (s.log.count SolveCall.solveIncrement, s.currentTime, s.log))
      = some (3, 3, [SolveCall.outputResults,
          SolveCall.adaptiveRefine 1, SolveCall.solveIncrement, SolveCall.distribute 0,
          SolveCall.update_ghost_values 0,
          SolveCall.adaptiveRefine 2, SolveCall.solveIncrement, SolveCall.distribute 0,
          SolveCall.update_ghost_values 0, SolveCall.outputResults,
          SolveCall.adaptiveRefine 3, SolveCall.solveIncrement, SolveCall.distribute 0,
          SolveCall.update_ghost_values 0]) ∧
    (solve (exSolveConfig ℚ) 6 (exSolveState ℚ 3)).map
        (fun s => (s.log.count SolveCall.solveIncrement, s.currentTime)) = some (1, 4) ∧
    (solve { exSolveConfig ℚ with isTimeDependentBVP := false } 6 (exSolveState ℚ 0)).map
        (fun s => (s.log.count SolveCall.solveIncrement, s.currentTime, s.totalIncrements,
          s.log))
      = some (1, 0, 1, [SolveCall.adaptiveRefine 0, SolveCall.solveIncrement,
          SolveCall.outputResults]) ∧
    ∃ s1, solve (exSolveConfig ℚ) 6 (exSolveState ℚ 0) = some s1 ∧
      ∃ k : Nat, k ≤ 5 ∧ 1 ≤ k ∧ s1.log.count SolveCall.solveIncrement = k ∧
        s1.currentTime = (k : ℚ) := by
  refine ⟨by decide, by decide, ?_, ?_, ?_, ?_⟩
  · norm_num [solve, timeLoop, timeStepBody, ghostFields, outputStep, outputBlock,
      SolveState.record, exSolveConfig, exSolveState, List.range_succ]
    decide
  · norm_num [solve, timeLoop, timeStepBody, ghostFields, outputStep, outputBlock,
      SolveState.record, exSolveConfig, exSolveState, List.range_succ]
    decide
  · norm_num [solve, timeLoop, timeStepBody, ghostFields, outputStep, outputBlock,
      SolveState.record, exSolveConfig, exSolveState, List.range_succ]
    decide
  · obtain ⟨s1, h0, h1, _⟩ := C24_time_loop (exSolveConfig ℚ) (exSolveState ℚ 0) 6
      (by decide) (by decide)
    obtain ⟨k, k1, k2, k3, k4, _⟩ := h1 rfl
    refine ⟨s1, h0, k, k1, k2 (by decide), ?_, ?_⟩
    · simpa [exSolveState] using k3
    · simpa [exSolveState, exSolveConfig] using k4

end ClaimsSolve

end PhaseField
